import Mathlib

/-!
videoPlayer : the control logic of `video_player.c`

A shallow embedding of the slider model (`moveSlider`), the pointer dispatcher
(`my_mouse_callback`) and the step editor (`type_step`, `resetAllEdits`) of
`src/video_player.c`, followed by theorems about them.

Conventions of the embedding

* The C globals live in one record, `Player`; every C function that reads or
  writes them becomes a function on `Player`.
* C `int` is `Int` (no wrap-around is modelled; signed overflow is undefined in
  C).  `/` and `%` on `int` are `Int.tdiv` and `Int.tmod` (truncation).
* C `float` is IEEE 754 binary32 with round-to-nearest-even, every operation
  rounded to `float` (an x86-64 build, where `float` expressions are evaluated
  in `float`): a value is a pair `m * 2 ^ e` (`F32`) and each operation rounds
  the exact result to 24 significant bits.  The exponent range is not modelled
  (no overflow to infinity, no subnormal numbers), and a division by zero
  yields `0` instead of an infinity; the theorems that depend on a quotient
  assume the divisor is not zero (`main` exits before the event loop when the
  frame count is below 1, so `sldr_maxval ≥ 1` whenever `moveSlider` runs).
* `atoi` is `(int) strtol( s, NULL, 10 )` of glibc on a platform with a 64-bit
  `long`: the value saturates at the bounds of `long` and is cut to its low 32
  bits.
* C strings are `List Char`; the fixed capacity of the buffers is not modelled.
* A text field of the panel is the list of strings painted on it since its last
  `resetField`; a button is the `btn_type` last drawn on it.
* Operations that end the process (integer division by zero, reading an
  uninitialised local, handing a NULL image to `cvCopy`) return `Except.error`.
-/

namespace VideoPlayer

/-! ## Constants (`#define`s of the source and event codes of highgui) -/

/-- `#define sldr_btn_width 15` -/
def sldr_btn_width : Int := 15

/-- `#define sldr_height 10` -/
def sldr_height : Int := 10

/-- `#define ctrl_pnl_height 200` -/
def ctrl_pnl_height : Int := 200

/-- `#define p_width 840` -/
def p_width : Int := 840

/-- `#define scrn_height 480` -/
def scrn_height : Int := 480

/-- `#define p_height ( scrn_height + sldr_height + ctrl_pnl_height )` -/
def p_height : Int := scrn_height + sldr_height + ctrl_pnl_height

/-- `#define MOUSE_CALLBACK 0` -/
def MOUSE_CALLBACK : Int := 0

/-- `#define OTHER_CALLS 1` -/
def OTHER_CALLS : Int := 1

/-- `#define EDIT_CALLS 2` -/
def EDIT_CALLS : Int := 2

/-- `#define PLAY_BTN 0` -/
def PLAY_BTN : Int := 0

/-- `#define PAUSE_BTN 1` -/
def PAUSE_BTN : Int := 1

/-- `#define STOP_BTN 2` -/
def STOP_BTN : Int := 2

/-- `#define STEPUP_BTN 3` -/
def STEPUP_BTN : Int := 3

/-- `#define STEPDOWN_BTN 4` -/
def STEPDOWN_BTN : Int := 4

/-- Event code of highgui for a pointer move. -/
def CV_EVENT_MOUSEMOVE : Int := 0

/-- Event code of highgui for a left-button press. -/
def CV_EVENT_LBUTTONDOWN : Int := 1

/-- Event code of highgui for a left-button release. -/
def CV_EVENT_LBUTTONUP : Int := 4

/-! ## Data model -/

/-- `typedef struct{ int x1; int y1; int x2; int y2; } Field_Area;` -/
structure Field_Area where
  x1 : Int
  y1 : Int
  x2 : Int
  y2 : Int
  deriving DecidableEq

/-- Ways in which the C program stops abnormally. -/
inductive Fault where
  | division_by_zero
  | uninitialised_read
  | null_image
  deriving DecidableEq

/-- Modelled from the spec: the external `VideoSource` (the OpenCV capture behind
`vid`), known to the repository only through `cvQueryFrame`,
`cvGetCaptureProperty` and `cvSetCaptureProperty`.  `pos` is
`CV_CAP_PROP_POS_FRAMES`, the 0-based index of the frame decoded next;
`frame_count` is `CV_CAP_PROP_FRAME_COUNT`.  `seeks` and `reads` only record
the calls issued: every position requested through `cvSetCaptureProperty`
(newest first) and the number of `cvQueryFrame` calls. -/
structure VideoSource where
  pos : Int
  frame_count : Int
  seeks : List Int
  reads : Nat
  deriving DecidableEq

/-- The global variables of `video_player.c` that the control logic uses,
together with what the widgets of the panel currently show. -/
structure Player where
  /-- `int sldr_start` -/
  sldr_start : Int
  /-- `int sldr_maxval` -/
  sldr_maxval : Int
  /-- `int step_val = 1` -/
  step_val : Int
  /-- `char line[ 20 ]` -/
  line : List Char
  /-- `char edit_text[ 20 ]` -/
  edit_text : List Char
  /-- `char status_line[ 15 ]` -/
  status_line : String
  /-- `int blink_count = 0` -/
  blink_count : Int
  /-- `int blink_max = 5` -/
  blink_max : Int
  /-- `char blink_char` -/
  blink_char : Char
  /-- `bool sldr_moving = false` -/
  sldr_moving : Bool
  /-- `bool playing = false` -/
  playing : Bool
  /-- `bool processing = false` -/
  processing : Bool
  /-- `bool typing_step = false` -/
  typing_step : Bool
  /-- `bool blinking = false` -/
  blinking : Bool
  /-- `CvCapture *vid` -/
  vid : VideoSource
  /-- strings painted on `cur_frame_no` since its last `resetField` -/
  cur_frame_no : List (List Char)
  /-- strings painted on `status_edit` since its last `resetField` -/
  status_edit : List String
  /-- strings painted on `step_edit` since its last `resetField` -/
  step_edit : List (List Char)
  /-- `btn_type` of the glyph last drawn on `play_pause_btn` -/
  play_pause_btn : Int
  /-- pixel offset of `sldr_val` (the knob) inside `slider` -/
  knob : Int
  deriving DecidableEq

/-! ## libc and OpenCV primitives -/

/-- `isspace` of the C locale. -/
def isspace (c : Char) : Bool :=
  c.toNat = 32 || (9 ≤ c.toNat && c.toNat ≤ 13)

/-- `isdigit`: the test `c>=48 && c<=57`. -/
def isdigit (c : Char) : Bool :=
  48 ≤ c.toNat && c.toNat ≤ 57

/-- The digit-accumulating loop of `strtol` in base 10: stops at the first
non-digit.  The value is accumulated exactly; `strtol` saturates it. -/
def strtol_digits : Int → List Char → Int
  | acc, [] => acc
  | acc, c :: cs =>
    if isdigit c then strtol_digits (acc * 10 + ((c.toNat : Int) - 48)) cs else acc

/-- The number the text spells for `strtol`: skip white space, read an
optional sign, then the longest run of decimal digits; `0` when there is none. -/
def strtol_value (s : List Char) : Int :=
  match s.dropWhile isspace with
  | [] => 0
  | c :: cs =>
    if c.toNat = 45 then - strtol_digits 0 cs
    else if c.toNat = 43 then strtol_digits 0 cs
    else strtol_digits 0 (c :: cs)

/-- `LONG_MAX` of a 64-bit `long`. -/
def LONG_MAX : Int := 2 ^ 63 - 1

/-- `LONG_MIN` of a 64-bit `long`. -/
def LONG_MIN : Int := - 2 ^ 63

/-- The C library `strtol( s, NULL, 10 )`: a value above `LONG_MAX` is
returned as `LONG_MAX`, a value below `LONG_MIN` as `LONG_MIN`. -/
def strtol (s : List Char) : Int :=
  if strtol_value s > LONG_MAX then LONG_MAX
  else if strtol_value s < LONG_MIN then LONG_MIN
  else strtol_value s

/-- The conversion `( int )` of a `long`: the low 32 bits, read in two's
complement. -/
def int_of_long (v : Int) : Int := (v + 2 ^ 31) % 2 ^ 32 - 2 ^ 31

/-- The C library `atoi`, which is `( int )strtol( s, NULL, 10 )`. -/
def atoi (s : List Char) : Int := int_of_long (strtol s)

/-- The character of a decimal digit `d < 10`. -/
def digit_char (d : Nat) : Char := Char.ofNat (48 + d)

/-- The text `sprintf( buf, "%d", n )` writes. -/
def sprintf_d (n : Int) : List Char :=
  let ds : List Char :=
    if n.natAbs = 0 then [digit_char 0]
    else ((Nat.digits 10 n.natAbs).reverse).map digit_char
  if n < 0 then Char.ofNat 45 :: ds else ds

/-! ### `float` -/

/-- A `float`: the number `m * 2 ^ e`. -/
structure F32 where
  /-- the significand, with its sign -/
  m : Int
  /-- the exponent of 2 -/
  e : Int
  deriving DecidableEq

/-- The number a `float` stands for. -/
def F32.toRat (x : F32) : ℚ := (x.m : ℚ) * (2 : ℚ) ^ x.e

/-- The integer nearest to `num / den` (`den > 0`), the even one on a tie. -/
def round_half_even (num den : Nat) : Nat :=
  let q := num / den
  let r := num % den
  if den < 2 * r ∨ (2 * r = den ∧ q % 2 = 1) then q + 1 else q

/-- How often `n` can be halved before it drops below 2, in at most `fuel`
halvings. -/
def log2_steps : Nat → Nat → Nat
  | 0, _ => 0
  | fuel + 1, n => if n < 2 then 0 else log2_steps fuel (n / 2) + 1

/-- The position of the leading bit of `n`: `2 ^ ilog2 n ≤ n < 2 ^ (ilog2 n + 1)`
for `n > 0`. -/
def ilog2 (n : Nat) : Nat := log2_steps n n

/-- Rounding of the exact quotient `n / d` (`d > 0`) to `float`: the quotient
is scaled by the power of two that brings it into `[2 ^ 23, 2 ^ 24)` and
rounded there to the nearest integer, ties to even, which leaves the 24
significant bits of binary32. -/
def f32_round (n : Int) (d : Nat) : F32 :=
  if n = 0 then { m := 0, e := 0 }
  else
    let a := n.natAbs
    let e0 : Int := (ilog2 a : Int) - (ilog2 d : Int)
    let E : Int := if d * 2 ^ e0.toNat ≤ a * 2 ^ (- e0).toNat then e0 else e0 - 1
    let s : Int := 23 - E
    let q := round_half_even (a * 2 ^ s.toNat) (d * 2 ^ (- s).toNat)
    { m := if n < 0 then - (q : Int) else (q : Int), e := - s }

/-- The conversion `( float )k` of an `int`. -/
def f32_of_int (k : Int) : F32 := f32_round k 1

/-- The quotient `x / y` of two `float`s, rounded to `float`. -/
def f32_div (x y : F32) : F32 :=
  if y.m = 0 then { m := 0, e := 0 }
  else
    f32_round (x.m * y.m.sign * 2 ^ (x.e - y.e).toNat) (y.m.natAbs * 2 ^ (y.e - x.e).toNat)

/-- The product `x * y` of two `float`s, rounded to `float`. -/
def f32_mul (x y : F32) : F32 :=
  f32_round (x.m * y.m * 2 ^ (x.e + y.e).toNat) (2 ^ (- (x.e + y.e)).toNat)

/-- The sum `x + y` of two `float`s, rounded to `float`. -/
def f32_add (x y : F32) : F32 :=
  let e := min x.e y.e
  f32_round ((x.m * 2 ^ (x.e - e).toNat + y.m * 2 ^ (y.e - e).toNat) * 2 ^ e.toNat)
    (2 ^ (- e).toNat)

/-- `cvCeil`: the smallest integer not below the value.  (`cvCeil` takes a
`double`; a `float` converts to `double` without rounding.) -/
def cvCeil (x : F32) : Int :=
  if 0 ≤ x.e then x.m * 2 ^ x.e.toNat else - ((- x.m) / 2 ^ (- x.e).toNat)

/-- `cvGetCaptureProperty( vid, CV_CAP_PROP_POS_FRAMES )` -/
def cvGetCaptureProperty_POS_FRAMES (v : VideoSource) : Int := v.pos

/-- `cvSetCaptureProperty( vid, CV_CAP_PROP_POS_FRAMES, n )` -/
def cvSetCaptureProperty_POS_FRAMES (v : VideoSource) (n : Int) : VideoSource :=
  { v with pos := n, seeks := n :: v.seeks }

/-- `cvQueryFrame( vid )`: the next frame, if there is one (`true`), and the
source advanced past it; NULL (`false`) at the end of the stream. -/
def cvQueryFrame (v : VideoSource) : VideoSource × Bool :=
  if v.pos < v.frame_count then
    ({ v with pos := v.pos + 1, reads := v.reads + 1 }, true)
  else
    ({ v with reads := v.reads + 1 }, false)

/-- The loop `for( int i=0; i < n; i++ ){ cvQueryFrame( vid ); }`. -/
def skip_frames : Nat → VideoSource → VideoSource
  | 0, v => v
  | n + 1, v => skip_frames n (cvQueryFrame v).1

/-- The idiom that follows every seek in the source:
`cvSetCaptureProperty( vid, CV_CAP_PROP_POS_FRAMES, n ); cvQueryFrame( vid );
cvCopy( cvQueryFrame( vid ), old_frame );` -/
def seek_and_copy (v : VideoSource) (n : Int) : Except Fault VideoSource :=
  let v1 := cvSetCaptureProperty_POS_FRAMES v n
  let v2 := (cvQueryFrame v1).1
  let r := cvQueryFrame v2
  if r.2 then Except.ok r.1 else Except.error Fault.null_image

/-! ## Hit areas, as `initialize_pnl` sets them -/

/-- The rectangle `initialize_pnl` computes for a widget of the given size
placed at panel position `(row, col)`. -/
def area_of (row col width height : Int) : Field_Area :=
  { x1 := col
    x2 := col + width
    y1 := p_height - ctrl_pnl_height + row
    y2 := p_height - ctrl_pnl_height + height + row }

/-- `step_edit_area`: `row = 48; col = 65;` size `50 x 18`. -/
def step_edit_area : Field_Area := area_of 48 65 50 18

/-- `fps_edit_area`: `row = 88; col = 755;` size `50 x 18`. -/
def fps_edit_area : Field_Area := area_of 88 755 50 18

/-- `four_cc_edit_area`: `row = 48; col = 755;` size `50 x 22`. -/
def four_cc_edit_area : Field_Area := area_of 48 755 50 22

/-- `play_pause_btn_area`: `row = 48; col = 350;` size `60 x 18`. -/
def play_pause_btn_area : Field_Area := area_of 48 350 60 18

/-- `stop_btn_area`: `row = 48; col = 415;` size `60 x 18`. -/
def stop_btn_area : Field_Area := area_of 48 415 60 18

/-- `stepup_btn_area`: `row = 48; col = 480;` size `60 x 18`. -/
def stepup_btn_area : Field_Area := area_of 48 480 60 18

/-- `stepdown_btn_area`: `row = 48; col = 285;` size `60 x 18`. -/
def stepdown_btn_area : Field_Area := area_of 48 285 60 18

/-- `status_edit_area`: `row = 18; col = 395;` size `130 x 22`. -/
def status_edit_area : Field_Area := area_of 18 395 130 22

/-- The hit test written out four times in `my_mouse_callback`:
`( y > a.y1 ) && ( y <= a.y2 ) && ( x > a.x1 ) && ( x <= a.x2 )`. -/
def in_area (a : Field_Area) (x y : Int) : Bool :=
  decide (y > a.y1) && decide (y ≤ a.y2) && decide (x > a.x1) && decide (x ≤ a.x2)

/-- The slider band: `( y > scrn_height ) && ( y <= scrn_height + sldr_height )`. -/
def on_slider (y : Int) : Bool :=
  decide (y > scrn_height) && decide (y ≤ scrn_height + sldr_height)

/-! ## `moveSlider` -/

/-- The pixel-to-frame scaling of `moveSlider`:
`float scale = ( sldr_maxval )/( float )( p_width ); frame_val = cvCeil( scale*pos );` -/
def frame_of_pos (sldr_maxval pos : Int) : Int :=
  let scale : F32 := f32_div (f32_of_int sldr_maxval) (f32_of_int p_width)
  cvCeil (f32_mul scale (f32_of_int pos))

/-- The frame-to-pixel scaling of `moveSlider`:
`scale = ( p_width - sldr_btn_width )/( float )( sldr_maxval );
int new_pos = cvCeil( scale*frame_val );` -/
def new_pos_of_frame (sldr_maxval frame_val : Int) : Int :=
  let scale : F32 := f32_div (f32_of_int (p_width - sldr_btn_width)) (f32_of_int sldr_maxval)
  cvCeil (f32_mul scale (f32_of_int frame_val))

/-- The rounding of `moveSlider`: `if( frame_val%step_val != 0 ){
frame_val = step_val*( ( int )frame_val/( int )step_val ); }` -/
def round_to_step (step_val frame_val : Int) : Int :=
  if frame_val.tmod step_val ≠ 0 then step_val * (frame_val.tdiv step_val) else frame_val

/-- `int moveSlider( int pos, int call_from )`.  Returns the new globals and
the value the C function returns.  `frame_val` is an uninitialised local
unless `call_from` is `MOUSE_CALLBACK` or `OTHER_CALLS`; `new_pos` is computed
before `frame_val` is rounded down to a multiple of `step_val`. -/
def moveSlider (pos call_from : Int) (s : Player) : Except Fault (Player × Int) :=
  let frame_val : Option Int := none
  let frame_val : Option Int :=
    if call_from = MOUSE_CALLBACK then some (frame_of_pos s.sldr_maxval pos) else frame_val
  let frame_val : Option Int :=
    if call_from = OTHER_CALLS then some pos else frame_val
  match frame_val with
  | none => Except.error Fault.uninitialised_read
  | some frame_val =>
    let new_pos : Int := new_pos_of_frame s.sldr_maxval frame_val
    if s.step_val = 0 then Except.error Fault.division_by_zero
    else
      let frame_val : Int := round_to_step s.step_val frame_val
      let line := sprintf_d frame_val
      Except.ok ({ s with line := line, cur_frame_no := [line], knob := new_pos }, frame_val)

/-! ## Status line and step editor -/

/-- `void change_status()`: `resetField( status_edit, STATIC_TEXT )`, then
`cvPutText( status_edit, status_line, ... )`. -/
def change_status (s : Player) : Player :=
  { s with status_edit := [s.status_line] }

/-- `void resetAllEdits()`: the step field is repainted with the decimal text
of `step_val`, which also overwrites `edit_text`; edit mode is left. -/
def resetAllEdits (s : Player) : Player :=
  let edit_text := sprintf_d s.step_val
  { s with edit_text := edit_text, step_edit := [edit_text], typing_step := false }

/-- The caret bookkeeping at the top of `type_step`: both branches count
`blink_count` up to `blink_max` and then flip `blinking` and `blink_char`. -/
def blink_step (s : Player) : Player :=
  if s.blinking then
    if s.blink_count < s.blink_max then { s with blink_count := s.blink_count + 1 }
    else { s with blinking := false, blink_char := Char.ofNat 32, blink_count := 0 }
  else
    if s.blink_count < s.blink_max then { s with blink_count := s.blink_count + 1 }
    else { s with blinking := true, blink_char := Char.ofNat 124, blink_count := 0 }

/-- The backspace loop of `type_step`:
`for( int count=0; count<( strlen( edit_text )-1 ); count++ ){
sprintf( temp_text, "%s%c", temp_text, edit_text[ count ] ); }`,
each round appending one character to `temp_text` (the call names `temp_text`
both as destination and as the `%s` argument; it is read as the append the loop
is written for). -/
def backspace_loop (edit_text temp_text : List Char) : List Char :=
  (List.range (edit_text.length - 1)).foldl
    (fun t count => t ++ [edit_text.getD count (Char.ofNat 0)]) temp_text

/-- `void type_step( char c, int frame_val )`. -/
def type_step (c : Char) (frame_val : Int) (s : Player) : Player :=
  -- resetField( step_edit, EDIT_TEXT ); sprintf( temp_text, "" );
  let s : Player := { s with step_edit := [] }
  let temp_text : List Char := []
  let s := blink_step s
  -- valid number
  let digit : List Char × Player :=
    if 48 ≤ c.toNat ∧ c.toNat ≤ 57 then
      let temp_text := s.edit_text ++ [c]
      if frame_val + atoi temp_text ≥ 0 ∧ frame_val + atoi temp_text ≤ s.sldr_maxval
          ∧ atoi temp_text ≠ 0 then
        (temp_text, { s with edit_text := temp_text })
      else (temp_text, s)
    else (temp_text, s)
  let temp_text := digit.1
  let s := digit.2
  -- backspace
  let s : Player :=
    if c.toNat = 8 then
      if s.edit_text ≠ [] then { s with edit_text := backspace_loop s.edit_text temp_text }
      else s
    else s
  -- sprintf( temp_text, "%s%c", edit_text, blink_char ); cvPutText( step_edit, temp_text, ... );
  let temp_text := s.edit_text ++ [s.blink_char]
  let s : Player := { s with step_edit := s.step_edit ++ [temp_text] }
  if c.toNat = 10 then
    { s with step_edit := [s.edit_text], step_val := atoi s.edit_text, typing_step := false }
  else s

/-- Feeding a list of keystrokes, each with the frame index of its tick, to
`type_step`. -/
def type_keys : Player → List (Char × Int) → Player
  | s, [] => s
  | s, k :: ks => type_keys (type_step k.1 k.2 s) ks

/-! ## `my_mouse_callback` -/

/-- Body of `case CV_EVENT_MOUSEMOVE` once the pointer is on the slider. -/
def slider_drag (x : Int) (s : Player) : Except Fault Player :=
  match moveSlider x MOUSE_CALLBACK s with
  | Except.error f => Except.error f
  | Except.ok (s, cur_frame) =>
    match seek_and_copy s.vid (cur_frame - 1) with
    | Except.error f => Except.error f
    | Except.ok v => Except.ok { s with vid := v }

/-- The branch `// mouse on slider` of `case CV_EVENT_LBUTTONDOWN`. -/
def slider_press (x : Int) (s : Player) : Except Fault Player :=
  match moveSlider x MOUSE_CALLBACK s with
  | Except.error f => Except.error f
  | Except.ok (s, cur_frame) =>
    match seek_and_copy s.vid (cur_frame - 1 + s.step_val - 1) with
    | Except.error f => Except.error f
    | Except.ok v =>
      let s : Player := { s with vid := v }
      if !s.playing then Except.ok (change_status { s with status_line := "Slider moved" })
      else Except.ok s

/-- The branch `// mouse on play/pause button`. -/
def play_pause_press (s : Player) : Player :=
  if s.playing then
    change_status { s with playing := false, play_pause_btn := PLAY_BTN, status_line := "Paused" }
  else
    change_status { s with playing := true, play_pause_btn := PAUSE_BTN, status_line := "Playing" }

/-- The branch `// mouse on stop button`. -/
def stop_press (s : Player) : Except Fault Player :=
  let s : Player := { s with playing := false }
  match moveSlider s.sldr_start OTHER_CALLS s with
  | Except.error f => Except.error f
  | Except.ok (s, _) =>
    match seek_and_copy s.vid (s.sldr_start - 1) with
    | Except.error f => Except.error f
    | Except.ok v =>
      Except.ok (change_status
        { s with vid := v, play_pause_btn := PLAY_BTN, status_line := "Stopped" })

/-- The branch `// mouse on stepup button`. -/
def stepup_press (s : Player) : Player :=
  let cur_frame := cvGetCaptureProperty_POS_FRAMES s.vid
  let s : Player :=
    if cur_frame + 1 + s.step_val - 1 < s.sldr_maxval then
      let v := skip_frames (s.step_val - 1).toNat s.vid
      -- frame = cvQueryFrame( vid ); if( frame ){ cvCopy( frame, old_frame ); }
      { s with vid := (cvQueryFrame v).1 }
    else s
  if !s.playing then change_status { s with status_line := "Stepped Up" } else s

/-- The branch `// mouse on stepdown button`. -/
def stepdown_press (s : Player) : Except Fault Player :=
  let s : Player := { s with processing := true }
  let cur_frame := cvGetCaptureProperty_POS_FRAMES s.vid
  let moved : Except Fault Player :=
    if cur_frame - 1 - (s.step_val - 1) ≥ s.sldr_start then
      match moveSlider (cur_frame - 1 - (s.step_val - 1)) OTHER_CALLS s with
      | Except.error f => Except.error f
      | Except.ok (s, _) =>
        match seek_and_copy s.vid (cur_frame - 1 - (s.step_val - 1)) with
        | Except.error f => Except.error f
        | Except.ok v => Except.ok { s with vid := v }
    else Except.ok s
  match moved with
  | Except.error f => Except.error f
  | Except.ok s =>
    let s : Player :=
      if !s.playing then change_status { s with status_line := "Stepped Down" } else s
    Except.ok { s with processing := false }

/-- The branch `// mouse on step_edit field`. -/
def step_edit_press (s : Player) : Player :=
  { s with edit_text := [], typing_step := true }

/-- `case CV_EVENT_LBUTTONDOWN`: the six hit tests run one after the other,
each on the globals the preceding ones left. -/
def lbutton_down (x y : Int) (s : Player) : Except Fault Player :=
  let s : Player := resetAllEdits { s with sldr_moving := true }
  match (if on_slider y then slider_press x s else Except.ok s) with
  | Except.error f => Except.error f
  | Except.ok s =>
    let s : Player := if in_area play_pause_btn_area x y then play_pause_press s else s
    match (if in_area stop_btn_area x y then stop_press s else Except.ok s) with
    | Except.error f => Except.error f
    | Except.ok s =>
      let s : Player := if in_area stepup_btn_area x y then stepup_press s else s
      match (if in_area stepdown_btn_area x y then stepdown_press s else Except.ok s) with
      | Except.error f => Except.error f
      | Except.ok s =>
        Except.ok (if in_area step_edit_area x y then step_edit_press s else s)

/-- `void my_mouse_callback( int event, int x, int y, int flags, void* param )`;
`flags` and `param` are not used by the body. -/
def my_mouse_callback (event x y : Int) (s : Player) : Except Fault Player :=
  if event = CV_EVENT_MOUSEMOVE then
    if s.sldr_moving then
      if on_slider y then slider_drag x s else Except.ok s
    else Except.ok s
  else if event = CV_EVENT_LBUTTONDOWN then lbutton_down x y s
  else if event = CV_EVENT_LBUTTONUP then Except.ok { s with sldr_moving := false }
  else Except.ok s

/-- The globals as the event loop of `main` first sees them, for a source of
`frame_count` frames opened at position `start`: the static initialisers,
`initialize_pnl` (status "Stopped", play glyph, step field showing `step_val`)
and the statements of `main` that read the capture properties, paint the
current-frame field, call `moveSlider( sldr_start, OTHER_CALLS )` and fetch the
first frame. -/
def initial_state (start frame_count : Int) : Player :=
  { sldr_start := start
    sldr_maxval := frame_count
    step_val := 1
    line := sprintf_d start
    edit_text := []
    status_line := "Stopped"
    blink_count := 0
    blink_max := 5
    blink_char := Char.ofNat 124
    sldr_moving := false
    playing := false
    processing := false
    typing_step := false
    blinking := false
    vid := (cvQueryFrame
      (cvSetCaptureProperty_POS_FRAMES
        { pos := start, frame_count := frame_count, seeks := [], reads := 0 } start)).1
    cur_frame_no := [sprintf_d start]
    status_edit := ["Stopped"]
    step_edit := [sprintf_d 1]
    play_pause_btn := PLAY_BTN
    knob := new_pos_of_frame frame_count start }

/-- A run of pointer-down events, each at its own point; the run stops at the
first event that ends the process. -/
def press_all : Player → List (Int × Int) → Except Fault Player
  | s, [] => Except.ok s
  | s, pt :: pts =>
    match my_mouse_callback CV_EVENT_LBUTTONDOWN pt.1 pt.2 s with
    | Except.error f => Except.error f
    | Except.ok s1 => press_all s1 pts

/-- The state `initial_state start frame_count` with another committed step
size and the source positioned at frame `pos`. -/
def player_at (start frame_count step pos : Int) : Player :=
  let s := initial_state start frame_count
  { s with step_val := step, vid := { s.vid with pos := pos } }

/-! ## Spec-side notions used to state the claims -/

/-- Spec 4.3, pixel to frame: `frame = ceil(pixel * max_frame / track_width)`. -/
def spec_frame_of_pixel (max_frame pixel : Int) : Int :=
  ⌈((pixel * max_frame : Int) : ℚ) / (p_width : ℚ)⌉

/-- Spec 4.3, frame to pixel:
`pixel = ceil(frame * (track_width - knob_width) / max_frame)`. -/
def spec_pixel_of_frame (max_frame frame : Int) : Int :=
  ⌈((frame * (p_width - sldr_btn_width) : Int) : ℚ) / (max_frame : ℚ)⌉

/-- Spec 4.3, quantization: `frame = step * floor(frame / step)`. -/
def spec_quantize (step frame : Int) : Int :=
  step * ⌊(frame : ℚ) / (step : ℚ)⌋

/-- The number `x` approximates `y` with a relative error of at most `k` units
of `2 ^ (-24)`, half the distance between 1 and the next `float`. -/
def rel_close (k : Nat) (x y : ℚ) : Prop := |x - y| ≤ (k : ℚ) / 2 ^ 24 * |y|

/-- The decimal value of a string of digit characters, most significant digit
first. -/
def decimal_value (ds : List Char) : Int :=
  ds.foldl (fun acc c => acc * 10 + ((c.toNat : Int) - 48)) 0

/-- The string `ds` is the decimal numeral of the natural number `k`: not
empty, digits only, of value `k`, and without a leading zero unless it is the
single digit `0`. -/
def decimal_numeral (ds : List Char) (k : Nat) : Prop :=
  ds ≠ [] ∧ (∀ c ∈ ds, isdigit c = true) ∧ decimal_value ds = (k : Int)
    ∧ (ds.head? = some (Char.ofNat 48) → ds = [Char.ofNat 48])

instance decimal_numeral_decidable (ds : List Char) (k : Nat) :
    Decidable (decimal_numeral ds k) :=
  inferInstanceAs (Decidable (ds ≠ [] ∧ (∀ c ∈ ds, isdigit c = true)
    ∧ decimal_value ds = (k : Int) ∧ (ds.head? = some (Char.ofNat 48) → ds = [Char.ofNat 48])))

/-- The string `t` is the decimal text of the integer `n`: the decimal
numeral of `|n|`, after a minus sign when `n < 0`. -/
def decimal_text_of (n : Int) (t : List Char) : Prop :=
  if n < 0 then t.head? = some (Char.ofNat 45) ∧ decimal_numeral t.tail n.natAbs
  else decimal_numeral t n.natAbs

instance decimal_text_of_decidable (n : Int) (t : List Char) :
    Decidable (decimal_text_of n t) :=
  inferInstanceAs (Decidable (if n < 0 then
    t.head? = some (Char.ofNat 45) ∧ decimal_numeral t.tail n.natAbs
    else decimal_numeral t n.natAbs))

/-- A keystroke is accepted when `type_step` appends it to the pending text. -/
def accepted (s : Player) (k : Char × Int) : Prop :=
  (type_step k.1 k.2 s).edit_text = s.edit_text ++ [k.1]

/-- Every keystroke of the list is accepted in the state it is typed in. -/
def all_accepted : Player → List (Char × Int) → Prop
  | _, [] => True
  | s, k :: ks => accepted s k ∧ all_accepted (type_step k.1 k.2 s) ks

instance accepted_decidable (s : Player) (k : Char × Int) : Decidable (accepted s k) :=
  inferInstanceAs (Decidable ((type_step k.1 k.2 s).edit_text = s.edit_text ++ [k.1]))

instance all_accepted_decidable :
    (s : Player) → (ks : List (Char × Int)) → Decidable (all_accepted s ks)
  | _, [] => inferInstanceAs (Decidable True)
  | s, k :: ks =>
    @instDecidableAnd _ _ (accepted_decidable s k)
      (all_accepted_decidable (type_step k.1 k.2 s) ks)

/-- The pending text of the step editor is well formed for the frame count
`m`: it is empty, or a string of decimal digits that does not start with `0`
and whose value lies in `[1, m]`. -/
def pending_text_ok (text : List Char) (m : Int) : Prop :=
  text = [] ∨ ((∀ c ∈ text, isdigit c = true) ∧ text.head? ≠ some (Char.ofNat 48)
    ∧ 1 ≤ decimal_value text ∧ decimal_value text ≤ m)

instance pending_text_ok_decidable (text : List Char) (m : Int) :
    Decidable (pending_text_ok text m) :=
  inferInstanceAs (Decidable (text = [] ∨ ((∀ c ∈ text, isdigit c = true)
    ∧ text.head? ≠ some (Char.ofNat 48) ∧ 1 ≤ decimal_value text ∧ decimal_value text ≤ m)))

/-- The invariant of the step editor: in edit mode the pending text is well
formed for `sldr_maxval`. -/
def editor_ok (s : Player) : Prop :=
  s.typing_step = true → pending_text_ok s.edit_text s.sldr_maxval

instance editor_ok_decidable (s : Player) : Decidable (editor_ok s) :=
  inferInstanceAs (Decidable (s.typing_step = true → pending_text_ok s.edit_text s.sldr_maxval))

/-! ## The event loop of `main` -/

/-- `cvGetCaptureProperty( vid, CV_CAP_PROP_FRAME_COUNT )` -/
def cvGetCaptureProperty_FRAME_COUNT (v : VideoSource) : Int := v.frame_count

/-- The block `if( playing ){ ... }` of the event loop: `step_val - 1` frames are
read and dropped, one more is read; `playing` is cleared when that last read
returns NULL, otherwise the frame is copied to `old_frame`. -/
def play_frames (s : Player) : Player :=
  if s.playing then
    let v := skip_frames (s.step_val - 1).toNat s.vid
    let r := cvQueryFrame v
    if !r.2 then { s with vid := r.1, playing := false } else { s with vid := r.1 }
  else s

/-- The inner loop of the event loop,
`while( 1 ){ if( ( cur_frame = ( int )cvGetCaptureProperty( vid, CV_CAP_PROP_POS_FRAMES ) )>=0 ){ break; }
frame = cvQueryFrame( vid ); cvCopy( frame, old_frame ); }`,
run for at most `fuel` rounds.  Every round that does not leave the loop either
stops the process (NULL frame) or moves the source one frame on, so
`(- pos).toNat` rounds are enough. -/
def nonneg_loop : Nat → VideoSource → Except Fault VideoSource
  | 0, v => Except.ok v
  | fuel + 1, v =>
    if cvGetCaptureProperty_POS_FRAMES v ≥ 0 then Except.ok v
    else
      let r := cvQueryFrame v
      if r.2 then nonneg_loop fuel r.1 else Except.error Fault.null_image

/-- One pass through the body of `while( 1 )` in `main`, after `cvWaitKey`
returned the key `c` (other than 27): the block guarded by `if( !processing )`.
`cvResize` and `cvShowImage` only move pixels of the video frame. -/
def loop_body (c : Char) (s : Player) : Except Fault Player :=
  if !s.processing then
    let s := play_frames s
    match nonneg_loop (- s.vid.pos).toNat s.vid with
    | Except.error f => Except.error f
    | Except.ok v =>
      let s : Player := { s with vid := v }
      let cur_frame := cvGetCaptureProperty_POS_FRAMES v
      let s : Player := if s.typing_step then type_step c cur_frame s else s
      let s : Player :=
        if cur_frame = s.sldr_maxval - 1 then
          change_status { s with play_pause_btn := PLAY_BTN, status_line := "End reached" }
        else s
      match moveSlider cur_frame OTHER_CALLS s with
      | Except.error f => Except.error f
      | Except.ok (s, _) => Except.ok s
  else Except.ok s

/-- Consecutive passes through the loop body, one per key, with no pointer
event in between. -/
def run_ticks : Player → List Char → Except Fault Player
  | s, [] => Except.ok s
  | s, c :: cs =>
    match loop_body c s with
    | Except.error f => Except.error f
    | Except.ok s1 => run_ticks s1 cs

/-- What one call of `cvWaitKey` delivers: the pointer events `(event, x, y)`
dispatched to `my_mouse_callback` while it waits, and the key it returns. -/
structure LoopInput where
  events : List (Int × Int × Int)
  key : Char
  deriving DecidableEq

/-- The pointer events of one `cvWaitKey`, handed to `my_mouse_callback` in
order. -/
def run_events : Player → List (Int × Int × Int) → Except Fault Player
  | s, [] => Except.ok s
  | s, e :: es =>
    match my_mouse_callback e.1 e.2.1 e.2.2 s with
    | Except.error f => Except.error f
    | Except.ok s1 => run_events s1 es

/-- How a run of `main` over a finite list of inputs ends: `return( code )`,
an abnormal stop, or still inside the event loop when the inputs are used up. -/
inductive Outcome where
  | exited (code : Int)
  | aborted (f : Fault)
  | running (s : Player)
  deriving DecidableEq

/-- The `while( 1 )` loop of `main`: `if( ( c = cvWaitKey( 1000/fps ) )==27 ){ break; }`
leaves the loop, after which `main` releases its images and executes
`return( 0 )`. -/
def event_loop : Player → List LoopInput → Outcome
  | s, [] => Outcome.running s
  | s, i :: is =>
    match run_events s i.events with
    | Except.error f => Outcome.aborted f
    | Except.ok s1 =>
      if i.key.toNat = 27 then Outcome.exited 0
      else
        match loop_body i.key s1 with
        | Except.error f => Outcome.aborted f
        | Except.ok s2 => event_loop s2 is

/-- The globals when `main` reaches `moveSlider( sldr_start, OTHER_CALLS )`:
the static initialisers, the panel as `initialize_pnl` paints it, the capture
properties read from `vid` and the current-frame field painted with
`sldr_start`.  (`line` holds the FOURCC text at this point, which is not
modelled; `moveSlider` overwrites it.) -/
def globals_before_loop (vid : VideoSource) (sldr_start sldr_maxval : Int) : Player :=
  { sldr_start := sldr_start
    sldr_maxval := sldr_maxval
    step_val := 1
    line := []
    edit_text := []
    status_line := "Stopped"
    blink_count := 0
    blink_max := 5
    blink_char := Char.ofNat 124
    sldr_moving := false
    playing := false
    processing := false
    typing_step := false
    blinking := false
    vid := vid
    cur_frame_no := [sprintf_d sldr_start]
    status_edit := ["Stopped"]
    step_edit := [sprintf_d 1]
    play_pause_btn := PLAY_BTN
    knob := 0 }

/-- `int main( int argc, char** argv )` from `vid = cvCaptureFromFile( argv[1] )`
on; `opened` is what `cvCaptureFromFile` returns (`none` for NULL).  The first
frame is handed to `cvCloneImage` before it is tested, and `cvCloneImage`
raises an OpenCV error on a NULL image. -/
def main (opened : Option VideoSource) (inputs : List LoopInput) : Outcome :=
  match opened with
  | none => Outcome.exited 1
  | some vid =>
    let sldr_start := cvGetCaptureProperty_POS_FRAMES vid
    let sldr_maxval := cvGetCaptureProperty_FRAME_COUNT vid
    if sldr_maxval < 1 then Outcome.exited 1
    else
      let vid := cvSetCaptureProperty_POS_FRAMES vid sldr_start
      match moveSlider sldr_start OTHER_CALLS (globals_before_loop vid sldr_start sldr_maxval) with
      | Except.error f => Outcome.aborted f
      | Except.ok (s, _) =>
        -- frame = cvQueryFrame( vid );
        let r := cvQueryFrame s.vid
        -- old_frame = cvCloneImage( frame );
        if !r.2 then Outcome.aborted Fault.null_image
        -- if( !frame ){ printf( ... ); return( 1 ); }
        else if !r.2 then Outcome.exited 1
        else event_loop { s with vid := r.1 } inputs

/-! ## Regions of the canvas -/

/-- The fields of an `IplImage` header that address pixels.  `imageData` is the
byte offset of the first pixel from the start of the canvas buffer
(`player->imageData`). -/
structure IplImage where
  imageData : Int
  widthStep : Int
  width : Int
  height : Int
  nChannels : Int
  deriving DecidableEq

/-- `player = cvCreateImage( cvSize( p_width, p_height ), IPL_DEPTH_8U, 3 )`:
the canvas, rows of `p_width * 3` bytes (a multiple of 4, so rows are not
padded). -/
def player : IplImage :=
  { imageData := 0, widthStep := p_width * 3, width := p_width, height := p_height,
    nChannels := 3 }

/-- The control panel: `pnl = cvCreateImageHeader( cvSize( p_width, ctrl_pnl_height ), IPL_DEPTH_8U, 3 );
pnl->widthStep = player->widthStep;
pnl->imageData = player->imageData + ( p_height - ctrl_pnl_height )*player->widthStep;` -/
def pnl : IplImage :=
  { imageData := player.imageData + (p_height - ctrl_pnl_height) * player.widthStep
    widthStep := player.widthStep
    width := p_width
    height := ctrl_pnl_height
    nChannels := 3 }

/-- A widget of the panel: `w = cvCreateImageHeader( cvSize( width, height ), IPL_DEPTH_8U, 3 );
w->widthStep = pnl->widthStep;
w->imageData = pnl->imageData + row*pnl->widthStep + col*pnl->nChannels;` -/
def panel_widget (row col width height : Int) : IplImage :=
  { imageData := pnl.imageData + row * pnl.widthStep + col * pnl.nChannels
    widthStep := pnl.widthStep
    width := width
    height := height
    nChannels := 3 }

/-- The widgets the panel set-up creates, each with its `row` and `col`:
`cur_frame_no`, `numFrames`, `step_edit`, `fps_edit`, `four_cc_edit`,
`play_pause_btn`, `stop_btn`, `stepup_btn`, `stepdown_btn`, `status_edit`. -/
def panel_widgets : List (Int × Int × IplImage) :=
  [ (88, 150, panel_widget 88 150 120 18),
    (88, 430, panel_widget 88 430 120 18),
    (48, 65, panel_widget 48 65 50 18),
    (88, 755, panel_widget 88 755 50 18),
    (48, 755, panel_widget 48 755 50 22),
    (48, 350, panel_widget 48 350 60 18),
    (48, 415, panel_widget 48 415 60 18),
    (48, 480, panel_widget 48 480 60 18),
    (48, 285, panel_widget 48 285 60 18),
    (18, 395, panel_widget 18 395 130 22) ]

/-- The byte the pixel loops address for channel `c` of the pixel in row `row`
and column `col` of an image: `ptr = image->imageData + row*image->widthStep`,
then `ptr[ col*image->nChannels + c ]`. -/
def byte_offset (image : IplImage) (row col c : Int) : Int :=
  image.imageData + row * image.widthStep + col * image.nChannels + c

/-! ## Hit tests of a pointer-down event -/

/-- The conditions of the six `if`s of `case CV_EVENT_LBUTTONDOWN`, in the
order of the source: slider, play/pause, stop, step-up, step-down, step field. -/
def branch_tests (x y : Int) : List Bool :=
  [ on_slider y, in_area play_pause_btn_area x y, in_area stop_btn_area x y,
    in_area stepup_btn_area x y, in_area stepdown_btn_area x y, in_area step_edit_area x y ]

/-- The slider band and the eight rectangles of the panel set-up, as tested at
the point `(x, y)`. -/
def hit_tests (x y : Int) : List Bool :=
  [ on_slider y, in_area play_pause_btn_area x y, in_area stop_btn_area x y,
    in_area stepup_btn_area x y, in_area stepdown_btn_area x y, in_area step_edit_area x y,
    in_area fps_edit_area x y, in_area four_cc_edit_area x y, in_area status_edit_area x y ]

/-- Two rectangles share a point, their borders included. -/
def rects_meet (a b : Field_Area) : Bool :=
  decide (a.x1 ≤ b.x2) && decide (b.x1 ≤ a.x2) && decide (a.y1 ≤ b.y2) && decide (b.y1 ≤ a.y2)

/-- The slider band as a rectangle over the full width of the player. -/
def slider_band : Field_Area :=
  { x1 := 0, y1 := scrn_height, x2 := p_width, y2 := scrn_height + sldr_height }

/-- The slider band followed by the eight rectangles of the panel set-up. -/
def control_rects : List Field_Area :=
  [ slider_band, play_pause_btn_area, stop_btn_area, stepup_btn_area, stepdown_btn_area,
    step_edit_area, fps_edit_area, four_cc_edit_area, status_edit_area ]

/-! ## Pixels of the canvas -/

/-- `#define STATIC_TEXT 0` -/
def STATIC_TEXT : Int := 0

/-- `#define EDIT_TEXT 1` -/
def EDIT_TEXT : Int := 1

/-- The bytes of the canvas buffer (`uchar`), addressed by their offset from
`player->imageData`. -/
abbrev Canvas : Type := Int → Int

/-- A `CvScalar`: the entries `val[ i ]`.  The program builds every colour from
integers in `0 .. 255`, for which the conversions between `double` and `uchar`
are exact. -/
structure CvScalar where
  val : Int → Int

/-- `cvScalar( val0, val1, val2 )`; the fourth entry is 0. -/
def cvScalar (val0 val1 val2 : Int) : CvScalar :=
  { val := fun i => if i = 0 then val0 else if i = 1 then val1 else if i = 2 then val2 else 0 }

/-- `CvScalar green = cvScalar( 0, 255, 0 );` -/
def green : CvScalar := cvScalar 0 255 0

/-- `CvScalar black = cvScalar( 0, 0, 0 );` -/
def black : CvScalar := cvScalar 0 0 0

/-- `CvScalar voilet = cvScalar( 255, 0, 127 );` -/
def voilet : CvScalar := cvScalar 255 0 127

/-- The loop `for( int i=lo; i<hi; i++ ){ body }` on a state. -/
def for_range {σ : Type} (lo hi : Int) (body : Int → σ → σ) (s : σ) : σ :=
  (List.range (hi - lo).toNat).foldl (fun s (i : Nat) => body (lo + (i : Int)) s) s

/-- The three assignments `ptr[ col*image->nChannels + 0 ] = v0; ... + 1 ] = v1;
... + 2 ] = v2;` with `ptr = image->imageData + row*image->widthStep`. -/
def put_pixel (image : IplImage) (row col v0 v1 v2 : Int) (buf : Canvas) : Canvas :=
  let buf := Function.update buf (byte_offset image row col 0) v0
  let buf := Function.update buf (byte_offset image row col 1) v1
  Function.update buf (byte_offset image row col 2) v2

/-- `void resetField( IplImage* image, int text_type )` -/
def resetField (image : IplImage) (text_type : Int) (buf : Canvas) : Canvas :=
  if text_type = STATIC_TEXT then
    for_range 0 image.height (fun row buf =>
      for_range 0 image.width (fun col buf => put_pixel image row col 226 235 240 buf) buf) buf
  else
    for_range 0 image.height (fun row buf =>
      for_range 0 image.width (fun col buf =>
        if row = 0 ∨ row = image.height - 1 ∨ col = 0 ∨ col = image.width - 1 then
          put_pixel image row col 0 0 0 buf
        else put_pixel image row col 255 255 255 buf) buf) buf

/-- The loop of `main` that paints the control panel:
`for( int row=0; row<pnl->height; row++ ){ ... for( int col=0; col<pnl->width; col++ ){
ptr[ col*pnl->nChannels + 0 ] = 226; ... + 1 ] = 235; ... + 2 ] = 240; } }` -/
def main_panel_fill (buf : Canvas) : Canvas :=
  for_range 0 pnl.height (fun row buf =>
    for_range 0 pnl.width (fun col buf => put_pixel pnl row col 226 235 240 buf) buf) buf

/-- The conversion of a `float` to `uchar` on assignment: the fractional part
is discarded (the value is cut towards zero).  Every value `getSpectrumVert`
converts lies between two bytes, so the result fits `uchar`. -/
def uchar_of_float (x : F32) : Int :=
  if 0 ≤ x.e then x.m * 2 ^ x.e.toNat else x.m.tdiv (2 ^ (- x.e).toNat)

/-- The value the interpolation loop of `getSpectrumVert` stores for the row
`row` of `height` rows between the bytes `top` and `bottom`:
`( bottom - top )*( row/( float )height ) + top`, evaluated in `float` (the
`int` difference, `row` and `top` are converted to `float`) and converted to
`uchar`. -/
def spectrum_value (top bottom row height : Int) : Int :=
  uchar_of_float
    (f32_add
      (f32_mul (f32_of_int (bottom - top)) (f32_div (f32_of_int row) (f32_of_int height)))
      (f32_of_int top))

/-- One row of `getSpectrumVert` painted with a colour:
`for( int col=0; col<image->width; col++ ){ for( int chl=0; chl<image->nChannels; chl++ ){
ptr[ col*image->nChannels + chl] = color.val[chl]; } }` -/
def spectrum_row (image : IplImage) (color : CvScalar) (row : Int) (buf : Canvas) : Canvas :=
  for_range 0 image.width (fun col buf =>
    for_range 0 image.nChannels (fun chl buf =>
      Function.update buf (byte_offset image row col chl) (color.val chl)) buf) buf

/-- `void getSpectrumVert( IplImage* image, CvScalar color1, CvScalar color2 )`:
the first loop paints the topmost row with `color1` and the bottommost row with
`color2`; the second loop computes every row strictly between them from the
bytes of those two rows, in `float`, and stores the result as `uchar`. -/
def getSpectrumVert (image : IplImage) (color1 color2 : CvScalar) (buf : Canvas) : Canvas :=
  let buf := for_range 0 image.height (fun row buf =>
    let buf := if row = 0 then spectrum_row image color1 row buf else buf
    if row = image.height - 1 then spectrum_row image color2 row buf else buf) buf
  for_range 1 (image.height - 1) (fun row buf =>
    for_range 0 image.width (fun col buf =>
      for_range 0 image.nChannels (fun chl buf =>
        Function.update buf (byte_offset image row col chl)
          (spectrum_value (buf (byte_offset image 0 col chl))
            (buf (byte_offset image (image.height - 1) col chl)) row image.height))
        buf) buf) buf

/-- The test of `fill_color`: the pixel has exactly the colour,
`( ptr[ col*image->nChannels + 0 ] == color.val[0] ) && ( ... + 1 ] == color.val[1] ) &&
( ... + 2 ] == color.val[2] )`. -/
def pixel_is (image : IplImage) (color : CvScalar) (buf : Canvas) (row col : Int) : Bool :=
  decide (buf (byte_offset image row col 0) = color.val 0)
    && decide (buf (byte_offset image row col 1) = color.val 1)
    && decide (buf (byte_offset image row col 2) = color.val 2)

/-- The inner loop of `fill_color` over the columns still to visit, on the flag
`start_fill` and the buffer; `break` ends the row. -/
def fill_color_cols (image : IplImage) (color : CvScalar) (row : Int) :
    List Nat → Bool × Canvas → Bool × Canvas
  | [], st => st
  | col :: cols, (start_fill, buf) =>
    if pixel_is image color buf row col then
      if !start_fill then
        -- start_fill = true; then the pixel is painted
        fill_color_cols image color row cols
          (true, put_pixel image row col (color.val 0) (color.val 1) (color.val 2) buf)
      else
        -- start_fill = false; break;
        (false, buf)
    else if start_fill then
      fill_color_cols image color row cols
        (true, put_pixel image row col (color.val 0) (color.val 1) (color.val 2) buf)
    else fill_color_cols image color row cols (false, buf)

/-- The loops of `fill_color`, returning `start_fill` as well: the flag is
declared before the loop over the rows and is not reset between rows. -/
def fill_color_rows (image : IplImage) (color : CvScalar) (buf : Canvas) : Bool × Canvas :=
  for_range 0 image.height
    (fun row st => fill_color_cols image color row (List.range image.width.toNat) st)
    (false, buf)

/-- `void fill_color( IplImage* image, CvScalar color )` -/
def fill_color (image : IplImage) (color : CvScalar) (buf : Canvas) : Canvas :=
  (fill_color_rows image color buf).2

/-- The byte at offset `o` belongs to a pixel of the image. -/
def in_region (image : IplImage) (o : Int) : Prop :=
  ∃ row, row < image.height.toNat ∧ ∃ col, col < image.width.toNat ∧
    ∃ c, c < image.nChannels.toNat ∧ o = byte_offset image row col c

instance in_region_decidable (image : IplImage) (o : Int) : Decidable (in_region image o) :=
  inferInstanceAs (Decidable (∃ row, row < image.height.toNat ∧ ∃ col, col < image.width.toNat ∧
    ∃ c, c < image.nChannels.toNat ∧ o = byte_offset image row col c))

/-- The header addresses pixels row by row without overlap: three channels and
rows at least as long as the pixels of one row. -/
def region_ok (image : IplImage) : Prop :=
  image.nChannels = 3 ∧ 0 ≤ image.width ∧ image.width * 3 ≤ image.widthStep

instance region_ok_decidable (image : IplImage) : Decidable (region_ok image) :=
  inferInstanceAs (Decidable (image.nChannels = 3 ∧ 0 ≤ image.width
    ∧ image.width * 3 ≤ image.widthStep))

/-- Spec 4.2, vertical gradient: `color(r) = color_top + (color_bottom - color_top) * r/H`. -/
def spec_spectrum (color_top color_bottom r H : Int) : ℚ :=
  (color_top : ℚ) + ((color_bottom : ℚ) - (color_top : ℚ)) * (r : ℚ) / (H : ℚ)

/-- The number of pixels of the colour among the `n` columns `j, j + 1, ...`
of a row. -/
def row_hits (image : IplImage) (color : CvScalar) (buf : Canvas) (row : Int) (j n : Nat) : Nat :=
  (List.range' j n).countP (fun (col : Nat) => pixel_is image color buf row (col : Int))

/-- The value of `start_fill` when the loop of `fill_color` over the rows
reaches row `r`, computed from the buffer `fill_color` is called on: the flag
is set after a row exactly when, counting the flag it was entered with as one
pixel of the colour, the row holds exactly one pixel of the colour. -/
def start_fill_at (image : IplImage) (color : CvScalar) (buf : Canvas) : Nat → Bool
  | 0 => false
  | r + 1 =>
    decide ((if start_fill_at image color buf r then 1 else 0)
      + row_hits image color buf r 0 image.width.toNat = 1)

/-! ## Arithmetic of the two scalings -/

theorem floor_div_int (a b : Int) (hb : 0 < b) : ⌊(a : ℚ) / (b : ℚ)⌋ = a / b := by
  have h := Rat.floor_intCast_div_natCast a b.toNat
  have hb2 : ((b.toNat : ℕ) : ℤ) = b := Int.toNat_of_nonneg hb.le
  have hb3 : ((b.toNat : ℕ) : ℚ) = (b : ℚ) := by
    have h4 : (((b.toNat : ℕ) : ℤ) : ℚ) = (b : ℚ) := by rw [hb2]
    exact_mod_cast h4
  rw [hb3, hb2] at h
  exact h

theorem ceil_div_int_bounds (a b : Int) (hb : 0 < b) :
    a ≤ b * ⌈(a : ℚ) / (b : ℚ)⌉ ∧ b * ⌈(a : ℚ) / (b : ℚ)⌉ < a + b := by
  have hbq : (0 : ℚ) < (b : ℚ) := by exact_mod_cast hb
  have h1 : (a : ℚ) / (b : ℚ) ≤ ⌈(a : ℚ) / (b : ℚ)⌉ := Int.le_ceil _
  have h2 : ((⌈(a : ℚ) / (b : ℚ)⌉ : Int) : ℚ) < (a : ℚ) / (b : ℚ) + 1 := Int.ceil_lt_add_one _
  rw [div_le_iff₀ hbq] at h1
  have h3 : ((⌈(a : ℚ) / (b : ℚ)⌉ : Int) : ℚ) * b < a + b := by
    have := mul_lt_mul_of_pos_right h2 hbq
    rwa [add_mul, div_mul_cancel₀ _ hbq.ne', one_mul] at this
  constructor
  · have : (a : ℚ) ≤ ((b * ⌈(a : ℚ) / (b : ℚ)⌉ : Int) : ℚ) := by push_cast; linarith
    exact_mod_cast this
  · have : ((b * ⌈(a : ℚ) / (b : ℚ)⌉ : Int) : ℚ) < ((a + b : Int) : ℚ) := by push_cast; linarith
    exact_mod_cast this

/-! ## Rounding to `float` -/

theorem log2_steps_spec (fuel n : Nat) (hn : 0 < n) (hf : n ≤ fuel) :
    2 ^ log2_steps fuel n ≤ n ∧ n < 2 ^ (log2_steps fuel n + 1) := by
  induction fuel generalizing n with
  | zero => omega
  | succ fuel ih =>
    unfold log2_steps
    split_ifs with h
    · simp
      omega
    · have h2 := ih (n / 2) (by omega) (by omega)
      rw [pow_succ, pow_succ]
      generalize 2 ^ log2_steps fuel (n / 2) = p at h2 ⊢
      rw [pow_succ] at h2
      omega

theorem ilog2_spec (n : Nat) (hn : 0 < n) : 2 ^ ilog2 n ≤ n ∧ n < 2 ^ (ilog2 n + 1) :=
  log2_steps_spec n n hn le_rfl

theorem round_half_even_err (num den : Nat) (hd : 0 < den) :
    |((round_half_even num den : Nat) : ℚ) - (num : ℚ) / (den : ℚ)| ≤ 1 / 2 := by
  have hdq : (0 : ℚ) < (den : ℚ) := by exact_mod_cast hd
  have h1 : den * (num / den) + num % den = num := Nat.div_add_mod num den
  have h2 : num % den < den := Nat.mod_lt _ hd
  have e : (num : ℚ) / (den : ℚ) = ((num / den : Nat) : ℚ) + ((num % den : Nat) : ℚ) / (den : ℚ) := by
    have h3 : (num : ℚ) = (den : ℚ) * ((num / den : Nat) : ℚ) + ((num % den : Nat) : ℚ) := by
      exact_mod_cast h1.symm
    field_simp
    linarith
  have h4 : ((num % den : Nat) : ℚ) < (den : ℚ) := by exact_mod_cast h2
  have h0 : (0 : ℚ) ≤ ((num % den : Nat) : ℚ) := Nat.cast_nonneg _
  unfold round_half_even
  simp only
  split_ifs with hc
  · have h5 : den ≤ 2 * (num % den) := by omega
    have h6 : (den : ℚ) ≤ 2 * ((num % den : Nat) : ℚ) := by exact_mod_cast h5
    rw [e, abs_le]
    push_cast
    have h7 : ((num % den : Nat) : ℚ) / (den : ℚ) < 1 := (div_lt_one hdq).2 h4
    have h8 : (1 : ℚ) / 2 ≤ ((num % den : Nat) : ℚ) / (den : ℚ) := by
      rw [le_div_iff₀ hdq]
      linarith
    constructor <;> linarith
  · have h5 : 2 * (num % den) ≤ den := by omega
    have h6 : 2 * ((num % den : Nat) : ℚ) ≤ (den : ℚ) := by exact_mod_cast h5
    rw [e, abs_le]
    have h8 : ((num % den : Nat) : ℚ) / (den : ℚ) ≤ 1 / 2 := by
      rw [div_le_iff₀ hdq]
      linarith
    have h9 : (0 : ℚ) ≤ ((num % den : Nat) : ℚ) / (den : ℚ) := div_nonneg h0 hdq.le
    constructor <;> linarith

theorem two_zpow_split (a b : Int) :
    ((2 ^ (a - b).toNat : Nat) : ℚ) / ((2 ^ (b - a).toNat : Nat) : ℚ) = (2 : ℚ) ^ a / (2 : ℚ) ^ b := by
  have h2 : (2 : ℚ) ≠ 0 := by norm_num
  rw [← zpow_sub₀ h2]
  push_cast
  rcases le_total b a with h | h
  · have e1 : (b - a).toNat = 0 := by omega
    have e2 : (((a - b).toNat : Nat) : Int) = a - b := by omega
    rw [e1, pow_zero, div_one, ← zpow_natCast, e2]
  · have e1 : (a - b).toNat = 0 := by omega
    have e2 : (((b - a).toNat : Nat) : Int) = b - a := by omega
    rw [e1, pow_zero, ← zpow_natCast, e2, one_div, ← zpow_neg]
    congr 1
    ring

theorem two_zpow_split_one (z : Int) :
    ((2 ^ z.toNat : Nat) : ℚ) / ((2 ^ (- z).toNat : Nat) : ℚ) = (2 : ℚ) ^ z := by
  have h := two_zpow_split z 0
  simpa using h
theorem f32_round_zero (d : Nat) : f32_round 0 d = { m := 0, e := 0 } := by
  simp [f32_round]

theorem natAbs_cast_rat (n : Int) :
    ((n.natAbs : Nat) : ℚ) = |(n : ℚ)| := by
  rw [Nat.cast_natAbs]
  push_cast
  rfl

theorem f32_round_scale (a d : Nat) (ha : 0 < a) (hd : 0 < d) :
    let e0 : Int := (ilog2 a : Int) - (ilog2 d : Int)
    let E : Int := if d * 2 ^ e0.toNat ≤ a * 2 ^ (- e0).toNat then e0 else e0 - 1
    (2 : ℚ) ^ E ≤ (a : ℚ) / (d : ℚ) := by
  intro e0 E
  have hdq : (0 : ℚ) < (d : ℚ) := by exact_mod_cast hd
  have h2 : (2 : ℚ) ≠ 0 := by norm_num
  obtain ⟨a1, a2⟩ := ilog2_spec a ha
  obtain ⟨d1, d2⟩ := ilog2_spec d hd
  by_cases hc : d * 2 ^ e0.toNat ≤ a * 2 ^ (- e0).toNat
  · have hE : E = e0 := if_pos hc
    rw [hE, ← two_zpow_split_one e0]
    have hq : ((d * 2 ^ e0.toNat : Nat) : ℚ) ≤ ((a * 2 ^ (- e0).toNat : Nat) : ℚ) := by
      exact_mod_cast hc
    have hp : (0 : ℚ) < ((2 ^ (- e0).toNat : Nat) : ℚ) := by positivity
    rw [div_le_div_iff₀ hp hdq]
    push_cast at hq ⊢
    linarith
  · have hE : E = e0 - 1 := if_neg hc
    rw [hE]
    have e1 : (2 : ℚ) ^ (e0 - 1) = (2 : ℚ) ^ (ilog2 a) / (2 : ℚ) ^ (ilog2 d + 1) := by
      have : e0 - 1 = (ilog2 a : Int) - ((ilog2 d + 1 : Nat) : Int) := by
        simp only [e0]
        push_cast
        ring
      rw [this, zpow_sub₀ h2, zpow_natCast, zpow_natCast]
    rw [e1]
    have hp : (0 : ℚ) < (2 : ℚ) ^ (ilog2 d + 1) := by positivity
    rw [div_le_div_iff₀ hp hdq]
    have q1 : ((2 ^ ilog2 a : Nat) : ℚ) ≤ (a : ℚ) := by exact_mod_cast a1
    have q2 : (d : ℚ) ≤ ((2 ^ (ilog2 d + 1) : Nat) : ℚ) := by exact_mod_cast d2.le
    push_cast at q1 q2
    have q3 : (0 : ℚ) ≤ (2 : ℚ) ^ ilog2 a := by positivity
    calc (2 : ℚ) ^ ilog2 a * d ≤ (2 : ℚ) ^ ilog2 a * 2 ^ (ilog2 d + 1) :=
          mul_le_mul_of_nonneg_left q2 q3
      _ ≤ a * 2 ^ (ilog2 d + 1) := mul_le_mul_of_nonneg_right q1 hp.le

theorem f32_round_err (n : Int) (d : Nat) (hd : 0 < d) :
    |(f32_round n d).toRat - (n : ℚ) / (d : ℚ)| ≤ |(n : ℚ) / (d : ℚ)| / 2 ^ 24 := by
  by_cases hn : n = 0
  · subst hn
    simp [f32_round_zero, F32.toRat]
  have ha : 0 < n.natAbs := Int.natAbs_pos.2 hn
  have hdq : (0 : ℚ) < (d : ℚ) := by exact_mod_cast hd
  have h2 : (2 : ℚ) ≠ 0 := by norm_num
  have hK := f32_round_scale n.natAbs d ha hd
  simp only at hK
  unfold f32_round
  rw [if_neg hn]
  simp only
  generalize hE : (if d * 2 ^ ((ilog2 n.natAbs : Int) - (ilog2 d : Int)).toNat
      ≤ n.natAbs * 2 ^ (- ((ilog2 n.natAbs : Int) - (ilog2 d : Int))).toNat
      then (ilog2 n.natAbs : Int) - (ilog2 d : Int)
      else (ilog2 n.natAbs : Int) - (ilog2 d : Int) - 1) = E at hK ⊢
  have hden : 0 < d * 2 ^ (- (23 - E)).toNat := Nat.mul_pos hd (by positivity)
  have herr := round_half_even_err (n.natAbs * 2 ^ (23 - E).toNat) (d * 2 ^ (- (23 - E)).toNat) hden
  generalize round_half_even (n.natAbs * 2 ^ (23 - E).toNat) (d * 2 ^ (- (23 - E)).toNat) = q
    at herr ⊢
  have hX : ((n.natAbs * 2 ^ (23 - E).toNat : Nat) : ℚ) / ((d * 2 ^ (- (23 - E)).toNat : Nat) : ℚ)
      = |(n : ℚ)| / (d : ℚ) * (2 : ℚ) ^ (23 - E) := by
    rw [← two_zpow_split_one (23 - E), ← natAbs_cast_rat]
    push_cast
    have hp : (0 : ℚ) < (2 : ℚ) ^ (- (23 - E)).toNat := by positivity
    field_simp
  rw [hX] at herr
  have hpos : (0 : ℚ) < (2 : ℚ) ^ (23 - E) := by positivity
  have hinv : (2 : ℚ) ^ (- (23 - E)) * (2 : ℚ) ^ (23 - E) = 1 := by
    rw [← zpow_add₀ h2]
    simp
  have hposi : (0 : ℚ) < (2 : ℚ) ^ (- (23 - E)) := by positivity
  -- the error of the magnitude
  have hmag : |(q : ℚ) * (2 : ℚ) ^ (- (23 - E)) - |(n : ℚ)| / (d : ℚ)|
      ≤ |(n : ℚ)| / (d : ℚ) / 2 ^ 24 := by
    have e1 : (q : ℚ) * (2 : ℚ) ^ (- (23 - E)) - |(n : ℚ)| / (d : ℚ)
        = ((q : ℚ) - |(n : ℚ)| / (d : ℚ) * (2 : ℚ) ^ (23 - E)) * (2 : ℚ) ^ (- (23 - E)) := by
      rw [sub_mul, mul_assoc, mul_comm ((2 : ℚ) ^ (23 - E)), hinv, mul_one]
    rw [e1, abs_mul, abs_of_pos hposi]
    have e2 : (2 : ℚ) ^ (- (23 - E)) = (2 : ℚ) ^ E / 2 ^ 23 := by
      have : - (23 - E) = E - 23 := by ring
      rw [this, zpow_sub₀ h2]
      norm_num
    have hEpos : (0 : ℚ) < (2 : ℚ) ^ E := by positivity
    have hK2 : (2 : ℚ) ^ E ≤ |(n : ℚ)| / (d : ℚ) := by
      rw [← natAbs_cast_rat]
      exact hK
    calc |(q : ℚ) - |(n : ℚ)| / (d : ℚ) * (2 : ℚ) ^ (23 - E)| * (2 : ℚ) ^ (- (23 - E))
        ≤ 1 / 2 * (2 : ℚ) ^ (- (23 - E)) := mul_le_mul_of_nonneg_right herr hposi.le
      _ = (2 : ℚ) ^ E / 2 ^ 24 := by rw [e2]; ring
      _ ≤ |(n : ℚ)| / (d : ℚ) / 2 ^ 24 := by
          apply div_le_div_of_nonneg_right hK2
          positivity
  simp only [F32.toRat]
  rcases lt_or_gt_of_ne hn with hneg | hpos2
  · rw [if_pos hneg]
    have hnq : (n : ℚ) < 0 := by exact_mod_cast hneg
    have e3 : |(n : ℚ)| = - (n : ℚ) := abs_of_neg hnq
    rw [e3] at hmag
    rw [abs_div, e3, abs_of_pos hdq]
    have e4 : ((- (q : Int) : Int) : ℚ) * (2 : ℚ) ^ (- (23 - E)) - (n : ℚ) / (d : ℚ)
        = - ((q : ℚ) * (2 : ℚ) ^ (- (23 - E)) - - (n : ℚ) / (d : ℚ)) := by
      push_cast
      ring
    rw [e4, abs_neg]
    exact hmag
  · have hnn : ¬ n < 0 := by omega
    rw [if_neg hnn]
    have hnq : (0 : ℚ) < (n : ℚ) := by exact_mod_cast hpos2
    have e3 : |(n : ℚ)| = (n : ℚ) := abs_of_pos hnq
    rw [e3] at hmag
    rw [abs_div, e3, abs_of_pos hdq]
    push_cast
    exact hmag

theorem rel_close_round (n : Int) (d : Nat) (hd : 0 < d) :
    rel_close 1 (f32_round n d).toRat ((n : ℚ) / (d : ℚ)) := by
  have h := f32_round_err n d hd
  unfold rel_close
  calc |(f32_round n d).toRat - (n : ℚ) / (d : ℚ)| ≤ |(n : ℚ) / (d : ℚ)| / 2 ^ 24 := h
    _ = ((1 : Nat) : ℚ) / 2 ^ 24 * |(n : ℚ) / (d : ℚ)| := by
        push_cast
        ring
theorem rel_close_mono (k1 k2 : Nat) (x y : ℚ) (h : k1 ≤ k2) (hc : rel_close k1 x y) :
    rel_close k2 x y := by
  unfold rel_close at *
  have hk : (k1 : ℚ) ≤ (k2 : ℚ) := by exact_mod_cast h
  have : (k1 : ℚ) / 2 ^ 24 * |y| ≤ (k2 : ℚ) / 2 ^ 24 * |y| := by
    apply mul_le_mul_of_nonneg_right _ (abs_nonneg y)
    apply div_le_div_of_nonneg_right hk
    positivity
  linarith

theorem rel_close_abs_le (k : Nat) (x y : ℚ) (hc : rel_close k x y) :
    |x| ≤ (1 + (k : ℚ) / 2 ^ 24) * |y| := by
  unfold rel_close at hc
  have h1 : |x| ≤ |x - y| + |y| := by
    have := abs_add (x - y) y
    simpa using this
  linarith

theorem rel_close_mul (k1 k2 : Nat) (x1 y1 x2 y2 : ℚ) (h1 : rel_close k1 x1 y1)
    (h2 : rel_close k2 x2 y2) (hk : k1 * k2 ≤ 2 ^ 24) :
    rel_close (k1 + k2 + 1) (x1 * x2) (y1 * y2) := by
  unfold rel_close at *
  have e : x1 * x2 - y1 * y2 = (x1 - y1) * y2 + y1 * (x2 - y2) + (x1 - y1) * (x2 - y2) := by ring
  have hkq : (k1 : ℚ) * (k2 : ℚ) ≤ 2 ^ 24 := by exact_mod_cast hk
  have a1 := abs_nonneg y1
  have a2 := abs_nonneg y2
  have b1 := abs_nonneg (x1 - y1)
  have b2 := abs_nonneg (x2 - y2)
  have k1n : (0 : ℚ) ≤ (k1 : ℚ) := Nat.cast_nonneg _
  have k2n : (0 : ℚ) ≤ (k2 : ℚ) := Nat.cast_nonneg _
  have t1 : |(x1 - y1) * y2| ≤ (k1 : ℚ) / 2 ^ 24 * |y1| * |y2| := by
    rw [abs_mul]
    exact mul_le_mul_of_nonneg_right h1 a2
  have t2 : |y1 * (x2 - y2)| ≤ |y1| * ((k2 : ℚ) / 2 ^ 24 * |y2|) := by
    rw [abs_mul]
    exact mul_le_mul_of_nonneg_left h2 a1
  have t3 : |(x1 - y1) * (x2 - y2)| ≤ ((k1 : ℚ) / 2 ^ 24 * |y1|) * ((k2 : ℚ) / 2 ^ 24 * |y2|) := by
    rw [abs_mul]
    exact mul_le_mul h1 h2 b2 (by positivity)
  have t4 : ((k1 : ℚ) / 2 ^ 24 * |y1|) * ((k2 : ℚ) / 2 ^ 24 * |y2|)
      ≤ 1 / 2 ^ 24 * (|y1| * |y2|) := by
    have : ((k1 : ℚ) / 2 ^ 24 * |y1|) * ((k2 : ℚ) / 2 ^ 24 * |y2|)
        = ((k1 : ℚ) * (k2 : ℚ)) / 2 ^ 24 * (1 / 2 ^ 24 * (|y1| * |y2|)) := by ring
    rw [this]
    have h5 : ((k1 : ℚ) * (k2 : ℚ)) / 2 ^ 24 ≤ 1 := by
      rw [div_le_one (by positivity)]
      exact hkq
    have h6 : (0 : ℚ) ≤ 1 / 2 ^ 24 * (|y1| * |y2|) := by positivity
    calc ((k1 : ℚ) * (k2 : ℚ)) / 2 ^ 24 * (1 / 2 ^ 24 * (|y1| * |y2|))
        ≤ 1 * (1 / 2 ^ 24 * (|y1| * |y2|)) := mul_le_mul_of_nonneg_right h5 h6
      _ = 1 / 2 ^ 24 * (|y1| * |y2|) := one_mul _
  have t5 : |x1 * x2 - y1 * y2|
      ≤ |(x1 - y1) * y2| + |y1 * (x2 - y2)| + |(x1 - y1) * (x2 - y2)| := by
    rw [e]
    exact (abs_add _ _).trans (add_le_add_right (abs_add _ _) _)
  rw [abs_mul]
  push_cast
  have : ((k1 : ℚ) + (k2 : ℚ) + 1) / 2 ^ 24 * (|y1| * |y2|)
      = (k1 : ℚ) / 2 ^ 24 * |y1| * |y2| + |y1| * ((k2 : ℚ) / 2 ^ 24 * |y2|)
        + 1 / 2 ^ 24 * (|y1| * |y2|) := by ring
  rw [this]
  linarith

theorem rel_close_trans (k1 k2 : Nat) (x y z : ℚ) (h1 : rel_close k1 x y)
    (h2 : rel_close k2 y z) (hk : k1 * k2 ≤ 2 ^ 24) :
    rel_close (k1 + k2 + 1) x z := by
  have hy := rel_close_abs_le k2 y z h2
  unfold rel_close at *
  have hkq : (k1 : ℚ) * (k2 : ℚ) ≤ 2 ^ 24 := by exact_mod_cast hk
  have k1n : (0 : ℚ) ≤ (k1 : ℚ) / 2 ^ 24 := by positivity
  have az := abs_nonneg z
  have t1 : |x - z| ≤ |x - y| + |y - z| := by
    have := abs_add (x - y) (y - z)
    simpa using this
  have t2 : (k1 : ℚ) / 2 ^ 24 * |y| ≤ (k1 : ℚ) / 2 ^ 24 * ((1 + (k2 : ℚ) / 2 ^ 24) * |z|) :=
    mul_le_mul_of_nonneg_left hy k1n
  have t3 : (k1 : ℚ) / 2 ^ 24 * ((k2 : ℚ) / 2 ^ 24 * |z|) ≤ 1 / 2 ^ 24 * |z| := by
    have : (k1 : ℚ) / 2 ^ 24 * ((k2 : ℚ) / 2 ^ 24 * |z|)
        = ((k1 : ℚ) * (k2 : ℚ)) / 2 ^ 24 * (1 / 2 ^ 24 * |z|) := by ring
    rw [this]
    have h5 : ((k1 : ℚ) * (k2 : ℚ)) / 2 ^ 24 ≤ 1 := by
      rw [div_le_one (by positivity)]
      exact hkq
    have h6 : (0 : ℚ) ≤ 1 / 2 ^ 24 * |z| := by positivity
    calc ((k1 : ℚ) * (k2 : ℚ)) / 2 ^ 24 * (1 / 2 ^ 24 * |z|)
        ≤ 1 * (1 / 2 ^ 24 * |z|) := mul_le_mul_of_nonneg_right h5 h6
      _ = 1 / 2 ^ 24 * |z| := one_mul _
  push_cast
  have e : ((k1 : ℚ) + (k2 : ℚ) + 1) / 2 ^ 24 * |z|
      = (k1 : ℚ) / 2 ^ 24 * |z| + (k2 : ℚ) / 2 ^ 24 * |z| + 1 / 2 ^ 24 * |z| := by ring
  have e2 : (k1 : ℚ) / 2 ^ 24 * ((1 + (k2 : ℚ) / 2 ^ 24) * |z|)
      = (k1 : ℚ) / 2 ^ 24 * |z| + (k1 : ℚ) / 2 ^ 24 * ((k2 : ℚ) / 2 ^ 24 * |z|) := by ring
  rw [e]
  rw [e2] at t2
  linarith

theorem rel_close_inv (k : Nat) (x y : ℚ) (h : rel_close k x y) (hk : k ≤ 2 ^ 23) :
    rel_close (2 * k) x⁻¹ y⁻¹ := by
  unfold rel_close at *
  by_cases hy : y = 0
  · subst hy
    simp only [abs_zero, mul_zero, sub_zero] at h
    have hx : x = 0 := abs_eq_zero.1 (le_antisymm h (abs_nonneg x))
    subst hx
    simp
  have hkq : (k : ℚ) ≤ 2 ^ 23 := by exact_mod_cast hk
  have ay : 0 < |y| := abs_pos.2 hy
  have hhalf : (k : ℚ) / 2 ^ 24 ≤ 1 / 2 := by
    rw [div_le_iff₀ (by positivity)]
    linarith
  have h1 : |y| ≤ |y - x| + |x| := by
    have := abs_add (y - x) x
    simpa using this
  rw [abs_sub_comm] at h1
  have h3 : (k : ℚ) / 2 ^ 24 * |y| ≤ 1 / 2 * |y| := mul_le_mul_of_nonneg_right hhalf ay.le
  have hx2 : |y| / 2 ≤ |x| := by linarith
  have ax : 0 < |x| := by linarith
  have hx : x ≠ 0 := abs_pos.1 ax
  have e : x⁻¹ - y⁻¹ = (y - x) / (x * y) := by
    field_simp
  rw [e, abs_div, abs_mul, abs_inv, abs_sub_comm, div_le_iff₀ (mul_pos ax ay)]
  push_cast
  have e2 : 2 * (k : ℚ) / 2 ^ 24 * |y|⁻¹ * (|x| * |y|) = 2 * ((k : ℚ) / 2 ^ 24) * |x| := by
    field_simp
    ring
  rw [e2]
  have kn : (0 : ℚ) ≤ (k : ℚ) / 2 ^ 24 := by positivity
  have : (k : ℚ) / 2 ^ 24 * |y| ≤ (k : ℚ) / 2 ^ 24 * (2 * |x|) :=
    mul_le_mul_of_nonneg_left (by linarith) kn
  linarith

theorem rel_close_div (k1 k2 : Nat) (x1 y1 x2 y2 : ℚ) (h1 : rel_close k1 x1 y1)
    (h2 : rel_close k2 x2 y2) (hk1 : k1 ≤ 2 ^ 10) (hk2 : k2 ≤ 2 ^ 10) :
    rel_close (k1 + 2 * k2 + 1) (x1 / x2) (y1 / y2) := by
  rw [div_eq_mul_inv, div_eq_mul_inv]
  apply rel_close_mul k1 (2 * k2) _ _ _ _ h1 (rel_close_inv k2 _ _ h2 _)
  · calc k1 * (2 * k2) ≤ 2 ^ 10 * (2 * 2 ^ 10) :=
        Nat.mul_le_mul hk1 (Nat.mul_le_mul_left 2 hk2)
      _ ≤ 2 ^ 24 := by norm_num
  · exact hk2.trans (by norm_num)

theorem f32_of_int_close (k : Int) : rel_close 1 (f32_of_int k).toRat (k : ℚ) := by
  have h := rel_close_round k 1 (by norm_num)
  simpa [f32_of_int] using h

theorem f32_div_exact (x y : F32) (hy : y.m ≠ 0) :
    ((x.m * y.m.sign * 2 ^ (x.e - y.e).toNat : Int) : ℚ)
        / ((y.m.natAbs * 2 ^ (y.e - x.e).toNat : Nat) : ℚ) = x.toRat / y.toRat := by
  have h := two_zpow_split x.e y.e
  have hyq : (y.m : ℚ) ≠ 0 := by exact_mod_cast hy
  have hs : ((y.m.sign : Int) : ℚ) * (y.m : ℚ) = ((y.m.natAbs : Nat) : ℚ) := by
    have : y.m.sign * y.m = (y.m.natAbs : Int) := by
      rcases lt_or_gt_of_ne hy with h1 | h1
      · rw [Int.sign_eq_neg_one_of_neg h1]; omega
      · rw [Int.sign_eq_one_of_pos h1]; omega
    have h3 : ((y.m.sign * y.m : Int) : ℚ) = (((y.m.natAbs : Nat) : Int) : ℚ) := by rw [this]
    push_cast at h3
    rw [natAbs_cast_rat]
    exact h3
  have hab : ((y.m.natAbs : Nat) : ℚ) ≠ 0 := by
    have : y.m.natAbs ≠ 0 := Int.natAbs_ne_zero.2 hy
    exact_mod_cast this
  have hp1 : ((2 ^ (y.e - x.e).toNat : Nat) : ℚ) ≠ 0 := by positivity
  have hp2 : (2 : ℚ) ^ y.e ≠ 0 := by positivity
  simp only [F32.toRat]
  push_cast at h ⊢
  rw [div_eq_div_iff (mul_ne_zero hab (by positivity)) (mul_ne_zero hyq hp2)]
  rw [div_eq_div_iff (by positivity) hp2] at h
  rw [← hs]
  have hsq : ((y.m.sign : Int) : ℚ) * ((y.m.sign : Int) : ℚ) = 1 := by
    have : y.m.sign * y.m.sign = 1 := by
      rcases lt_or_gt_of_ne hy with h1 | h1
      · rw [Int.sign_eq_neg_one_of_neg h1]; norm_num
      · rw [Int.sign_eq_one_of_pos h1]; norm_num
    exact_mod_cast this
  calc (x.m : ℚ) * (y.m.sign : ℚ) * 2 ^ (x.e - y.e).toNat * ((y.m : ℚ) * 2 ^ y.e)
      = (x.m : ℚ) * (y.m.sign : ℚ) * (y.m : ℚ) * (2 ^ (x.e - y.e).toNat * 2 ^ y.e) := by ring
    _ = (x.m : ℚ) * (y.m.sign : ℚ) * (y.m : ℚ) * (2 ^ x.e * 2 ^ (y.e - x.e).toNat) := by rw [h]
    _ = (x.m : ℚ) * 2 ^ x.e * ((y.m.sign : ℚ) * (y.m : ℚ) * 2 ^ (y.e - x.e).toNat) := by ring

theorem f32_div_close (x y : F32) : rel_close 1 (f32_div x y).toRat (x.toRat / y.toRat) := by
  unfold f32_div
  by_cases hy : y.m = 0
  · rw [if_pos hy]
    simp [rel_close, F32.toRat, hy]
  · rw [if_neg hy, ← f32_div_exact x y hy]
    exact rel_close_round _ _ (Nat.mul_pos (Int.natAbs_pos.2 hy) (by positivity))

theorem f32_mul_exact (x y : F32) :
    ((x.m * y.m * 2 ^ (x.e + y.e).toNat : Int) : ℚ) / ((2 ^ (- (x.e + y.e)).toNat : Nat) : ℚ)
      = x.toRat * y.toRat := by
  have h := two_zpow_split_one (x.e + y.e)
  have h2 : (2 : ℚ) ≠ 0 := by norm_num
  simp only [F32.toRat]
  rw [zpow_add₀ h2] at h
  push_cast at h ⊢
  rw [mul_div_assoc, h]
  ring

theorem f32_mul_close (x y : F32) : rel_close 1 (f32_mul x y).toRat (x.toRat * y.toRat) := by
  unfold f32_mul
  rw [← f32_mul_exact x y]
  exact rel_close_round _ _ (by positivity)

theorem f32_add_exact (x y : F32) :
    (((x.m * 2 ^ (x.e - min x.e y.e).toNat + y.m * 2 ^ (y.e - min x.e y.e).toNat)
        * 2 ^ (min x.e y.e).toNat : Int) : ℚ) / ((2 ^ (- (min x.e y.e)).toNat : Nat) : ℚ)
      = x.toRat + y.toRat := by
  have h := two_zpow_split_one (min x.e y.e)
  have h2 : (2 : ℚ) ≠ 0 := by norm_num
  have hx : (((x.e - min x.e y.e).toNat : Nat) : Int) = x.e - min x.e y.e := by
    have := min_le_left x.e y.e
    omega
  have hy : (((y.e - min x.e y.e).toNat : Nat) : Int) = y.e - min x.e y.e := by
    have := min_le_right x.e y.e
    omega
  have ex : (2 : ℚ) ^ (x.e - min x.e y.e).toNat * (2 : ℚ) ^ (min x.e y.e) = (2 : ℚ) ^ x.e := by
    rw [← zpow_natCast, hx, ← zpow_add₀ h2]
    congr 1
    ring
  have ey : (2 : ℚ) ^ (y.e - min x.e y.e).toNat * (2 : ℚ) ^ (min x.e y.e) = (2 : ℚ) ^ y.e := by
    rw [← zpow_natCast, hy, ← zpow_add₀ h2]
    congr 1
    ring
  simp only [F32.toRat]
  push_cast at h ⊢
  rw [mul_div_assoc, h, add_mul, mul_assoc, mul_assoc, ex, ey]

theorem f32_add_close (x y : F32) : rel_close 1 (f32_add x y).toRat (x.toRat + y.toRat) := by
  unfold f32_add
  simp only
  rw [← f32_add_exact x y]
  exact rel_close_round _ _ (by positivity)
theorem F32_toRat_of_nonneg_exp (x : F32) (h : 0 ≤ x.e) :
    x.toRat = ((x.m * 2 ^ x.e.toNat : Int) : ℚ) := by
  have e1 : ((x.e.toNat : Nat) : Int) = x.e := Int.toNat_of_nonneg h
  simp only [F32.toRat]
  push_cast
  rw [← zpow_natCast, e1]

theorem F32_toRat_of_neg_exp (x : F32) (h : ¬ 0 ≤ x.e) :
    x.toRat = (x.m : ℚ) / (((2 : Int) ^ (- x.e).toNat : Int) : ℚ) := by
  have e1 : (((- x.e).toNat : Nat) : Int) = - x.e := Int.toNat_of_nonneg (by omega)
  have h2 : (2 : ℚ) ≠ 0 := by norm_num
  simp only [F32.toRat]
  push_cast
  rw [← zpow_natCast, e1, zpow_neg, div_eq_mul_inv, inv_inv]

theorem cvCeil_eq_ceil (x : F32) : cvCeil x = ⌈x.toRat⌉ := by
  unfold cvCeil
  split_ifs with h
  · rw [F32_toRat_of_nonneg_exp x h, Int.ceil_intCast]
  · rw [F32_toRat_of_neg_exp x h]
    have hp : (0 : Int) < (2 : Int) ^ (- x.e).toNat := by positivity
    have h1 := floor_div_int (- x.m) ((2 : Int) ^ (- x.e).toNat) hp
    have e : ((- x.m : Int) : ℚ) / (((2 : Int) ^ (- x.e).toNat : Int) : ℚ)
        = - ((x.m : ℚ) / (((2 : Int) ^ (- x.e).toNat : Int) : ℚ)) := by
      push_cast
      ring
    rw [e, Int.floor_neg] at h1
    omega

theorem uchar_of_float_eq (x : F32) :
    uchar_of_float x = if 0 ≤ x.toRat then ⌊x.toRat⌋ else ⌈x.toRat⌉ := by
  unfold uchar_of_float
  by_cases h : 0 ≤ x.e
  · rw [if_pos h, F32_toRat_of_nonneg_exp x h, Int.floor_intCast, Int.ceil_intCast]
    simp
  · rw [if_neg h, F32_toRat_of_neg_exp x h]
    have hp : (0 : Int) < (2 : Int) ^ (- x.e).toNat := by positivity
    have hpq : (0 : ℚ) < (((2 : Int) ^ (- x.e).toNat : Int) : ℚ) := by exact_mod_cast hp
    by_cases hm : 0 ≤ x.m
    · have hq : (0 : ℚ) ≤ (x.m : ℚ) / (((2 : Int) ^ (- x.e).toNat : Int) : ℚ) :=
        div_nonneg (by exact_mod_cast hm) hpq.le
      rw [if_pos hq, floor_div_int _ _ hp, Int.tdiv_eq_ediv hm hp.le]
    · have hmq : (x.m : ℚ) < 0 := by
        have : x.m < 0 := by omega
        exact_mod_cast this
      have hq : ¬ (0 : ℚ) ≤ (x.m : ℚ) / (((2 : Int) ^ (- x.e).toNat : Int) : ℚ) := by
        rw [not_le]
        exact div_neg_of_neg_of_pos hmq hpq
      rw [if_neg hq]
      have h1 := floor_div_int (- x.m) ((2 : Int) ^ (- x.e).toNat) hp
      have e : ((- x.m : Int) : ℚ) / (((2 : Int) ^ (- x.e).toNat : Int) : ℚ)
          = - ((x.m : ℚ) / (((2 : Int) ^ (- x.e).toNat : Int) : ℚ)) := by
        push_cast
        ring
      rw [e, Int.floor_neg] at h1
      have h2 : x.m.tdiv ((2 : Int) ^ (- x.e).toNat) = - ((- x.m) / (2 : Int) ^ (- x.e).toNat) := by
        have h3 : x.m = - (- x.m) := by ring
        rw [← Int.tdiv_eq_ediv (by omega) hp.le]
        conv_lhs => rw [h3]
        rw [Int.neg_tdiv]
      rw [h2]
      omega

theorem scaled_close (a b c : Int) :
    rel_close 10 (f32_mul (f32_div (f32_of_int a) (f32_of_int b)) (f32_of_int c)).toRat
      ((a : ℚ) / (b : ℚ) * (c : ℚ)) := by
  have h1 := rel_close_div 1 1 _ _ _ _ (f32_of_int_close a) (f32_of_int_close b)
    (by norm_num) (by norm_num)
  have h2 := rel_close_trans 1 4 _ _ _ (f32_div_close (f32_of_int a) (f32_of_int b)) h1
    (by norm_num)
  have h3 := rel_close_mul 6 1 _ _ _ _ h2 (f32_of_int_close c) (by norm_num)
  exact rel_close_trans 1 8 _ _ _ (f32_mul_close _ _) h3 (by norm_num)

theorem ceil_close_bounds (k : Nat) (Y : ℚ) (n d : Int) (hd : 0 < d) (hn : 0 ≤ n)
    (h : rel_close k Y ((n : ℚ) / (d : ℚ))) :
    (2 ^ 24 - (k : Int)) * n ≤ 2 ^ 24 * d * ⌈Y⌉
      ∧ 2 ^ 24 * d * ⌈Y⌉ < (2 ^ 24 + (k : Int)) * n + 2 ^ 24 * d := by
  have hdq : (0 : ℚ) < (d : ℚ) := by exact_mod_cast hd
  have hnq : (0 : ℚ) ≤ (n : ℚ) := by exact_mod_cast hn
  have hy : (0 : ℚ) ≤ (n : ℚ) / (d : ℚ) := div_nonneg hnq hdq.le
  unfold rel_close at h
  rw [abs_of_nonneg hy, abs_le] at h
  obtain ⟨h1, h2⟩ := h
  have c1 : Y ≤ (⌈Y⌉ : ℚ) := Int.le_ceil Y
  have c2 : (⌈Y⌉ : ℚ) < Y + 1 := Int.ceil_lt_add_one Y
  have e : (d : ℚ) * ((n : ℚ) / (d : ℚ)) = (n : ℚ) := by field_simp
  have e2 : (d : ℚ) * ((k : ℚ) / 2 ^ 24 * ((n : ℚ) / (d : ℚ))) = (k : ℚ) * (n : ℚ) / 2 ^ 24 := by
    field_simp
    ring
  have m1 : (d : ℚ) * (- ((k : ℚ) / 2 ^ 24 * ((n : ℚ) / (d : ℚ))))
      ≤ (d : ℚ) * (Y - (n : ℚ) / (d : ℚ)) := mul_le_mul_of_nonneg_left h1 hdq.le
  have m2 : (d : ℚ) * (Y - (n : ℚ) / (d : ℚ))
      ≤ (d : ℚ) * ((k : ℚ) / 2 ^ 24 * ((n : ℚ) / (d : ℚ))) := mul_le_mul_of_nonneg_left h2 hdq.le
  rw [mul_neg, e2] at m1
  rw [e2] at m2
  rw [mul_sub, e] at m1 m2
  have m3 : (d : ℚ) * Y ≤ (d : ℚ) * (⌈Y⌉ : ℚ) := mul_le_mul_of_nonneg_left c1 hdq.le
  have m4 : (d : ℚ) * (⌈Y⌉ : ℚ) < (d : ℚ) * (Y + 1) := mul_lt_mul_of_pos_left c2 hdq
  have e3 : (k : ℚ) * (n : ℚ) / 2 ^ 24 * 2 ^ 24 = (k : ℚ) * (n : ℚ) := by field_simp
  constructor
  · have : (((2 ^ 24 - (k : Int)) * n : Int) : ℚ) ≤ ((2 ^ 24 * d * ⌈Y⌉ : Int) : ℚ) := by
      push_cast
      nlinarith
    exact_mod_cast this
  · have : ((2 ^ 24 * d * ⌈Y⌉ : Int) : ℚ) < (((2 ^ 24 + (k : Int)) * n + 2 ^ 24 * d : Int) : ℚ) := by
      push_cast
      nlinarith
    exact_mod_cast this

theorem ceil_close_bounds_neg (k : Nat) (Y : ℚ) (n d : Int) (hd : 0 < d) (hn : n ≤ 0)
    (h : rel_close k Y ((n : ℚ) / (d : ℚ))) :
    (2 ^ 24 + (k : Int)) * n ≤ 2 ^ 24 * d * ⌈Y⌉
      ∧ 2 ^ 24 * d * ⌈Y⌉ < (2 ^ 24 - (k : Int)) * n + 2 ^ 24 * d := by
  have hdq : (0 : ℚ) < (d : ℚ) := by exact_mod_cast hd
  have hnq : (n : ℚ) ≤ 0 := by exact_mod_cast hn
  have hy : (n : ℚ) / (d : ℚ) ≤ 0 := div_nonpos_of_nonpos_of_nonneg hnq hdq.le
  unfold rel_close at h
  rw [abs_of_nonpos hy, abs_le] at h
  obtain ⟨h1, h2⟩ := h
  have c1 : Y ≤ (⌈Y⌉ : ℚ) := Int.le_ceil Y
  have c2 : (⌈Y⌉ : ℚ) < Y + 1 := Int.ceil_lt_add_one Y
  have e : (d : ℚ) * ((n : ℚ) / (d : ℚ)) = (n : ℚ) := by field_simp
  have e2 : (d : ℚ) * ((k : ℚ) / 2 ^ 24 * (- ((n : ℚ) / (d : ℚ))))
      = - ((k : ℚ) * (n : ℚ) / 2 ^ 24) := by
    field_simp
    ring
  have m1 : (d : ℚ) * (- ((k : ℚ) / 2 ^ 24 * (- ((n : ℚ) / (d : ℚ)))))
      ≤ (d : ℚ) * (Y - (n : ℚ) / (d : ℚ)) := mul_le_mul_of_nonneg_left h1 hdq.le
  have m2 : (d : ℚ) * (Y - (n : ℚ) / (d : ℚ))
      ≤ (d : ℚ) * ((k : ℚ) / 2 ^ 24 * (- ((n : ℚ) / (d : ℚ)))) :=
    mul_le_mul_of_nonneg_left h2 hdq.le
  rw [mul_neg, e2] at m1
  rw [e2] at m2
  rw [mul_sub, e] at m1 m2
  have m3 : (d : ℚ) * Y ≤ (d : ℚ) * (⌈Y⌉ : ℚ) := mul_le_mul_of_nonneg_left c1 hdq.le
  have m4 : (d : ℚ) * (⌈Y⌉ : ℚ) < (d : ℚ) * (Y + 1) := mul_lt_mul_of_pos_left c2 hdq
  have e3 : (k : ℚ) * (n : ℚ) / 2 ^ 24 * 2 ^ 24 = (k : ℚ) * (n : ℚ) := by field_simp
  constructor
  · have : (((2 ^ 24 + (k : Int)) * n : Int) : ℚ) ≤ ((2 ^ 24 * d * ⌈Y⌉ : Int) : ℚ) := by
      push_cast
      nlinarith
    exact_mod_cast this
  · have : ((2 ^ 24 * d * ⌈Y⌉ : Int) : ℚ) < (((2 ^ 24 - (k : Int)) * n + 2 ^ 24 * d : Int) : ℚ) := by
      push_cast
      nlinarith
    exact_mod_cast this

/-! ## The exact scalings and the rounding to a step -/

theorem spec_frame_of_pixel_bounds (m p : Int) :
    p * m ≤ 840 * spec_frame_of_pixel m p ∧ 840 * spec_frame_of_pixel m p < p * m + 840 := by
  have h := ceil_div_int_bounds (p * m) 840 (by norm_num)
  simpa [spec_frame_of_pixel, p_width] using h

theorem spec_pixel_of_frame_bounds (m f : Int) (hm : 0 < m) :
    f * 825 ≤ m * spec_pixel_of_frame m f ∧ m * spec_pixel_of_frame m f < f * 825 + m := by
  have h := ceil_div_int_bounds (f * 825) m hm
  simpa [spec_pixel_of_frame, p_width, sldr_btn_width] using h

theorem round_to_step_eq_ediv (k f : Int) (hk : 0 < k) (hf : 0 ≤ f) :
    round_to_step k f = k * (f / k) := by
  unfold round_to_step
  rw [Int.tmod_eq_emod hf hk.le, Int.tdiv_eq_ediv hf hk.le]
  split
  · rfl
  · rename_i h
    push_neg at h
    have := Int.emod_add_ediv f k
    omega

theorem round_to_step_eq_spec (k f : Int) (hk : 0 < k) (hf : 0 ≤ f) :
    round_to_step k f = spec_quantize k f := by
  rw [round_to_step_eq_ediv k f hk hf, spec_quantize, floor_div_int f k hk]

theorem round_to_step_bounds (k f : Int) (hk : 0 < k) (hf : 0 ≤ f) :
    0 ≤ round_to_step k f ∧ round_to_step k f ≤ f ∧ f - k < round_to_step k f := by
  rw [round_to_step_eq_ediv k f hk hf]
  have h1 := Int.emod_add_ediv f k
  have h2 := Int.emod_nonneg f hk.ne'
  have h3 := Int.emod_lt_of_pos f hk
  have h4 : 0 ≤ f / k := Int.ediv_nonneg hf hk.le
  have h5 : 0 ≤ k * (f / k) := Int.mul_nonneg hk.le h4
  omega

theorem round_to_step_of_dvd (k f : Int) (h : k ∣ f) : round_to_step k f = f := by
  unfold round_to_step
  obtain ⟨c, rfl⟩ := h
  simp [Int.mul_tmod_right]

theorem spec_frame_of_pixel_nonneg (m p : Int) (hm : 0 ≤ m) (hp : 0 ≤ p) :
    0 ≤ spec_frame_of_pixel m p := by
  have h := (spec_frame_of_pixel_bounds m p).1
  have : 0 ≤ p * m := Int.mul_nonneg hp hm
  omega

/-! ## `moveSlider`, evaluated -/

theorem moveSlider_mouse (pos : Int) (s : Player) (h : s.step_val ≠ 0) :
    moveSlider pos MOUSE_CALLBACK s =
      Except.ok
        ({ s with
            line := sprintf_d (round_to_step s.step_val (frame_of_pos s.sldr_maxval pos))
            cur_frame_no := [sprintf_d (round_to_step s.step_val (frame_of_pos s.sldr_maxval pos))]
            knob := new_pos_of_frame s.sldr_maxval (frame_of_pos s.sldr_maxval pos) },
          round_to_step s.step_val (frame_of_pos s.sldr_maxval pos)) := by
  simp [moveSlider, MOUSE_CALLBACK, OTHER_CALLS, h]

theorem moveSlider_other (pos : Int) (s : Player) (h : s.step_val ≠ 0) :
    moveSlider pos OTHER_CALLS s =
      Except.ok
        ({ s with
            line := sprintf_d (round_to_step s.step_val pos)
            cur_frame_no := [sprintf_d (round_to_step s.step_val pos)]
            knob := new_pos_of_frame s.sldr_maxval pos },
          round_to_step s.step_val pos) := by
  simp [moveSlider, MOUSE_CALLBACK, OTHER_CALLS, h]

theorem moveSlider_ok_iff (pos call_from : Int) (s : Player) (r : Player × Int) :
    moveSlider pos call_from s = Except.ok r →
      (call_from = MOUSE_CALLBACK ∨ call_from = OTHER_CALLS) ∧ s.step_val ≠ 0 := by
  intro h
  by_cases h0 : call_from = MOUSE_CALLBACK
  · by_cases hs : s.step_val = 0
    · simp [moveSlider, h0, MOUSE_CALLBACK, OTHER_CALLS, hs] at h
    · exact ⟨Or.inl h0, hs⟩
  · by_cases h1 : call_from = OTHER_CALLS
    · by_cases hs : s.step_val = 0
      · simp [moveSlider, h1, MOUSE_CALLBACK, OTHER_CALLS, hs] at h
      · exact ⟨Or.inr h1, hs⟩
    · simp [moveSlider, h0, h1] at h

/-! ## The two scalings in `float` -/

theorem p_width_eq : p_width = 840 := rfl

theorem frame_of_pos_eq_ceil (m pos : Int) :
    frame_of_pos m pos
      = ⌈(f32_mul (f32_div (f32_of_int m) (f32_of_int 840)) (f32_of_int pos)).toRat⌉ := by
  simp only [frame_of_pos, p_width_eq, cvCeil_eq_ceil]

theorem new_pos_of_frame_eq_ceil (m f : Int) :
    new_pos_of_frame m f
      = ⌈(f32_mul (f32_div (f32_of_int 825) (f32_of_int m)) (f32_of_int f)).toRat⌉ := by
  have e : p_width - sldr_btn_width = 825 := by decide
  simp only [new_pos_of_frame, e, cvCeil_eq_ceil]

/-- The frame `cvCeil( scale*pos )` differs from `pos * m / 840` by the
rounding of four `float` operations, ten units of `2 ^ (-24)` in all, and by
the ceiling. -/
theorem frame_of_pos_bounds (m pos : Int) (h : 0 ≤ pos * m) :
    16777206 * (pos * m) ≤ 16777216 * (840 * frame_of_pos m pos)
      ∧ 16777216 * (840 * frame_of_pos m pos) < 16777226 * (pos * m) + 16777216 * 840 := by
  have hc := scaled_close m 840 pos
  have e : (m : ℚ) / ((840 : Int) : ℚ) * (pos : ℚ) = ((pos * m : Int) : ℚ) / ((840 : Int) : ℚ) := by
    push_cast
    ring
  rw [e] at hc
  have hb := ceil_close_bounds 10 _ (pos * m) 840 (by norm_num) h hc
  rw [← frame_of_pos_eq_ceil] at hb
  obtain ⟨b1, b2⟩ := hb
  norm_num at b1 b2
  constructor <;> omega

/-- The knob offset `cvCeil( scale*frame_val )` differs from
`frame_val * 825 / m` by the rounding of four `float` operations and by the
ceiling. -/
theorem new_pos_of_frame_bounds (m f : Int) (hm : 0 < m) (hf : 0 ≤ f) :
    16777206 * (f * 825) ≤ 16777216 * (m * new_pos_of_frame m f)
      ∧ 16777216 * (m * new_pos_of_frame m f) < 16777226 * (f * 825) + 16777216 * m := by
  have hc := scaled_close 825 m f
  have e : ((825 : Int) : ℚ) / (m : ℚ) * (f : ℚ) = ((f * 825 : Int) : ℚ) / (m : ℚ) := by
    push_cast
    ring
  rw [e] at hc
  have hb := ceil_close_bounds 10 _ (f * 825) m hm (by omega) hc
  rw [← new_pos_of_frame_eq_ceil] at hb
  obtain ⟨b1, b2⟩ := hb
  norm_num at b1 b2
  rw [mul_assoc] at b1 b2
  constructor <;> omega

theorem new_pos_of_frame_bounds_neg (m f : Int) (hm : 0 < m) (hf : f ≤ 0) :
    16777226 * (f * 825) ≤ 16777216 * (m * new_pos_of_frame m f)
      ∧ 16777216 * (m * new_pos_of_frame m f) < 16777206 * (f * 825) + 16777216 * m := by
  have hc := scaled_close 825 m f
  have e : ((825 : Int) : ℚ) / (m : ℚ) * (f : ℚ) = ((f * 825 : Int) : ℚ) / (m : ℚ) := by
    push_cast
    ring
  rw [e] at hc
  have hb := ceil_close_bounds_neg 10 _ (f * 825) m hm (by omega) hc
  rw [← new_pos_of_frame_eq_ceil] at hb
  obtain ⟨b1, b2⟩ := hb
  norm_num at b1 b2
  rw [mul_assoc] at b1 b2
  constructor <;> omega

theorem frame_of_pos_nonneg (m pos : Int) (hm : 0 ≤ m) (hp : 0 ≤ pos) :
    0 ≤ frame_of_pos m pos := by
  have h := (frame_of_pos_bounds m pos (Int.mul_nonneg hp hm)).1
  have : 0 ≤ pos * m := Int.mul_nonneg hp hm
  omega

theorem frame_of_pos_zero (m : Int) : frame_of_pos m 0 = 0 := by
  have h := frame_of_pos_bounds m 0 (by simp)
  simp only [zero_mul, mul_zero] at h
  omega

theorem frame_of_pos_le_maxval (m x : Int) (hm : 1 ≤ m) (h0 : 0 ≤ x) (h1 : x < p_width) :
    frame_of_pos m x ≤ m := by
  have h := (frame_of_pos_bounds m x (Int.mul_nonneg h0 (by omega))).2
  have hx2 : x ≤ 839 := by simp only [p_width] at h1; omega
  have hmul : x * m ≤ 839 * m := Int.mul_le_mul_of_nonneg_right hx2 (by omega)
  omega

/-- For products `pos * m` below `2 ^ 24 / 10` the frame computed in `float`
is the exact ceiling or the integer above it. -/
theorem frame_of_pos_near_spec (m pos : Int) (h : 0 ≤ pos * m) (hs : 10 * (pos * m) < 16777216) :
    spec_frame_of_pixel m pos ≤ frame_of_pos m pos
      ∧ frame_of_pos m pos ≤ spec_frame_of_pixel m pos + 1 := by
  obtain ⟨a1, a2⟩ := frame_of_pos_bounds m pos h
  obtain ⟨b1, b2⟩ := spec_frame_of_pixel_bounds m pos
  constructor <;> omega

/-- For products `f * 825` below `2 ^ 24 / 10` the knob offset computed in
`float` is the exact ceiling or the integer above it. -/
theorem new_pos_of_frame_near_spec (m f : Int) (hm : 0 < m) (hf : 0 ≤ f)
    (hs : 10 * (f * 825) < 16777216) :
    spec_pixel_of_frame m f ≤ new_pos_of_frame m f
      ∧ new_pos_of_frame m f ≤ spec_pixel_of_frame m f + 1 := by
  obtain ⟨a1, a2⟩ := new_pos_of_frame_bounds m f hm hf
  obtain ⟨b1, b2⟩ := spec_pixel_of_frame_bounds m f hm
  constructor
  · have h1 : m * spec_pixel_of_frame m f < m * (new_pos_of_frame m f + 1) := by
      rw [mul_add, mul_one]
      omega
    have h2 := lt_of_mul_lt_mul_left h1 hm.le
    omega
  · have h1 : m * new_pos_of_frame m f < m * (spec_pixel_of_frame m f + 2) := by
      rw [mul_add]
      omega
    have h2 := lt_of_mul_lt_mul_left h1 hm.le
    omega

/-! ## Slider model: what `moveSlider` returns, shows and draws -/

/-- C1, as stated, fails: with 7 frames and step 1 the pointer at `x = 360`
makes `moveSlider` return frame 4, whereas
`step_val * floor(ceil(pos * sldr_maxval / p_width) / step_val)` is 3: the
`float` quotient `7 / 840` is rounded up, so `scale * 360` lies above 3. -/
theorem moveSlider_mouse_float_scale_overshoots :
    1 ≤ (player_at 0 7 1 0).sldr_maxval ∧ 1 ≤ (player_at 0 7 1 0).step_val ∧ (0 : Int) ≤ 360 ∧
    spec_quantize (player_at 0 7 1 0).step_val
        (spec_frame_of_pixel (player_at 0 7 1 0).sldr_maxval 360) = 3 ∧
    ∃ s1, moveSlider 360 MOUSE_CALLBACK (player_at 0 7 1 0) = Except.ok (s1, 4) := by
  have e1 : (player_at 0 7 1 0).sldr_maxval = 7 := rfl
  have e2 : (player_at 0 7 1 0).step_val = 1 := rfl
  have h3 : spec_frame_of_pixel 7 360 = 3 := by
    have h := spec_frame_of_pixel_bounds 7 360
    omega
  have h4 : round_to_step 1 (frame_of_pos 7 360) = 4 := by decide
  refine ⟨by decide, by decide, by decide, ?_, ?_⟩
  · rw [e1, e2, h3, ← round_to_step_eq_spec 1 3 (by decide) (by decide)]
    decide
  · rw [moveSlider_mouse _ _ (by decide), e1, e2, h4]
    exact ⟨_, rfl⟩

/-- C1, amended: for `sldr_maxval ≥ 1`, `step_val ≥ 1` and `pos ≥ 0`, a mouse
call of `moveSlider` returns `step_val * floor(c / step_val)` where
`c = cvCeil( scale*pos )` is computed in `float`; `c` satisfies
`(1 - 10 * 2^-24) * pos * sldr_maxval ≤ p_width * c
  < (1 + 10 * 2^-24) * pos * sldr_maxval + p_width`,
and for `10 * pos * sldr_maxval < 2^24` it is
`ceil(pos * sldr_maxval / p_width)` or that value plus one.  A non-mouse call
returns `step_val * floor(pos / step_val)`, and every value `moveSlider`
returns is a multiple of `step_val`. -/
theorem moveSlider_returns_quantized_frame (s : Player) (pos : Int)
    (hmax : 1 ≤ s.sldr_maxval) (hstep : 1 ≤ s.step_val) (hpos : 0 ≤ pos) :
    (∃ s1, moveSlider pos MOUSE_CALLBACK s =
        Except.ok (s1, spec_quantize s.step_val (frame_of_pos s.sldr_maxval pos))) ∧
    (16777206 * (pos * s.sldr_maxval) ≤ 16777216 * (p_width * frame_of_pos s.sldr_maxval pos)
      ∧ 16777216 * (p_width * frame_of_pos s.sldr_maxval pos)
          < 16777226 * (pos * s.sldr_maxval) + 16777216 * p_width) ∧
    (10 * (pos * s.sldr_maxval) < 16777216 →
      spec_frame_of_pixel s.sldr_maxval pos ≤ frame_of_pos s.sldr_maxval pos
        ∧ frame_of_pos s.sldr_maxval pos ≤ spec_frame_of_pixel s.sldr_maxval pos + 1) ∧
    (∃ s2, moveSlider pos OTHER_CALLS s = Except.ok (s2, spec_quantize s.step_val pos)) ∧
    (∀ call_from s3 F, moveSlider pos call_from s = Except.ok (s3, F) → s.step_val ∣ F) := by
  have hk : 0 < s.step_val := by omega
  have hk0 : s.step_val ≠ 0 := by omega
  have hpm : 0 ≤ pos * s.sldr_maxval := Int.mul_nonneg hpos (by omega)
  have hf0 : 0 ≤ frame_of_pos s.sldr_maxval pos := frame_of_pos_nonneg _ _ (by omega) hpos
  refine ⟨?_, ?_, ?_, ?_, ?_⟩
  · rw [moveSlider_mouse pos s hk0, round_to_step_eq_spec _ _ hk hf0]
    exact ⟨_, rfl⟩
  · exact frame_of_pos_bounds _ _ hpm
  · intro hs
    exact frame_of_pos_near_spec _ _ hpm hs
  · rw [moveSlider_other pos s hk0, round_to_step_eq_spec _ _ hk hpos]
    exact ⟨_, rfl⟩
  · intro call_from s3 F h
    rcases (moveSlider_ok_iff pos call_from s (s3, F) h).1 with hc | hc
    · subst hc
      rw [moveSlider_mouse pos s hk0] at h
      injection h with h
      injection h with _ hF
      rw [← hF, round_to_step_eq_ediv _ _ hk hf0]
      exact Dvd.intro _ rfl
    · subst hc
      rw [moveSlider_other pos s hk0] at h
      injection h with h
      injection h with _ hF
      rw [← hF, round_to_step_eq_ediv _ _ hk hpos]
      exact Dvd.intro _ rfl

/-- Witness of the amended C1: 100 frames, step 7, position 10. -/
theorem moveSlider_returns_quantized_frame_witness :
    (1 ≤ (player_at 0 100 7 0).sldr_maxval ∧ 1 ≤ (player_at 0 100 7 0).step_val
      ∧ (0 : Int) ≤ 10) ∧
    ((∃ s1, moveSlider 10 MOUSE_CALLBACK (player_at 0 100 7 0) =
        Except.ok (s1, spec_quantize (player_at 0 100 7 0).step_val
          (frame_of_pos (player_at 0 100 7 0).sldr_maxval 10))) ∧
     (16777206 * (10 * (player_at 0 100 7 0).sldr_maxval)
          ≤ 16777216 * (p_width * frame_of_pos (player_at 0 100 7 0).sldr_maxval 10)
        ∧ 16777216 * (p_width * frame_of_pos (player_at 0 100 7 0).sldr_maxval 10)
            < 16777226 * (10 * (player_at 0 100 7 0).sldr_maxval) + 16777216 * p_width) ∧
     (10 * (10 * (player_at 0 100 7 0).sldr_maxval) < 16777216 →
        spec_frame_of_pixel (player_at 0 100 7 0).sldr_maxval 10
            ≤ frame_of_pos (player_at 0 100 7 0).sldr_maxval 10
          ∧ frame_of_pos (player_at 0 100 7 0).sldr_maxval 10
            ≤ spec_frame_of_pixel (player_at 0 100 7 0).sldr_maxval 10 + 1) ∧
     (∃ s2, moveSlider 10 OTHER_CALLS (player_at 0 100 7 0) =
        Except.ok (s2, spec_quantize (player_at 0 100 7 0).step_val 10)) ∧
     (∀ call_from s3 F, moveSlider 10 call_from (player_at 0 100 7 0) = Except.ok (s3, F) →
        (player_at 0 100 7 0).step_val ∣ F)) :=
  ⟨⟨by decide, by decide, by decide⟩,
    moveSlider_returns_quantized_frame (player_at 0 100 7 0) 10
      (by decide) (by decide) (by decide)⟩

/-- C2, as stated, fails: with 100 frames and step 1 the pointer at `x = 839`
makes `moveSlider` show and return frame 100, which is not in `[0, 99]`. -/
theorem moveSlider_mouse_reaches_maxval :
    (0 : Int) ≤ 839 ∧ (839 : Int) < p_width ∧ 1 ≤ (player_at 0 100 1 0).sldr_maxval
      ∧ 1 ≤ (player_at 0 100 1 0).step_val ∧
    ∃ s1, moveSlider 839 MOUSE_CALLBACK (player_at 0 100 1 0) = Except.ok (s1, 100)
      ∧ s1.cur_frame_no = [sprintf_d 100]
      ∧ ¬ (100 ≤ (player_at 0 100 1 0).sldr_maxval - 1) := by
  have h839 : frame_of_pos 100 839 = 100 := by decide
  have e1 : (player_at 0 100 1 0).sldr_maxval = 100 := rfl
  have e2 : (player_at 0 100 1 0).step_val = 1 := rfl
  have e3 : round_to_step 1 100 = 100 := by decide
  refine ⟨by decide, by decide, by decide, by decide, ?_⟩
  rw [moveSlider_mouse _ _ (by decide), e1, e2, h839, e3]
  exact ⟨_, rfl, rfl, by decide⟩

/-- C2, amended: for a pointer `0 ≤ x < p_width`, `sldr_maxval ≥ 1` and
`step_val ≥ 1`, the frame index a mouse call of `moveSlider` writes to the
current-frame field and returns is a non-negative multiple of `step_val` in
`[0, sldr_maxval]`. -/
theorem moveSlider_mouse_frame_range (s : Player) (x : Int)
    (hx0 : 0 ≤ x) (hx : x < p_width) (hmax : 1 ≤ s.sldr_maxval) (hstep : 1 ≤ s.step_val) :
    ∃ s1 F, moveSlider x MOUSE_CALLBACK s = Except.ok (s1, F)
      ∧ s1.cur_frame_no = [sprintf_d F]
      ∧ s.step_val ∣ F ∧ 0 ≤ F ∧ F ≤ s.sldr_maxval := by
  have hk : 0 < s.step_val := by omega
  have hk0 : s.step_val ≠ 0 := by omega
  have hf0 : 0 ≤ frame_of_pos s.sldr_maxval x := frame_of_pos_nonneg _ _ (by omega) hx0
  have hf1 := frame_of_pos_le_maxval s.sldr_maxval x hmax hx0 hx
  have hr := round_to_step_bounds s.step_val _ hk hf0
  refine ⟨_, _, moveSlider_mouse x s hk0, rfl, ?_, hr.1, ?_⟩
  · rw [round_to_step_eq_ediv _ _ hk hf0]
    exact Dvd.intro _ rfl
  · omega

/-- Witness of the amended C2: 100 frames, step 7, pointer at 500. -/
theorem moveSlider_mouse_frame_range_witness :
    ((0 : Int) ≤ 500 ∧ (500 : Int) < p_width ∧ 1 ≤ (player_at 0 100 7 0).sldr_maxval
      ∧ 1 ≤ (player_at 0 100 7 0).step_val) ∧
    ∃ s1 F, moveSlider 500 MOUSE_CALLBACK (player_at 0 100 7 0) = Except.ok (s1, F)
      ∧ s1.cur_frame_no = [sprintf_d F]
      ∧ (player_at 0 100 7 0).step_val ∣ F ∧ 0 ≤ F ∧ F ≤ (player_at 0 100 7 0).sldr_maxval :=
  ⟨⟨by decide, by decide, by decide, by decide⟩,
    moveSlider_mouse_frame_range (player_at 0 100 7 0) 500
      (by decide) (by decide) (by decide) (by decide)⟩

/-- C3, as stated, fails in two ways.  With 100 frames and step 7,
`moveSlider( 10, OTHER_CALLS )` shows and returns frame 7 but draws the knob at
offset 83, the offset of the unrounded frame 10, whereas frame 7 corresponds to
offset 58.  With 41 frames and step 1, `moveSlider( 41, OTHER_CALLS )` shows
and returns frame 41 and draws the knob at offset 826, whereas
`ceil(41 * 825 / 41)` is 825: the `float` quotient `825 / 41` is rounded up. -/
theorem moveSlider_knob_ignores_rounding :
    (1 ≤ (player_at 0 100 7 0).sldr_maxval ∧ 1 ≤ (player_at 0 100 7 0).step_val ∧
      ∃ s1, moveSlider 10 OTHER_CALLS (player_at 0 100 7 0) = Except.ok (s1, 7)
        ∧ s1.cur_frame_no = [sprintf_d 7]
        ∧ s1.knob = 83
        ∧ spec_pixel_of_frame (player_at 0 100 7 0).sldr_maxval 7 = 58
        ∧ s1.knob ≠ spec_pixel_of_frame (player_at 0 100 7 0).sldr_maxval 7) ∧
    (1 ≤ (player_at 0 41 1 0).sldr_maxval ∧ 1 ≤ (player_at 0 41 1 0).step_val ∧
      ∃ s1, moveSlider 41 OTHER_CALLS (player_at 0 41 1 0) = Except.ok (s1, 41)
        ∧ s1.cur_frame_no = [sprintf_d 41]
        ∧ s1.knob = 826
        ∧ spec_pixel_of_frame (player_at 0 41 1 0).sldr_maxval 41 = 825
        ∧ s1.knob ≠ spec_pixel_of_frame (player_at 0 41 1 0).sldr_maxval 41) := by
  constructor
  · have e1 : (player_at 0 100 7 0).sldr_maxval = 100 := rfl
    have e2 : (player_at 0 100 7 0).step_val = 7 := rfl
    have e3 : round_to_step 7 10 = 7 := by decide
    have h83 : new_pos_of_frame 100 10 = 83 := by decide
    have h58 : spec_pixel_of_frame 100 7 = 58 := by
      have h := spec_pixel_of_frame_bounds 100 7 (by decide)
      omega
    refine ⟨by decide, by decide, ?_⟩
    rw [moveSlider_other _ _ (by decide), e1, e2, e3, h58]
    refine ⟨_, rfl, rfl, h83, rfl, ?_⟩
    show new_pos_of_frame 100 10 ≠ 58
    rw [h83]
    decide
  · have e1 : (player_at 0 41 1 0).sldr_maxval = 41 := rfl
    have e2 : (player_at 0 41 1 0).step_val = 1 := rfl
    have e3 : round_to_step 1 41 = 41 := by decide
    have h826 : new_pos_of_frame 41 41 = 826 := by decide
    have h825 : spec_pixel_of_frame 41 41 = 825 := by
      have h := spec_pixel_of_frame_bounds 41 41 (by decide)
      omega
    refine ⟨by decide, by decide, ?_⟩
    rw [moveSlider_other _ _ (by decide), e1, e2, e3, h825]
    refine ⟨_, rfl, rfl, h826, rfl, ?_⟩
    show new_pos_of_frame 41 41 ≠ 825
    rw [h826]
    decide

/-- C3, amended: for a call of `moveSlider` in one of its two modes, with
`sldr_maxval ≥ 1` and `step_val ≥ 1`, the knob is drawn at the offset
`q = cvCeil( scale*f0 )` computed in `float` from `f0`, the frame index before
it is rounded to a multiple of `step_val` (`pos` itself for `OTHER_CALLS`,
`cvCeil( scale*pos )` for `MOUSE_CALLBACK`).  For `f0 ≥ 0` the offset satisfies
`(1 - 10 * 2^-24) * f0 * 825 ≤ sldr_maxval * q < (1 + 10 * 2^-24) * f0 * 825 + sldr_maxval`,
and for `10 * f0 * 825 < 2^24` it is `ceil(f0 * 825 / sldr_maxval)` or that
value plus one.  When `f0` is already a multiple of `step_val`, `f0` is the
frame `F` that the call shows and returns. -/
theorem moveSlider_knob_of_unrounded_frame (s : Player) (pos call_from : Int)
    (hc : call_from = MOUSE_CALLBACK ∨ call_from = OTHER_CALLS)
    (hmax : 1 ≤ s.sldr_maxval) (hstep : 1 ≤ s.step_val) :
    ∃ s1 F f0, moveSlider pos call_from s = Except.ok (s1, F)
      ∧ f0 = (if call_from = MOUSE_CALLBACK then frame_of_pos s.sldr_maxval pos else pos)
      ∧ s1.cur_frame_no = [sprintf_d F]
      ∧ s1.knob = new_pos_of_frame s.sldr_maxval f0
      ∧ (0 ≤ f0 →
          16777206 * (f0 * 825) ≤ 16777216 * (s.sldr_maxval * s1.knob)
            ∧ 16777216 * (s.sldr_maxval * s1.knob)
                < 16777226 * (f0 * 825) + 16777216 * s.sldr_maxval)
      ∧ (0 ≤ f0 → 10 * (f0 * 825) < 16777216 →
          spec_pixel_of_frame s.sldr_maxval f0 ≤ s1.knob
            ∧ s1.knob ≤ spec_pixel_of_frame s.sldr_maxval f0 + 1)
      ∧ (s.step_val ∣ f0 → F = f0) := by
  have hk0 : s.step_val ≠ 0 := by omega
  have hm : 0 < s.sldr_maxval := by omega
  rcases hc with hc | hc
  · subst hc
    refine ⟨_, _, _, moveSlider_mouse pos s hk0, rfl, rfl, ?_, ?_, ?_, ?_⟩
    · simp
    · intro h0
      simp only [if_true] at h0 ⊢
      exact new_pos_of_frame_bounds _ _ hm h0
    · intro h0 hs
      simp only [if_true] at h0 hs ⊢
      exact new_pos_of_frame_near_spec _ _ hm h0 hs
    · intro hd
      simp only [if_true] at hd ⊢
      exact round_to_step_of_dvd _ _ hd
  · subst hc
    have hne : ¬ (OTHER_CALLS = MOUSE_CALLBACK) := by decide
    refine ⟨_, _, _, moveSlider_other pos s hk0, rfl, rfl, ?_, ?_, ?_, ?_⟩
    · simp [hne]
    · intro h0
      simp only [hne, if_false] at h0 ⊢
      exact new_pos_of_frame_bounds _ _ hm h0
    · intro h0 hs
      simp only [hne, if_false] at h0 hs ⊢
      exact new_pos_of_frame_near_spec _ _ hm h0 hs
    · intro hd
      simp only [hne, if_false] at hd ⊢
      exact round_to_step_of_dvd _ _ hd

/-- Witness of the amended C3: 100 frames, step 7, a non-mouse call at 10. -/
theorem moveSlider_knob_of_unrounded_frame_witness :
    ((OTHER_CALLS = MOUSE_CALLBACK ∨ OTHER_CALLS = OTHER_CALLS)
      ∧ 1 ≤ (player_at 0 100 7 0).sldr_maxval ∧ 1 ≤ (player_at 0 100 7 0).step_val) ∧
    ∃ s1 F f0, moveSlider 10 OTHER_CALLS (player_at 0 100 7 0) = Except.ok (s1, F)
      ∧ f0 = (if OTHER_CALLS = MOUSE_CALLBACK
            then frame_of_pos (player_at 0 100 7 0).sldr_maxval 10 else 10)
      ∧ s1.cur_frame_no = [sprintf_d F]
      ∧ s1.knob = new_pos_of_frame (player_at 0 100 7 0).sldr_maxval f0
      ∧ (0 ≤ f0 →
          16777206 * (f0 * 825) ≤ 16777216 * ((player_at 0 100 7 0).sldr_maxval * s1.knob)
            ∧ 16777216 * ((player_at 0 100 7 0).sldr_maxval * s1.knob)
                < 16777226 * (f0 * 825) + 16777216 * (player_at 0 100 7 0).sldr_maxval)
      ∧ (0 ≤ f0 → 10 * (f0 * 825) < 16777216 →
          spec_pixel_of_frame (player_at 0 100 7 0).sldr_maxval f0 ≤ s1.knob
            ∧ s1.knob ≤ spec_pixel_of_frame (player_at 0 100 7 0).sldr_maxval f0 + 1)
      ∧ ((player_at 0 100 7 0).step_val ∣ f0 → F = f0) :=
  ⟨⟨Or.inr rfl, by decide, by decide⟩,
    moveSlider_knob_of_unrounded_frame (player_at 0 100 7 0) 10 OTHER_CALLS
      (Or.inr rfl) (by decide) (by decide)⟩

/-- C4, as stated, fails: with 10 frames and step 1, pixel 1 maps to frame 1
and frame 1 maps back to pixel 83, which is 82 pixels away from pixel 1. -/
theorem slider_round_trip_drifts :
    (0 : Int) ≤ 1 ∧ (1 : Int) < p_width ∧ 1 ≤ (player_at 0 10 1 0).sldr_maxval
      ∧ 1 ≤ (player_at 0 10 1 0).step_val ∧
    ∃ s1 s2, moveSlider 1 MOUSE_CALLBACK (player_at 0 10 1 0) = Except.ok (s1, 1)
      ∧ moveSlider 1 OTHER_CALLS s1 = Except.ok (s2, 1)
      ∧ s2.knob = 83
      ∧ ¬ (|s2.knob - 1| ≤ sldr_btn_width) := by
  have e1 : (player_at 0 10 1 0).sldr_maxval = 10 := rfl
  have e2 : (player_at 0 10 1 0).step_val = 1 := rfl
  have e3 : round_to_step 1 1 = 1 := by decide
  have h1 : frame_of_pos 10 1 = 1 := by decide
  have h83 : new_pos_of_frame 10 1 = 83 := by decide
  have hA := moveSlider_mouse 1 (player_at 0 10 1 0) (by decide)
  rw [e1, e2, h1, e3] at hA
  have hB := moveSlider_other 1
    { player_at 0 10 1 0 with
      line := sprintf_d 1, cur_frame_no := [sprintf_d 1], knob := new_pos_of_frame 10 1 }
    (by decide)
  have e4 : round_to_step (player_at 0 10 1 0).step_val 1 = 1 := by decide
  simp only [e1, e4] at hB
  refine ⟨by decide, by decide, by decide, by decide, _, _, hA, hB, h83, ?_⟩
  show ¬ (|new_pos_of_frame 10 1 - 1| ≤ sldr_btn_width)
  rw [h83]
  decide

/-- C4, amended: for a pixel `0 ≤ p < 840`, `max_frame ≥ 1` and `step ≥ 1`,
mapping `p` to a frame by a mouse call and that frame back to a pixel `q` gives
`max_frame * (p - q) < 15 * max_frame + 825 * (step - 1)` and
`max_frame * (q - p) < max_frame + 825`; hence `|q - p| ≤ 15` whenever
`max_frame ≥ 55` and `825 * (step - 1) ≤ max_frame` (for instance `step = 1`). -/
theorem slider_round_trip_drift_bound (s : Player) (p : Int)
    (hp0 : 0 ≤ p) (hp : p < p_width) (hmax : 1 ≤ s.sldr_maxval) (hstep : 1 ≤ s.step_val) :
    ∃ s1 F s2 F2, moveSlider p MOUSE_CALLBACK s = Except.ok (s1, F)
      ∧ moveSlider F OTHER_CALLS s1 = Except.ok (s2, F2)
      ∧ s.sldr_maxval * (p - s2.knob) < 15 * s.sldr_maxval + 825 * (s.step_val - 1)
      ∧ s.sldr_maxval * (s2.knob - p) < s.sldr_maxval + 825
      ∧ (55 ≤ s.sldr_maxval → 825 * (s.step_val - 1) ≤ s.sldr_maxval →
          |s2.knob - p| ≤ sldr_btn_width) := by
  have hk : 0 < s.step_val := by omega
  have hk0 : s.step_val ≠ 0 := by omega
  have hm : 0 < s.sldr_maxval := by omega
  have hp2 : p ≤ 839 := by simp only [p_width] at hp; omega
  have hpm : 0 ≤ p * s.sldr_maxval := Int.mul_nonneg hp0 (by omega)
  have hpm2 : p * s.sldr_maxval ≤ 839 * s.sldr_maxval :=
    Int.mul_le_mul_of_nonneg_right hp2 (by omega)
  have hb := frame_of_pos_bounds s.sldr_maxval p hpm
  have hf0 : 0 ≤ frame_of_pos s.sldr_maxval p := frame_of_pos_nonneg _ _ (by omega) hp0
  have hr := round_to_step_bounds s.step_val _ hk hf0
  have hq := new_pos_of_frame_bounds s.sldr_maxval
    (round_to_step s.step_val (frame_of_pos s.sldr_maxval p)) hm hr.1
  have key1 : s.sldr_maxval *
      (p - new_pos_of_frame s.sldr_maxval
        (round_to_step s.step_val (frame_of_pos s.sldr_maxval p)))
      < 15 * s.sldr_maxval + 825 * (s.step_val - 1) := by
    rw [Int.mul_sub, Int.mul_comm s.sldr_maxval p]
    omega
  have key2 : s.sldr_maxval *
      (new_pos_of_frame s.sldr_maxval
        (round_to_step s.step_val (frame_of_pos s.sldr_maxval p)) - p)
      < s.sldr_maxval + 825 := by
    rw [Int.mul_sub, Int.mul_comm s.sldr_maxval p]
    by_cases hz : p = 0
    · subst hz
      rw [frame_of_pos_zero] at hq
      have e0 : round_to_step s.step_val 0 = 0 := round_to_step_of_dvd _ _ (dvd_zero _)
      rw [e0] at hq
      rw [frame_of_pos_zero, e0]
      omega
    · have hp1 : 1 ≤ p := by omega
      have hpm3 : 1 * s.sldr_maxval ≤ p * s.sldr_maxval :=
        Int.mul_le_mul_of_nonneg_right hp1 (by omega)
      omega
  have e5 : (({ s with
      line := sprintf_d (round_to_step s.step_val (frame_of_pos s.sldr_maxval p))
      cur_frame_no := [sprintf_d (round_to_step s.step_val (frame_of_pos s.sldr_maxval p))]
      knob := new_pos_of_frame s.sldr_maxval (frame_of_pos s.sldr_maxval p) } : Player)).step_val
      ≠ 0 := hk0
  refine ⟨_, _, _, _, moveSlider_mouse p s hk0, moveSlider_other _ _ e5, ?_, ?_, ?_⟩
  · exact key1
  · exact key2
  · intro h55 h825
    have k1 : s.sldr_maxval *
        (p - new_pos_of_frame s.sldr_maxval
          (round_to_step s.step_val (frame_of_pos s.sldr_maxval p)))
        < s.sldr_maxval * 16 := by omega
    have k2 : s.sldr_maxval *
        (new_pos_of_frame s.sldr_maxval
          (round_to_step s.step_val (frame_of_pos s.sldr_maxval p)) - p)
        < s.sldr_maxval * 16 := by omega
    have k3 := lt_of_mul_lt_mul_left k1 hm.le
    have k4 := lt_of_mul_lt_mul_left k2 hm.le
    show |new_pos_of_frame s.sldr_maxval
      (round_to_step s.step_val (frame_of_pos s.sldr_maxval p)) - p| ≤ sldr_btn_width
    simp only [sldr_btn_width, abs_le]
    constructor <;> omega

/-- Witness of the amended C4: 100 frames, step 1, pixel 500. -/
theorem slider_round_trip_drift_bound_witness :
    ((0 : Int) ≤ 500 ∧ (500 : Int) < p_width ∧ 1 ≤ (player_at 0 100 1 0).sldr_maxval
      ∧ 1 ≤ (player_at 0 100 1 0).step_val) ∧
    ∃ s1 F s2 F2, moveSlider 500 MOUSE_CALLBACK (player_at 0 100 1 0) = Except.ok (s1, F)
      ∧ moveSlider F OTHER_CALLS s1 = Except.ok (s2, F2)
      ∧ (player_at 0 100 1 0).sldr_maxval * (500 - s2.knob)
          < 15 * (player_at 0 100 1 0).sldr_maxval + 825 * ((player_at 0 100 1 0).step_val - 1)
      ∧ (player_at 0 100 1 0).sldr_maxval * (s2.knob - 500)
          < (player_at 0 100 1 0).sldr_maxval + 825
      ∧ (55 ≤ (player_at 0 100 1 0).sldr_maxval →
          825 * ((player_at 0 100 1 0).step_val - 1) ≤ (player_at 0 100 1 0).sldr_maxval →
          |s2.knob - 500| ≤ sldr_btn_width) :=
  ⟨⟨by decide, by decide, by decide, by decide⟩,
    slider_round_trip_drift_bound (player_at 0 100 1 0) 500
      (by decide) (by decide) (by decide) (by decide)⟩

/-! ## Pointer dispatch on the buttons -/

theorem stepup_hit_only (x y : Int) (h : in_area stepup_btn_area x y = true) :
    on_slider y = false ∧ in_area play_pause_btn_area x y = false
      ∧ in_area stop_btn_area x y = false ∧ in_area stepdown_btn_area x y = false
      ∧ in_area step_edit_area x y = false := by
  simp only [in_area, on_slider, stepup_btn_area, play_pause_btn_area, stop_btn_area,
    stepdown_btn_area, step_edit_area, area_of, p_height, scrn_height, sldr_height,
    ctrl_pnl_height, Bool.and_eq_true, decide_eq_true_eq, Bool.and_eq_false_iff,
    decide_eq_false_iff_not] at h ⊢
  omega

theorem stepdown_hit_only (x y : Int) (h : in_area stepdown_btn_area x y = true) :
    on_slider y = false ∧ in_area play_pause_btn_area x y = false
      ∧ in_area stop_btn_area x y = false ∧ in_area stepup_btn_area x y = false
      ∧ in_area step_edit_area x y = false := by
  simp only [in_area, on_slider, stepup_btn_area, play_pause_btn_area, stop_btn_area,
    stepdown_btn_area, step_edit_area, area_of, p_height, scrn_height, sldr_height,
    ctrl_pnl_height, Bool.and_eq_true, decide_eq_true_eq, Bool.and_eq_false_iff,
    decide_eq_false_iff_not] at h ⊢
  omega

theorem step_edit_hit_only (x y : Int) (h : in_area step_edit_area x y = true) :
    on_slider y = false ∧ in_area play_pause_btn_area x y = false
      ∧ in_area stop_btn_area x y = false ∧ in_area stepup_btn_area x y = false
      ∧ in_area stepdown_btn_area x y = false := by
  simp only [in_area, on_slider, stepup_btn_area, play_pause_btn_area, stop_btn_area,
    stepdown_btn_area, step_edit_area, area_of, p_height, scrn_height, sldr_height,
    ctrl_pnl_height, Bool.and_eq_true, decide_eq_true_eq, Bool.and_eq_false_iff,
    decide_eq_false_iff_not] at h ⊢
  omega

theorem lbutton_down_stepup (x y : Int) (s : Player)
    (h : in_area stepup_btn_area x y = true) :
    my_mouse_callback CV_EVENT_LBUTTONDOWN x y s =
      Except.ok (stepup_press (resetAllEdits { s with sldr_moving := true })) := by
  obtain ⟨h1, h2, h3, h4, h5⟩ := stepup_hit_only x y h
  simp [my_mouse_callback, CV_EVENT_LBUTTONDOWN, CV_EVENT_MOUSEMOVE, lbutton_down,
    h, h1, h2, h3, h4, h5]

theorem lbutton_down_stepdown (x y : Int) (s : Player)
    (h : in_area stepdown_btn_area x y = true) :
    my_mouse_callback CV_EVENT_LBUTTONDOWN x y s =
      stepdown_press (resetAllEdits { s with sldr_moving := true }) := by
  obtain ⟨h1, h2, h3, h4, h5⟩ := stepdown_hit_only x y h
  simp only [my_mouse_callback, CV_EVENT_LBUTTONDOWN, CV_EVENT_MOUSEMOVE, lbutton_down,
    h, h1, h2, h3, h4, h5]
  simp
  cases stepdown_press (resetAllEdits { s with sldr_moving := true }) <;> rfl

theorem lbutton_down_step_edit (x y : Int) (s : Player)
    (h : in_area step_edit_area x y = true) :
    my_mouse_callback CV_EVENT_LBUTTONDOWN x y s =
      Except.ok (step_edit_press (resetAllEdits { s with sldr_moving := true })) := by
  obtain ⟨h1, h2, h3, h4, h5⟩ := step_edit_hit_only x y h
  simp [my_mouse_callback, CV_EVENT_LBUTTONDOWN, CV_EVENT_MOUSEMOVE, lbutton_down,
    h, h1, h2, h3, h4, h5]

/-! ## Step-up and step-down presses -/

theorem skip_frames_in_range (n : Nat) (v : VideoSource)
    (h : v.pos + (n : Int) ≤ v.frame_count) :
    skip_frames n v = { v with pos := v.pos + (n : Int), reads := v.reads + n } := by
  induction n generalizing v with
  | zero => simp [skip_frames]
  | succ n ih =>
    have hlt : v.pos < v.frame_count := by push_cast at h; omega
    have hq : (cvQueryFrame v).1 = { v with pos := v.pos + 1, reads := v.reads + 1 } := by
      simp [cvQueryFrame, hlt]
    rw [skip_frames, hq, ih]
    · simp only [VideoSource.mk.injEq, true_and]
      push_cast
      constructor <;> omega
    · show v.pos + 1 + (n : Int) ≤ v.frame_count
      push_cast at h
      omega

theorem stepup_press_vid (s : Player) (hstep : 1 ≤ s.step_val)
    (hcount : s.vid.frame_count = s.sldr_maxval) :
    (stepup_press s).vid =
      if s.vid.pos + s.step_val ≤ s.sldr_maxval - 1 then
        { s.vid with pos := s.vid.pos + s.step_val, reads := s.vid.reads + s.step_val.toNat }
      else s.vid := by
  by_cases hg : s.vid.pos + s.step_val ≤ s.sldr_maxval - 1
  · have hg2 : s.vid.pos + 1 + s.step_val - 1 < s.sldr_maxval := by omega
    have hn : (((s.step_val - 1).toNat : Nat) : Int) = s.step_val - 1 :=
      Int.toNat_of_nonneg (by omega)
    have hn2 : (s.step_val - 1).toNat + 1 = s.step_val.toNat := by omega
    have hsk := skip_frames_in_range (s.step_val - 1).toNat s.vid (by rw [hn, hcount]; omega)
    have hlt : s.vid.pos + (((s.step_val - 1).toNat : Nat) : Int) < s.vid.frame_count := by
      rw [hn, hcount]; omega
    simp only [stepup_press, cvGetCaptureProperty_POS_FRAMES, hg2, hg, if_true, hsk, cvQueryFrame,
      hlt]
    split <;> simp only [change_status, VideoSource.mk.injEq, true_and, hn, ← hn2] <;>
      constructor <;> omega
  · have hg2 : ¬ (s.vid.pos + 1 + s.step_val - 1 < s.sldr_maxval) := by omega
    simp only [stepup_press, cvGetCaptureProperty_POS_FRAMES, hg2, hg, if_false]
    split <;> rfl

theorem resetAllEdits_vid (s : Player) : (resetAllEdits s).vid = s.vid := rfl

theorem stepdown_press_skip (s : Player)
    (hlow : s.vid.pos - 1 - (s.step_val - 1) < s.sldr_start) :
    ∃ s1, stepdown_press s = Except.ok s1 ∧ s1.vid = s.vid
      ∧ s1.status_line = (if s.playing then s.status_line else "Stepped Down")
      ∧ s1.status_edit = (if s.playing then s.status_edit else ["Stepped Down"]) := by
  have hg : ¬ (s.sldr_start ≤ s.vid.pos - s.step_val) := by omega
  cases hp : s.playing <;>
    simp [stepdown_press, cvGetCaptureProperty_POS_FRAMES, hg, hp, change_status]

theorem seek_and_copy_ok (v : VideoSource) (n : Int) (h : n + 1 < v.frame_count) :
    seek_and_copy v n =
      Except.ok { v with pos := n + 2, seeks := n :: v.seeks, reads := v.reads + 2 } := by
  have h1 : n < v.frame_count := by omega
  simp only [seek_and_copy, cvSetCaptureProperty_POS_FRAMES, cvQueryFrame, h1, h, if_true]
  simp only [Except.ok.injEq, VideoSource.mk.injEq, true_and, and_true]
  omega

theorem stepdown_press_seek (s : Player) (hstep : 1 ≤ s.step_val)
    (hcount : s.vid.frame_count = s.sldr_maxval)
    (hhi : s.vid.pos ≤ s.sldr_maxval - 1)
    (hg : s.sldr_start ≤ s.vid.pos - s.step_val) :
    ∃ s1, stepdown_press s = Except.ok s1
      ∧ s1.vid.seeks = (s.vid.pos - s.step_val) :: s.vid.seeks
      ∧ s1.vid.pos = s.vid.pos - s.step_val + 2 := by
  have hk0 : s.step_val ≠ 0 := by omega
  have h2 : s.vid.pos - s.step_val + 1 < s.vid.frame_count := by omega
  have hsk := seek_and_copy_ok s.vid (s.vid.pos - s.step_val) h2
  simp only [stepdown_press, cvGetCaptureProperty_POS_FRAMES]
  have he : s.vid.pos - 1 - (s.step_val - 1) = s.vid.pos - s.step_val := by omega
  rw [he, if_pos (show s.vid.pos - s.step_val ≥ s.sldr_start from hg),
    moveSlider_other _ _ (show ({ s with processing := true } : Player).step_val ≠ 0 from hk0)]
  cases s.playing <;> simp [change_status, hsk]

theorem stepup_press_frame_fields (s : Player) :
    (stepup_press s).step_val = s.step_val ∧ (stepup_press s).sldr_maxval = s.sldr_maxval
      ∧ (stepup_press s).sldr_start = s.sldr_start := by
  unfold stepup_press
  simp only
  split <;> split <;> exact ⟨rfl, rfl, rfl⟩

theorem seek_and_copy_null (v : VideoSource) (n : Int) (h : v.frame_count ≤ n + 1) :
    seek_and_copy v n = Except.error Fault.null_image := by
  by_cases h1 : n < v.frame_count
  · have h2 : ¬ (n + 1 < v.frame_count) := by omega
    simp [seek_and_copy, cvSetCaptureProperty_POS_FRAMES, cvQueryFrame, h1, h2]
  · simp [seek_and_copy, cvSetCaptureProperty_POS_FRAMES, cvQueryFrame, h1]

/-- A step-down press whose target is in range and is followed by two frames:
one seek to the target, two reads, and the source two frames past the target. -/
theorem stepdown_press_moves (s : Player) (hstep : 1 ≤ s.step_val)
    (hg : s.sldr_start ≤ s.vid.pos - s.step_val)
    (h2 : s.vid.pos - s.step_val + 1 < s.vid.frame_count) :
    ∃ s1, stepdown_press s = Except.ok s1
      ∧ s1.vid = { s.vid with pos := s.vid.pos - s.step_val + 2
                              seeks := (s.vid.pos - s.step_val) :: s.vid.seeks
                              reads := s.vid.reads + 2 }
      ∧ s1.step_val = s.step_val ∧ s1.sldr_maxval = s.sldr_maxval
      ∧ s1.sldr_start = s.sldr_start := by
  have hk0 : s.step_val ≠ 0 := by omega
  have hsk := seek_and_copy_ok s.vid (s.vid.pos - s.step_val) h2
  simp only [stepdown_press, cvGetCaptureProperty_POS_FRAMES]
  have he : s.vid.pos - 1 - (s.step_val - 1) = s.vid.pos - s.step_val := by omega
  rw [he, if_pos (show s.vid.pos - s.step_val ≥ s.sldr_start from hg),
    moveSlider_other _ _ (show ({ s with processing := true } : Player).step_val ≠ 0 from hk0)]
  cases s.playing <;> simp [change_status, hsk]

/-- A step-down press whose target is in range but is not followed by two
frames ends the process: the second read after the seek returns NULL and
`cvCopy` is handed that NULL image. -/
theorem stepdown_press_null (s : Player) (hstep : 1 ≤ s.step_val)
    (hg : s.sldr_start ≤ s.vid.pos - s.step_val)
    (h2 : s.vid.frame_count ≤ s.vid.pos - s.step_val + 1) :
    stepdown_press s = Except.error Fault.null_image := by
  have hk0 : s.step_val ≠ 0 := by omega
  have hsk := seek_and_copy_null s.vid (s.vid.pos - s.step_val) h2
  simp only [stepdown_press, cvGetCaptureProperty_POS_FRAMES]
  have he : s.vid.pos - 1 - (s.step_val - 1) = s.vid.pos - s.step_val := by omega
  rw [he, if_pos (show s.vid.pos - s.step_val ≥ s.sldr_start from hg),
    moveSlider_other _ _ (show ({ s with processing := true } : Player).step_val ≠ 0 from hk0)]
  simp [hsk]

theorem stepdown_press_stays (s : Player)
    (hg : ¬ (s.sldr_start ≤ s.vid.pos - s.step_val)) :
    ∃ s1, stepdown_press s = Except.ok s1 ∧ s1.vid = s.vid
      ∧ s1.step_val = s.step_val ∧ s1.sldr_maxval = s.sldr_maxval
      ∧ s1.sldr_start = s.sldr_start := by
  have hg2 : ¬ (s.sldr_start ≤ s.vid.pos - s.step_val) := hg
  cases hp : s.playing <;>
    simp [stepdown_press, cvGetCaptureProperty_POS_FRAMES, hg2, hp, change_status]

/-- What one press on the step-up or the step-down button does to a source
of `max_frame` frames. -/
theorem step_press_effect (s : Player) (x y : Int)
    (hstep : 1 ≤ s.step_val) (hcount : s.vid.frame_count = s.sldr_maxval) :
    (in_area stepup_btn_area x y = true →
      ∃ s1, my_mouse_callback CV_EVENT_LBUTTONDOWN x y s = Except.ok s1
        ∧ s1.vid = (if s.vid.pos + s.step_val ≤ s.sldr_maxval - 1 then
            { s.vid with pos := s.vid.pos + s.step_val
                         reads := s.vid.reads + s.step_val.toNat }
           else s.vid)
        ∧ s1.step_val = s.step_val ∧ s1.sldr_maxval = s.sldr_maxval
        ∧ s1.sldr_start = s.sldr_start) ∧
    (in_area stepdown_btn_area x y = true →
      (¬ (s.sldr_start ≤ s.vid.pos - s.step_val) →
        ∃ s1, my_mouse_callback CV_EVENT_LBUTTONDOWN x y s = Except.ok s1
          ∧ s1.vid = s.vid
          ∧ s1.step_val = s.step_val ∧ s1.sldr_maxval = s.sldr_maxval
          ∧ s1.sldr_start = s.sldr_start)
      ∧ (s.sldr_start ≤ s.vid.pos - s.step_val → s.vid.pos - s.step_val + 1 < s.sldr_maxval →
        ∃ s1, my_mouse_callback CV_EVENT_LBUTTONDOWN x y s = Except.ok s1
          ∧ s1.vid = { s.vid with pos := s.vid.pos - s.step_val + 2
                                  seeks := (s.vid.pos - s.step_val) :: s.vid.seeks
                                  reads := s.vid.reads + 2 }
          ∧ s1.step_val = s.step_val ∧ s1.sldr_maxval = s.sldr_maxval
          ∧ s1.sldr_start = s.sldr_start)
      ∧ (s.sldr_start ≤ s.vid.pos - s.step_val → s.sldr_maxval ≤ s.vid.pos - s.step_val + 1 →
        my_mouse_callback CV_EVENT_LBUTTONDOWN x y s = Except.error Fault.null_image)) := by
  have e1 : (resetAllEdits { s with sldr_moving := true }).step_val = s.step_val := rfl
  have e2 : (resetAllEdits { s with sldr_moving := true }).sldr_maxval = s.sldr_maxval := rfl
  have e3 : (resetAllEdits { s with sldr_moving := true }).sldr_start = s.sldr_start := rfl
  have e4 : (resetAllEdits { s with sldr_moving := true }).vid = s.vid := rfl
  constructor
  · intro hin
    refine ⟨_, lbutton_down_stepup x y s hin, ?_, ?_⟩
    · have hv := stepup_press_vid (resetAllEdits { s with sldr_moving := true }) hstep hcount
      rw [e1, e2, e4] at hv
      exact hv
    · obtain ⟨a, b, c⟩ := stepup_press_frame_fields (resetAllEdits { s with sldr_moving := true })
      exact ⟨a, b, c⟩
  · intro hin
    rw [lbutton_down_stepdown x y s hin]
    refine ⟨?_, ?_, ?_⟩
    · intro hg
      exact stepdown_press_stays (resetAllEdits { s with sldr_moving := true }) hg
    · intro hg h2
      exact stepdown_press_moves (resetAllEdits { s with sldr_moving := true }) hstep hg
        (by rw [e4, e1, hcount]; exact h2)
    · intro hg h2
      exact stepdown_press_null (resetAllEdits { s with sldr_moving := true }) hstep hg
        (by rw [e4, e1, hcount]; exact h2)

theorem step_presses_invariant (pts : List (Int × Int)) (s : Player)
    (hstep : 1 ≤ s.step_val) (hcount : s.vid.frame_count = s.sldr_maxval)
    (hlo : s.sldr_start ≤ s.vid.pos) (hhi : s.vid.pos ≤ s.sldr_maxval)
    (hpts : ∀ pt ∈ pts, in_area stepup_btn_area pt.1 pt.2 = true
      ∨ in_area stepdown_btn_area pt.1 pt.2 = true)
    (s1 : Player) (h : press_all s pts = Except.ok s1) :
    s.sldr_start ≤ s1.vid.pos ∧ s1.vid.pos ≤ s.sldr_maxval
      ∧ (∀ t ∈ s1.vid.seeks, t ∈ s.vid.seeks ∨ (s.sldr_start ≤ t ∧ t ≤ s.sldr_maxval - 1)) := by
  induction pts generalizing s with
  | nil =>
    simp only [press_all, Except.ok.injEq] at h
    subst h
    exact ⟨hlo, hhi, fun t ht => Or.inl ht⟩
  | cons pt pts ih =>
    obtain ⟨up, down⟩ := step_press_effect s pt.1 pt.2 hstep hcount
    have hrest : ∀ q ∈ pts, in_area stepup_btn_area q.1 q.2 = true
        ∨ in_area stepdown_btn_area q.1 q.2 = true :=
      fun q hq => hpts q (List.mem_cons_of_mem _ hq)
    have step : ∀ t : Player, my_mouse_callback CV_EVENT_LBUTTONDOWN pt.1 pt.2 s = Except.ok t →
        t.step_val = s.step_val → t.sldr_maxval = s.sldr_maxval → t.sldr_start = s.sldr_start →
        t.vid.frame_count = s.vid.frame_count →
        s.sldr_start ≤ t.vid.pos → t.vid.pos ≤ s.sldr_maxval →
        (∀ q ∈ t.vid.seeks, q ∈ s.vid.seeks ∨ (s.sldr_start ≤ q ∧ q ≤ s.sldr_maxval - 1)) →
        s.sldr_start ≤ s1.vid.pos ∧ s1.vid.pos ≤ s.sldr_maxval
          ∧ (∀ q ∈ s1.vid.seeks, q ∈ s.vid.seeks
              ∨ (s.sldr_start ≤ q ∧ q ≤ s.sldr_maxval - 1)) := by
      intro t ht a1 a2 a3 a4 a5 a6 a7
      rw [press_all, ht] at h
      simp only at h
      obtain ⟨b1, b2, b3⟩ := ih t (by rw [a1]; exact hstep) (by rw [a4, a2]; exact hcount)
        (by rw [a3]; exact a5) (by rw [a2]; exact a6) hrest h
      rw [a3] at b1 b3
      rw [a2] at b2 b3
      refine ⟨b1, b2, fun q hq => ?_⟩
      rcases b3 q hq with c | c
      · exact a7 q c
      · exact Or.inr c
    rcases hpts pt (List.mem_cons_self _ _) with hin | hin
    · obtain ⟨t, ht, tv, a1, a2, a3⟩ := up hin
      by_cases hg : s.vid.pos + s.step_val ≤ s.sldr_maxval - 1
      · rw [if_pos hg] at tv
        exact step t ht a1 a2 a3 (by rw [tv]) (by rw [tv]; show s.sldr_start ≤ _ + _; omega)
          (by rw [tv]; show s.vid.pos + s.step_val ≤ _; omega)
          (fun q hq => Or.inl (by rw [tv] at hq; exact hq))
      · rw [if_neg hg] at tv
        exact step t ht a1 a2 a3 (by rw [tv]) (by rw [tv]; exact hlo) (by rw [tv]; exact hhi)
          (fun q hq => Or.inl (by rw [tv] at hq; exact hq))
    · obtain ⟨d1, d2, d3⟩ := down hin
      by_cases hg : s.sldr_start ≤ s.vid.pos - s.step_val
      · by_cases h2 : s.vid.pos - s.step_val + 1 < s.sldr_maxval
        · obtain ⟨t, ht, tv, a1, a2, a3⟩ := d2 hg h2
          refine step t ht a1 a2 a3 (by rw [tv]) (by rw [tv]; show s.sldr_start ≤ _ + 2; omega)
            (by rw [tv]; show s.vid.pos - s.step_val + 2 ≤ _; omega) (fun q hq => ?_)
          rw [tv] at hq
          rcases List.mem_cons.mp hq with c | c
          · exact Or.inr ⟨by rw [c]; exact hg, by rw [c]; omega⟩
          · exact Or.inl c
        · have hnull := d3 hg (by omega)
          rw [press_all, hnull] at h
          cases h
      · obtain ⟨t, ht, tv, a1, a2, a3⟩ := d1 hg
        exact step t ht a1 a2 a3 (by rw [tv]) (by rw [tv]; exact hlo) (by rw [tv]; exact hhi)
          (fun q hq => Or.inl (by rw [tv] at hq; exact hq))

/-- C5, as stated, fails for a source that counts the frames it hands out:
with 3 frames and step 1, two step-up presses followed by one step-down press
leave the source at position 3, above `max_frame - 1 = 2` (the step-down seeks
to frame 1 and then reads two frames); one more step-down press seeks to frame
2, finds a single frame left and hands the NULL second read to `cvCopy`. -/
theorem step_presses_reach_maxval :
    1 ≤ (player_at 0 3 1 0).step_val ∧ 1 ≤ (player_at 0 3 1 0).sldr_maxval
      ∧ (player_at 0 3 1 0).vid.pos = (player_at 0 3 1 0).sldr_start
      ∧ in_area stepup_btn_area 500 540 = true ∧ in_area stepdown_btn_area 300 540 = true ∧
    (∃ s1, press_all (player_at 0 3 1 0) [(500, 540), (500, 540), (300, 540)] = Except.ok s1
      ∧ s1.vid.pos = 3 ∧ s1.vid.seeks = [1, 0]
      ∧ ¬ (s1.vid.pos ≤ (player_at 0 3 1 0).sldr_maxval - 1))
    ∧ press_all (player_at 0 3 1 0) [(500, 540), (500, 540), (300, 540), (300, 540)]
        = Except.error Fault.null_image :=
  ⟨by decide, by decide, by decide, by decide, by decide,
    ⟨_, rfl, by decide, by decide, by decide⟩, rfl⟩

/-- C5, amended: for `step ≥ 1`, `max_frame ≥ 1`, a source of `max_frame`
frames positioned in `[start_frame, max_frame]` (at `start_frame` in
particular) and every finite sequence of presses on the step-up and step-down
buttons: if the sequence returns, the source then stands at a position in
`[start_frame, max_frame]`, and every seek the presses issued went to a target
in `[start_frame, max_frame - 1]`.  Press by press: a step-up press returns,
and moves the source to `cur + step` by `step` reads when
`cur + step ≤ max_frame - 1` and leaves it as it was otherwise; a step-down
press with `cur - step < start_frame` returns and leaves the source as it was;
a step-down press with `cur - step ≥ start_frame` seeks to `cur - step` and
reads two frames, which leaves the source at `cur - step + 2` when
`cur - step + 1 < max_frame`, and ends the process (the second read returns
NULL, which `cvCopy` is handed) when `cur - step + 1 ≥ max_frame`, that is for
`step = 1` at `cur = max_frame`. -/
theorem step_presses_stay_in_range (s : Player) (pts : List (Int × Int))
    (hstep : 1 ≤ s.step_val) (_hmax : 1 ≤ s.sldr_maxval)
    (hcount : s.vid.frame_count = s.sldr_maxval)
    (hlo : s.sldr_start ≤ s.vid.pos) (hhi : s.vid.pos ≤ s.sldr_maxval)
    (hpts : ∀ pt ∈ pts, in_area stepup_btn_area pt.1 pt.2 = true
      ∨ in_area stepdown_btn_area pt.1 pt.2 = true) :
    (∀ s1, press_all s pts = Except.ok s1 →
        s.sldr_start ≤ s1.vid.pos ∧ s1.vid.pos ≤ s.sldr_maxval
          ∧ (∀ t ∈ s1.vid.seeks, t ∈ s.vid.seeks
              ∨ (s.sldr_start ≤ t ∧ t ≤ s.sldr_maxval - 1))) ∧
    (∀ x y, in_area stepup_btn_area x y = true →
      ∃ s1, my_mouse_callback CV_EVENT_LBUTTONDOWN x y s = Except.ok s1
        ∧ s1.vid = (if s.vid.pos + s.step_val ≤ s.sldr_maxval - 1 then
            { s.vid with pos := s.vid.pos + s.step_val
                         reads := s.vid.reads + s.step_val.toNat }
           else s.vid)) ∧
    (∀ x y, in_area stepdown_btn_area x y = true →
      (¬ (s.sldr_start ≤ s.vid.pos - s.step_val) →
        ∃ s1, my_mouse_callback CV_EVENT_LBUTTONDOWN x y s = Except.ok s1 ∧ s1.vid = s.vid)
      ∧ (s.sldr_start ≤ s.vid.pos - s.step_val → s.vid.pos - s.step_val + 1 < s.sldr_maxval →
        ∃ s1, my_mouse_callback CV_EVENT_LBUTTONDOWN x y s = Except.ok s1
          ∧ s1.vid = { s.vid with pos := s.vid.pos - s.step_val + 2
                                  seeks := (s.vid.pos - s.step_val) :: s.vid.seeks
                                  reads := s.vid.reads + 2 })
      ∧ (s.sldr_start ≤ s.vid.pos - s.step_val → s.sldr_maxval ≤ s.vid.pos - s.step_val + 1 →
        my_mouse_callback CV_EVENT_LBUTTONDOWN x y s = Except.error Fault.null_image
          ∧ s.step_val = 1 ∧ s.vid.pos = s.sldr_maxval)) := by
  refine ⟨fun s1 h => step_presses_invariant pts s hstep hcount hlo hhi hpts s1 h, ?_, ?_⟩
  · intro x y hin
    obtain ⟨s1, h, tv, _⟩ := (step_press_effect s x y hstep hcount).1 hin
    exact ⟨s1, h, tv⟩
  · intro x y hin
    obtain ⟨d1, d2, d3⟩ := (step_press_effect s x y hstep hcount).2 hin
    refine ⟨?_, ?_, ?_⟩
    · intro hg
      obtain ⟨s1, h, tv, _⟩ := d1 hg
      exact ⟨s1, h, tv⟩
    · intro hg h2
      obtain ⟨s1, h, tv, _⟩ := d2 hg h2
      exact ⟨s1, h, tv⟩
    · intro hg h2
      exact ⟨d3 hg h2, by omega, by omega⟩

/-- Witness of the amended C5: 50 frames, step 5, the source at frame 1 as the
loop first sees it; the presses up, up, down return and leave the source at
frame 8. -/
theorem step_presses_stay_in_range_witness :
    (1 ≤ (player_at 0 50 5 1).step_val ∧ 1 ≤ (player_at 0 50 5 1).sldr_maxval
      ∧ (player_at 0 50 5 1).vid.frame_count = (player_at 0 50 5 1).sldr_maxval
      ∧ (player_at 0 50 5 1).sldr_start ≤ (player_at 0 50 5 1).vid.pos
      ∧ (player_at 0 50 5 1).vid.pos ≤ (player_at 0 50 5 1).sldr_maxval
      ∧ (∀ pt ∈ [((500 : Int), (540 : Int)), (500, 540), (300, 540)],
          in_area stepup_btn_area pt.1 pt.2 = true
            ∨ in_area stepdown_btn_area pt.1 pt.2 = true)) ∧
    (∃ s1, press_all (player_at 0 50 5 1) [(500, 540), (500, 540), (300, 540)] = Except.ok s1
      ∧ s1.vid.pos = 8 ∧ s1.vid.seeks = [6, 0]) ∧
    (∀ s1, press_all (player_at 0 50 5 1) [(500, 540), (500, 540), (300, 540)] = Except.ok s1 →
        (player_at 0 50 5 1).sldr_start ≤ s1.vid.pos
          ∧ s1.vid.pos ≤ (player_at 0 50 5 1).sldr_maxval
          ∧ (∀ t ∈ s1.vid.seeks, t ∈ (player_at 0 50 5 1).vid.seeks
              ∨ ((player_at 0 50 5 1).sldr_start ≤ t
                ∧ t ≤ (player_at 0 50 5 1).sldr_maxval - 1))) :=
  ⟨⟨by decide, by decide, by decide, by decide, by decide, by decide⟩,
    ⟨_, rfl, by decide, by decide⟩,
    (step_presses_stay_in_range (player_at 0 50 5 1) [(500, 540), (500, 540), (300, 540)]
      (by decide) (by decide) (by decide) (by decide) (by decide) (by decide)).1⟩

/-- C6, as stated, fails: with 50 frames, step 5, the source at frame 3 and
playback stopped, a step-down press performs no seek and leaves the source
where it was, but the status text changes from "Stopped" to "Stepped Down". -/
theorem stepdown_out_of_range_changes_status :
    (player_at 0 50 5 3).vid.pos - 1 - ((player_at 0 50 5 3).step_val - 1)
        < (player_at 0 50 5 3).sldr_start
      ∧ in_area stepdown_btn_area 300 540 = true
      ∧ (player_at 0 50 5 3).status_line = "Stopped"
      ∧ (player_at 0 50 5 3).status_edit = ["Stopped"] ∧
    ∃ s1, my_mouse_callback CV_EVENT_LBUTTONDOWN 300 540 (player_at 0 50 5 3) = Except.ok s1
      ∧ s1.vid = (player_at 0 50 5 3).vid ∧ s1.vid.pos = 3
      ∧ s1.status_line = "Stepped Down" ∧ s1.status_edit = ["Stepped Down"]
      ∧ s1.status_line ≠ (player_at 0 50 5 3).status_line :=
  ⟨by decide, by decide, by decide, by decide, _, rfl, by decide, by decide, by decide,
    by decide, by decide⟩

/-- C6, amended: in every state with `cur_frame - 1 - (step - 1) < start_frame`
a step-down press performs no seek and no read and leaves the source, hence
the frame position, unchanged; the status text is left as it was only while
playing, otherwise it becomes "Stepped Down". -/
theorem stepdown_out_of_range_no_seek (s : Player) (x y : Int)
    (hin : in_area stepdown_btn_area x y = true)
    (hlow : s.vid.pos - 1 - (s.step_val - 1) < s.sldr_start) :
    ∃ s1, my_mouse_callback CV_EVENT_LBUTTONDOWN x y s = Except.ok s1
      ∧ s1.vid = s.vid
      ∧ s1.status_line = (if s.playing then s.status_line else "Stepped Down")
      ∧ s1.status_edit = (if s.playing then s.status_edit else ["Stepped Down"]) := by
  rw [lbutton_down_stepdown x y s hin]
  exact stepdown_press_skip (resetAllEdits { s with sldr_moving := true }) hlow

/-- Witness of the amended C6: 50 frames, step 5, source at frame 3. -/
theorem stepdown_out_of_range_no_seek_witness :
    (in_area stepdown_btn_area 300 540 = true
      ∧ (player_at 0 50 5 3).vid.pos - 1 - ((player_at 0 50 5 3).step_val - 1)
          < (player_at 0 50 5 3).sldr_start) ∧
    ∃ s1, my_mouse_callback CV_EVENT_LBUTTONDOWN 300 540 (player_at 0 50 5 3) = Except.ok s1
      ∧ s1.vid = (player_at 0 50 5 3).vid
      ∧ s1.status_line
          = (if (player_at 0 50 5 3).playing then (player_at 0 50 5 3).status_line
             else "Stepped Down")
      ∧ s1.status_edit
          = (if (player_at 0 50 5 3).playing then (player_at 0 50 5 3).status_edit
             else ["Stepped Down"]) :=
  ⟨⟨by decide, by decide⟩,
    stepdown_out_of_range_no_seek (player_at 0 50 5 3) 300 540 (by decide) (by decide)⟩

/-- C7, evaluated at its failing input: from the initial state (`step_val = 1`,
100 frames) a pointer-down inside the step field opens the editor with an empty
pending text, and the Enter key (code 10) then stores `atoi("") = 0` in
`step_val`; the next `moveSlider` divides by it. -/
theorem enter_on_empty_step_field_zeroes_step :
    (initial_state 0 100).step_val = 1 ∧ in_area step_edit_area 70 540 = true ∧
    ∃ s1, my_mouse_callback CV_EVENT_LBUTTONDOWN 70 540 (initial_state 0 100) = Except.ok s1
      ∧ s1.typing_step = true ∧ s1.edit_text = []
      ∧ (type_step (Char.ofNat 10) 1 s1).step_val = 0
      ∧ moveSlider 1 OTHER_CALLS (type_step (Char.ofNat 10) 1 s1)
          = Except.error Fault.division_by_zero :=
  ⟨by decide, by decide, _, rfl, by decide, by decide, by decide, rfl⟩

/-! ## The step editor -/

theorem blink_step_edit_text (s : Player) : (blink_step s).edit_text = s.edit_text := by
  unfold blink_step
  split <;> split <;> rfl

theorem blink_step_step_val (s : Player) : (blink_step s).step_val = s.step_val := by
  unfold blink_step
  split <;> split <;> rfl

theorem blink_step_sldr_maxval (s : Player) : (blink_step s).sldr_maxval = s.sldr_maxval := by
  unfold blink_step
  split <;> split <;> rfl

theorem blink_step_typing_step (s : Player) : (blink_step s).typing_step = s.typing_step := by
  unfold blink_step
  split <;> split <;> rfl

theorem backspace_loop_eq_dropLast (l : List Char) : backspace_loop l [] = l.dropLast := by
  have key : ∀ n, n ≤ l.length →
      (List.range n).foldl (fun t count => t ++ [l.getD count (Char.ofNat 0)]) [] = l.take n := by
    intro n
    induction n with
    | zero => intro _; simp
    | succ n ih =>
      intro hn
      have hlt : n < l.length := by omega
      rw [List.range_succ, List.foldl_append, ih (by omega)]
      simp only [List.foldl_cons, List.foldl_nil]
      rw [List.getD_eq_getElem l _ hlt, List.take_succ, List.getElem?_eq_getElem hlt]
      rfl
  unfold backspace_loop
  rw [key _ (by omega), List.dropLast_eq_take]

theorem type_step_digit (d : Char) (f : Int) (s : Player)
    (hd : 48 ≤ d.toNat ∧ d.toNat ≤ 57) :
    (type_step d f s).edit_text =
        (if f + atoi (s.edit_text ++ [d]) ≥ 0 ∧ f + atoi (s.edit_text ++ [d]) ≤ s.sldr_maxval
            ∧ atoi (s.edit_text ++ [d]) ≠ 0 then s.edit_text ++ [d] else s.edit_text)
      ∧ (type_step d f s).step_val = s.step_val
      ∧ (type_step d f s).typing_step = s.typing_step := by
  have h8 : ¬ d.toNat = 8 := by omega
  have h10 : ¬ d.toNat = 10 := by omega
  simp only [type_step, hd, h8, h10, and_self, if_true, if_false, blink_step_edit_text,
    blink_step_sldr_maxval]
  split <;> simp [blink_step_edit_text, blink_step_step_val, blink_step_typing_step]

theorem strtol_digits_eq_foldl (ds : List Char) (acc : Int)
    (h : ∀ c ∈ ds, isdigit c = true) :
    strtol_digits acc ds = ds.foldl (fun a c => a * 10 + ((c.toNat : Int) - 48)) acc := by
  induction ds generalizing acc with
  | nil => rfl
  | cons c cs ih =>
    have hc : isdigit c = true := h c (List.mem_cons_self _ _)
    simp only [strtol_digits, hc, if_true, List.foldl_cons]
    exact ih _ (fun c1 h1 => h c1 (List.mem_cons_of_mem _ h1))

theorem strtol_value_of_digits (ds : List Char) (h : ∀ c ∈ ds, isdigit c = true) :
    strtol_value ds = decimal_value ds := by
  cases ds with
  | nil => rfl
  | cons c cs =>
    have hc : isdigit c = true := h c (List.mem_cons_self _ _)
    simp only [isdigit, Bool.and_eq_true, decide_eq_true_eq] at hc
    have hsp : isspace c = false := by
      simp only [isspace, Bool.or_eq_false_iff, decide_eq_false_iff_not, Bool.and_eq_false_iff]
      omega
    have h45 : ¬ c.toNat = 45 := by omega
    have h43 : ¬ c.toNat = 43 := by omega
    simp only [strtol_value, List.dropWhile_cons, hsp, h45, h43, if_false, Bool.false_eq_true]
    exact strtol_digits_eq_foldl (c :: cs) 0 h

theorem decimal_value_append (l : List Char) (c : Char) :
    decimal_value (l ++ [c]) = decimal_value l * 10 + ((c.toNat : Int) - 48) := by
  simp [decimal_value, List.foldl_append]

theorem isdigit_value (c : Char) (h : isdigit c = true) :
    0 ≤ (c.toNat : Int) - 48 ∧ (c.toNat : Int) - 48 ≤ 9 := by
  simp only [isdigit, Bool.and_eq_true, decide_eq_true_eq] at h
  omega

theorem decimal_value_nonneg (l : List Char) (hd : ∀ c ∈ l, isdigit c = true) :
    0 ≤ decimal_value l := by
  induction l using List.reverseRecOn with
  | nil => exact le_refl _
  | append_singleton l c ih =>
    have hc := isdigit_value c (hd c (by simp))
    have ih1 := ih (fun c1 h1 => hd c1 (by simp [h1]))
    rw [decimal_value_append]
    omega

/-- On a string of digits whose value fits an `int`, `atoi` returns the value. -/
theorem atoi_of_digits (ds : List Char) (h : ∀ c ∈ ds, isdigit c = true)
    (hb : decimal_value ds < 2 ^ 31) :
    atoi ds = decimal_value ds := by
  have h0 := decimal_value_nonneg ds h
  simp only [atoi, strtol, strtol_value_of_digits ds h, LONG_MAX, LONG_MIN, int_of_long]
  norm_num at hb ⊢
  rw [if_neg (by omega), if_neg (by omega)]
  omega

theorem digit_char_toNat (d : Nat) (h : d < 10) : (digit_char d).toNat = 48 + d := by
  interval_cases d <;> decide

theorem digit_char_isdigit (d : Nat) (h : d < 10) : isdigit (digit_char d) = true := by
  simp only [isdigit, Bool.and_eq_true, decide_eq_true_eq, digit_char_toNat d h]
  omega

theorem decimal_value_digit_chars (L : List Nat) (h : ∀ d ∈ L, d < 10) :
    decimal_value (L.reverse.map digit_char) = ((Nat.ofDigits 10 L : Nat) : Int) := by
  induction L with
  | nil => rfl
  | cons d L ih =>
    have hd : d < 10 := h d (List.mem_cons_self _ _)
    rw [List.reverse_cons, List.map_append, List.map_singleton, decimal_value_append,
      ih (fun e he => h e (List.mem_cons_of_mem _ he)), digit_char_toNat d hd, Nat.ofDigits_cons]
    push_cast
    ring

/-- The digits `sprintf` writes for a natural number form its decimal numeral. -/
theorem sprintf_digits_numeral (k : Nat) :
    decimal_numeral
      (if k = 0 then [digit_char 0] else ((Nat.digits 10 k).reverse).map digit_char) k := by
  by_cases hk : k = 0
  · subst hk
    rw [if_pos rfl]
    decide
  · rw [if_neg hk]
    have hlt : ∀ d ∈ Nat.digits 10 k, d < 10 := fun d hd => Nat.digits_lt_base (by norm_num) hd
    have hne : Nat.digits 10 k ≠ [] := Nat.digits_ne_nil_iff_ne_zero.2 hk
    refine ⟨?_, ?_, ?_, ?_⟩
    · simpa using hne
    · intro c hc
      obtain ⟨d, hd, rfl⟩ := List.mem_map.mp hc
      exact digit_char_isdigit d (hlt d (List.mem_reverse.mp hd))
    · rw [decimal_value_digit_chars _ hlt, Nat.ofDigits_digits]
    · intro hh
      exfalso
      have hlast := Nat.getLast_digit_ne_zero 10 hk
      have hl : Nat.digits 10 k = (Nat.digits 10 k).dropLast ++ [(Nat.digits 10 k).getLast hne] :=
        (List.dropLast_append_getLast hne).symm
      rw [hl, List.reverse_append, List.map_append] at hh
      simp only [List.reverse_cons, List.reverse_nil, List.nil_append, List.map_cons,
        List.map_nil, List.singleton_append, List.head?_cons, Option.some.injEq] at hh
      have h10 : (Nat.digits 10 k).getLast hne < 10 := hlt _ (List.getLast_mem hne)
      have h1 := digit_char_toNat _ h10
      rw [hh] at h1
      have : (Char.ofNat 48).toNat = 48 := by decide
      omega

/-- The text `sprintf( buf, "%d", n )` writes is the decimal text of `n`. -/
theorem sprintf_d_decimal_text (n : Int) : decimal_text_of n (sprintf_d n) := by
  have h := sprintf_digits_numeral n.natAbs
  unfold decimal_text_of sprintf_d
  by_cases hn : n < 0
  · simp only [hn, if_true, List.head?_cons, List.tail_cons, true_and]
    have e : (n.natAbs = 0) = False := by
      simp only [eq_iff_iff, iff_false]
      omega
    simp only [e, if_false] at h ⊢
    exact h
  · simp only [hn, if_false]
    exact h

theorem type_keys_all_accepted (ks : List (Char × Int)) (s : Player)
    (h : all_accepted s ks) :
    (type_keys s ks).edit_text = s.edit_text ++ ks.map Prod.fst := by
  induction ks generalizing s with
  | nil => simp [type_keys]
  | cons k ks ih =>
    obtain ⟨h1, h2⟩ := h
    rw [type_keys, ih _ h2, h1]
    simp

theorem type_step_enter (f : Int) (s : Player) :
    (type_step (Char.ofNat 10) f s).step_val = atoi s.edit_text
      ∧ (type_step (Char.ofNat 10) f s).typing_step = false
      ∧ (type_step (Char.ofNat 10) f s).step_edit = [s.edit_text]
      ∧ (type_step (Char.ofNat 10) f s).edit_text = s.edit_text := by
  have e : (Char.ofNat 10).toNat = 10 := by decide
  simp [type_step, e, blink_step_edit_text]

/-- C8, as stated, fails: with 2000000000 frames, the pending text
`429496730` and the current frame 1, the digit `1` is accepted although the
candidate value 4294967301 makes `f + v` exceed `sldr_maxval`: `atoi` returns
the low 32 bits of the value, 5. -/
theorem type_step_accepts_wrapped_candidate :
    isdigit (Char.ofNat 49) = true
      ∧ (∀ c ∈ [Char.ofNat 52, Char.ofNat 50, Char.ofNat 57, Char.ofNat 52, Char.ofNat 57,
          Char.ofNat 54, Char.ofNat 55, Char.ofNat 51, Char.ofNat 48], isdigit c = true)
      ∧ decimal_value ([Char.ofNat 52, Char.ofNat 50, Char.ofNat 57, Char.ofNat 52,
          Char.ofNat 57, Char.ofNat 54, Char.ofNat 55, Char.ofNat 51, Char.ofNat 48]
            ++ [Char.ofNat 49]) = 4294967301
      ∧ ¬ (1 + (4294967301 : Int) ≤ (initial_state 0 2000000000).sldr_maxval)
      ∧ atoi ([Char.ofNat 52, Char.ofNat 50, Char.ofNat 57, Char.ofNat 52,
          Char.ofNat 57, Char.ofNat 54, Char.ofNat 55, Char.ofNat 51, Char.ofNat 48]
            ++ [Char.ofNat 49]) = 5
      ∧ (type_step (Char.ofNat 49) 1
          { step_edit_press (initial_state 0 2000000000) with
            edit_text := [Char.ofNat 52, Char.ofNat 50, Char.ofNat 57, Char.ofNat 52,
              Char.ofNat 57, Char.ofNat 54, Char.ofNat 55, Char.ofNat 51, Char.ofNat 48] }).edit_text
        = [Char.ofNat 52, Char.ofNat 50, Char.ofNat 57, Char.ofNat 52, Char.ofNat 57,
            Char.ofNat 54, Char.ofNat 55, Char.ofNat 51, Char.ofNat 48] ++ [Char.ofNat 49] := by
  refine ⟨by decide, by decide, by decide, by decide, by decide, by decide⟩

/-- C8, amended: for a pending text `P` of digits and a digit character `d`
whose candidate value `v`, the decimal value of `P` followed by `d`, is below
`2^31`, `type_step( d, f )` replaces the pending text by `P` followed by `d`
exactly when `0 ≤ f + v ≤ sldr_maxval` and `v ≠ 0`, and otherwise leaves `P`
unchanged; `step_val` is unchanged either way, and the digit 0 typed into an
empty buffer is rejected. -/
theorem type_step_digit_accepts_iff_in_range (s : Player) (d : Char) (f : Int)
    (hd : 48 ≤ d.toNat ∧ d.toNat ≤ 57)
    (hP : ∀ c ∈ s.edit_text, isdigit c = true)
    (hv : decimal_value (s.edit_text ++ [d]) < 2 ^ 31) :
    ((type_step d f s).edit_text = s.edit_text ++ [d] ↔
        (0 ≤ f + decimal_value (s.edit_text ++ [d])
          ∧ f + decimal_value (s.edit_text ++ [d]) ≤ s.sldr_maxval
          ∧ decimal_value (s.edit_text ++ [d]) ≠ 0))
      ∧ (¬ (0 ≤ f + decimal_value (s.edit_text ++ [d])
            ∧ f + decimal_value (s.edit_text ++ [d]) ≤ s.sldr_maxval
            ∧ decimal_value (s.edit_text ++ [d]) ≠ 0) →
          (type_step d f s).edit_text = s.edit_text)
      ∧ (type_step d f s).step_val = s.step_val
      ∧ (s.edit_text = [] → d.toNat = 48 → (type_step d f s).edit_text = []) := by
  obtain ⟨h1, h2, _⟩ := type_step_digit d f s hd
  have hdd : isdigit d = true := by
    simp only [isdigit, Bool.and_eq_true, decide_eq_true_eq]
    exact hd
  have hall : ∀ c ∈ s.edit_text ++ [d], isdigit c = true := by
    intro c hc
    rcases List.mem_append.mp hc with h3 | h3
    · exact hP c h3
    · rw [List.mem_singleton.mp h3]
      exact hdd
  rw [atoi_of_digits _ hall hv] at h1
  refine ⟨?_, ?_, h2, ?_⟩
  · rw [h1]
    by_cases hc : f + decimal_value (s.edit_text ++ [d]) ≥ 0
        ∧ f + decimal_value (s.edit_text ++ [d]) ≤ s.sldr_maxval
        ∧ decimal_value (s.edit_text ++ [d]) ≠ 0
    · rw [if_pos hc]
      exact ⟨fun _ => hc, fun _ => rfl⟩
    · rw [if_neg hc]
      constructor
      · intro h
        have hlen := congrArg List.length h
        simp at hlen
      · intro h
        exact absurd h hc
  · intro hc
    rw [h1, if_neg hc]
  · intro he h0
    have hz : decimal_value (s.edit_text ++ [d]) = 0 := by
      rw [he, List.nil_append]
      simp [decimal_value, h0]
    rw [h1, if_neg (by rw [hz]; simp), he]

/-- Witness of the amended C8: the digit 5 typed into the empty field at frame
1 of 100 is accepted, and the pending text becomes `5`. -/
theorem type_step_digit_accepts_iff_in_range_witness :
    ((48 ≤ (Char.ofNat 53).toNat ∧ (Char.ofNat 53).toNat ≤ 57)
      ∧ (∀ c ∈ (step_edit_press (initial_state 0 100)).edit_text, isdigit c = true)
      ∧ decimal_value ((step_edit_press (initial_state 0 100)).edit_text ++ [Char.ofNat 53])
          < 2 ^ 31) ∧
    (type_step (Char.ofNat 53) 1 (step_edit_press (initial_state 0 100))).edit_text
        = [Char.ofNat 53] ∧
    (((type_step (Char.ofNat 53) 1 (step_edit_press (initial_state 0 100))).edit_text
          = (step_edit_press (initial_state 0 100)).edit_text ++ [Char.ofNat 53] ↔
        (0 ≤ 1 + decimal_value
              ((step_edit_press (initial_state 0 100)).edit_text ++ [Char.ofNat 53])
          ∧ 1 + decimal_value
              ((step_edit_press (initial_state 0 100)).edit_text ++ [Char.ofNat 53])
              ≤ (step_edit_press (initial_state 0 100)).sldr_maxval
          ∧ decimal_value
              ((step_edit_press (initial_state 0 100)).edit_text ++ [Char.ofNat 53]) ≠ 0))
      ∧ (¬ (0 ≤ 1 + decimal_value
                ((step_edit_press (initial_state 0 100)).edit_text ++ [Char.ofNat 53])
            ∧ 1 + decimal_value
                ((step_edit_press (initial_state 0 100)).edit_text ++ [Char.ofNat 53])
                ≤ (step_edit_press (initial_state 0 100)).sldr_maxval
            ∧ decimal_value
                ((step_edit_press (initial_state 0 100)).edit_text ++ [Char.ofNat 53]) ≠ 0) →
          (type_step (Char.ofNat 53) 1 (step_edit_press (initial_state 0 100))).edit_text
            = (step_edit_press (initial_state 0 100)).edit_text)
      ∧ (type_step (Char.ofNat 53) 1 (step_edit_press (initial_state 0 100))).step_val
          = (step_edit_press (initial_state 0 100)).step_val
      ∧ ((step_edit_press (initial_state 0 100)).edit_text = [] → (Char.ofNat 53).toNat = 48 →
          (type_step (Char.ofNat 53) 1 (step_edit_press (initial_state 0 100))).edit_text = [])) :=
  ⟨⟨by decide, by decide, by decide⟩, by decide,
    type_step_digit_accepts_iff_in_range (step_edit_press (initial_state 0 100)) (Char.ofNat 53) 1
      (by decide) (by decide) (by decide)⟩

/-- C9, as stated, fails: with 2000000000 frames the ten digits `4294967301`
typed into the empty field at frame 1 are all accepted, and the Enter key then
sets `step_val` to 5, the low 32 bits of 4294967301, not to 4294967301. -/
theorem enter_commits_wrapped_value :
    (step_edit_press (initial_state 0 2000000000)).edit_text = []
      ∧ (∀ k ∈ [(Char.ofNat 52, (1 : Int)), (Char.ofNat 50, 1), (Char.ofNat 57, 1),
          (Char.ofNat 52, 1), (Char.ofNat 57, 1), (Char.ofNat 54, 1), (Char.ofNat 55, 1),
          (Char.ofNat 51, 1), (Char.ofNat 48, 1), (Char.ofNat 49, 1)], isdigit k.1 = true)
      ∧ all_accepted (step_edit_press (initial_state 0 2000000000))
          [(Char.ofNat 52, 1), (Char.ofNat 50, 1), (Char.ofNat 57, 1),
            (Char.ofNat 52, 1), (Char.ofNat 57, 1), (Char.ofNat 54, 1), (Char.ofNat 55, 1),
            (Char.ofNat 51, 1), (Char.ofNat 48, 1), (Char.ofNat 49, 1)]
      ∧ decimal_value ([(Char.ofNat 52, (1 : Int)), (Char.ofNat 50, 1), (Char.ofNat 57, 1),
          (Char.ofNat 52, 1), (Char.ofNat 57, 1), (Char.ofNat 54, 1), (Char.ofNat 55, 1),
          (Char.ofNat 51, 1), (Char.ofNat 48, 1), (Char.ofNat 49, 1)].map Prod.fst) = 4294967301
      ∧ (type_step (Char.ofNat 10) 1
          (type_keys (step_edit_press (initial_state 0 2000000000))
            [(Char.ofNat 52, 1), (Char.ofNat 50, 1), (Char.ofNat 57, 1),
              (Char.ofNat 52, 1), (Char.ofNat 57, 1), (Char.ofNat 54, 1), (Char.ofNat 55, 1),
              (Char.ofNat 51, 1), (Char.ofNat 48, 1), (Char.ofNat 49, 1)])).step_val = 5 := by
  refine ⟨rfl, by decide, by decide, by decide, by decide⟩

/-- C9, amended: when a non-empty sequence of digit keystrokes whose decimal
value is below `2^31` is typed into an empty pending buffer and every one of
them is accepted, a following Enter keystroke (code 10) sets `step_val` to the
decimal value of the typed digits, leaves edit mode, and repaints the step
field with the digits alone, without the caret. -/
theorem enter_commits_typed_digits (s : Player) (ks : List (Char × Int)) (f : Int)
    (hempty : s.edit_text = []) (_hne : ks ≠ [])
    (hdig : ∀ k ∈ ks, isdigit k.1 = true) (hacc : all_accepted s ks)
    (hv : decimal_value (ks.map Prod.fst) < 2 ^ 31) :
    (type_step (Char.ofNat 10) f (type_keys s ks)).step_val = decimal_value (ks.map Prod.fst)
      ∧ (type_step (Char.ofNat 10) f (type_keys s ks)).typing_step = false
      ∧ (type_step (Char.ofNat 10) f (type_keys s ks)).step_edit = [ks.map Prod.fst] := by
  obtain ⟨h1, h2, h3, _⟩ := type_step_enter f (type_keys s ks)
  have ht := type_keys_all_accepted ks s hacc
  rw [hempty, List.nil_append] at ht
  refine ⟨?_, h2, ?_⟩
  · rw [h1, ht]
    apply atoi_of_digits _ _ hv
    intro c hc
    obtain ⟨k, hk, rfl⟩ := List.mem_map.mp hc
    exact hdig k hk
  · rw [h3, ht]

/-- Witness of the amended C9: typing 5 then Enter yields step 5. -/
theorem enter_commits_typed_digits_witness :
    ((step_edit_press (initial_state 0 100)).edit_text = []
      ∧ [(Char.ofNat 53, (1 : Int))] ≠ []
      ∧ (∀ k ∈ [(Char.ofNat 53, (1 : Int))], isdigit k.1 = true)
      ∧ all_accepted (step_edit_press (initial_state 0 100)) [(Char.ofNat 53, 1)]
      ∧ decimal_value ([(Char.ofNat 53, (1 : Int))].map Prod.fst) < 2 ^ 31) ∧
    ((type_step (Char.ofNat 10) 1
          (type_keys (step_edit_press (initial_state 0 100)) [(Char.ofNat 53, 1)])).step_val
        = decimal_value ([(Char.ofNat 53, (1 : Int))].map Prod.fst)
      ∧ (type_step (Char.ofNat 10) 1
          (type_keys (step_edit_press (initial_state 0 100)) [(Char.ofNat 53, 1)])).typing_step
        = false
      ∧ (type_step (Char.ofNat 10) 1
          (type_keys (step_edit_press (initial_state 0 100)) [(Char.ofNat 53, 1)])).step_edit
        = [[(Char.ofNat 53, (1 : Int))].map Prod.fst])
    ∧ decimal_value ([(Char.ofNat 53, (1 : Int))].map Prod.fst) = 5
    ∧ (type_step (Char.ofNat 10) 1
          (type_keys (step_edit_press (initial_state 0 100)) [(Char.ofNat 53, 1)])).step_val = 5 :=
  ⟨⟨rfl, by decide, by decide, by decide, by decide⟩,
    enter_commits_typed_digits (step_edit_press (initial_state 0 100)) [(Char.ofNat 53, 1)] 1
      rfl (by decide) (by decide) (by decide) (by decide),
    by decide, by decide⟩

/-- C10: `type_step` with the backspace key (code 8) leaves an empty pending
text empty and otherwise removes its last character; `step_val` and the
edit-mode flag are unchanged by the keystroke. -/
theorem type_step_backspace (s : Player) (f : Int) :
    (type_step (Char.ofNat 8) f s).edit_text
        = (if s.edit_text = [] then s.edit_text else s.edit_text.dropLast)
      ∧ (type_step (Char.ofNat 8) f s).step_val = s.step_val
      ∧ (type_step (Char.ofNat 8) f s).typing_step = s.typing_step := by
  have e : (Char.ofNat 8).toNat = 8 := by decide
  by_cases h : s.edit_text = []
  · simp [type_step, e, blink_step_edit_text, blink_step_step_val, blink_step_typing_step, h]
  · simp [type_step, e, blink_step_edit_text, blink_step_step_val, blink_step_typing_step, h,
      backspace_loop_eq_dropLast]

/-! ## Pointer-down events and the step editor -/

theorem moveSlider_fields (pos call_from : Int) (s s1 : Player) (F : Int)
    (h : moveSlider pos call_from s = Except.ok (s1, F)) :
    s1.step_val = s.step_val ∧ s1.sldr_maxval = s.sldr_maxval ∧ s1.sldr_start = s.sldr_start
      ∧ s1.edit_text = s.edit_text ∧ s1.typing_step = s.typing_step ∧ s1.playing = s.playing
      ∧ s1.processing = s.processing ∧ s1.vid = s.vid ∧ s1.status_line = s.status_line
      ∧ s1.status_edit = s.status_edit ∧ s1.play_pause_btn = s.play_pause_btn := by
  obtain ⟨hc, hs⟩ := moveSlider_ok_iff pos call_from s (s1, F) h
  rcases hc with hc | hc
  · subst hc
    rw [moveSlider_mouse pos s hs] at h
    injection h with h
    injection h with h1 _
    subst h1
    exact ⟨rfl, rfl, rfl, rfl, rfl, rfl, rfl, rfl, rfl, rfl, rfl⟩
  · subst hc
    rw [moveSlider_other pos s hs] at h
    injection h with h
    injection h with h1 _
    subst h1
    exact ⟨rfl, rfl, rfl, rfl, rfl, rfl, rfl, rfl, rfl, rfl, rfl⟩

theorem seek_and_copy_cases (v : VideoSource) (n : Int) :
    (∃ v1, seek_and_copy v n = Except.ok v1) ∨ (∃ f, seek_and_copy v n = Except.error f) := by
  cases h : seek_and_copy v n with
  | ok v1 => exact Or.inl ⟨v1, rfl⟩
  | error f => exact Or.inr ⟨f, rfl⟩

theorem slider_press_fields (x : Int) (s s1 : Player) (h : slider_press x s = Except.ok s1) :
    s1.step_val = s.step_val ∧ s1.edit_text = s.edit_text ∧ s1.typing_step = s.typing_step := by
  unfold slider_press at h
  cases hm : moveSlider x MOUSE_CALLBACK s with
  | error f => rw [hm] at h; cases h
  | ok r =>
    obtain ⟨s2, F⟩ := r
    obtain ⟨a1, _, _, a4, a5, _⟩ := moveSlider_fields _ _ _ _ _ hm
    rw [hm] at h
    simp only at h
    cases hk : seek_and_copy s2.vid (F - 1 + s2.step_val - 1) with
    | error f => rw [hk] at h; cases h
    | ok v =>
      rw [hk] at h
      simp only at h
      split at h <;> (injection h with h; subst h; exact ⟨a1, a4, a5⟩)

theorem stop_press_fields (s s1 : Player) (h : stop_press s = Except.ok s1) :
    s1.step_val = s.step_val ∧ s1.edit_text = s.edit_text ∧ s1.typing_step = s.typing_step := by
  unfold stop_press at h
  simp only at h
  cases hm : moveSlider s.sldr_start OTHER_CALLS { s with playing := false } with
  | error f => rw [hm] at h; cases h
  | ok r =>
    obtain ⟨s2, F⟩ := r
    obtain ⟨a1, _, _, a4, a5, _⟩ := moveSlider_fields _ _ _ _ _ hm
    rw [hm] at h
    simp only at h
    cases hk : seek_and_copy s2.vid (s2.sldr_start - 1) with
    | error f => rw [hk] at h; cases h
    | ok v =>
      rw [hk] at h
      simp only at h
      injection h with h
      subst h
      exact ⟨a1, a4, a5⟩

theorem stepup_press_fields (s : Player) :
    (stepup_press s).step_val = s.step_val ∧ (stepup_press s).edit_text = s.edit_text
      ∧ (stepup_press s).typing_step = s.typing_step := by
  unfold stepup_press
  simp only
  split <;> split <;> exact ⟨rfl, rfl, rfl⟩

theorem stepdown_press_fields (s s1 : Player) (h : stepdown_press s = Except.ok s1) :
    s1.step_val = s.step_val ∧ s1.edit_text = s.edit_text ∧ s1.typing_step = s.typing_step := by
  unfold stepdown_press at h
  simp only [cvGetCaptureProperty_POS_FRAMES] at h
  by_cases hg : s.vid.pos - 1 - (s.step_val - 1) ≥ s.sldr_start
  · rw [if_pos hg] at h
    cases hm : moveSlider (s.vid.pos - 1 - (s.step_val - 1)) OTHER_CALLS
        { s with processing := true } with
    | error f => rw [hm] at h; cases h
    | ok r =>
      obtain ⟨s2, F⟩ := r
      obtain ⟨a1, _, _, a4, a5, _⟩ := moveSlider_fields _ _ _ _ _ hm
      rw [hm] at h
      simp only at h
      cases hk : seek_and_copy s2.vid (s.vid.pos - 1 - (s2.step_val - 1)) with
      | error f => rw [hk] at h; cases h
      | ok v =>
        rw [hk] at h
        simp only at h
        injection h with h
        subst h
        split <;> exact ⟨a1, a4, a5⟩
  · rw [if_neg hg] at h
    simp only at h
    injection h with h
    subst h
    split <;> exact ⟨rfl, rfl, rfl⟩

theorem play_pause_press_fields (s : Player) :
    (play_pause_press s).step_val = s.step_val ∧ (play_pause_press s).edit_text = s.edit_text
      ∧ (play_pause_press s).typing_step = s.typing_step := by
  unfold play_pause_press
  split <;> exact ⟨rfl, rfl, rfl⟩

theorem lbutton_down_editor (x y : Int) (s s1 : Player)
    (h : lbutton_down x y s = Except.ok s1) :
    s1.step_val = s.step_val
      ∧ (in_area step_edit_area x y = true → s1.typing_step = true ∧ s1.edit_text = [])
      ∧ (in_area step_edit_area x y = false →
          s1.typing_step = false ∧ s1.edit_text = sprintf_d s.step_val) := by
  unfold lbutton_down at h
  simp only at h
  have P0 : (resetAllEdits { s with sldr_moving := true }).step_val = s.step_val
      ∧ (resetAllEdits { s with sldr_moving := true }).edit_text = sprintf_d s.step_val
      ∧ (resetAllEdits { s with sldr_moving := true }).typing_step = false := ⟨rfl, rfl, rfl⟩
  generalize resetAllEdits { s with sldr_moving := true } = t0 at h P0
  cases h1 : (if on_slider y = true then slider_press x t0 else Except.ok t0) with
  | error f => rw [h1] at h; cases h
  | ok t1 =>
    have P1 : t1.step_val = s.step_val ∧ t1.edit_text = sprintf_d s.step_val
        ∧ t1.typing_step = false := by
      split at h1
      · obtain ⟨a, b, c⟩ := slider_press_fields x t0 t1 h1
        exact ⟨a.trans P0.1, b.trans P0.2.1, c.trans P0.2.2⟩
      · injection h1 with h1
        subst h1
        exact P0
    rw [h1] at h
    simp only at h
    have P2 : (if in_area play_pause_btn_area x y = true then play_pause_press t1 else t1).step_val
          = s.step_val
        ∧ (if in_area play_pause_btn_area x y = true then play_pause_press t1 else t1).edit_text
          = sprintf_d s.step_val
        ∧ (if in_area play_pause_btn_area x y = true then play_pause_press t1 else t1).typing_step
          = false := by
      split
      · obtain ⟨a, b, c⟩ := play_pause_press_fields t1
        exact ⟨a.trans P1.1, b.trans P1.2.1, c.trans P1.2.2⟩
      · exact P1
    generalize (if in_area play_pause_btn_area x y = true then play_pause_press t1 else t1) = t2
      at h P2
    cases h3 : (if in_area stop_btn_area x y = true then stop_press t2 else Except.ok t2) with
    | error f => rw [h3] at h; cases h
    | ok t3 =>
      have P3 : t3.step_val = s.step_val ∧ t3.edit_text = sprintf_d s.step_val
          ∧ t3.typing_step = false := by
        split at h3
        · obtain ⟨a, b, c⟩ := stop_press_fields t2 t3 h3
          exact ⟨a.trans P2.1, b.trans P2.2.1, c.trans P2.2.2⟩
        · injection h3 with h3
          subst h3
          exact P2
      rw [h3] at h
      simp only at h
      have P4 : (if in_area stepup_btn_area x y = true then stepup_press t3 else t3).step_val
            = s.step_val
          ∧ (if in_area stepup_btn_area x y = true then stepup_press t3 else t3).edit_text
            = sprintf_d s.step_val
          ∧ (if in_area stepup_btn_area x y = true then stepup_press t3 else t3).typing_step
            = false := by
        split
        · obtain ⟨a, b, c⟩ := stepup_press_fields t3
          exact ⟨a.trans P3.1, b.trans P3.2.1, c.trans P3.2.2⟩
        · exact P3
      generalize (if in_area stepup_btn_area x y = true then stepup_press t3 else t3) = t4
        at h P4
      cases h5 : (if in_area stepdown_btn_area x y = true then stepdown_press t4
          else Except.ok t4) with
      | error f => rw [h5] at h; cases h
      | ok t5 =>
        have P5 : t5.step_val = s.step_val ∧ t5.edit_text = sprintf_d s.step_val
            ∧ t5.typing_step = false := by
          split at h5
          · obtain ⟨a, b, c⟩ := stepdown_press_fields t4 t5 h5
            exact ⟨a.trans P4.1, b.trans P4.2.1, c.trans P4.2.2⟩
          · injection h5 with h5
            subst h5
            exact P4
        rw [h5] at h
        simp only at h
        injection h with h
        subst h
        refine ⟨?_, ?_, ?_⟩
        · split
          · exact P5.1
          · exact P5.1
        · intro hin
          rw [if_pos hin]
          exact ⟨rfl, rfl⟩
        · intro hout
          rw [if_neg (by rw [hout]; decide)]
          exact ⟨P5.2.2, P5.2.1⟩

theorem my_mouse_callback_down (x y : Int) (s : Player) :
    my_mouse_callback CV_EVENT_LBUTTONDOWN x y s = lbutton_down x y s := by
  simp [my_mouse_callback, CV_EVENT_LBUTTONDOWN, CV_EVENT_MOUSEMOVE]

theorem lbutton_down_returns (x y : Int) (s : Player) (h1 : on_slider y = false)
    (h2 : in_area stop_btn_area x y = false) (h3 : in_area stepdown_btn_area x y = false) :
    ∃ s1, lbutton_down x y s = Except.ok s1 := by
  simp [lbutton_down, h1, h2, h3]

/-- C11, as stated, fails: with the pending text "5" typed into the step field
(valid at frame 1 of 100, `step_val` still 1), a pointer-down at (10, 600),
outside the step field and every other control, leaves `step_val` at 1 instead
of committing 5, and leaves edit mode. -/
theorem pointer_down_discards_pending_step :
    (type_step (Char.ofNat 53) 1 (step_edit_press (initial_state 0 100))).typing_step = true
      ∧ (type_step (Char.ofNat 53) 1 (step_edit_press (initial_state 0 100))).edit_text
          = [Char.ofNat 53]
      ∧ atoi (type_step (Char.ofNat 53) 1 (step_edit_press (initial_state 0 100))).edit_text = 5
      ∧ (type_step (Char.ofNat 53) 1 (step_edit_press (initial_state 0 100))).step_val = 1
      ∧ in_area step_edit_area 10 600 = false ∧
    ∃ s1, my_mouse_callback CV_EVENT_LBUTTONDOWN 10 600
          (type_step (Char.ofNat 53) 1 (step_edit_press (initial_state 0 100))) = Except.ok s1
      ∧ s1.step_val = 1 ∧ s1.typing_step = false
      ∧ s1.step_val ≠
          atoi (type_step (Char.ofNat 53) 1 (step_edit_press (initial_state 0 100))).edit_text :=
  ⟨by decide, by decide, by decide, by decide, by decide, _, rfl, by decide, by decide,
    by decide⟩

/-- C11, amended: a pointer-down never commits the pending text.  Whatever the
pending text is (empty, valid or invalid), every pointer-down event that
returns leaves `step_val` at its prior value; when the pointer is outside the
step field it also leaves edit mode and overwrites the edit buffer with the
decimal text of `step_val`.  A pointer-down that hits neither the slider band
nor the stop or step-down button always returns. -/
theorem pointer_down_keeps_step_val (s : Player) (x y : Int) :
    (∀ s1, my_mouse_callback CV_EVENT_LBUTTONDOWN x y s = Except.ok s1 →
        s1.step_val = s.step_val
          ∧ (in_area step_edit_area x y = false →
              s1.typing_step = false ∧ s1.edit_text = sprintf_d s.step_val))
      ∧ (on_slider y = false → in_area stop_btn_area x y = false →
          in_area stepdown_btn_area x y = false →
          ∃ s1, my_mouse_callback CV_EVENT_LBUTTONDOWN x y s = Except.ok s1) := by
  rw [my_mouse_callback_down]
  constructor
  · intro s1 h
    obtain ⟨a, _, c⟩ := lbutton_down_editor x y s s1 h
    exact ⟨a, c⟩
  · exact lbutton_down_returns x y s

/-- Witness of the amended C11: the pending text "5" and a pointer-down at
(10, 600). -/
theorem pointer_down_keeps_step_val_witness :
    ∃ s1, my_mouse_callback CV_EVENT_LBUTTONDOWN 10 600
          (type_step (Char.ofNat 53) 1 (step_edit_press (initial_state 0 100))) = Except.ok s1
      ∧ s1.step_val
          = (type_step (Char.ofNat 53) 1 (step_edit_press (initial_state 0 100))).step_val
      ∧ s1.typing_step = false :=
  match (pointer_down_keeps_step_val
      (type_step (Char.ofNat 53) 1 (step_edit_press (initial_state 0 100))) 10 600).2
      (by decide) (by decide) (by decide) with
  | ⟨s1, h⟩ =>
    ⟨s1, h,
      ((pointer_down_keeps_step_val
        (type_step (Char.ofNat 53) 1 (step_edit_press (initial_state 0 100))) 10 600).1 s1 h).1,
      (((pointer_down_keeps_step_val
        (type_step (Char.ofNat 53) 1 (step_edit_press (initial_state 0 100))) 10 600).1 s1 h).2
          (by decide)).1⟩

/-- C12: whatever the editor state before it, a pointer-down event at `(x, y)`
that returns leaves the editor in edit mode exactly when `(x, y)` lies in the
hit rectangle of the step field, then with an empty pending text; otherwise
edit mode is off and the edit buffer holds the decimal text of the current
`step_val`: the string `sprintf` writes for it, which is a minus sign when
`step_val < 0` followed by the decimal numeral of `|step_val|` (not empty,
digits only, of that value, without a leading zero).  A pointer-down inside the
step field, or anywhere off the slider band and the stop and step-down buttons,
always returns. -/
theorem pointer_down_sets_edit_mode (s : Player) (x y : Int) :
    (∀ s1, my_mouse_callback CV_EVENT_LBUTTONDOWN x y s = Except.ok s1 →
        (s1.typing_step = true ↔ in_area step_edit_area x y = true)
          ∧ (in_area step_edit_area x y = true → s1.edit_text = [])
          ∧ (in_area step_edit_area x y = false →
              s1.typing_step = false ∧ s1.edit_text = sprintf_d s1.step_val
                ∧ decimal_text_of s1.step_val s1.edit_text))
      ∧ (in_area step_edit_area x y = true →
          ∃ s1, my_mouse_callback CV_EVENT_LBUTTONDOWN x y s = Except.ok s1)
      ∧ (on_slider y = false → in_area stop_btn_area x y = false →
          in_area stepdown_btn_area x y = false →
          ∃ s1, my_mouse_callback CV_EVENT_LBUTTONDOWN x y s = Except.ok s1) := by
  rw [my_mouse_callback_down]
  refine ⟨?_, ?_, lbutton_down_returns x y s⟩
  · intro s1 h
    obtain ⟨a, b, c⟩ := lbutton_down_editor x y s s1 h
    refine ⟨?_, fun hin => (b hin).2, ?_⟩
    · constructor
      · intro ht
        cases hin : in_area step_edit_area x y with
        | true => rfl
        | false =>
          rw [(c hin).1] at ht
          cases ht
      · intro hin
        exact (b hin).1
    · intro hout
      have h2 : s1.typing_step = false ∧ s1.edit_text = sprintf_d s1.step_val := by
        rw [a]
        exact c hout
      refine ⟨h2.1, h2.2, ?_⟩
      rw [h2.2]
      exact sprintf_d_decimal_text _
  · intro hin
    obtain ⟨h1, _, h3, _, h5⟩ := step_edit_hit_only x y hin
    exact lbutton_down_returns x y s h1 h3 h5

/-- Witness of C12: a pointer-down inside the step field at (70, 540) in the
initial state opens the editor with an empty pending text; a pointer-down at
(10, 600), outside every widget, with `5` pending and step 1 committed, leaves
edit mode with the text `1` in the edit buffer. -/
theorem pointer_down_sets_edit_mode_witness :
    (in_area step_edit_area 70 540 = true ∧
      ∃ s1, my_mouse_callback CV_EVENT_LBUTTONDOWN 70 540 (initial_state 0 100) = Except.ok s1
        ∧ (s1.typing_step = true ↔ in_area step_edit_area 70 540 = true)
        ∧ s1.edit_text = []) ∧
    (in_area step_edit_area 10 600 = false
      ∧ (type_step (Char.ofNat 53) 1 (step_edit_press (initial_state 0 100))).edit_text
          = [Char.ofNat 53] ∧
      ∃ s1, my_mouse_callback CV_EVENT_LBUTTONDOWN 10 600
            (type_step (Char.ofNat 53) 1 (step_edit_press (initial_state 0 100))) = Except.ok s1
        ∧ s1.typing_step = false
        ∧ s1.edit_text = [Char.ofNat 49]
        ∧ decimal_text_of 1 s1.edit_text) :=
  ⟨⟨by decide,
    match (pointer_down_sets_edit_mode (initial_state 0 100) 70 540).2.1 (by decide) with
    | ⟨s1, h⟩ =>
      ⟨s1, h, ((pointer_down_sets_edit_mode (initial_state 0 100) 70 540).1 s1 h).1,
        ((pointer_down_sets_edit_mode (initial_state 0 100) 70 540).1 s1 h).2.1 (by decide)⟩⟩,
   ⟨by decide, by decide,
    match (pointer_down_sets_edit_mode
        (type_step (Char.ofNat 53) 1 (step_edit_press (initial_state 0 100))) 10 600).2.2
        (by decide) (by decide) (by decide) with
    | ⟨s1, h⟩ =>
      have h3 := ((pointer_down_sets_edit_mode
        (type_step (Char.ofNat 53) 1 (step_edit_press (initial_state 0 100))) 10 600).1 s1 h).2.2
          (by decide)
      have h4 : s1.step_val = 1 :=
        (lbutton_down_editor 10 600 _ s1
          ((my_mouse_callback_down 10 600 _).symm.trans h)).1.trans (by decide)
      ⟨s1, h, h3.1, by rw [h3.2.1, h4]; simp [sprintf_d, digit_char],
        by rw [← h4]; exact h3.2.2⟩⟩⟩

/-! ## Hit areas -/

theorem count_true_le_one (l : List Bool)
    (h : l.Pairwise (fun a b => ¬ (a = true ∧ b = true))) : l.count true ≤ 1 := by
  induction l with
  | nil => simp
  | cons a t ih =>
    rw [List.pairwise_cons] at h
    obtain ⟨h1, h2⟩ := h
    cases a with
    | false =>
      rw [List.count_cons_of_ne (by decide)]
      exact ih h2
    | true =>
      have hz : t.count true = 0 := by
        rw [List.count_eq_zero]
        intro hmem
        exact h1 true hmem ⟨rfl, rfl⟩
      rw [List.count_cons_self, hz]

theorem hit_tests_exclusive (x y : Int) :
    (hit_tests x y).Pairwise (fun a b => ¬ (a = true ∧ b = true)) := by
  simp only [hit_tests, List.pairwise_cons, List.mem_cons, List.mem_singleton,
    forall_eq_or_imp, forall_eq, List.not_mem_nil, false_imp_iff, implies_true,
    List.Pairwise.nil, and_true, in_area, on_slider, stepup_btn_area, play_pause_btn_area,
    stop_btn_area, stepdown_btn_area, step_edit_area, fps_edit_area, four_cc_edit_area,
    status_edit_area, area_of, p_height, scrn_height, sldr_height, ctrl_pnl_height,
    Bool.and_eq_true, decide_eq_true_eq]
  omega

theorem branch_tests_exclusive (x y : Int) :
    (branch_tests x y).Pairwise (fun a b => ¬ (a = true ∧ b = true)) := by
  simp only [branch_tests, List.pairwise_cons, List.mem_cons, List.mem_singleton,
    forall_eq_or_imp, forall_eq, List.not_mem_nil, false_imp_iff, implies_true,
    List.Pairwise.nil, and_true, in_area, on_slider, stepup_btn_area, play_pause_btn_area,
    stop_btn_area, stepdown_btn_area, step_edit_area, area_of, p_height, scrn_height,
    sldr_height, ctrl_pnl_height, Bool.and_eq_true, decide_eq_true_eq]
  omega

/-- C13: the slider band and the eight rectangles of the panel set-up
(play/pause, stop, step-up, step-down, step field, FPS, FOURCC, status) are
pairwise disjoint, even with their borders included; hence at every point
`(x, y)` at most one of the nine hit tests succeeds, and at most one of the six
branches of a pointer-down event fires. -/
theorem control_areas_pairwise_disjoint :
    List.Pairwise (fun a b => rects_meet a b = false) control_rects
      ∧ ∀ x y : Int, (hit_tests x y).Pairwise (fun a b => ¬ (a = true ∧ b = true))
          ∧ (hit_tests x y).count true ≤ 1
          ∧ (branch_tests x y).count true ≤ 1 :=
  ⟨by decide, fun x y =>
    ⟨hit_tests_exclusive x y, count_true_le_one _ (hit_tests_exclusive x y),
      count_true_le_one _ (branch_tests_exclusive x y)⟩⟩

/-! ## Play/pause and stop -/

theorem play_pause_hit_only (x y : Int) (h : in_area play_pause_btn_area x y = true) :
    on_slider y = false ∧ in_area stop_btn_area x y = false
      ∧ in_area stepup_btn_area x y = false ∧ in_area stepdown_btn_area x y = false
      ∧ in_area step_edit_area x y = false := by
  simp only [in_area, on_slider, stepup_btn_area, play_pause_btn_area, stop_btn_area,
    stepdown_btn_area, step_edit_area, area_of, p_height, scrn_height, sldr_height,
    ctrl_pnl_height, Bool.and_eq_true, decide_eq_true_eq, Bool.and_eq_false_iff,
    decide_eq_false_iff_not] at h ⊢
  omega

theorem stop_hit_only (x y : Int) (h : in_area stop_btn_area x y = true) :
    on_slider y = false ∧ in_area play_pause_btn_area x y = false
      ∧ in_area stepup_btn_area x y = false ∧ in_area stepdown_btn_area x y = false
      ∧ in_area step_edit_area x y = false := by
  simp only [in_area, on_slider, stepup_btn_area, play_pause_btn_area, stop_btn_area,
    stepdown_btn_area, step_edit_area, area_of, p_height, scrn_height, sldr_height,
    ctrl_pnl_height, Bool.and_eq_true, decide_eq_true_eq, Bool.and_eq_false_iff,
    decide_eq_false_iff_not] at h ⊢
  omega

theorem lbutton_down_play_pause (x y : Int) (s : Player)
    (h : in_area play_pause_btn_area x y = true) :
    my_mouse_callback CV_EVENT_LBUTTONDOWN x y s =
      Except.ok (play_pause_press (resetAllEdits { s with sldr_moving := true })) := by
  obtain ⟨h1, h2, h3, h4, h5⟩ := play_pause_hit_only x y h
  simp [my_mouse_callback, CV_EVENT_LBUTTONDOWN, CV_EVENT_MOUSEMOVE, lbutton_down,
    h, h1, h2, h3, h4, h5]

theorem lbutton_down_stop (x y : Int) (s : Player)
    (h : in_area stop_btn_area x y = true) :
    my_mouse_callback CV_EVENT_LBUTTONDOWN x y s =
      stop_press (resetAllEdits { s with sldr_moving := true }) := by
  obtain ⟨h1, h2, h3, h4, h5⟩ := stop_hit_only x y h
  simp only [my_mouse_callback, CV_EVENT_LBUTTONDOWN, CV_EVENT_MOUSEMOVE, lbutton_down,
    h, h1, h2, h3, h4, h5]
  simp
  cases stop_press (resetAllEdits { s with sldr_moving := true }) <;> rfl

theorem play_pause_press_spec (s : Player) :
    (play_pause_press s).playing = !s.playing
      ∧ (play_pause_press s).status_line = (if s.playing then "Paused" else "Playing")
      ∧ (play_pause_press s).status_edit = [if s.playing then "Paused" else "Playing"]
      ∧ (play_pause_press s).play_pause_btn = (if s.playing then PLAY_BTN else PAUSE_BTN) := by
  cases hp : s.playing <;> simp [play_pause_press, hp, change_status]

theorem stop_press_spec (s : Player) (hstep : 1 ≤ s.step_val)
    (hsrc : s.sldr_start < s.vid.frame_count) :
    ∃ s1, stop_press s = Except.ok s1 ∧ s1.playing = false ∧ s1.status_line = "Stopped"
      ∧ s1.status_edit = ["Stopped"] ∧ s1.play_pause_btn = PLAY_BTN
      ∧ s1.cur_frame_no = [sprintf_d (round_to_step s.step_val s.sldr_start)] := by
  have hk0 : ({ s with playing := false } : Player).step_val ≠ 0 := by
    show s.step_val ≠ 0
    omega
  have hsk := seek_and_copy_ok s.vid (s.sldr_start - 1) (by omega)
  simp only [stop_press]
  rw [moveSlider_other _ _ hk0]
  simp [change_status, hsk]

/-- C14: in every state a pointer-down inside the play/pause rectangle flips
the `playing` flag, sets the status text to "Playing" when the flag becomes
true and to "Paused" when it becomes false, and redraws the button with the
pause glyph resp. the play glyph; a second press restores the original value
of the flag. -/
theorem play_pause_press_toggles (s : Player) (x y : Int)
    (hin : in_area play_pause_btn_area x y = true) :
    ∃ s1, my_mouse_callback CV_EVENT_LBUTTONDOWN x y s = Except.ok s1
      ∧ s1.playing = !s.playing
      ∧ s1.status_line = (if s1.playing then "Playing" else "Paused")
      ∧ s1.status_edit = [if s1.playing then "Playing" else "Paused"]
      ∧ s1.play_pause_btn = (if s1.playing then PAUSE_BTN else PLAY_BTN)
      ∧ ∃ s2, my_mouse_callback CV_EVENT_LBUTTONDOWN x y s1 = Except.ok s2
          ∧ s2.playing = s.playing := by
  refine ⟨_, lbutton_down_play_pause x y s hin, ?_⟩
  obtain ⟨a, b, c, d⟩ := play_pause_press_spec (resetAllEdits { s with sldr_moving := true })
  have e : (resetAllEdits { s with sldr_moving := true }).playing = s.playing := rfl
  rw [e] at a b c d
  refine ⟨a, ?_, ?_, ?_, _, lbutton_down_play_pause x y _ hin, ?_⟩
  · rw [a, b]; cases s.playing <;> rfl
  · rw [a, c]; cases s.playing <;> rfl
  · rw [a, d]; cases s.playing <;> rfl
  · obtain ⟨a2, _⟩ := play_pause_press_spec
      (resetAllEdits { play_pause_press (resetAllEdits { s with sldr_moving := true }) with
        sldr_moving := true })
    rw [a2]
    show (!(play_pause_press (resetAllEdits { s with sldr_moving := true })).playing) = s.playing
    rw [a]
    cases s.playing <;> rfl

/-- Witness of C14: a press at (380, 540) in the initial state. -/
theorem play_pause_press_toggles_witness :
    in_area play_pause_btn_area 380 540 = true ∧
    ∃ s1, my_mouse_callback CV_EVENT_LBUTTONDOWN 380 540 (initial_state 0 100) = Except.ok s1
      ∧ s1.playing = !(initial_state 0 100).playing
      ∧ s1.status_line = (if s1.playing then "Playing" else "Paused")
      ∧ s1.status_edit = [if s1.playing then "Playing" else "Paused"]
      ∧ s1.play_pause_btn = (if s1.playing then PAUSE_BTN else PLAY_BTN)
      ∧ ∃ s2, my_mouse_callback CV_EVENT_LBUTTONDOWN 380 540 s1 = Except.ok s2
          ∧ s2.playing = (initial_state 0 100).playing :=
  ⟨by decide, play_pause_press_toggles (initial_state 0 100) 380 540 (by decide)⟩

/-- C15, as stated, fails: with `sldr_start = 3`, 10 frames and step 2, a press
on the stop button stops playback and shows "Stopped" and the play glyph, but
the current-frame field shows 2, not `sldr_start = 3`. -/
theorem stop_press_shows_rounded_start :
    1 ≤ (player_at 3 10 2 5).step_val ∧ (player_at 3 10 2 5).sldr_start = 3
      ∧ in_area stop_btn_area 440 540 = true ∧
    ∃ s1, my_mouse_callback CV_EVENT_LBUTTONDOWN 440 540 (player_at 3 10 2 5) = Except.ok s1
      ∧ s1.playing = false ∧ s1.status_line = "Stopped" ∧ s1.play_pause_btn = PLAY_BTN
      ∧ s1.cur_frame_no = [sprintf_d 2]
      ∧ s1.cur_frame_no ≠ [sprintf_d (player_at 3 10 2 5).sldr_start] := by
  obtain ⟨s1, h, a, b, _, d, e⟩ :=
    stop_press_spec (resetAllEdits { player_at 3 10 2 5 with sldr_moving := true })
      (by decide) (by decide)
  have e2 : round_to_step
      (resetAllEdits { player_at 3 10 2 5 with sldr_moving := true }).step_val
      (resetAllEdits { player_at 3 10 2 5 with sldr_moving := true }).sldr_start = 2 := by
    decide
  rw [e2] at e
  refine ⟨by decide, rfl, by decide, s1, ?_, a, b, d, e, ?_⟩
  · rw [lbutton_down_stop _ _ _ (by decide)]
    exact h
  · rw [e]
    have e3 : (player_at 3 10 2 5).sldr_start = 3 := rfl
    rw [e3]
    simp [sprintf_d, digit_char]

/-- C15, amended: from every state (playing or not) whose source holds more
than `sldr_start` frames, and for every step `≥ 1`, a pointer-down inside the
stop rectangle sets `playing` to false, sets the status text to "Stopped",
redraws the play glyph and sets the displayed current-frame field to
`sldr_start` rounded towards zero to a multiple of `step_val`; that is
`sldr_start` itself whenever `step_val` divides it, in particular for
`sldr_start = 0`. -/
theorem stop_press_stops (s : Player) (x y : Int)
    (hin : in_area stop_btn_area x y = true) (hstep : 1 ≤ s.step_val)
    (hsrc : s.sldr_start < s.vid.frame_count) :
    ∃ s1, my_mouse_callback CV_EVENT_LBUTTONDOWN x y s = Except.ok s1
      ∧ s1.playing = false ∧ s1.status_line = "Stopped" ∧ s1.status_edit = ["Stopped"]
      ∧ s1.play_pause_btn = PLAY_BTN
      ∧ s1.cur_frame_no = [sprintf_d (round_to_step s.step_val s.sldr_start)]
      ∧ (s.step_val ∣ s.sldr_start → s1.cur_frame_no = [sprintf_d s.sldr_start]) := by
  obtain ⟨s1, h, a, b, c, d, e⟩ :=
    stop_press_spec (resetAllEdits { s with sldr_moving := true }) hstep hsrc
  have e1 : (resetAllEdits { s with sldr_moving := true }).step_val = s.step_val := rfl
  have e2 : (resetAllEdits { s with sldr_moving := true }).sldr_start = s.sldr_start := rfl
  rw [e1, e2] at e
  refine ⟨s1, ?_, a, b, c, d, e, ?_⟩
  · rw [lbutton_down_stop x y s hin]
    exact h
  · intro hd
    rw [e, round_to_step_of_dvd _ _ hd]

/-- Witness of the amended C15: a press on the stop button at (440, 540) while
playing, 100 frames, step 5, source at frame 40. -/
theorem stop_press_stops_witness :
    (in_area stop_btn_area 440 540 = true
      ∧ 1 ≤ (play_pause_press (player_at 0 100 5 40)).step_val
      ∧ (play_pause_press (player_at 0 100 5 40)).sldr_start
          < (play_pause_press (player_at 0 100 5 40)).vid.frame_count) ∧
    ∃ s1, my_mouse_callback CV_EVENT_LBUTTONDOWN 440 540
          (play_pause_press (player_at 0 100 5 40)) = Except.ok s1
      ∧ s1.playing = false ∧ s1.status_line = "Stopped" ∧ s1.status_edit = ["Stopped"]
      ∧ s1.play_pause_btn = PLAY_BTN
      ∧ s1.cur_frame_no
          = [sprintf_d (round_to_step (play_pause_press (player_at 0 100 5 40)).step_val
              (play_pause_press (player_at 0 100 5 40)).sldr_start)]
      ∧ ((play_pause_press (player_at 0 100 5 40)).step_val
            ∣ (play_pause_press (player_at 0 100 5 40)).sldr_start →
          s1.cur_frame_no = [sprintf_d (play_pause_press (player_at 0 100 5 40)).sldr_start]) :=
  ⟨⟨by decide, by decide, by decide⟩,
    stop_press_stops (play_pause_press (player_at 0 100 5 40)) 440 540
      (by decide) (by decide) (by decide)⟩

/-! ## The event loop -/

theorem cvQueryFrame_trace (v : VideoSource) :
    (cvQueryFrame v).1.reads = v.reads + 1 ∧ (cvQueryFrame v).1.seeks = v.seeks
      ∧ (cvQueryFrame v).1.frame_count = v.frame_count ∧ v.pos ≤ (cvQueryFrame v).1.pos := by
  unfold cvQueryFrame
  split
  · exact ⟨rfl, rfl, rfl, by show v.pos ≤ v.pos + 1; omega⟩
  · exact ⟨rfl, rfl, rfl, le_refl _⟩

theorem skip_frames_trace (n : Nat) (v : VideoSource) :
    (skip_frames n v).reads = v.reads + n ∧ (skip_frames n v).seeks = v.seeks
      ∧ (skip_frames n v).frame_count = v.frame_count ∧ v.pos ≤ (skip_frames n v).pos := by
  induction n generalizing v with
  | zero => exact ⟨rfl, rfl, rfl, le_refl _⟩
  | succ n ih =>
    obtain ⟨a, b, c, d⟩ := ih (cvQueryFrame v).1
    obtain ⟨a1, b1, c1, d1⟩ := cvQueryFrame_trace v
    rw [skip_frames]
    refine ⟨?_, ?_, ?_, ?_⟩
    · rw [a, a1]; omega
    · rw [b, b1]
    · rw [c, c1]
    · exact le_trans d1 d

theorem read_step_frames (v : VideoSource) (k : Int) (hk : 1 ≤ k)
    (hroom : v.pos + k ≤ v.frame_count) :
    cvQueryFrame (skip_frames (k - 1).toNat v) =
      ({ v with pos := v.pos + k, reads := v.reads + k.toNat }, true) := by
  have hn : (((k - 1).toNat : Nat) : Int) = k - 1 := Int.toNat_of_nonneg (by omega)
  have hn2 : (k - 1).toNat + 1 = k.toNat := by omega
  rw [skip_frames_in_range _ _ (by rw [hn]; omega)]
  have hlt : v.pos + (k - 1) < v.frame_count := by omega
  simp only [cvQueryFrame, hn, hlt, if_true, ← hn2, Prod.mk.injEq, VideoSource.mk.injEq,
    true_and, and_true]
  constructor <;> omega

theorem play_frames_trace (s : Player) (hplay : s.playing = true) (hstep : 1 ≤ s.step_val) :
    (play_frames s).vid.reads = s.vid.reads + s.step_val.toNat
      ∧ (play_frames s).vid.seeks = s.vid.seeks ∧ s.vid.pos ≤ (play_frames s).vid.pos
      ∧ (play_frames s).step_val = s.step_val ∧ (play_frames s).typing_step = s.typing_step := by
  obtain ⟨a, b, _, d⟩ := skip_frames_trace (s.step_val - 1).toNat s.vid
  obtain ⟨a1, b1, _, d1⟩ := cvQueryFrame_trace (skip_frames (s.step_val - 1).toNat s.vid)
  have hn2 : (s.step_val - 1).toNat + 1 = s.step_val.toNat := by omega
  simp only [play_frames, hplay, if_true]
  split <;> refine ⟨?_, ?_, ?_, rfl, rfl⟩
  all_goals first
    | (show (cvQueryFrame _).1.reads = _; rw [a1, a]; omega)
    | (show (cvQueryFrame _).1.seeks = _; rw [b1, b])
    | (show s.vid.pos ≤ (cvQueryFrame _).1.pos; exact le_trans d d1)

theorem nonneg_loop_of_nonneg (fuel : Nat) (v : VideoSource) (h : 0 ≤ v.pos) :
    nonneg_loop fuel v = Except.ok v := by
  cases fuel with
  | zero => rfl
  | succ n => simp [nonneg_loop, cvGetCaptureProperty_POS_FRAMES, h]

theorem nonneg_loop_result (fuel : Nat) (v v1 : VideoSource)
    (hfuel : - v.pos ≤ (fuel : Int)) (h : nonneg_loop fuel v = Except.ok v1) : 0 ≤ v1.pos := by
  induction fuel generalizing v with
  | zero =>
    simp only [nonneg_loop] at h
    injection h with h
    subst h
    simp at hfuel
    omega
  | succ n ih =>
    simp only [nonneg_loop, cvGetCaptureProperty_POS_FRAMES] at h
    by_cases hp : v.pos ≥ 0
    · rw [if_pos hp] at h
      injection h with h
      subst h
      exact hp
    · rw [if_neg hp] at h
      by_cases hq : v.pos < v.frame_count
      · have e : cvQueryFrame v = ({ v with pos := v.pos + 1, reads := v.reads + 1 }, true) := by
          simp [cvQueryFrame, hq]
        rw [e] at h
        simp only [if_true] at h
        exact ih _ (by show -(v.pos + 1) ≤ (n : Int); push_cast at hfuel; omega) h
      · have e : (cvQueryFrame v).2 = false := by simp [cvQueryFrame, hq]
        rw [e] at h
        simp at h

theorem type_step_frame_fields (c : Char) (f : Int) (s : Player) :
    (type_step c f s).vid = s.vid ∧ (type_step c f s).playing = s.playing
      ∧ (type_step c f s).processing = s.processing
      ∧ (type_step c f s).sldr_maxval = s.sldr_maxval
      ∧ (type_step c f s).status_line = s.status_line
      ∧ (type_step c f s).status_edit = s.status_edit
      ∧ (type_step c f s).play_pause_btn = s.play_pause_btn := by
  have hb : (blink_step s).vid = s.vid ∧ (blink_step s).playing = s.playing
      ∧ (blink_step s).processing = s.processing
      ∧ (blink_step s).sldr_maxval = s.sldr_maxval
      ∧ (blink_step s).status_line = s.status_line
      ∧ (blink_step s).status_edit = s.status_edit
      ∧ (blink_step s).play_pause_btn = s.play_pause_btn := by
    unfold blink_step
    split <;> split <;> exact ⟨rfl, rfl, rfl, rfl, rfl, rfl, rfl⟩
  have hb2 : (blink_step { s with step_edit := [] }).vid = s.vid
      ∧ (blink_step { s with step_edit := [] }).playing = s.playing
      ∧ (blink_step { s with step_edit := [] }).processing = s.processing
      ∧ (blink_step { s with step_edit := [] }).sldr_maxval = s.sldr_maxval
      ∧ (blink_step { s with step_edit := [] }).status_line = s.status_line
      ∧ (blink_step { s with step_edit := [] }).status_edit = s.status_edit
      ∧ (blink_step { s with step_edit := [] }).play_pause_btn = s.play_pause_btn := by
    unfold blink_step
    split <;> split <;> exact ⟨rfl, rfl, rfl, rfl, rfl, rfl, rfl⟩
  obtain ⟨b1, b2, b3, b4, b5, b6, b7⟩ := hb2
  simp only [type_step]
  split_ifs <;> simp [b1, b2, b3, b4, b5, b6, b7]

theorem play_frames_fields (s : Player) :
    (play_frames s).processing = s.processing ∧ (play_frames s).sldr_maxval = s.sldr_maxval
      ∧ (play_frames s).status_line = s.status_line
      ∧ (play_frames s).status_edit = s.status_edit
      ∧ (play_frames s).play_pause_btn = s.play_pause_btn
      ∧ (play_frames s).step_val = s.step_val
      ∧ (play_frames s).typing_step = s.typing_step := by
  unfold play_frames
  simp only
  split
  · split <;> exact ⟨rfl, rfl, rfl, rfl, rfl, rfl, rfl⟩
  · exact ⟨rfl, rfl, rfl, rfl, rfl, rfl, rfl⟩

theorem loop_body_ok (c : Char) (s s1 : Player) (hproc : s.processing = false)
    (hpos : 0 ≤ (play_frames s).vid.pos) (h : loop_body c s = Except.ok s1) :
    s1.vid = (play_frames s).vid ∧ s1.playing = (play_frames s).playing
      ∧ s1.processing = false
      ∧ (if (play_frames s).vid.pos = s.sldr_maxval - 1 then
          s1.status_line = "End reached" ∧ s1.status_edit = ["End reached"]
            ∧ s1.play_pause_btn = PLAY_BTN
         else
          s1.status_line = s.status_line ∧ s1.status_edit = s.status_edit
            ∧ s1.play_pause_btn = s.play_pause_btn) := by
  obtain ⟨f1, f2, f3, f4, f5, _, _⟩ := play_frames_fields s
  simp only [loop_body, hproc, Bool.not_false, if_true,
    nonneg_loop_of_nonneg _ _ hpos, cvGetCaptureProperty_POS_FRAMES] at h
  have P : (if (play_frames s).typing_step = true
        then type_step c (play_frames s).vid.pos (play_frames s) else play_frames s).vid
        = (play_frames s).vid
      ∧ (if (play_frames s).typing_step = true
        then type_step c (play_frames s).vid.pos (play_frames s) else play_frames s).playing
        = (play_frames s).playing
      ∧ (if (play_frames s).typing_step = true
        then type_step c (play_frames s).vid.pos (play_frames s) else play_frames s).processing
        = false
      ∧ (if (play_frames s).typing_step = true
        then type_step c (play_frames s).vid.pos (play_frames s) else play_frames s).sldr_maxval
        = s.sldr_maxval
      ∧ (if (play_frames s).typing_step = true
        then type_step c (play_frames s).vid.pos (play_frames s) else play_frames s).status_line
        = s.status_line
      ∧ (if (play_frames s).typing_step = true
        then type_step c (play_frames s).vid.pos (play_frames s) else play_frames s).status_edit
        = s.status_edit
      ∧ (if (play_frames s).typing_step = true
        then type_step c (play_frames s).vid.pos (play_frames s)
          else play_frames s).play_pause_btn
        = s.play_pause_btn := by
    split
    · obtain ⟨t1, t2, t3, t4, t5, t6, t7⟩ :=
        type_step_frame_fields c (play_frames s).vid.pos (play_frames s)
      exact ⟨t1, t2, t3.trans (f1.trans hproc), t4.trans f2, t5.trans f3, t6.trans f4,
        t7.trans f5⟩
    · exact ⟨rfl, rfl, f1.trans hproc, f2, f3, f4, f5⟩
  have hvid : ({ play_frames s with vid := (play_frames s).vid } : Player) = play_frames s := rfl
  rw [hvid] at h
  generalize (if (play_frames s).typing_step = true
        then type_step c (play_frames s).vid.pos (play_frames s) else play_frames s) = t at h P
  obtain ⟨p1, p2, p3, p4, p5, p6, p7⟩ := P
  by_cases hend : (play_frames s).vid.pos = t.sldr_maxval - 1
  · rw [if_pos hend] at h
    rw [if_pos (by rw [← p4]; exact hend)]
    cases hm : moveSlider (play_frames s).vid.pos OTHER_CALLS
        (change_status { t with play_pause_btn := PLAY_BTN, status_line := "End reached" }) with
    | error f => rw [hm] at h; cases h
    | ok r =>
      obtain ⟨s2, F⟩ := r
      rw [hm] at h
      simp only at h
      injection h with h
      subst h
      obtain ⟨_, _, _, _, _, m6, m7, m8, m9, m10, m11⟩ := moveSlider_fields _ _ _ _ _ hm
      exact ⟨m8.trans p1, m6.trans p2, m7.trans p3, m9, m10, m11⟩
  · rw [if_neg hend] at h
    rw [if_neg (by rw [← p4]; exact hend)]
    cases hm : moveSlider (play_frames s).vid.pos OTHER_CALLS t with
    | error f => rw [hm] at h; cases h
    | ok r =>
      obtain ⟨s2, F⟩ := r
      rw [hm] at h
      simp only at h
      injection h with h
      subst h
      obtain ⟨_, _, _, _, _, m6, m7, m8, m9, m10, m11⟩ := moveSlider_fields _ _ _ _ _ hm
      exact ⟨m8.trans p1, m6.trans p2, m7.trans p3, m9.trans p5, m10.trans p6, m11.trans p7⟩

theorem loop_body_returns (c : Char) (s : Player) (hproc : s.processing = false)
    (htyp : s.typing_step = false) (hstep : s.step_val ≠ 0)
    (hpos : 0 ≤ (play_frames s).vid.pos) :
    ∃ s1, loop_body c s = Except.ok s1 ∧ s1.step_val = s.step_val ∧ s1.typing_step = false
      ∧ s1.sldr_maxval = s.sldr_maxval
      ∧ s1.cur_frame_no = [sprintf_d (round_to_step s.step_val (play_frames s).vid.pos)]
      ∧ s1.knob = new_pos_of_frame s.sldr_maxval (play_frames s).vid.pos := by
  obtain ⟨_, f2, _, _, _, f6, f7⟩ := play_frames_fields s
  have ht : (play_frames s).typing_step = false := f7.trans htyp
  have hk : (play_frames s).step_val ≠ 0 := by rw [f6]; exact hstep
  simp only [loop_body, hproc, Bool.not_false, if_true,
    nonneg_loop_of_nonneg _ _ hpos, cvGetCaptureProperty_POS_FRAMES]
  have hvid : ({ play_frames s with vid := (play_frames s).vid } : Player) = play_frames s := rfl
  rw [hvid, if_neg (show ¬ ((play_frames s).typing_step = true) from by rw [ht]; decide)]
  by_cases hend : (play_frames s).vid.pos = (play_frames s).sldr_maxval - 1
  · rw [if_pos hend, moveSlider_other _ _ (show (change_status
        { play_frames s with play_pause_btn := PLAY_BTN, status_line := "End reached" }).step_val
        ≠ 0 from hk)]
    refine ⟨_, rfl, f6, ht, f2, ?_, ?_⟩
    · show [sprintf_d (round_to_step (play_frames s).step_val _)] = _
      rw [f6]
    · show new_pos_of_frame (play_frames s).sldr_maxval _ = _
      rw [f2]
  · rw [if_neg hend, moveSlider_other _ _ hk]
    refine ⟨_, rfl, f6, ht, f2, ?_, ?_⟩
    · show [sprintf_d (round_to_step (play_frames s).step_val _)] = _
      rw [f6]
    · show new_pos_of_frame (play_frames s).sldr_maxval _ = _
      rw [f2]

theorem play_frames_pos_le (s : Player) : s.vid.pos ≤ (play_frames s).vid.pos := by
  obtain ⟨_, _, _, d⟩ := skip_frames_trace (s.step_val - 1).toNat s.vid
  obtain ⟨_, _, _, d1⟩ := cvQueryFrame_trace (skip_frames (s.step_val - 1).toNat s.vid)
  unfold play_frames
  simp only
  split
  · split <;> exact le_trans d d1
  · exact le_refl _

theorem play_frames_playing (s : Player) :
    ((play_frames s).playing = true ↔
      s.playing = true ∧ (cvQueryFrame (skip_frames (s.step_val - 1).toNat s.vid)).2 = true) := by
  unfold play_frames
  simp only
  cases hp : s.playing with
  | false => simp [hp]
  | true =>
    cases hq : (cvQueryFrame (skip_frames (s.step_val - 1).toNat s.vid)).2 <;> simp [hp, hq]

theorem play_frames_in_range (s : Player) (hplay : s.playing = true) (hstep : 1 ≤ s.step_val)
    (hroom : s.vid.pos + s.step_val ≤ s.vid.frame_count) :
    play_frames s =
      { s with vid := { s.vid with pos := s.vid.pos + s.step_val,
                                   reads := s.vid.reads + s.step_val.toNat } } := by
  unfold play_frames
  simp only [hplay, if_true]
  rw [read_step_frames s.vid s.step_val hstep hroom]
  rfl

theorem playing_tick_advances (c : Char) (s : Player) (hstep : 1 ≤ s.step_val)
    (hplay : s.playing = true) (hproc : s.processing = false) (htyp : s.typing_step = false)
    (hpos : 0 ≤ s.vid.pos) (hroom : s.vid.pos + s.step_val ≤ s.vid.frame_count) :
    ∃ s1, loop_body c s = Except.ok s1
      ∧ s1.vid = { s.vid with pos := s.vid.pos + s.step_val,
                              reads := s.vid.reads + s.step_val.toNat }
      ∧ s1.playing = true ∧ s1.processing = false ∧ s1.typing_step = false
      ∧ s1.step_val = s.step_val ∧ s1.sldr_maxval = s.sldr_maxval
      ∧ s1.cur_frame_no = [sprintf_d (round_to_step s.step_val (s.vid.pos + s.step_val))]
      ∧ s1.knob = new_pos_of_frame s.sldr_maxval (s.vid.pos + s.step_val) := by
  have hpf := play_frames_in_range s hplay hstep hroom
  have hp2 : 0 ≤ (play_frames s).vid.pos := le_trans hpos (play_frames_pos_le s)
  obtain ⟨s1, h, a, b, c1, d, e⟩ := loop_body_returns c s hproc htyp (by omega) hp2
  obtain ⟨v1, v2, v3, _⟩ := loop_body_ok c s s1 hproc hp2 h
  rw [hpf] at v1 v2 d e
  exact ⟨s1, h, v1, v2.trans hplay, v3, b, a, c1, d, e⟩

theorem playing_ticks_advance (cs : List Char) (s : Player) (hstep : 1 ≤ s.step_val)
    (hplay : s.playing = true) (hproc : s.processing = false) (htyp : s.typing_step = false)
    (hpos : 0 ≤ s.vid.pos)
    (hroom : s.vid.pos + (cs.length : Int) * s.step_val ≤ s.vid.frame_count) :
    ∃ s1, run_ticks s cs = Except.ok s1
      ∧ s1.vid.pos = s.vid.pos + (cs.length : Int) * s.step_val
      ∧ s1.vid.reads = s.vid.reads + cs.length * s.step_val.toNat
      ∧ s1.vid.seeks = s.vid.seeks
      ∧ s1.playing = true
      ∧ (cs ≠ [] →
          s1.cur_frame_no = [sprintf_d (round_to_step s.step_val s1.vid.pos)]
            ∧ s1.knob = new_pos_of_frame s.sldr_maxval s1.vid.pos) := by
  induction cs generalizing s with
  | nil =>
    refine ⟨s, rfl, by simp, by simp, rfl, hplay, fun h => absurd rfl h⟩
  | cons c cs ih =>
    have hlen : (((c :: cs).length : Nat) : Int) = (cs.length : Int) + 1 := by simp
    rw [hlen] at hroom
    have hprod : 0 ≤ (cs.length : Int) * s.step_val :=
      Int.mul_nonneg (Int.ofNat_nonneg _) (by omega)
    have hmul : ((cs.length : Int) + 1) * s.step_val
        = (cs.length : Int) * s.step_val + s.step_val := by ring
    rw [hmul] at hroom
    obtain ⟨t, ht, tv, tp, tproc, ttyp, tstep, tmax, tcur, tknob⟩ :=
      playing_tick_advances c s hstep hplay hproc htyp hpos (by omega)
    have tpos : t.vid.pos = s.vid.pos + s.step_val := by rw [tv]
    have tcount : t.vid.frame_count = s.vid.frame_count := by rw [tv]
    have treads : t.vid.reads = s.vid.reads + s.step_val.toNat := by rw [tv]
    have tseeks : t.vid.seeks = s.vid.seeks := by rw [tv]
    obtain ⟨s1, h1, a, b, c1, d, e⟩ := ih t (by rw [tstep]; exact hstep) tp tproc ttyp
      (by rw [tpos]; omega) (by rw [tpos, tcount, tstep]; omega)
    refine ⟨s1, ?_, ?_, ?_, ?_, d, ?_⟩
    · simp only [run_ticks, ht]
      exact h1
    · rw [a, tpos, tstep, hlen, hmul]
      omega
    · rw [b, treads, tstep, List.length_cons]
      ring
    · rw [c1, tseeks]
    · intro _
      cases cs with
      | nil =>
        simp only [run_ticks] at h1
        injection h1 with h1
        subst h1
        rw [tcur, tknob, tpos]
        exact ⟨rfl, rfl⟩
      | cons c2 cs2 =>
        obtain ⟨e1, e2⟩ := e (by simp)
        rw [tstep] at e1
        rw [tmax] at e2
        exact ⟨e1, e2⟩

/-- C16, as stated, fails in its scenario: with 100 frames and step 1 the
source stands at frame 1 when the event loop starts (`main` has read the first
frame), so after a press on the play button ten passes through the loop body
leave the source at frame 11, the current-frame field showing `11` and the knob
at offset 91, not `10` and 83. -/
theorem ten_ticks_from_start_show_eleven :
    (initial_state 0 100).sldr_maxval = 100 ∧ (initial_state 0 100).step_val = 1
      ∧ (initial_state 0 100).sldr_start = 0 ∧ in_area play_pause_btn_area 380 540 = true ∧
    ∃ s0 s1, my_mouse_callback CV_EVENT_LBUTTONDOWN 380 540 (initial_state 0 100) = Except.ok s0
      ∧ s0.playing = true
      ∧ run_ticks s0 (List.replicate 10 (Char.ofNat 255)) = Except.ok s1
      ∧ s1.vid.pos = 11
      ∧ s1.cur_frame_no = [[Char.ofNat 49, Char.ofNat 49]]
      ∧ s1.cur_frame_no ≠ [[Char.ofNat 49, Char.ofNat 48]]
      ∧ s1.knob = 91 ∧ s1.knob ≠ 83 := by
  have hp : my_mouse_callback CV_EVENT_LBUTTONDOWN 380 540 (initial_state 0 100)
      = Except.ok (play_pause_press (resetAllEdits
          { initial_state 0 100 with sldr_moving := true })) := by
    exact lbutton_down_play_pause 380 540 _ (by decide)
  obtain ⟨s1, h, a, _, _, _, e⟩ :=
    playing_ticks_advance (List.replicate 10 (Char.ofNat 255))
      (play_pause_press (resetAllEdits { initial_state 0 100 with sldr_moving := true }))
      (by decide) (by decide) (by decide) (by decide) (by decide)
      (by simp only [List.length_replicate]; decide)
  obtain ⟨e1, e2⟩ := e (by simp)
  have hpos : s1.vid.pos = 11 := by
    rw [a]
    simp only [List.length_replicate]
    decide
  have e3 : (play_pause_press (resetAllEdits
      { initial_state 0 100 with sldr_moving := true })).step_val = 1 := rfl
  have e4 : (play_pause_press (resetAllEdits
      { initial_state 0 100 with sldr_moving := true })).sldr_maxval = 100 := rfl
  have e5 : round_to_step 1 11 = 11 := by decide
  have h91 : new_pos_of_frame 100 11 = 91 := by decide
  have h11 : sprintf_d 11 = [Char.ofNat 49, Char.ofNat 49] := by simp [sprintf_d, digit_char]
  rw [hpos, e3, e5, h11] at e1
  rw [hpos, e4, h91] at e2
  refine ⟨rfl, rfl, rfl, by decide, _, s1, hp, by decide, h, hpos, e1, ?_, e2, ?_⟩
  · rw [e1]
    decide
  · rw [e2]
    decide

/-- C16, amended: with `step_val ≥ 1`, a pass through the loop body in the
Playing state (source at a position `≥ 0`) reads exactly `step_val` frames from
the source and issues no seek; when the step editor is idle and no read runs
past the end of the stream, `n` such passes advance the frame position by
`n * step_val` and leave the current-frame field showing that position rounded
to a multiple of `step_val` and the knob at the offset `moveSlider` computes
for that position.  In the scenario of 100 frames, step 1 and start frame 0,
where the source stands at frame 1 when the loop starts, ten passes leave the
source at frame 11, the current-frame field showing `11` and the knob at offset
`91 = ceil(11 * 825 / 100)`. -/
theorem playing_ticks_read_step_frames (s : Player) (c : Char)
    (hstep : 1 ≤ s.step_val) (hplay : s.playing = true) (hproc : s.processing = false)
    (hpos : 0 ≤ s.vid.pos) :
    (∀ s1, loop_body c s = Except.ok s1 →
        s1.vid.reads = s.vid.reads + s.step_val.toNat ∧ s1.vid.seeks = s.vid.seeks)
      ∧ (s.typing_step = false → ∀ cs : List Char,
          s.vid.pos + (cs.length : Int) * s.step_val ≤ s.vid.frame_count →
          ∃ s1, run_ticks s cs = Except.ok s1
            ∧ s1.vid.pos = s.vid.pos + (cs.length : Int) * s.step_val
            ∧ s1.vid.reads = s.vid.reads + cs.length * s.step_val.toNat
            ∧ s1.playing = true
            ∧ (cs ≠ [] →
                s1.cur_frame_no = [sprintf_d (spec_quantize s.step_val s1.vid.pos)]
                  ∧ decimal_text_of (spec_quantize s.step_val s1.vid.pos)
                      (sprintf_d (spec_quantize s.step_val s1.vid.pos))
                  ∧ s1.knob = new_pos_of_frame s.sldr_maxval s1.vid.pos))
      ∧ (∃ s1, run_ticks (play_pause_press (initial_state 0 100)) (List.replicate 10 c)
            = Except.ok s1
          ∧ s1.vid.pos = 11
          ∧ s1.cur_frame_no = [[Char.ofNat 49, Char.ofNat 49]]
          ∧ s1.knob = 91 ∧ spec_pixel_of_frame 100 11 = 91) := by
  refine ⟨?_, ?_, ?_⟩
  · intro s1 h
    obtain ⟨a, b, d, _⟩ := play_frames_trace s hplay hstep
    obtain ⟨v1, _⟩ := loop_body_ok c s s1 hproc (le_trans hpos d) h
    rw [v1]
    exact ⟨a, b⟩
  · intro htyp cs hroom
    obtain ⟨s1, h, a, b, _, d, e⟩ := playing_ticks_advance cs s hstep hplay hproc htyp hpos hroom
    refine ⟨s1, h, a, b, d, fun hne => ?_⟩
    obtain ⟨e1, e2⟩ := e hne
    have hnn : 0 ≤ s1.vid.pos := by
      rw [a]
      have : 0 ≤ (cs.length : Int) * s.step_val :=
        Int.mul_nonneg (Int.ofNat_nonneg _) (by omega)
      omega
    rw [round_to_step_eq_spec _ _ (by omega) hnn] at e1
    exact ⟨e1, sprintf_d_decimal_text _, e2⟩
  · obtain ⟨s1, h, a, _, _, _, e⟩ :=
      playing_ticks_advance (List.replicate 10 c) (play_pause_press (initial_state 0 100))
        (by decide) (by decide) (by decide) (by decide) (by decide)
        (by simp only [List.length_replicate]; decide)
    obtain ⟨e1, e2⟩ := e (by simp)
    have hp : s1.vid.pos = 11 := by
      rw [a]
      simp only [List.length_replicate]
      decide
    have e3 : (play_pause_press (initial_state 0 100)).step_val = 1 := rfl
    have e4 : (play_pause_press (initial_state 0 100)).sldr_maxval = 100 := rfl
    have e5 : round_to_step 1 11 = 11 := by decide
    have h91 : new_pos_of_frame 100 11 = 91 := by decide
    have h11 : sprintf_d 11 = [Char.ofNat 49, Char.ofNat 49] := by simp [sprintf_d, digit_char]
    have hs91 : spec_pixel_of_frame 100 11 = 91 := by
      have hb := spec_pixel_of_frame_bounds 100 11 (by decide)
      omega
    rw [hp, e3, e5, h11] at e1
    rw [hp, e4, h91] at e2
    exact ⟨s1, h, hp, e1, e2, hs91⟩

/-- Witness of the amended C16: 100 frames, the source at frame 1 as the loop
first sees it, step 5; two passes. -/
theorem playing_ticks_read_step_frames_witness :
    (1 ≤ (play_pause_press (player_at 0 100 5 1)).step_val
      ∧ (play_pause_press (player_at 0 100 5 1)).playing = true
      ∧ (play_pause_press (player_at 0 100 5 1)).processing = false
      ∧ 0 ≤ (play_pause_press (player_at 0 100 5 1)).vid.pos
      ∧ (play_pause_press (player_at 0 100 5 1)).typing_step = false) ∧
    ∃ s1, run_ticks (play_pause_press (player_at 0 100 5 1)) [Char.ofNat 255, Char.ofNat 255]
          = Except.ok s1
      ∧ s1.vid.pos = (play_pause_press (player_at 0 100 5 1)).vid.pos
          + (([Char.ofNat 255, Char.ofNat 255].length : Nat) : Int)
            * (play_pause_press (player_at 0 100 5 1)).step_val
      ∧ s1.vid.reads = (play_pause_press (player_at 0 100 5 1)).vid.reads
          + [Char.ofNat 255, Char.ofNat 255].length
            * (play_pause_press (player_at 0 100 5 1)).step_val.toNat
      ∧ s1.playing = true
      ∧ ([Char.ofNat 255, Char.ofNat 255] ≠ [] →
          s1.cur_frame_no
              = [sprintf_d (spec_quantize (play_pause_press (player_at 0 100 5 1)).step_val
                  s1.vid.pos)]
            ∧ decimal_text_of
                (spec_quantize (play_pause_press (player_at 0 100 5 1)).step_val s1.vid.pos)
                (sprintf_d
                  (spec_quantize (play_pause_press (player_at 0 100 5 1)).step_val s1.vid.pos))
            ∧ s1.knob
              = new_pos_of_frame (play_pause_press (player_at 0 100 5 1)).sldr_maxval
                  s1.vid.pos) :=
  ⟨⟨by decide, by decide, by decide, by decide, by decide⟩,
    (playing_ticks_read_step_frames (play_pause_press (player_at 0 100 5 1)) (Char.ofNat 255)
      (by decide) (by decide) (by decide) (by decide)).2.1 (by decide)
      [Char.ofNat 255, Char.ofNat 255] (by decide)⟩

/-- C17, as stated, fails: with 100 frames and step 1, a pass through the loop
body that starts Playing with the source at frame 98 reads frame 98, observes
`cur_frame = 99 = max_frame - 1`, draws the play glyph and shows "End reached",
but leaves the `playing` flag true. -/
theorem tick_at_last_frame_keeps_playing :
    (play_pause_press (player_at 0 100 1 98)).playing = true ∧
    ∃ s1, loop_body (Char.ofNat 255) (play_pause_press (player_at 0 100 1 98)) = Except.ok s1
      ∧ s1.vid.pos = (play_pause_press (player_at 0 100 1 98)).sldr_maxval - 1
      ∧ s1.play_pause_btn = PLAY_BTN ∧ s1.status_line = "End reached"
      ∧ s1.playing = true ∧ ¬ (s1.playing = false) :=
  ⟨by decide, _, rfl, by decide, by decide, by decide, by decide, by decide⟩

/-- C17, amended: whenever a pass through the loop body (source at a position
`≥ 0` on entry) returns having observed the current frame index equal to
`max_frame - 1`, the play/pause button shows the play glyph and the status
text is "End reached"; the `playing` flag is not touched by this branch: after
the pass it is true exactly when it was true before and the frame read of this
pass returned a frame.  With the step editor idle and `step_val ≠ 0` the pass
returns. -/
theorem tick_at_last_frame_shows_end (s : Player) (c : Char)
    (hproc : s.processing = false) (hpos : 0 ≤ s.vid.pos) :
    (∀ s1, loop_body c s = Except.ok s1 → s1.vid.pos = s.sldr_maxval - 1 →
        s1.play_pause_btn = PLAY_BTN ∧ s1.status_line = "End reached"
          ∧ s1.status_edit = ["End reached"]
          ∧ (s1.playing = true ↔
              s.playing = true
                ∧ (cvQueryFrame (skip_frames (s.step_val - 1).toNat s.vid)).2 = true))
      ∧ (s.typing_step = false → s.step_val ≠ 0 → ∃ s1, loop_body c s = Except.ok s1) := by
  have hp2 : 0 ≤ (play_frames s).vid.pos := le_trans hpos (play_frames_pos_le s)
  constructor
  · intro s1 h hend
    obtain ⟨v1, v2, _, v4⟩ := loop_body_ok c s s1 hproc hp2 h
    rw [v1] at hend
    rw [if_pos hend] at v4
    obtain ⟨a, b, d⟩ := v4
    refine ⟨d, a, b, ?_⟩
    rw [v2]
    exact play_frames_playing s
  · intro htyp hstep
    obtain ⟨s1, h, _⟩ := loop_body_returns c s hproc htyp hstep hp2
    exact ⟨s1, h⟩

/-- Witness of the amended C17: the pass that starts Playing at frame 98 of 100. -/
theorem tick_at_last_frame_shows_end_witness :
    ((play_pause_press (player_at 0 100 1 98)).processing = false
      ∧ 0 ≤ (play_pause_press (player_at 0 100 1 98)).vid.pos) ∧
    ∃ s1, loop_body (Char.ofNat 255) (play_pause_press (player_at 0 100 1 98)) = Except.ok s1
      ∧ s1.play_pause_btn = PLAY_BTN ∧ s1.status_line = "End reached"
      ∧ s1.status_edit = ["End reached"] :=
  ⟨⟨by decide, by decide⟩, _, rfl,
    ((tick_at_last_frame_shows_end (play_pause_press (player_at 0 100 1 98))
      (Char.ofNat 255) (by decide) (by decide)).1 _ rfl (by decide)).1,
    ((tick_at_last_frame_shows_end (play_pause_press (player_at 0 100 1 98))
      (Char.ofNat 255) (by decide) (by decide)).1 _ rfl (by decide)).2.1,
    ((tick_at_last_frame_shows_end (play_pause_press (player_at 0 100 1 98))
      (Char.ofNat 255) (by decide) (by decide)).1 _ rfl (by decide)).2.2.1⟩

/-- C18, as stated, fails for a source that counts the frames it hands out:
with 100 frames and step 1, a pass through the loop body that starts Playing
with the source at frame 100 gets no frame, clears `playing` and returns, but
observes `cur_frame = 100`, not 99, and leaves the status text "Playing". -/
theorem end_of_stream_tick_keeps_status :
    1 ≤ (play_pause_press (player_at 0 100 1 100)).step_val
      ∧ (play_pause_press (player_at 0 100 1 100)).playing = true
      ∧ (play_pause_press (player_at 0 100 1 100)).status_line = "Playing"
      ∧ (cvQueryFrame (skip_frames ((play_pause_press (player_at 0 100 1 100)).step_val - 1).toNat
            (play_pause_press (player_at 0 100 1 100)).vid)).2 = false ∧
    ∃ s1, loop_body (Char.ofNat 255) (play_pause_press (player_at 0 100 1 100)) = Except.ok s1
      ∧ s1.playing = false ∧ s1.status_line = "Playing" ∧ s1.status_edit = ["Playing"]
      ∧ s1.status_line ≠ "End reached" :=
  ⟨by decide, by decide, by decide, by decide, _, rfl, by decide, by decide, by decide,
    by decide⟩

/-- C18, amended: for every step `≥ 1` and every frame count, when the frame
read of a Playing pass through the loop body reports the end of the stream
(source at a position `≥ 0` on entry), the pass clears `playing`, and with the
step editor idle it returns, so the process keeps running.  The status text is
set to "End reached" on that pass only if the pass observes the current frame
index equal to `max_frame - 1`, and is left as it was otherwise; a source that
counts the `max_frame` frames it hands out is past that index when it reports
the end of the stream, so there the status text is left as it was. -/
theorem end_of_stream_tick_halts (s : Player) (c : Char)
    (hstep : 1 ≤ s.step_val) (hplay : s.playing = true) (hproc : s.processing = false)
    (hpos : 0 ≤ s.vid.pos)
    (heos : (cvQueryFrame (skip_frames (s.step_val - 1).toNat s.vid)).2 = false) :
    (∀ s1, loop_body c s = Except.ok s1 →
        s1.playing = false
          ∧ (if s1.vid.pos = s.sldr_maxval - 1 then
              s1.status_line = "End reached" ∧ s1.status_edit = ["End reached"]
             else s1.status_line = s.status_line ∧ s1.status_edit = s.status_edit)
          ∧ (s.vid.frame_count = s.sldr_maxval →
              s1.status_line = s.status_line ∧ s1.status_edit = s.status_edit))
      ∧ (s.typing_step = false → ∃ s1, loop_body c s = Except.ok s1) := by
  have hp2 : 0 ≤ (play_frames s).vid.pos := le_trans hpos (play_frames_pos_le s)
  have hnp : (play_frames s).playing = false := by
    cases hq : (play_frames s).playing with
    | false => rfl
    | true =>
      have := ((play_frames_playing s).1 hq).2
      rw [heos] at this
      cases this
  constructor
  · intro s1 h
    obtain ⟨v1, v2, _, v4⟩ := loop_body_ok c s s1 hproc hp2 h
    refine ⟨v2.trans hnp, ?_, ?_⟩
    · rw [v1]
      split
      · rename_i hend
        rw [if_pos hend] at v4
        exact ⟨v4.1, v4.2.1⟩
      · rename_i hend
        rw [if_neg hend] at v4
        exact ⟨v4.1, v4.2.1⟩
    · intro hcount
      have hge : s.vid.frame_count ≤ (play_frames s).vid.pos := by
        obtain ⟨_, _, fc, _⟩ := skip_frames_trace (s.step_val - 1).toNat s.vid
        have hv : (play_frames s).vid
            = (cvQueryFrame (skip_frames (s.step_val - 1).toNat s.vid)).1 := by
          simp only [play_frames, hplay, if_true, heos]
          rfl
        rw [hv]
        unfold cvQueryFrame at heos ⊢
        split at heos
        · cases heos
        · rename_i hlt
          rw [if_neg hlt]
          show s.vid.frame_count ≤ (skip_frames (s.step_val - 1).toNat s.vid).pos
          rw [← fc]
          omega
      have hne : ¬ ((play_frames s).vid.pos = s.sldr_maxval - 1) := by omega
      rw [if_neg hne] at v4
      exact ⟨v4.1, v4.2.1⟩
  · intro htyp
    obtain ⟨s1, h, _⟩ := loop_body_returns c s hproc htyp (by omega) hp2
    exact ⟨s1, h⟩

/-- Witness of the amended C18: the pass that starts Playing at frame 100 of
100. -/
theorem end_of_stream_tick_halts_witness :
    (1 ≤ (play_pause_press (player_at 0 100 1 100)).step_val
      ∧ (play_pause_press (player_at 0 100 1 100)).playing = true
      ∧ (play_pause_press (player_at 0 100 1 100)).processing = false
      ∧ 0 ≤ (play_pause_press (player_at 0 100 1 100)).vid.pos
      ∧ (cvQueryFrame (skip_frames ((play_pause_press (player_at 0 100 1 100)).step_val - 1).toNat
            (play_pause_press (player_at 0 100 1 100)).vid)).2 = false) ∧
    ∃ s1, loop_body (Char.ofNat 255) (play_pause_press (player_at 0 100 1 100)) = Except.ok s1
      ∧ s1.playing = false :=
  ⟨⟨by decide, by decide, by decide, by decide, by decide⟩, _, rfl,
    ((end_of_stream_tick_halts (play_pause_press (player_at 0 100 1 100)) (Char.ofNat 255)
      (by decide) (by decide) (by decide) (by decide) (by decide)).1 _ rfl).1⟩

/-! ## Start-up and exit of `main` -/

theorem main_open_failure (inputs : List LoopInput) : main none inputs = Outcome.exited 1 :=
  rfl

theorem main_no_frames (v : VideoSource) (inputs : List LoopInput) (h : v.frame_count < 1) :
    main (some v) inputs = Outcome.exited 1 := by
  simp [main, cvGetCaptureProperty_FRAME_COUNT, h]

theorem round_to_step_one (f : Int) : round_to_step 1 f = f := by
  simp [round_to_step]

theorem main_enters_loop (start frame_count : Int) (inputs : List LoopInput)
    (h1 : 1 ≤ frame_count) (h2 : start < frame_count) :
    main (some { pos := start, frame_count := frame_count, seeks := [], reads := 0 }) inputs
      = event_loop (initial_state start frame_count) inputs := by
  have h3 : ¬ (frame_count < 1) := by omega
  simp only [main, cvGetCaptureProperty_FRAME_COUNT, cvGetCaptureProperty_POS_FRAMES, h3,
    if_false]
  rw [moveSlider_other _ _ (by show (1 : Int) ≠ 0; decide)]
  simp [globals_before_loop, cvSetCaptureProperty_POS_FRAMES, cvQueryFrame, h2, initial_state,
    round_to_step_one, PLAY_BTN]

theorem event_loop_exit (inputs : List LoopInput) (s : Player) (code : Int)
    (h : event_loop s inputs = Outcome.exited code) :
    code = 0 ∧ ∃ i ∈ inputs, i.key.toNat = 27 := by
  induction inputs generalizing s with
  | nil => simp [event_loop] at h
  | cons i is ih =>
    simp only [event_loop] at h
    cases he : run_events s i.events with
    | error f => rw [he] at h; simp at h
    | ok s1 =>
      rw [he] at h
      simp only at h
      by_cases hk : i.key.toNat = 27
      · rw [if_pos hk] at h
        injection h with h
        exact ⟨h.symm, i, List.mem_cons_self _ _, hk⟩
      · rw [if_neg hk] at h
        cases hb : loop_body i.key s1 with
        | error f => rw [hb] at h; simp at h
        | ok s2 =>
          rw [hb] at h
          simp only at h
          obtain ⟨a, j, hj, hj2⟩ := ih s2 h
          exact ⟨a, j, List.mem_cons_of_mem _ hj, hj2⟩

/-- C19, evaluated at its failing input: a capture that opens and reports one
frame, but whose first `cvQueryFrame` returns NULL (here: a source of one frame
already positioned past it), passes both start-up checks; `main` then hands
the NULL frame to `cvCloneImage`, which stops the process, so `return( 1 )` is
never reached and the event loop is never entered. -/
theorem main_aborts_on_undecodable_first_frame (inputs : List LoopInput) :
    ¬ ((cvGetCaptureProperty_FRAME_COUNT
          { pos := 1, frame_count := 1, seeks := [], reads := 0 }) < 1)
      ∧ (cvQueryFrame (cvSetCaptureProperty_POS_FRAMES
          { pos := 1, frame_count := 1, seeks := [], reads := 0 } 1)).2 = false
      ∧ main (some { pos := 1, frame_count := 1, seeks := [], reads := 0 }) inputs
          = Outcome.aborted Fault.null_image
      ∧ main (some { pos := 1, frame_count := 1, seeks := [], reads := 0 }) inputs
          ≠ Outcome.exited 1 := by
  have hm : main (some { pos := 1, frame_count := 1, seeks := [], reads := 0 }) inputs
      = Outcome.aborted Fault.null_image := by
    simp only [main, cvGetCaptureProperty_FRAME_COUNT, cvGetCaptureProperty_POS_FRAMES]
    rw [if_neg (by decide), moveSlider_other _ _ (by decide)]
    rfl
  refine ⟨by decide, by decide, hm, ?_⟩
  rw [hm]
  intro h
  cases h

/-! ## Byte offsets of the panel widgets -/

theorem panel_widget_offset (row col width height y1 x1 c : Int) :
    byte_offset (panel_widget row col width height) y1 x1 c
      = (p_height - ctrl_pnl_height + row + y1) * player.widthStep
          + (col + x1) * player.nChannels + c := by
  simp only [byte_offset, panel_widget, pnl, player]
  ring

/-- C20: for every widget Region the panel set-up creates at panel position
`(row, col)` and every local coordinate `(x', y')` inside its width and height,
channel `c` of that pixel is the canvas byte at offset
`(p_height - ctrl_pnl_height + row + y') * stride + (col + x') * channels + c`,
`stride` being the stride of the canvas, which the panel and the widget
inherit unchanged; that offset lies inside the canvas buffer. -/
theorem panel_widget_pixel_offset (e : Int × Int × IplImage) (he : e ∈ panel_widgets)
    (x1 y1 c : Int) (hx0 : 0 ≤ x1) (hx : x1 < e.2.2.width) (hy0 : 0 ≤ y1)
    (hy : y1 < e.2.2.height) (hc0 : 0 ≤ c) (hc : c < e.2.2.nChannels) :
    byte_offset e.2.2 y1 x1 c
        = (p_height - ctrl_pnl_height + e.1 + y1) * player.widthStep
            + (e.2.1 + x1) * player.nChannels + c
      ∧ e.2.2.widthStep = pnl.widthStep ∧ pnl.widthStep = player.widthStep
      ∧ e.2.2.nChannels = player.nChannels
      ∧ 0 ≤ byte_offset e.2.2 y1 x1 c
      ∧ byte_offset e.2.2 y1 x1 c < player.height * player.widthStep := by
  have hall : ∀ e ∈ panel_widgets,
      e.2.2 = panel_widget e.1 e.2.1 e.2.2.width e.2.2.height := by decide
  have hfit : ∀ e ∈ panel_widgets,
      0 ≤ e.1 ∧ e.1 + e.2.2.height ≤ ctrl_pnl_height ∧ 0 ≤ e.2.1
        ∧ e.2.1 + e.2.2.width ≤ p_width ∧ e.2.2.nChannels = 3 := by decide
  obtain ⟨f1, f2, f3, f4, f5⟩ := hfit e he
  have hoff := panel_widget_offset e.1 e.2.1 e.2.2.width e.2.2.height y1 x1 c
  rw [← hall e he] at hoff
  refine ⟨hoff, by rw [hall e he]; rfl, rfl, by rw [hall e he]; rfl, ?_, ?_⟩
  · rw [hoff]
    simp only [player, p_height, p_width, scrn_height, sldr_height, ctrl_pnl_height] at f2 f4 ⊢
    omega
  · rw [hoff]
    simp only [player, p_height, p_width, scrn_height, sldr_height, ctrl_pnl_height] at f2 f4 ⊢
    omega

/-- Witness of C20: the current-frame field (row 88, column 150, 120 x 18),
local pixel (5, 2), channel 1. -/
theorem panel_widget_pixel_offset_witness :
    (((88 : Int), (150 : Int), panel_widget 88 150 120 18) ∈ panel_widgets
      ∧ (0 : Int) ≤ 5 ∧ (5 : Int) < (panel_widget 88 150 120 18).width
      ∧ (0 : Int) ≤ 2 ∧ (2 : Int) < (panel_widget 88 150 120 18).height
      ∧ (0 : Int) ≤ 1 ∧ (1 : Int) < (panel_widget 88 150 120 18).nChannels) ∧
    (byte_offset (panel_widget 88 150 120 18) 2 5 1
        = (p_height - ctrl_pnl_height + 88 + 2) * player.widthStep
            + (150 + 5) * player.nChannels + 1
      ∧ (panel_widget 88 150 120 18).widthStep = pnl.widthStep
      ∧ pnl.widthStep = player.widthStep
      ∧ (panel_widget 88 150 120 18).nChannels = player.nChannels
      ∧ 0 ≤ byte_offset (panel_widget 88 150 120 18) 2 5 1
      ∧ byte_offset (panel_widget 88 150 120 18) 2 5 1 < player.height * player.widthStep) :=
  ⟨⟨by decide, by decide, by decide, by decide, by decide, by decide, by decide⟩,
    panel_widget_pixel_offset (88, 150, panel_widget 88 150 120 18) (by decide) 5 2 1
      (by decide) (by decide) (by decide) (by decide) (by decide) (by decide)⟩

/-! ## The knob and the end of the track -/

/-- For a frame `0 ≤ f ≤ m` the knob offset computed in `float` lies in
`[0, 826]`: at most one pixel beyond `p_width - sldr_btn_width`. -/
theorem new_pos_of_frame_range (m f : Int) (hm : 1 ≤ m) (h0 : 0 ≤ f) (h1 : f ≤ m) :
    0 ≤ new_pos_of_frame m f ∧ new_pos_of_frame m f ≤ p_width - sldr_btn_width + 1 := by
  obtain ⟨a, b⟩ := new_pos_of_frame_bounds m f (by omega) h0
  simp only [p_width, sldr_btn_width]
  constructor
  · by_contra hc
    have h2 : new_pos_of_frame m f ≤ -1 := by omega
    have h3 : m * new_pos_of_frame m f ≤ m * (-1) :=
      Int.mul_le_mul_of_nonneg_left h2 (by omega)
    omega
  · by_contra hc
    have h2 : 827 ≤ new_pos_of_frame m f := by omega
    have h3 : m * 827 ≤ m * new_pos_of_frame m f :=
      Int.mul_le_mul_of_nonneg_left h2 (by omega)
    omega

/-- C27, evaluated at its failing input.  The comment of `moveSlider` promises
a knob location "between 0 and (p_width - sldr_btn_width)", which is what the
claim states.  With a video of 41 frames, a press on the play button and forty
passes through the loop body bring the source to frame 41; the last pass calls
`moveSlider( 41, OTHER_CALLS )`, which returns with the knob offset 826: the
`float` quotient `825 / 41` is rounded up, so `scale * 41` lies above 825.  The
15 columns of the knob are then copied to the columns 826 to 840 of the
840 columns of the track. -/
theorem moveSlider_knob_past_track_end :
    (1 ≤ (initial_state 0 41).sldr_maxval ∧ (0 : Int) ≤ 41
      ∧ (41 : Int) ≤ (initial_state 0 41).sldr_maxval) ∧
    (∃ t, moveSlider 41 OTHER_CALLS (initial_state 0 41) = Except.ok (t, 41)
      ∧ t.knob = 826
      ∧ ¬ (t.knob ≤ p_width - sldr_btn_width)
      ∧ ¬ (t.knob + sldr_btn_width ≤ p_width)) ∧
    (∃ s0 s1, my_mouse_callback CV_EVENT_LBUTTONDOWN 380 540 (initial_state 0 41) = Except.ok s0
      ∧ run_ticks s0 (List.replicate 40 (Char.ofNat 255)) = Except.ok s1
      ∧ s1.vid.pos = 41
      ∧ s1.knob = 826
      ∧ ¬ (s1.knob + sldr_btn_width ≤ p_width)) := by
  have h826 : new_pos_of_frame 41 41 = 826 := by decide
  refine ⟨by decide, ?_, ?_⟩
  · have e1 : (initial_state 0 41).sldr_maxval = 41 := rfl
    have e2 : (initial_state 0 41).step_val = 1 := rfl
    have e3 : round_to_step 1 41 = 41 := by decide
    rw [moveSlider_other _ _ (by decide), e1, e2, e3]
    refine ⟨_, rfl, h826, ?_, ?_⟩
    · show ¬ (new_pos_of_frame 41 41 ≤ p_width - sldr_btn_width)
      rw [h826]
      decide
    · show ¬ (new_pos_of_frame 41 41 + sldr_btn_width ≤ p_width)
      rw [h826]
      decide
  · have hp : my_mouse_callback CV_EVENT_LBUTTONDOWN 380 540 (initial_state 0 41)
        = Except.ok (play_pause_press (resetAllEdits
            { initial_state 0 41 with sldr_moving := true })) :=
      lbutton_down_play_pause 380 540 _ (by decide)
    obtain ⟨s1, h, a, _, _, _, e⟩ :=
      playing_ticks_advance (List.replicate 40 (Char.ofNat 255))
        (play_pause_press (resetAllEdits { initial_state 0 41 with sldr_moving := true }))
        (by decide) (by decide) (by decide) (by decide) (by decide)
        (by simp only [List.length_replicate]; decide)
    obtain ⟨_, e2⟩ := e (by simp)
    have hpos : s1.vid.pos = 41 := by
      rw [a]
      simp only [List.length_replicate]
      decide
    have e4 : (play_pause_press (resetAllEdits
        { initial_state 0 41 with sldr_moving := true })).sldr_maxval = 41 := rfl
    rw [hpos, e4, h826] at e2
    refine ⟨_, s1, hp, h, hpos, e2, ?_⟩
    rw [e2]
    decide

/-! ## The busy flag -/

theorem slider_drag_fields (x : Int) (s s1 : Player) (h : slider_drag x s = Except.ok s1) :
    s1.processing = s.processing ∧ s1.sldr_maxval = s.sldr_maxval
      ∧ s1.edit_text = s.edit_text ∧ s1.typing_step = s.typing_step := by
  unfold slider_drag at h
  cases hm : moveSlider x MOUSE_CALLBACK s with
  | error f => rw [hm] at h; cases h
  | ok r =>
    obtain ⟨s2, F⟩ := r
    obtain ⟨_, a2, _, a4, a5, _, a7, _⟩ := moveSlider_fields _ _ _ _ _ hm
    rw [hm] at h
    simp only at h
    cases hk : seek_and_copy s2.vid (F - 1) with
    | error f => rw [hk] at h; cases h
    | ok v =>
      rw [hk] at h
      simp only at h
      injection h with h
      subst h
      exact ⟨a7, a2, a4, a5⟩

theorem slider_press_processing (x : Int) (s s1 : Player)
    (h : slider_press x s = Except.ok s1) : s1.processing = s.processing := by
  unfold slider_press at h
  cases hm : moveSlider x MOUSE_CALLBACK s with
  | error f => rw [hm] at h; cases h
  | ok r =>
    obtain ⟨s2, F⟩ := r
    obtain ⟨_, _, _, _, _, _, a7, _⟩ := moveSlider_fields _ _ _ _ _ hm
    rw [hm] at h
    simp only at h
    cases hk : seek_and_copy s2.vid (F - 1 + s2.step_val - 1) with
    | error f => rw [hk] at h; cases h
    | ok v =>
      rw [hk] at h
      simp only at h
      split at h <;> (injection h with h; subst h; exact a7)

theorem stop_press_processing (s s1 : Player) (h : stop_press s = Except.ok s1) :
    s1.processing = s.processing := by
  unfold stop_press at h
  simp only at h
  cases hm : moveSlider s.sldr_start OTHER_CALLS { s with playing := false } with
  | error f => rw [hm] at h; cases h
  | ok r =>
    obtain ⟨s2, F⟩ := r
    obtain ⟨_, _, _, _, _, _, a7, _⟩ := moveSlider_fields _ _ _ _ _ hm
    rw [hm] at h
    simp only at h
    cases hk : seek_and_copy s2.vid (s2.sldr_start - 1) with
    | error f => rw [hk] at h; cases h
    | ok v =>
      rw [hk] at h
      simp only at h
      injection h with h
      subst h
      exact a7

theorem stepup_press_processing (s : Player) :
    (stepup_press s).processing = s.processing := by
  unfold stepup_press
  simp only
  split <;> split <;> rfl

theorem play_pause_press_processing (s : Player) :
    (play_pause_press s).processing = s.processing := by
  unfold play_pause_press
  split <;> rfl

theorem stepdown_press_processing (s s1 : Player) (h : stepdown_press s = Except.ok s1) :
    s1.processing = false := by
  unfold stepdown_press at h
  simp only [cvGetCaptureProperty_POS_FRAMES] at h
  by_cases hg : s.vid.pos - 1 - (s.step_val - 1) ≥ s.sldr_start
  · rw [if_pos hg] at h
    cases hm : moveSlider (s.vid.pos - 1 - (s.step_val - 1)) OTHER_CALLS
        { s with processing := true } with
    | error f => rw [hm] at h; cases h
    | ok r =>
      obtain ⟨s2, F⟩ := r
      rw [hm] at h
      simp only at h
      cases hk : seek_and_copy s2.vid (s.vid.pos - 1 - (s2.step_val - 1)) with
      | error f => rw [hk] at h; cases h
      | ok v =>
        rw [hk] at h
        simp only at h
        injection h with h
        subst h
        rfl
  · rw [if_neg hg] at h
    simp only at h
    injection h with h
    subst h
    rfl

theorem lbutton_down_processing (x y : Int) (s s1 : Player) (h0 : s.processing = false)
    (h : lbutton_down x y s = Except.ok s1) : s1.processing = false := by
  unfold lbutton_down at h
  simp only at h
  have P0 : (resetAllEdits { s with sldr_moving := true }).processing = false := h0
  generalize resetAllEdits { s with sldr_moving := true } = t0 at h P0
  cases h1 : (if on_slider y = true then slider_press x t0 else Except.ok t0) with
  | error f => rw [h1] at h; cases h
  | ok t1 =>
    rw [h1] at h
    simp only at h
    have P1 : t1.processing = false := by
      by_cases c : on_slider y = true
      · rw [if_pos c] at h1
        rw [slider_press_processing _ _ _ h1, P0]
      · rw [if_neg c] at h1
        injection h1 with h1
        rw [← h1, P0]
    have P2 : (if in_area play_pause_btn_area x y = true then play_pause_press t1 else t1).processing
        = false := by
      split
      · rw [play_pause_press_processing, P1]
      · exact P1
    generalize (if in_area play_pause_btn_area x y = true then play_pause_press t1 else t1)
      = t2 at h P2
    cases h3 : (if in_area stop_btn_area x y = true then stop_press t2 else Except.ok t2) with
    | error f => rw [h3] at h; cases h
    | ok t3 =>
      rw [h3] at h
      simp only at h
      have P3 : t3.processing = false := by
        by_cases c : in_area stop_btn_area x y = true
        · rw [if_pos c] at h3
          rw [stop_press_processing _ _ h3, P2]
        · rw [if_neg c] at h3
          injection h3 with h3
          rw [← h3, P2]
      have P4 : (if in_area stepup_btn_area x y = true then stepup_press t3 else t3).processing
          = false := by
        split
        · rw [stepup_press_processing, P3]
        · exact P3
      generalize (if in_area stepup_btn_area x y = true then stepup_press t3 else t3)
        = t4 at h P4
      cases h5 : (if in_area stepdown_btn_area x y = true then stepdown_press t4
          else Except.ok t4) with
      | error f => rw [h5] at h; cases h
      | ok t5 =>
        rw [h5] at h
        simp only at h
        have P5 : t5.processing = false := by
          by_cases c : in_area stepdown_btn_area x y = true
          · rw [if_pos c] at h5
            exact stepdown_press_processing _ _ h5
          · rw [if_neg c] at h5
            injection h5 with h5
            rw [← h5, P4]
        injection h with h
        subst h
        split
        · exact P5
        · exact P5

theorem my_mouse_callback_processing (event x y : Int) (s s1 : Player)
    (h0 : s.processing = false) (h : my_mouse_callback event x y s = Except.ok s1) :
    s1.processing = false := by
  unfold my_mouse_callback at h
  by_cases e0 : event = CV_EVENT_MOUSEMOVE
  · rw [if_pos e0] at h
    by_cases c1 : s.sldr_moving = true
    · rw [if_pos c1] at h
      by_cases c2 : on_slider y = true
      · rw [if_pos c2] at h
        rw [(slider_drag_fields _ _ _ h).1, h0]
      · rw [if_neg c2] at h
        injection h with h
        rw [← h, h0]
    · rw [if_neg c1] at h
      injection h with h
      rw [← h, h0]
  · rw [if_neg e0] at h
    by_cases e1 : event = CV_EVENT_LBUTTONDOWN
    · rw [if_pos e1] at h
      exact lbutton_down_processing _ _ _ _ h0 h
    · rw [if_neg e1] at h
      by_cases e2 : event = CV_EVENT_LBUTTONUP
      · rw [if_pos e2] at h
        injection h with h
        rw [← h]
        exact h0
      · rw [if_neg e2] at h
        injection h with h
        rw [← h, h0]

theorem run_events_processing (evs : List (Int × Int × Int)) (s s1 : Player)
    (h0 : s.processing = false) (h : run_events s evs = Except.ok s1) :
    s1.processing = false := by
  induction evs generalizing s with
  | nil =>
    simp only [run_events] at h
    injection h with h
    rw [← h, h0]
  | cons e es ih =>
    simp only [run_events] at h
    cases hc : my_mouse_callback e.1 e.2.1 e.2.2 s with
    | error f => rw [hc] at h; cases h
    | ok t =>
      rw [hc] at h
      exact ih t (my_mouse_callback_processing _ _ _ _ _ h0 hc) h

theorem loop_body_processing (c : Char) (s s1 : Player) (h0 : s.processing = false)
    (h : loop_body c s = Except.ok s1) : s1.processing = false := by
  simp only [loop_body, h0, Bool.not_false, if_true, cvGetCaptureProperty_POS_FRAMES] at h
  cases hn : nonneg_loop (-(play_frames s).vid.pos).toNat (play_frames s).vid with
  | error f => rw [hn] at h; cases h
  | ok v =>
    rw [hn] at h
    simp only at h
    have P1 : ({ play_frames s with vid := v } : Player).processing = false :=
      (play_frames_fields s).1.trans h0
    generalize ({ play_frames s with vid := v } : Player) = t1 at h P1
    have P2 : (if (play_frames s).typing_step = true then type_step c v.pos t1 else t1).processing = false := by
      split
      · rw [(type_step_frame_fields c v.pos t1).2.2.1, P1]
      · exact P1
    generalize (if (play_frames s).typing_step = true then type_step c v.pos t1 else t1) = t2 at h P2
    have P3 : (if v.pos = t2.sldr_maxval - 1 then
        change_status { t2 with play_pause_btn := PLAY_BTN, status_line := "End reached" }
        else t2).processing = false := by
      split
      · exact P2
      · exact P2
    generalize (if v.pos = t2.sldr_maxval - 1 then
        change_status { t2 with play_pause_btn := PLAY_BTN, status_line := "End reached" }
        else t2) = t3 at h P3
    cases hm : moveSlider v.pos OTHER_CALLS t3 with
    | error f => rw [hm] at h; cases h
    | ok r =>
      obtain ⟨t4, F⟩ := r
      rw [hm] at h
      simp only at h
      injection h with h
      subst h
      rw [(moveSlider_fields _ _ _ _ _ hm).2.2.2.2.2.2.1, P3]

theorem event_loop_processing (inputs : List LoopInput) (s s1 : Player)
    (h0 : s.processing = false) (h : event_loop s inputs = Outcome.running s1) :
    s1.processing = false := by
  induction inputs generalizing s with
  | nil =>
    simp only [event_loop] at h
    injection h with h
    rw [← h, h0]
  | cons i is ih =>
    simp only [event_loop] at h
    cases hr : run_events s i.events with
    | error f => rw [hr] at h; cases h
    | ok t =>
      rw [hr] at h
      simp only at h
      by_cases hk : i.key.toNat = 27
      · rw [if_pos hk] at h; cases h
      · rw [if_neg hk] at h
        cases hl : loop_body i.key t with
        | error f => rw [hl] at h; cases h
        | ok u =>
          rw [hl] at h
          exact ih u (loop_body_processing _ _ _ (run_events_processing _ _ _ h0 hr) hl) h
/-- C28: when `processing` is false on entry, it is false again in the state
every invocation of `my_mouse_callback` returns, whatever the event and the
pointer position (the step-down branch sets it and clears it before it
returns).  Hence after the pointer events of any `cvWaitKey` the guard
`if( !processing )` of the event loop holds, the loop body keeps the flag
false, and the flag is false in every state the event loop reaches. -/
theorem processing_false_after_callback (s : Player) (h0 : s.processing = false) :
    (∀ event x y t, my_mouse_callback event x y s = Except.ok t → t.processing = false)
      ∧ (∀ evs t, run_events s evs = Except.ok t →
          (!t.processing) = true
            ∧ ∀ c u, loop_body c t = Except.ok u → u.processing = false)
      ∧ (∀ inputs t, event_loop s inputs = Outcome.running t → t.processing = false) := by
  refine ⟨fun event x y t h => my_mouse_callback_processing event x y s t h0 h, ?_,
    fun inputs t h => event_loop_processing inputs s t h0 h⟩
  intro evs t h
  have ht := run_events_processing evs s t h0 h
  refine ⟨by rw [ht]; rfl, fun c u hu => loop_body_processing c t u ht hu⟩

theorem processing_false_after_callback_witness :
    (player_at 0 100 1 5).processing = false
      ∧ ∃ t, my_mouse_callback CV_EVENT_LBUTTONDOWN 300 550 (player_at 0 100 1 5) = Except.ok t
          ∧ t.processing = false
          ∧ t.vid.seeks = 4 :: (player_at 0 100 1 5).vid.seeks :=
  ⟨by decide, _, rfl,
    (processing_false_after_callback (player_at 0 100 1 5) (by decide)).1
      CV_EVENT_LBUTTONDOWN 300 550 _ rfl, by decide⟩

/-! ## Seeks requested from the slider -/

theorem cvQueryFrame_seeks (v : VideoSource) : (cvQueryFrame v).1.seeks = v.seeks := by
  unfold cvQueryFrame
  split <;> rfl

theorem seek_and_copy_seeks (v v1 : VideoSource) (n : Int)
    (h : seek_and_copy v n = Except.ok v1) : v1.seeks = n :: v.seeks := by
  unfold seek_and_copy at h
  simp only at h
  split at h
  · injection h with h
    rw [← h, cvQueryFrame_seeks, cvQueryFrame_seeks]
    rfl
  · cases h

theorem slider_band_misses_controls (x y : Int) (h : on_slider y = true) :
    in_area play_pause_btn_area x y = false ∧ in_area stop_btn_area x y = false
      ∧ in_area stepup_btn_area x y = false ∧ in_area stepdown_btn_area x y = false
      ∧ in_area step_edit_area x y = false := by
  simp only [on_slider, scrn_height, sldr_height, Bool.and_eq_true, decide_eq_true_eq] at h
  simp only [in_area, play_pause_btn_area, stop_btn_area, stepup_btn_area, stepdown_btn_area,
    step_edit_area, area_of, p_height, scrn_height, sldr_height, ctrl_pnl_height,
    Bool.and_eq_false_iff, decide_eq_false_iff_not]
  omega

theorem lbutton_down_on_slider (x y : Int) (s : Player) (h : on_slider y = true) :
    lbutton_down x y s = slider_press x (resetAllEdits { s with sldr_moving := true }) := by
  obtain ⟨a, b, c, d, e⟩ := slider_band_misses_controls x y h
  simp only [lbutton_down, h, a, b, c, d, e, if_true, Bool.false_eq_true, if_false]
  cases slider_press x (resetAllEdits { s with sldr_moving := true }) <;> rfl

theorem slider_press_seeks (x : Int) (s t : Player) (hs : s.step_val ≠ 0)
    (h : slider_press x s = Except.ok t) :
    t.vid.seeks =
      (round_to_step s.step_val (frame_of_pos s.sldr_maxval x) - 1 + (s.step_val - 1))
        :: s.vid.seeks := by
  unfold slider_press at h
  rw [moveSlider_mouse x s hs] at h
  simp only at h
  cases hk : seek_and_copy s.vid
      (round_to_step s.step_val (frame_of_pos s.sldr_maxval x) - 1 + s.step_val - 1) with
  | error f => rw [hk] at h; cases h
  | ok v =>
    rw [hk] at h
    simp only at h
    have e := seek_and_copy_seeks _ _ _ hk
    have e2 : round_to_step s.step_val (frame_of_pos s.sldr_maxval x) - 1 + s.step_val - 1
        = round_to_step s.step_val (frame_of_pos s.sldr_maxval x) - 1 + (s.step_val - 1) := by
      omega
    rw [e2] at e
    split at h <;> (injection h with h; subst h; exact e)

theorem slider_press_returns (x : Int) (s : Player) (hs : s.step_val ≠ 0)
    (h : round_to_step s.step_val (frame_of_pos s.sldr_maxval x) - 1 + (s.step_val - 1) + 1
      < s.vid.frame_count) :
    ∃ t, slider_press x s = Except.ok t := by
  unfold slider_press
  rw [moveSlider_mouse x s hs]
  simp only
  rw [seek_and_copy_ok _ _ (by
    show round_to_step s.step_val (frame_of_pos s.sldr_maxval x) - 1 + s.step_val - 1 + 1
      < s.vid.frame_count
    omega)]
  simp only
  split <;> exact ⟨_, rfl⟩

theorem slider_drag_seeks (x : Int) (s t : Player) (hs : s.step_val ≠ 0)
    (h : slider_drag x s = Except.ok t) :
    t.vid.seeks = (round_to_step s.step_val (frame_of_pos s.sldr_maxval x) - 1) :: s.vid.seeks := by
  unfold slider_drag at h
  rw [moveSlider_mouse x s hs] at h
  simp only at h
  cases hk : seek_and_copy s.vid
      (round_to_step s.step_val (frame_of_pos s.sldr_maxval x) - 1) with
  | error f => rw [hk] at h; cases h
  | ok v =>
    rw [hk] at h
    simp only at h
    injection h with h
    subst h
    exact seek_and_copy_seeks _ _ _ hk

theorem slider_drag_returns (x : Int) (s : Player) (hs : s.step_val ≠ 0)
    (h : round_to_step s.step_val (frame_of_pos s.sldr_maxval x) < s.vid.frame_count) :
    ∃ t, slider_drag x s = Except.ok t := by
  unfold slider_drag
  rw [moveSlider_mouse x s hs]
  simp only
  rw [seek_and_copy_ok _ _ (by
    show round_to_step s.step_val (frame_of_pos s.sldr_maxval x) - 1 + 1 < s.vid.frame_count
    omega)]
  exact ⟨_, rfl⟩

/-- C30: let `F` be the frame index `moveSlider( x, MOUSE_CALLBACK )` returns
and let `y` lie in the slider band.  Whenever the pointer-down callback
returns, the position it has requested from the source is
`F - 1 + (step_val - 1)`; whenever the pointer-move callback of a drag returns,
the position it has requested is `F - 1`; each of them does return when the
two frames read after its seek exist.  The two positions are equal exactly
when `step_val = 1`, and for `F = 0`, `step_val = 1` the position is `-1`. -/
theorem slider_press_and_drag_seeks (s s1 : Player) (x y F : Int)
    (hy : on_slider y = true) (hF : moveSlider x MOUSE_CALLBACK s = Except.ok (s1, F)) :
    (∀ t, my_mouse_callback CV_EVENT_LBUTTONDOWN x y s = Except.ok t →
        t.vid.seeks = (F - 1 + (s.step_val - 1)) :: s.vid.seeks)
      ∧ (F - 1 + (s.step_val - 1) + 1 < s.vid.frame_count →
          ∃ t, my_mouse_callback CV_EVENT_LBUTTONDOWN x y s = Except.ok t)
      ∧ (s.sldr_moving = true →
          (∀ t, my_mouse_callback CV_EVENT_MOUSEMOVE x y s = Except.ok t →
            t.vid.seeks = (F - 1) :: s.vid.seeks)
          ∧ (F < s.vid.frame_count →
              ∃ t, my_mouse_callback CV_EVENT_MOUSEMOVE x y s = Except.ok t))
      ∧ (F - 1 + (s.step_val - 1) = F - 1 ↔ s.step_val = 1)
      ∧ (F = 0 → s.step_val = 1 → F - 1 + (s.step_val - 1) = -1) := by
  have hs : s.step_val ≠ 0 := (moveSlider_ok_iff _ _ _ _ hF).2
  rw [moveSlider_mouse x s hs] at hF
  injection hF with hF
  injection hF with _ hF
  subst hF
  have hdown : my_mouse_callback CV_EVENT_LBUTTONDOWN x y s
      = slider_press x (resetAllEdits { s with sldr_moving := true }) := by
    rw [my_mouse_callback_down, lbutton_down_on_slider x y s hy]
  refine ⟨?_, ?_, ?_, by omega, by omega⟩
  · intro t ht
    rw [hdown] at ht
    exact slider_press_seeks x (resetAllEdits { s with sldr_moving := true }) t hs ht
  · intro hlt
    rw [hdown]
    exact slider_press_returns x (resetAllEdits { s with sldr_moving := true }) hs hlt
  · intro hmov
    have hmove : my_mouse_callback CV_EVENT_MOUSEMOVE x y s = slider_drag x s := by
      simp [my_mouse_callback, hmov, hy]
    rw [hmove]
    exact ⟨fun t ht => slider_drag_seeks x s t hs ht, fun hlt => slider_drag_returns x s hs hlt⟩

theorem slider_press_and_drag_seeks_witness :
    on_slider 485 = true
      ∧ (∃ s1, moveSlider 0 MOUSE_CALLBACK { initial_state 0 100 with sldr_moving := true }
          = Except.ok (s1, 0))
      ∧ (∃ t, my_mouse_callback CV_EVENT_LBUTTONDOWN 0 485
            { initial_state 0 100 with sldr_moving := true } = Except.ok t
          ∧ t.vid.seeks = [-1, 0])
      ∧ (∃ t, my_mouse_callback CV_EVENT_MOUSEMOVE 0 485
            { initial_state 0 100 with sldr_moving := true } = Except.ok t
          ∧ t.vid.seeks = [-1, 0]) := by
  have e : round_to_step ({ initial_state 0 100 with sldr_moving := true } : Player).step_val
      (frame_of_pos ({ initial_state 0 100 with sldr_moving := true } : Player).sldr_maxval 0)
      = 0 := by
    rw [frame_of_pos_zero]
    decide
  have hF := moveSlider_mouse 0 { initial_state 0 100 with sldr_moving := true } (by decide)
  rw [e] at hF
  obtain ⟨a, b, c, _, _⟩ :=
    slider_press_and_drag_seeks { initial_state 0 100 with sldr_moving := true } _ 0 485 0
      (by decide) hF
  obtain ⟨t, ht⟩ := b (by decide)
  obtain ⟨c1, c2⟩ := c rfl
  obtain ⟨u, hu⟩ := c2 (by decide)
  exact ⟨by decide, ⟨_, hF⟩, ⟨t, ht, a t ht⟩, ⟨u, hu, c1 u hu⟩⟩

/-! ## The caret -/

theorem type_step_blink (c : Char) (f : Int) (s : Player) :
    (type_step c f s).blink_char = (blink_step s).blink_char
      ∧ (type_step c f s).blink_count = (blink_step s).blink_count
      ∧ (type_step c f s).blinking = (blink_step s).blinking
      ∧ (type_step c f s).blink_max = s.blink_max := by
  have hb : (blink_step { s with step_edit := [] }).blink_char = (blink_step s).blink_char
      ∧ (blink_step { s with step_edit := [] }).blink_count = (blink_step s).blink_count
      ∧ (blink_step { s with step_edit := [] }).blinking = (blink_step s).blinking
      ∧ (blink_step { s with step_edit := [] }).blink_max = s.blink_max := by
    unfold blink_step
    simp only
    split <;> split <;> exact ⟨rfl, rfl, rfl, rfl⟩
  obtain ⟨b1, b2, b3, b4⟩ := hb
  simp only [type_step]
  split_ifs <;> simp [b1, b2, b3, b4]

theorem blink_step_phase (n : Nat) (s : Player) (h5 : s.blink_max = 5)
    (hc : s.blink_count = ((n % 6 : Nat) : Int))
    (hb : s.blinking = decide ((n / 6) % 2 = 1))
    (hg : s.blink_char = if n / 6 = 0 ∨ (n / 6) % 2 = 1 then Char.ofNat 124 else Char.ofNat 32) :
    (blink_step s).blink_max = 5
      ∧ (blink_step s).blink_count = (((n + 1) % 6 : Nat) : Int)
      ∧ (blink_step s).blinking = decide (((n + 1) / 6) % 2 = 1)
      ∧ (blink_step s).blink_char
          = if (n + 1) / 6 = 0 ∨ ((n + 1) / 6) % 2 = 1 then Char.ofNat 124 else Char.ofNat 32 := by
  unfold blink_step
  by_cases hbl : s.blinking = true
  · rw [if_pos hbl]
    have hodd : (n / 6) % 2 = 1 := by
      rw [hb] at hbl
      exact of_decide_eq_true hbl
    by_cases hlt : s.blink_count < s.blink_max
    · rw [if_pos hlt]
      rw [h5, hc] at hlt
      have e1 : (n + 1) / 6 = n / 6 := by omega
      have e2 : (n + 1) % 6 = n % 6 + 1 := by omega
      refine ⟨h5, ?_, ?_, ?_⟩
      · show s.blink_count + 1 = _
        rw [hc, e2]
        push_cast
        rfl
      · show s.blinking = _
        rw [hb, e1]
      · show s.blink_char = _
        rw [hg, e1]
    · rw [if_neg hlt]
      rw [h5, hc] at hlt
      have e1 : (n + 1) / 6 = n / 6 + 1 := by omega
      have e2 : (n + 1) % 6 = 0 := by omega
      refine ⟨h5, ?_, ?_, ?_⟩
      · show (0 : Int) = _
        rw [e2]
        rfl
      · show false = _
        rw [e1]
        symm
        apply decide_eq_false
        omega
      · show Char.ofNat 32 = _
        rw [e1, if_neg (by omega)]
  · rw [if_neg hbl]
    have heven : ¬ (n / 6) % 2 = 1 := by
      intro h
      apply hbl
      rw [hb]
      exact decide_eq_true h
    by_cases hlt : s.blink_count < s.blink_max
    · rw [if_pos hlt]
      rw [h5, hc] at hlt
      have e1 : (n + 1) / 6 = n / 6 := by omega
      have e2 : (n + 1) % 6 = n % 6 + 1 := by omega
      refine ⟨h5, ?_, ?_, ?_⟩
      · show s.blink_count + 1 = _
        rw [hc, e2]
        push_cast
        rfl
      · show s.blinking = _
        rw [hb, e1]
      · show s.blink_char = _
        rw [hg, e1]
    · rw [if_neg hlt]
      rw [h5, hc] at hlt
      have e1 : (n + 1) / 6 = n / 6 + 1 := by omega
      have e2 : (n + 1) % 6 = 0 := by omega
      refine ⟨h5, ?_, ?_, ?_⟩
      · show (0 : Int) = _
        rw [e2]
        rfl
      · show true = _
        rw [e1]
        symm
        apply decide_eq_true
        omega
      · show Char.ofNat 124 = _
        rw [e1, if_pos (by omega)]

theorem type_keys_phase (ks : List (Char × Int)) (n : Nat) (s : Player) (h5 : s.blink_max = 5)
    (hc : s.blink_count = ((n % 6 : Nat) : Int))
    (hb : s.blinking = decide ((n / 6) % 2 = 1))
    (hg : s.blink_char = if n / 6 = 0 ∨ (n / 6) % 2 = 1 then Char.ofNat 124 else Char.ofNat 32) :
    (type_keys s ks).blink_char
      = if (n + ks.length) / 6 = 0 ∨ ((n + ks.length) / 6) % 2 = 1 then Char.ofNat 124
        else Char.ofNat 32 := by
  induction ks generalizing n s with
  | nil => exact hg
  | cons k ks ih =>
    obtain ⟨a1, a2, a3, a4⟩ := blink_step_phase n s h5 hc hb hg
    obtain ⟨b1, b2, b3, b4⟩ := type_step_blink k.1 k.2 s
    have e : n + (k :: ks).length = (n + 1) + ks.length := by
      rw [List.length_cons]
      omega
    rw [type_keys, e]
    exact ih (n + 1) _ (b4.trans h5) (b2.trans a2) (b3.trans a3) (b1.trans a4)

theorem type_step_paints_caret (c : Char) (f : Int) (s : Player) (h : c.toNat ≠ 10) :
    (type_step c f s).step_edit
      = [(type_step c f s).edit_text ++ [(type_step c f s).blink_char]] := by
  have hb : (blink_step { s with step_edit := [] }).step_edit = [] := by
    unfold blink_step
    simp only
    split <;> split <;> rfl
  simp only [type_step, h, if_false]
  split_ifs <;> simp [hb]
/-- C26, evaluated at its failing input: from the initial editor state
(`blinking = false`, `blink_count = 0`, `blink_char = '|'`, `blink_max = 5`)
the caret appended by each of the first eleven calls of `type_step` is the
visible `|`, and the twelfth call is the first to append a blank.  The sixth
call, at which `blink_count` has reached `blink_max`, takes the branch that
sets `blinking = true` and `blink_char = '|'`, so the caret is not toggled
there: the first run of equal glyphs is eleven calls long, not six. -/
theorem caret_visible_for_first_eleven_calls :
    (step_edit_press (initial_state 0 100)).blinking = false
      ∧ (step_edit_press (initial_state 0 100)).blink_count = 0
      ∧ (step_edit_press (initial_state 0 100)).blink_char = Char.ofNat 124
      ∧ (step_edit_press (initial_state 0 100)).blink_max + 1 = 6
      ∧ (∀ n, n < 12 →
          (type_keys (step_edit_press (initial_state 0 100))
            (List.replicate n (Char.ofNat 0, 1))).blink_char = Char.ofNat 124)
      ∧ (type_keys (step_edit_press (initial_state 0 100))
          (List.replicate 12 (Char.ofNat 0, 1))).blink_char = Char.ofNat 32 := by
  decide

/-- The caret by block: starting from `blinking = false`, `blink_count = 0`,
`blink_char = '|'` and `blink_max = 5`, the caret that the `n`-th call of
`type_step` leaves in `blink_char` depends only on the block `n / 6` the call
falls in: it is `|` in block 0 and in every odd block and a blank in every even
block from block 2 on.  Every call whose key is not Enter paints the pending
text followed by that caret. -/
theorem caret_glyph_by_block (s : Player) (ks : List (Char × Int))
    (h1 : s.blinking = false) (h2 : s.blink_count = 0)
    (h3 : s.blink_char = Char.ofNat 124) (h4 : s.blink_max = 5) :
    (type_keys s ks).blink_char
        = (if ks.length / 6 = 0 ∨ (ks.length / 6) % 2 = 1 then Char.ofNat 124
            else Char.ofNat 32)
      ∧ ∀ c f, c.toNat ≠ 10 →
          (type_step c f (type_keys s ks)).step_edit
            = [(type_step c f (type_keys s ks)).edit_text
                ++ [(type_step c f (type_keys s ks)).blink_char]] := by
  refine ⟨?_, fun c f h => type_step_paints_caret c f _ h⟩
  have h := type_keys_phase ks 0 s h4 (by rw [h2]; rfl) (by rw [h1]; rfl) (by rw [h3]; rfl)
  rw [Nat.zero_add] at h
  exact h

theorem caret_glyph_by_block_witness :
    (type_keys (step_edit_press (initial_state 0 100))
        (List.replicate 18 (Char.ofNat 0, 1))).blink_char = Char.ofNat 124 :=
  (caret_glyph_by_block (step_edit_press (initial_state 0 100))
    (List.replicate 18 (Char.ofNat 0, 1)) rfl rfl rfl rfl).1.trans (by decide)

/-! ## The pending text of the step editor -/

theorem type_step_edit_text (c : Char) (f : Int) (s : Player) :
    (type_step c f s).edit_text =
      (if 48 ≤ c.toNat ∧ c.toNat ≤ 57 then
        (if f + atoi (s.edit_text ++ [c]) ≥ 0 ∧ f + atoi (s.edit_text ++ [c]) ≤ s.sldr_maxval
            ∧ atoi (s.edit_text ++ [c]) ≠ 0 then s.edit_text ++ [c] else s.edit_text)
       else if c.toNat = 8 then s.edit_text.dropLast else s.edit_text)
      ∧ (type_step c f s).typing_step = (if c.toNat = 10 then false else s.typing_step) := by
  by_cases hd : 48 ≤ c.toNat ∧ c.toNat ≤ 57
  · obtain ⟨a, _, b⟩ := type_step_digit c f s hd
    have h10 : ¬ c.toNat = 10 := by omega
    rw [if_pos hd, if_neg h10]
    exact ⟨a, b⟩
  · rw [if_neg hd]
    have hb : (blink_step { s with step_edit := [] }).edit_text = s.edit_text
        ∧ (blink_step { s with step_edit := [] }).typing_step = s.typing_step := by
      unfold blink_step
      simp only
      split <;> split <;> exact ⟨rfl, rfl⟩
    obtain ⟨b1, b2⟩ := hb
    by_cases h8 : c.toNat = 8
    · have h10 : ¬ c.toNat = 10 := by omega
      rw [if_pos h8, if_neg h10]
      simp only [type_step, hd, h8, h10, if_true, if_false]
      generalize blink_step { s with step_edit := [] } = t at b1 b2 ⊢
      rw [← b1, ← b2]
      by_cases he : t.edit_text = []
      · simp [he]
      · simp [he, backspace_loop_eq_dropLast]
    · rw [if_neg h8]
      simp only [type_step, hd, h8, if_false]
      generalize blink_step { s with step_edit := [] } = t at b1 b2 ⊢
      rw [← b1, ← b2]
      split <;> simp

theorem char_eq_of_toNat (c : Char) (n : Nat) (h : c.toNat = n) : c = Char.ofNat n := by
  rw [← h, Char.ofNat_toNat]

theorem decimal_value_lower (l : List Char) (hne : l ≠ [])
    (hd : ∀ c ∈ l, isdigit c = true) (h0 : l.head? ≠ some (Char.ofNat 48)) :
    (10 : Int) ^ (l.length - 1) ≤ decimal_value l := by
  induction l using List.reverseRecOn with
  | nil => exact absurd rfl hne
  | append_singleton l c ih =>
    have hc := isdigit_value c (hd c (by simp))
    rw [decimal_value_append]
    by_cases hl : l = []
    · subst hl
      have hc0 : c.toNat ≠ 48 := by
        intro e
        apply h0
        rw [char_eq_of_toNat c 48 e]
        rfl
      simp only [List.nil_append, List.length_singleton, Nat.sub_self, pow_zero]
      have : decimal_value [] = 0 := rfl
      rw [this]
      omega
    · have hh : l.head? ≠ some (Char.ofNat 48) := by
        intro e
        apply h0
        rw [List.head?_append_of_ne_nil _ hl]
        exact e
      have ih1 := ih hl (fun c1 h1 => hd c1 (by simp [h1])) hh
      have hlen : (l ++ [c]).length - 1 = (l.length - 1) + 1 := by
        have : 0 < l.length := List.length_pos.mpr hl
        simp only [List.length_append, List.length_singleton]
        omega
      rw [hlen, pow_succ]
      omega

theorem pending_text_ok_length (text : List Char) (m : Int)
    (h : pending_text_ok text m) (hm : m < 2 ^ 31) : text.length ≤ 10 := by
  rcases h with h | ⟨hd, h0, _, hle⟩
  · rw [h]
    simp
  · by_cases hne : text = []
    · rw [hne]
      simp
    · have hlow := decimal_value_lower text hne hd h0
      by_contra hc
      have h10 : (10 : Int) ^ 10 ≤ 10 ^ (text.length - 1) :=
        pow_le_pow_right₀ (by norm_num) (by omega)
      have : (10 : Int) ^ 10 ≤ m := le_trans h10 (le_trans hlow hle)
      norm_num at this hm
      omega

theorem pending_text_ok_type_step (c : Char) (f : Int) (s : Player) (hf : 0 ≤ f)
    (hm : 10 * s.sldr_maxval + 9 < 2 ^ 31)
    (h : pending_text_ok s.edit_text s.sldr_maxval) :
    pending_text_ok (type_step c f s).edit_text s.sldr_maxval := by
  rw [(type_step_edit_text c f s).1]
  have hall : ∀ c ∈ s.edit_text, isdigit c = true := by
    rcases h with h | ⟨hd, _⟩
    · rw [h]
      intro c hc
      cases hc
    · exact hd
  by_cases hd : 48 ≤ c.toNat ∧ c.toNat ≤ 57
  · rw [if_pos hd]
    have hcd : isdigit c = true := by
      simp only [isdigit, Bool.and_eq_true, decide_eq_true_eq]
      exact hd
    have hall2 : ∀ c1 ∈ s.edit_text ++ [c], isdigit c1 = true := by
      intro c1 h1
      rcases List.mem_append.mp h1 with h2 | h2
      · exact hall c1 h2
      · rw [List.mem_singleton.mp h2]
        exact hcd
    have hbound : decimal_value (s.edit_text ++ [c]) < 2 ^ 31 := by
      have hv := isdigit_value c hcd
      rw [decimal_value_append]
      rcases h with h | ⟨_, _, _, hle⟩
      · rw [h]
        have : decimal_value [] = 0 := rfl
        rw [this]
        norm_num
        omega
      · norm_num at hm ⊢
        omega
    rw [atoi_of_digits _ hall2 hbound]
    by_cases hacc : f + decimal_value (s.edit_text ++ [c]) ≥ 0
        ∧ f + decimal_value (s.edit_text ++ [c]) ≤ s.sldr_maxval
        ∧ decimal_value (s.edit_text ++ [c]) ≠ 0
    · rw [if_pos hacc]
      obtain ⟨_, a2, a3⟩ := hacc
      have hv := isdigit_value c hcd
      right
      rcases h with h | ⟨_, h0, h1, _⟩
      · rw [h] at a2 a3 ⊢
        rw [List.nil_append] at a2 a3 ⊢
        have e : decimal_value [c] = (c.toNat : Int) - 48 := by
          simp [decimal_value]
        refine ⟨fun c1 h1 => by rw [List.mem_singleton.mp h1]; exact hcd, ?_, ?_, ?_⟩
        · intro e2
          have e3 : c = Char.ofNat 48 := by
            simpa using e2
          apply a3
          rw [e3]
          rfl
        · omega
        · omega
      · have hne : s.edit_text ≠ [] := by
          intro e
          rw [e] at h1
          have : decimal_value [] = 0 := rfl
          omega
        refine ⟨hall2, ?_, ?_, ?_⟩
        · rw [List.head?_append_of_ne_nil _ hne]
          exact h0
        · rw [decimal_value_append]
          omega
        · omega
    · rw [if_neg hacc]
      exact h
  · rw [if_neg hd]
    by_cases h8 : c.toNat = 8
    · rw [if_pos h8]
      rcases h with h | ⟨hdg, h0, h1, hle⟩
      · left
        rw [h]
        rfl
      · by_cases hdl : s.edit_text.dropLast = []
        · left
          exact hdl
        · right
          have hne : s.edit_text ≠ [] := by
            intro e
            apply hdl
            rw [e]
            rfl
          have hsplit : s.edit_text.dropLast ++ [s.edit_text.getLast hne] = s.edit_text :=
            List.dropLast_append_getLast hne
          have hdg2 : ∀ c1 ∈ s.edit_text.dropLast, isdigit c1 = true :=
            fun c1 h1 => hdg c1 (List.mem_of_mem_dropLast h1)
          have hh : s.edit_text.dropLast.head? ≠ some (Char.ofNat 48) := by
            intro e
            apply h0
            rw [← hsplit, List.head?_append_of_ne_nil _ hdl]
            exact e
          have hlow := decimal_value_lower _ hdl hdg2 hh
          have hpos : (1 : Int) ≤ 10 ^ (s.edit_text.dropLast.length - 1) :=
            one_le_pow₀ (by norm_num)
          have hv := isdigit_value _ (hdg _ (List.getLast_mem hne))
          have e := decimal_value_append s.edit_text.dropLast (s.edit_text.getLast hne)
          rw [hsplit] at e
          refine ⟨hdg2, hh, by omega, by omega⟩
    · rw [if_neg h8]
      exact h

theorem editor_ok_congr (s t : Player) (h1 : t.typing_step = s.typing_step)
    (h2 : t.edit_text = s.edit_text) (h3 : t.sldr_maxval = s.sldr_maxval)
    (h : editor_ok s) : editor_ok t := by
  unfold editor_ok at h ⊢
  rw [h1, h2, h3]
  exact h

theorem editor_ok_type_step (c : Char) (f : Int) (s : Player) (hf : 0 ≤ f)
    (hm : 10 * s.sldr_maxval + 9 < 2 ^ 31)
    (h : editor_ok s) : editor_ok (type_step c f s) := by
  intro ht
  rw [(type_step_edit_text c f s).2] at ht
  rw [(type_step_frame_fields c f s).2.2.2.1]
  by_cases h10 : c.toNat = 10
  · rw [if_pos h10] at ht
    cases ht
  · rw [if_neg h10] at ht
    exact pending_text_ok_type_step c f s hf hm (h ht)

theorem editor_ok_callback (event x y : Int) (s t : Player) (h : editor_ok s)
    (hr : my_mouse_callback event x y s = Except.ok t) : editor_ok t := by
  unfold my_mouse_callback at hr
  by_cases e0 : event = CV_EVENT_MOUSEMOVE
  · rw [if_pos e0] at hr
    by_cases c1 : s.sldr_moving = true
    · rw [if_pos c1] at hr
      by_cases c2 : on_slider y = true
      · rw [if_pos c2] at hr
        obtain ⟨_, a2, a3, a4⟩ := slider_drag_fields _ _ _ hr
        exact editor_ok_congr s t a4 a3 a2 h
      · rw [if_neg c2] at hr
        injection hr with hr
        rw [← hr]
        exact h
    · rw [if_neg c1] at hr
      injection hr with hr
      rw [← hr]
      exact h
  · rw [if_neg e0] at hr
    by_cases e1 : event = CV_EVENT_LBUTTONDOWN
    · rw [if_pos e1] at hr
      obtain ⟨_, a, b⟩ := lbutton_down_editor x y s t hr
      intro ht
      by_cases hin : in_area step_edit_area x y = true
      · left
        exact (a hin).2
      · have := (b (by simpa using hin)).1
        rw [this] at ht
        cases ht
    · rw [if_neg e1] at hr
      by_cases e2 : event = CV_EVENT_LBUTTONUP
      · rw [if_pos e2] at hr
        injection hr with hr
        rw [← hr]
        exact h
      · rw [if_neg e2] at hr
        injection hr with hr
        rw [← hr]
        exact h

theorem play_frames_edit_text (s : Player) : (play_frames s).edit_text = s.edit_text := by
  unfold play_frames
  simp only
  split
  · split <;> rfl
  · rfl

theorem editor_ok_loop_body (c : Char) (s t : Player) (h : editor_ok s)
    (hm : 10 * s.sldr_maxval + 9 < 2 ^ 31)
    (hr : loop_body c s = Except.ok t) : editor_ok t := by
  by_cases hp : s.processing = true
  · simp only [loop_body, hp, Bool.not_true, Bool.false_eq_true, if_false] at hr
    injection hr with hr
    rw [← hr]
    exact h
  · have h0 : s.processing = false := by simpa using hp
    simp only [loop_body, h0, Bool.not_false, if_true, cvGetCaptureProperty_POS_FRAMES] at hr
    cases hn : nonneg_loop (-(play_frames s).vid.pos).toNat (play_frames s).vid with
    | error f => rw [hn] at hr; cases hr
    | ok v =>
      rw [hn] at hr
      simp only at hr
      have hv : 0 ≤ v.pos := nonneg_loop_result _ _ _ (Int.self_le_toNat _) hn
      obtain ⟨_, f2, _, _, _, _, f7⟩ := play_frames_fields s
      have P1 : editor_ok ({ play_frames s with vid := v } : Player) :=
        editor_ok_congr s _ f7 (play_frames_edit_text s) f2 h
      have M1 : 10 * ({ play_frames s with vid := v } : Player).sldr_maxval + 9 < 2 ^ 31 := by
        show 10 * (play_frames s).sldr_maxval + 9 < 2 ^ 31
        rw [f2]
        exact hm
      generalize ({ play_frames s with vid := v } : Player) = t1 at hr P1 M1
      have P2 : editor_ok
          (if (play_frames s).typing_step = true then type_step c v.pos t1 else t1) := by
        split
        · exact editor_ok_type_step c v.pos t1 hv M1 P1
        · exact P1
      generalize (if (play_frames s).typing_step = true then type_step c v.pos t1 else t1)
        = t2 at hr P2
      have P3 : editor_ok (if v.pos = t2.sldr_maxval - 1 then
          change_status { t2 with play_pause_btn := PLAY_BTN, status_line := "End reached" }
          else t2) := by
        split
        · exact editor_ok_congr t2 _ rfl rfl rfl P2
        · exact P2
      generalize (if v.pos = t2.sldr_maxval - 1 then
          change_status { t2 with play_pause_btn := PLAY_BTN, status_line := "End reached" }
          else t2) = t3 at hr P3
      cases hm : moveSlider v.pos OTHER_CALLS t3 with
      | error f => rw [hm] at hr; cases hr
      | ok r =>
        obtain ⟨t4, F⟩ := r
        rw [hm] at hr
        simp only at hr
        injection hr with hr
        subst hr
        obtain ⟨_, a2, _, a4, a5, _⟩ := moveSlider_fields _ _ _ _ _ hm
        exact editor_ok_congr t3 _ a5 a4 a2 P3

set_option maxRecDepth 8000 in
/-- C29, as stated, fails at the edge of its bound.  With
`sldr_maxval = 214748364` (ten times it is below `2^31`) the digits
`214748364` typed into the empty field at frame 0 are all accepted and leave
the invariant intact; at the frame index `2147483647` the digit `9` is then
accepted too, because `atoi` of `2147483649` is `-2147483647` and `f + v = 0`;
the pending text then spells 2147483649, a value above `sldr_maxval`. -/
theorem type_step_breaks_pending_text_at_int_max :
    10 * (initial_state 0 214748364).sldr_maxval < 2 ^ 31
      ∧ (type_keys (step_edit_press (initial_state 0 214748364))
          [(Char.ofNat 50, 0), (Char.ofNat 49, 0), (Char.ofNat 52, 0), (Char.ofNat 55, 0),
            (Char.ofNat 52, 0), (Char.ofNat 56, 0), (Char.ofNat 51, 0), (Char.ofNat 54, 0),
            (Char.ofNat 52, 0)]).edit_text
          = [Char.ofNat 50, Char.ofNat 49, Char.ofNat 52, Char.ofNat 55, Char.ofNat 52,
              Char.ofNat 56, Char.ofNat 51, Char.ofNat 54, Char.ofNat 52]
      ∧ (type_keys (step_edit_press (initial_state 0 214748364))
          [(Char.ofNat 50, 0), (Char.ofNat 49, 0), (Char.ofNat 52, 0), (Char.ofNat 55, 0),
            (Char.ofNat 52, 0), (Char.ofNat 56, 0), (Char.ofNat 51, 0), (Char.ofNat 54, 0),
            (Char.ofNat 52, 0)]).typing_step = true
      ∧ editor_ok (type_keys (step_edit_press (initial_state 0 214748364))
          [(Char.ofNat 50, 0), (Char.ofNat 49, 0), (Char.ofNat 52, 0), (Char.ofNat 55, 0),
            (Char.ofNat 52, 0), (Char.ofNat 56, 0), (Char.ofNat 51, 0), (Char.ofNat 54, 0),
            (Char.ofNat 52, 0)])
      ∧ (0 : Int) ≤ 2147483647
      ∧ (type_step (Char.ofNat 57) 2147483647
          (type_keys (step_edit_press (initial_state 0 214748364))
            [(Char.ofNat 50, 0), (Char.ofNat 49, 0), (Char.ofNat 52, 0), (Char.ofNat 55, 0),
              (Char.ofNat 52, 0), (Char.ofNat 56, 0), (Char.ofNat 51, 0), (Char.ofNat 54, 0),
              (Char.ofNat 52, 0)])).edit_text
          = [Char.ofNat 50, Char.ofNat 49, Char.ofNat 52, Char.ofNat 55, Char.ofNat 52,
              Char.ofNat 56, Char.ofNat 51, Char.ofNat 54, Char.ofNat 52, Char.ofNat 57]
      ∧ decimal_value [Char.ofNat 50, Char.ofNat 49, Char.ofNat 52, Char.ofNat 55, Char.ofNat 52,
          Char.ofNat 56, Char.ofNat 51, Char.ofNat 54, Char.ofNat 52, Char.ofNat 57] = 2147483649
      ∧ ¬ editor_ok (type_step (Char.ofNat 57) 2147483647
          (type_keys (step_edit_press (initial_state 0 214748364))
            [(Char.ofNat 50, 0), (Char.ofNat 49, 0), (Char.ofNat 52, 0), (Char.ofNat 55, 0),
              (Char.ofNat 52, 0), (Char.ofNat 56, 0), (Char.ofNat 51, 0), (Char.ofNat 54, 0),
              (Char.ofNat 52, 0)])) := by
  refine ⟨by decide, by decide, by decide, by decide, by decide, by decide, by decide, by decide⟩

/-- C29, amended: the invariant `editor_ok` (in edit mode the pending text is
empty or a decimal numeral without leading zero whose value lies in
`[1, sldr_maxval]`) holds when the step field is entered and is preserved by
every invocation of `my_mouse_callback` that returns; when
`10 * sldr_maxval + 9` fits in an `int`, so that every candidate text does, it
is preserved by every call `type_step( c, f )` with `f ≥ 0` (digit, backspace
or any other key) and by every pass of the loop body that returns (the loop
body only passes frame indices `≥ 0`).  When it holds in edit mode and
`10 * sldr_maxval` fits in an `int`, the pending text has at most 10
characters, so the text with the caret and the terminating zero fits the 20
bytes of `edit_text` and `temp_text`. -/
theorem step_editor_pending_text_invariant (s : Player) (h : editor_ok s) :
    editor_ok (step_edit_press s)
      ∧ (10 * s.sldr_maxval + 9 < 2 ^ 31 → ∀ c f, 0 ≤ f → editor_ok (type_step c f s))
      ∧ (∀ event x y t, my_mouse_callback event x y s = Except.ok t → editor_ok t)
      ∧ (10 * s.sldr_maxval + 9 < 2 ^ 31 → ∀ c t, loop_body c s = Except.ok t → editor_ok t)
      ∧ (s.typing_step = true → 10 * s.sldr_maxval < 2 ^ 31 →
          pending_text_ok s.edit_text s.sldr_maxval
            ∧ s.edit_text.length ≤ 10
            ∧ (s.edit_text ++ [s.blink_char]).length + 1 ≤ 20
            ∧ ∀ c, (s.edit_text ++ [c]).length + 1 ≤ 20) := by
  refine ⟨fun _ => Or.inl rfl, fun hb c f hf => editor_ok_type_step c f s hf hb h,
    fun event x y t hr => editor_ok_callback event x y s t h hr,
    fun hb c t hr => editor_ok_loop_body c s t h hb hr, ?_⟩
  intro ht hm
  have hp := h ht
  have hmax : s.sldr_maxval < 2 ^ 31 := by
    rcases hp with hp | ⟨_, _, h1, h2⟩
    · norm_num at hm ⊢
      omega
    · norm_num at hm ⊢
      omega
  have hlen := pending_text_ok_length _ _ hp hmax
  refine ⟨hp, hlen, ?_, ?_⟩
  · simp only [List.length_append, List.length_singleton]
    omega
  · intro c
    simp only [List.length_append, List.length_singleton]
    omega

/-- Witness of the amended C29: with `5` pending at frame 1 of 100 the
invariant holds, and it still holds after the key `7` (the candidate `57`
being accepted). -/
theorem step_editor_pending_text_invariant_witness :
    editor_ok (type_step (Char.ofNat 53) 1 (step_edit_press (initial_state 0 100)))
      ∧ (type_step (Char.ofNat 53) 1 (step_edit_press (initial_state 0 100))).typing_step = true
      ∧ (type_step (Char.ofNat 53) 1 (step_edit_press (initial_state 0 100))).edit_text
          = [Char.ofNat 53]
      ∧ 10 * (type_step (Char.ofNat 53) 1 (step_edit_press (initial_state 0 100))).sldr_maxval
          + 9 < 2 ^ 31
      ∧ editor_ok (type_step (Char.ofNat 55) 1
          (type_step (Char.ofNat 53) 1 (step_edit_press (initial_state 0 100))))
      ∧ (type_step (Char.ofNat 55) 1
          (type_step (Char.ofNat 53) 1 (step_edit_press (initial_state 0 100)))).edit_text
          = [Char.ofNat 53, Char.ofNat 55] :=
  ⟨by decide, by decide, by decide, by decide,
    (step_editor_pending_text_invariant
      (type_step (Char.ofNat 53) 1 (step_edit_press (initial_state 0 100))) (by decide)).2.1
      (by decide) (Char.ofNat 55) 1 (by decide),
    by decide⟩

/-! ## Regions: extents and overlap -/

theorem in_region_iff (image : IplImage) (o : Int) :
    in_region image o ↔
      ∃ row col c : Int, 0 ≤ row ∧ row < image.height ∧ 0 ≤ col ∧ col < image.width
        ∧ 0 ≤ c ∧ c < image.nChannels ∧ o = byte_offset image row col c := by
  constructor
  · rintro ⟨row, hr, col, hc, c, hch, rfl⟩
    exact ⟨row, col, c, by omega, by omega, by omega, by omega, by omega, by omega, rfl⟩
  · rintro ⟨row, col, c, h1, h2, h3, h4, h5, h6, rfl⟩
    refine ⟨row.toNat, by omega, col.toNat, by omega, c.toNat, by omega, ?_⟩
    rw [Int.toNat_of_nonneg h1, Int.toNat_of_nonneg h3, Int.toNat_of_nonneg h5]

theorem for_range_eq_of_le {σ : Type} (lo hi : Int) (h : hi ≤ lo) (body : Int → σ → σ) (s : σ) :
    for_range lo hi body s = s := by
  have e : (hi - lo).toNat = 0 := by omega
  simp [for_range, e]

theorem for_range_ind {σ : Type} (Q : Int → σ → Prop) (lo hi : Int) (hle : lo ≤ hi)
    (body : Int → σ → σ) (s : σ) (h0 : Q lo s)
    (hstep : ∀ i s, lo ≤ i → i < hi → Q i s → Q (i + 1) (body i s)) :
    Q hi (for_range lo hi body s) := by
  have key : ∀ n : Nat, lo + (n : Int) ≤ hi →
      Q (lo + (n : Int)) ((List.range n).foldl (fun s (i : Nat) => body (lo + (i : Int)) s) s) := by
    intro n
    induction n with
    | zero =>
      intro _
      simpa using h0
    | succ n ih =>
      intro hn
      rw [List.range_succ, List.foldl_append]
      simp only [List.foldl_cons, List.foldl_nil]
      have h1 := ih (by push_cast at hn; omega)
      have h2 := hstep _ _ (by omega) (by push_cast at hn; omega) h1
      have e : lo + ((n + 1 : Nat) : Int) = lo + (n : Int) + 1 := by push_cast; omega
      rw [e]
      exact h2
  have h3 := key (hi - lo).toNat (by omega)
  have e : lo + ((hi - lo).toNat : Int) = hi := by omega
  rw [e] at h3
  exact h3

theorem for_range_inv {σ : Type} (P : σ → Prop) (lo hi : Int)
    (body : Int → σ → σ) (s : σ) (h0 : P s)
    (hstep : ∀ i s, lo ≤ i → i < hi → P s → P (body i s)) :
    P (for_range lo hi body s) := by
  by_cases hle : lo ≤ hi
  · exact for_range_ind (fun _ s => P s) lo hi hle body s h0 hstep
  · rw [for_range_eq_of_le lo hi (by omega)]
    exact h0

theorem byte_offset_inj (image : IplImage) (hok : region_ok image) (r c k r1 c1 k1 : Int)
    (hc : 0 ≤ c ∧ c < image.width) (hk : 0 ≤ k ∧ k < 3)
    (hc1 : 0 ≤ c1 ∧ c1 < image.width) (hk1 : 0 ≤ k1 ∧ k1 < 3)
    (h : byte_offset image r c k = byte_offset image r1 c1 k1) :
    r = r1 ∧ c = c1 ∧ k = k1 := by
  obtain ⟨h3, hw, hws⟩ := hok
  simp only [byte_offset, h3] at h
  have hws0 : 0 ≤ image.widthStep := by omega
  have hr : r = r1 := by
    rcases lt_trichotomy r r1 with hlt | heq | hgt
    · have : (r + 1) * image.widthStep ≤ r1 * image.widthStep :=
        Int.mul_le_mul_of_nonneg_right (by omega) hws0
      rw [Int.add_mul, Int.one_mul] at this
      omega
    · exact heq
    · have : (r1 + 1) * image.widthStep ≤ r * image.widthStep :=
        Int.mul_le_mul_of_nonneg_right (by omega) hws0
      rw [Int.add_mul, Int.one_mul] at this
      omega
  subst hr
  omega

theorem put_pixel_apply (image : IplImage) (row col v0 v1 v2 : Int) (buf : Canvas) (o : Int) :
    put_pixel image row col v0 v1 v2 buf o =
      if o = byte_offset image row col 2 then v2
      else if o = byte_offset image row col 1 then v1
      else if o = byte_offset image row col 0 then v0
      else buf o := by
  simp only [put_pixel, Function.update_apply]

theorem put_pixel_other (image : IplImage) (row col v0 v1 v2 : Int) (buf : Canvas) (o : Int)
    (h : ∀ k, 0 ≤ k → k < 3 → o ≠ byte_offset image row col k) :
    put_pixel image row col v0 v1 v2 buf o = buf o := by
  rw [put_pixel_apply, if_neg (h 2 (by omega) (by omega)), if_neg (h 1 (by omega) (by omega)),
    if_neg (h 0 (by omega) (by omega))]

theorem put_pixel_self (image : IplImage) (row col v0 v1 v2 : Int) (buf : Canvas) (k : Int)
    (hk : 0 ≤ k ∧ k < 3) :
    put_pixel image row col v0 v1 v2 buf (byte_offset image row col k)
      = if k = 0 then v0 else if k = 1 then v1 else v2 := by
  rw [put_pixel_apply]
  simp only [byte_offset]
  have hk3 : k = 0 ∨ k = 1 ∨ k = 2 := by omega
  rcases hk3 with e | e | e <;> subst e <;> simp

/-- A row loop that paints the pixel of each column with values that do not
depend on the buffer. -/
theorem paint_row_apply (image : IplImage) (hok : region_ok image) (row : Int)
    (V0 V1 V2 : Int → Int) (buf : Canvas) :
    (∀ c k, 0 ≤ c → c < image.width → 0 ≤ k → k < 3 →
        for_range 0 image.width
            (fun col b => put_pixel image row col (V0 col) (V1 col) (V2 col) b) buf
            (byte_offset image row c k)
          = if k = 0 then V0 c else if k = 1 then V1 c else V2 c)
      ∧ (∀ o, (∀ c k, 0 ≤ c → c < image.width → 0 ≤ k → k < 3 → o ≠ byte_offset image row c k) →
        for_range 0 image.width
            (fun col b => put_pixel image row col (V0 col) (V1 col) (V2 col) b) buf o = buf o) := by
  constructor
  · intro c k hc0 hc1 hk0 hk1
    have h := for_range_ind
      (fun i (b : Canvas) => c < i →
        b (byte_offset image row c k) = if k = 0 then V0 c else if k = 1 then V1 c else V2 c)
      0 image.width hok.2.1
      (fun col b => put_pixel image row col (V0 col) (V1 col) (V2 col) b) buf
      (fun hlt => by omega)
      (by
        intro i b hi0 hi1 ih hlt
        by_cases hci : c = i
        · subst hci
          exact put_pixel_self image row c (V0 c) (V1 c) (V2 c) b k ⟨hk0, hk1⟩
        · show put_pixel image row i _ _ _ b _ = _
          rw [put_pixel_other]
          · exact ih (by omega)
          · intro k1 hk10 hk11 e
            have := byte_offset_inj image hok row c k row i k1 ⟨hc0, hc1⟩ ⟨hk0, hk1⟩
              ⟨hi0, hi1⟩ ⟨hk10, hk11⟩ e
            exact hci this.2.1)
    exact h hc1
  · intro o ho
    exact for_range_inv (fun b : Canvas => b o = buf o) 0 image.width _ buf rfl
      (by
        intro i b hi0 hi1 ih
        show put_pixel image row i _ _ _ b o = buf o
        rw [put_pixel_other _ _ _ _ _ _ _ _ (fun k hk0 hk1 => ho i k hi0 hi1 hk0 hk1)]
        exact ih)

/-- Two nested loops that paint every pixel of the rows `lo .. hi - 1` of the
image with values that do not depend on the buffer. -/
theorem paint_rows_apply (image : IplImage) (hok : region_ok image) (lo hi : Int)
    (V0 V1 V2 : Int → Int → Int) (buf : Canvas) :
    (∀ r c k, lo ≤ r → r < hi → 0 ≤ c → c < image.width → 0 ≤ k → k < 3 →
        for_range lo hi (fun row b =>
            for_range 0 image.width
              (fun col b => put_pixel image row col (V0 row col) (V1 row col) (V2 row col) b) b)
            buf (byte_offset image r c k)
          = if k = 0 then V0 r c else if k = 1 then V1 r c else V2 r c)
      ∧ (∀ o, (∀ r c k, lo ≤ r → r < hi → 0 ≤ c → c < image.width → 0 ≤ k → k < 3 →
            o ≠ byte_offset image r c k) →
        for_range lo hi (fun row b =>
            for_range 0 image.width
              (fun col b => put_pixel image row col (V0 row col) (V1 row col) (V2 row col) b) b)
            buf o = buf o) := by
  constructor
  · intro r c k hr0 hr1 hc0 hc1 hk0 hk1
    have h := for_range_ind
      (fun i (b : Canvas) => r < i →
        b (byte_offset image r c k)
          = if k = 0 then V0 r c else if k = 1 then V1 r c else V2 r c)
      lo hi (by omega)
      (fun row b => for_range 0 image.width
        (fun col b => put_pixel image row col (V0 row col) (V1 row col) (V2 row col) b) b) buf
      (fun hlt => by omega)
      (by
        intro i b hi0 hi1 ih hlt
        by_cases hri : r = i
        · subst hri
          exact (paint_row_apply image hok r (V0 r) (V1 r) (V2 r) b).1 c k hc0 hc1 hk0 hk1
        · show for_range 0 image.width
            (fun col b => put_pixel image i col (V0 i col) (V1 i col) (V2 i col) b) b
            (byte_offset image r c k) = _
          rw [(paint_row_apply image hok i (V0 i) (V1 i) (V2 i) b).2]
          · exact ih (by omega)
          · intro c1 k1 hc10 hc11 hk10 hk11 e
            have := byte_offset_inj image hok r c k i c1 k1 ⟨hc0, hc1⟩ ⟨hk0, hk1⟩
              ⟨hc10, hc11⟩ ⟨hk10, hk11⟩ e
            exact hri this.1)
    exact h hr1
  · intro o ho
    exact for_range_inv (fun b : Canvas => b o = buf o) lo hi _ buf rfl
      (by
        intro i b hi0 hi1 ih
        show for_range 0 image.width
          (fun col b => put_pixel image i col (V0 i col) (V1 i col) (V2 i col) b) b o = buf o
        rw [(paint_row_apply image hok i (V0 i) (V1 i) (V2 i) b).2 o
          (fun c k hc0 hc1 hk0 hk1 => ho i c k hi0 hi1 hc0 hc1 hk0 hk1)]
        exact ih)
/-! ## `resetField` -/

theorem not_in_region (image : IplImage) (hok : region_ok image) (o : Int)
    (h : ¬ in_region image o) :
    ∀ r c k, 0 ≤ r → r < image.height → 0 ≤ c → c < image.width → 0 ≤ k → k < 3 →
      o ≠ byte_offset image r c k := by
  intro r c k h1 h2 h3 h4 h5 h6 e
  apply h
  rw [in_region_iff]
  exact ⟨r, c, k, h1, h2, h3, h4, h5, by rw [hok.1]; exact h6, e⟩

theorem resetField_static_eq (image : IplImage) (buf : Canvas) :
    resetField image STATIC_TEXT buf =
      for_range 0 image.height (fun row b =>
        for_range 0 image.width (fun col b => put_pixel image row col 226 235 240 b) b) buf := by
  simp only [resetField, if_true]

theorem resetField_edit_eq (image : IplImage) (t : Int) (ht : t ≠ STATIC_TEXT) (buf : Canvas) :
    resetField image t buf =
      for_range 0 image.height (fun row b =>
        for_range 0 image.width
          (fun col b => put_pixel image row col
            (if row = 0 ∨ row = image.height - 1 ∨ col = 0 ∨ col = image.width - 1
              then 0 else 255)
            (if row = 0 ∨ row = image.height - 1 ∨ col = 0 ∨ col = image.width - 1
              then 0 else 255)
            (if row = 0 ∨ row = image.height - 1 ∨ col = 0 ∨ col = image.width - 1
              then 0 else 255) b) b) buf := by
  simp only [resetField, if_neg ht]
  congr 1
  funext row b
  congr 1
  funext col b
  split <;> rfl

/-- C22: for every region with three channels whose rows do not overlap,
`resetField( image, STATIC_TEXT )` sets every pixel of the region to
`(226, 235, 240)`, the colour of the loop with which `main` paints the panel;
`resetField( image, EDIT_TEXT )` sets the pixels of the first and last row and
of the first and last column to `(0, 0, 0)` and every other pixel of the region
to `(255, 255, 255)`; whatever `text_type` is, no byte outside the pixels of
the region changes. -/
theorem resetField_paints_region (image : IplImage) (hok : region_ok image) (buf : Canvas) :
    (∀ r c, 0 ≤ r → r < image.height → 0 ≤ c → c < image.width →
        resetField image STATIC_TEXT buf (byte_offset image r c 0) = 226
          ∧ resetField image STATIC_TEXT buf (byte_offset image r c 1) = 235
          ∧ resetField image STATIC_TEXT buf (byte_offset image r c 2) = 240)
      ∧ (∀ r c, 0 ≤ r → r < pnl.height → 0 ≤ c → c < pnl.width →
        main_panel_fill buf (byte_offset pnl r c 0) = 226
          ∧ main_panel_fill buf (byte_offset pnl r c 1) = 235
          ∧ main_panel_fill buf (byte_offset pnl r c 2) = 240)
      ∧ (∀ r c k, 0 ≤ r → r < image.height → 0 ≤ c → c < image.width → 0 ≤ k → k < 3 →
        resetField image EDIT_TEXT buf (byte_offset image r c k)
          = if r = 0 ∨ r = image.height - 1 ∨ c = 0 ∨ c = image.width - 1 then 0 else 255)
      ∧ (∀ text_type o, ¬ in_region image o → resetField image text_type buf o = buf o) := by
  refine ⟨?_, ?_, ?_, ?_⟩
  · intro r c h1 h2 h3 h4
    rw [resetField_static_eq]
    have h := (paint_rows_apply image hok 0 image.height (fun _ _ => 226) (fun _ _ => 235) (fun _ _ => 240)
      buf).1 r c
    exact ⟨h 0 h1 h2 h3 h4 (by omega) (by omega), h 1 h1 h2 h3 h4 (by omega) (by omega),
      h 2 h1 h2 h3 h4 (by omega) (by omega)⟩
  · intro r c h1 h2 h3 h4
    have hp : main_panel_fill buf = resetField pnl STATIC_TEXT buf := by
      simp only [main_panel_fill, resetField, if_true]
    rw [hp, resetField_static_eq]
    have h := (paint_rows_apply pnl (by decide) 0 pnl.height (fun _ _ => 226) (fun _ _ => 235)
      (fun _ _ => 240) buf).1 r c
    exact ⟨h 0 h1 h2 h3 h4 (by omega) (by omega), h 1 h1 h2 h3 h4 (by omega) (by omega),
      h 2 h1 h2 h3 h4 (by omega) (by omega)⟩
  · intro r c k h1 h2 h3 h4 h5 h6
    rw [resetField_edit_eq image EDIT_TEXT (by decide)]
    refine ((paint_rows_apply image hok 0 image.height
      (fun row col => if row = 0 ∨ row = image.height - 1 ∨ col = 0 ∨ col = image.width - 1
        then 0 else 255)
      (fun row col => if row = 0 ∨ row = image.height - 1 ∨ col = 0 ∨ col = image.width - 1
        then 0 else 255)
      (fun row col => if row = 0 ∨ row = image.height - 1 ∨ col = 0 ∨ col = image.width - 1
        then 0 else 255) buf).1 r c k h1 h2 h3 h4 h5 h6).trans ?_
    split_ifs <;> rfl
  · intro t o ho
    have hno := not_in_region image hok o ho
    by_cases ht : t = STATIC_TEXT
    · subst ht
      rw [resetField_static_eq]
      exact (paint_rows_apply image hok 0 image.height (fun _ _ => 226) (fun _ _ => 235) (fun _ _ => 240)
        buf).2 o hno
    · rw [resetField_edit_eq image t ht]
      exact (paint_rows_apply image hok 0 image.height
        (fun row col => if row = 0 ∨ row = image.height - 1 ∨ col = 0 ∨ col = image.width - 1
          then 0 else 255)
        (fun row col => if row = 0 ∨ row = image.height - 1 ∨ col = 0 ∨ col = image.width - 1
          then 0 else 255)
        (fun row col => if row = 0 ∨ row = image.height - 1 ∨ col = 0 ∨ col = image.width - 1
          then 0 else 255) buf).2 o hno

theorem resetField_paints_region_witness :
    region_ok { imageData := 0, widthStep := 12, width := 4, height := 3, nChannels := 3 }
      ∧ resetField { imageData := 0, widthStep := 12, width := 4, height := 3, nChannels := 3 } EDIT_TEXT
          (fun _ => 7) (byte_offset { imageData := 0, widthStep := 12, width := 4, height := 3, nChannels := 3 } 2 1 1) = 0
      ∧ resetField { imageData := 0, widthStep := 12, width := 4, height := 3, nChannels := 3 } EDIT_TEXT
          (fun _ => 7) (byte_offset { imageData := 0, widthStep := 12, width := 4, height := 3, nChannels := 3 } 1 2 1) = 255
      ∧ resetField { imageData := 0, widthStep := 12, width := 4, height := 3, nChannels := 3 } STATIC_TEXT
          (fun _ => 7) (byte_offset { imageData := 0, widthStep := 12, width := 4, height := 3, nChannels := 3 } 1 2 1) = 235
      ∧ resetField { imageData := 0, widthStep := 12, width := 4, height := 3, nChannels := 3 } EDIT_TEXT
          (fun _ => 7) 36 = 7 :=
  ⟨by decide,
    ((resetField_paints_region { imageData := 0, widthStep := 12, width := 4, height := 3, nChannels := 3 }
      (by decide) (fun _ => 7)).2.2.1
      2 1 1 (by decide) (by decide) (by decide) (by decide) (by decide) (by decide)).trans
      (by decide),
    ((resetField_paints_region { imageData := 0, widthStep := 12, width := 4, height := 3, nChannels := 3 }
      (by decide) (fun _ => 7)).2.2.1
      1 2 1 (by decide) (by decide) (by decide) (by decide) (by decide) (by decide)).trans
      (by decide),
    ((resetField_paints_region { imageData := 0, widthStep := 12, width := 4, height := 3, nChannels := 3 }
      (by decide) (fun _ => 7)).1
      1 2 (by decide) (by decide) (by decide) (by decide)).2.1,
    (resetField_paints_region { imageData := 0, widthStep := 12, width := 4, height := 3, nChannels := 3 }
      (by decide) (fun _ => 7)).2.2.2 EDIT_TEXT 36 (by decide)⟩

/-! ## `getSpectrumVert` -/

theorem for_range_congr {σ : Type} (Inv : σ → Prop) (lo hi : Int)
    (body body1 : Int → σ → σ) (s : σ) (h0 : Inv s)
    (h : ∀ i s, lo ≤ i → i < hi → Inv s → body i s = body1 i s ∧ Inv (body1 i s)) :
    for_range lo hi body s = for_range lo hi body1 s ∧ Inv (for_range lo hi body1 s) := by
  by_cases hle : lo ≤ hi
  · have key : ∀ n : Nat, lo + (n : Int) ≤ hi →
        (List.range n).foldl (fun s (i : Nat) => body (lo + (i : Int)) s) s
            = (List.range n).foldl (fun s (i : Nat) => body1 (lo + (i : Int)) s) s
          ∧ Inv ((List.range n).foldl (fun s (i : Nat) => body1 (lo + (i : Int)) s) s) := by
      intro n
      induction n with
      | zero =>
        intro _
        exact ⟨rfl, h0⟩
      | succ n ih =>
        intro hn
        rw [List.range_succ, List.foldl_append, List.foldl_append]
        simp only [List.foldl_cons, List.foldl_nil]
        obtain ⟨e1, e2⟩ := ih (by push_cast at hn; omega)
        rw [e1]
        exact h _ _ (by omega) (by push_cast at hn; omega) e2
    exact key (hi - lo).toNat (by omega)
  · rw [for_range_eq_of_le lo hi (by omega), for_range_eq_of_le lo hi (by omega)]
    exact ⟨rfl, h0⟩

theorem for_range_three {σ : Type} (body : Int → σ → σ) (s : σ) :
    for_range 0 3 body s = body 2 (body 1 (body 0 s)) := by
  rfl

theorem spectrum_row_eq (image : IplImage) (hok : region_ok image) (color : CvScalar)
    (row : Int) (buf : Canvas) :
    spectrum_row image color row buf =
      for_range 0 image.width
        (fun col b => put_pixel image row col (color.val 0) (color.val 1) (color.val 2) b) buf := by
  unfold spectrum_row
  rw [hok.1]
  congr 1
theorem spectrum_row_apply (image : IplImage) (hok : region_ok image) (color : CvScalar)
    (row : Int) (buf : Canvas) :
    (∀ c k, 0 ≤ c → c < image.width → 0 ≤ k → k < 3 →
        spectrum_row image color row buf (byte_offset image row c k) = color.val k)
      ∧ (∀ o, (∀ c k, 0 ≤ c → c < image.width → 0 ≤ k → k < 3 → o ≠ byte_offset image row c k) →
        spectrum_row image color row buf o = buf o) := by
  rw [spectrum_row_eq image hok]
  constructor
  · intro c k h1 h2 h3 h4
    refine ((paint_row_apply image hok row (fun _ => color.val 0) (fun _ => color.val 1)
      (fun _ => color.val 2) buf).1 c k h1 h2 h3 h4).trans ?_
    have hk : k = 0 ∨ k = 1 ∨ k = 2 := by omega
    rcases hk with e | e | e <;> subst e <;> simp
  · intro o ho
    exact (paint_row_apply image hok row (fun _ => color.val 0) (fun _ => color.val 1)
      (fun _ => color.val 2) buf).2 o ho

theorem spectrum_ends (image : IplImage) (hok : region_ok image) (color1 color2 : CvScalar)
    (buf : Canvas) (hH : 1 ≤ image.height) :
    (∀ c k, 0 ≤ c → c < image.width → 0 ≤ k → k < 3 →
        for_range 0 image.height (fun row buf =>
            let buf := if row = 0 then spectrum_row image color1 row buf else buf
            if row = image.height - 1 then spectrum_row image color2 row buf else buf) buf
          (byte_offset image (image.height - 1) c k) = color2.val k)
      ∧ (2 ≤ image.height → ∀ c k, 0 ≤ c → c < image.width → 0 ≤ k → k < 3 →
        for_range 0 image.height (fun row buf =>
            let buf := if row = 0 then spectrum_row image color1 row buf else buf
            if row = image.height - 1 then spectrum_row image color2 row buf else buf) buf
          (byte_offset image 0 c k) = color1.val k)
      ∧ (∀ o, (∀ c k, 0 ≤ c → c < image.width → 0 ≤ k → k < 3 →
            o ≠ byte_offset image 0 c k ∧ o ≠ byte_offset image (image.height - 1) c k) →
        for_range 0 image.height (fun row buf =>
            let buf := if row = 0 then spectrum_row image color1 row buf else buf
            if row = image.height - 1 then spectrum_row image color2 row buf else buf) buf o
          = buf o) := by
  refine ⟨?_, ?_, ?_⟩
  · intro c k h1 h2 h3 h4
    have h := for_range_ind
      (fun i (b : Canvas) => image.height - 1 < i →
        b (byte_offset image (image.height - 1) c k) = color2.val k)
      0 image.height (by omega)
      (fun row buf =>
        let buf := if row = 0 then spectrum_row image color1 row buf else buf
        if row = image.height - 1 then spectrum_row image color2 row buf else buf) buf
      (fun hlt => by omega)
      (by
        intro i b hi0 hi1 _ hlt
        have e : i = image.height - 1 := by omega
        show (if i = image.height - 1 then spectrum_row image color2 i
            (if i = 0 then spectrum_row image color1 i b else b)
          else (if i = 0 then spectrum_row image color1 i b else b))
            (byte_offset image (image.height - 1) c k) = color2.val k
        rw [if_pos e, ← e]
        exact (spectrum_row_apply image hok color2 i _).1 c k h1 h2 h3 h4)
    exact h (by omega)
  · intro hH2 c k h1 h2 h3 h4
    have h := for_range_ind
      (fun i (b : Canvas) => 0 < i → b (byte_offset image 0 c k) = color1.val k)
      0 image.height (by omega)
      (fun row buf =>
        let buf := if row = 0 then spectrum_row image color1 row buf else buf
        if row = image.height - 1 then spectrum_row image color2 row buf else buf) buf
      (fun hlt => by omega)
      (by
        intro i b hi0 hi1 ih _
        show (if i = image.height - 1 then spectrum_row image color2 i
            (if i = 0 then spectrum_row image color1 i b else b)
          else (if i = 0 then spectrum_row image color1 i b else b))
            (byte_offset image 0 c k) = color1.val k
        by_cases e0 : i = 0
        · have e1 : ¬ i = image.height - 1 := by omega
          rw [if_neg e1, if_pos e0, e0]
          exact (spectrum_row_apply image hok color1 0 b).1 c k h1 h2 h3 h4
        · rw [if_neg e0]
          by_cases e1 : i = image.height - 1
          · rw [if_pos e1, (spectrum_row_apply image hok color2 i b).2]
            · exact ih (by omega)
            · intro c1 k1 g1 g2 g3 g4 e
              have := byte_offset_inj image hok 0 c k i c1 k1 ⟨h1, h2⟩ ⟨h3, h4⟩ ⟨g1, g2⟩
                ⟨g3, g4⟩ e
              omega
          · rw [if_neg e1]
            exact ih (by omega))
    exact h (by omega)
  · intro o ho
    exact for_range_inv (fun b : Canvas => b o = buf o) 0 image.height _ buf rfl
      (by
        intro i b hi0 hi1 ih
        show (if i = image.height - 1 then spectrum_row image color2 i
            (if i = 0 then spectrum_row image color1 i b else b)
          else (if i = 0 then spectrum_row image color1 i b else b)) o = buf o
        have hA : (if i = 0 then spectrum_row image color1 i b else b) o = buf o := by
          by_cases e0 : i = 0
          · rw [if_pos e0, e0, (spectrum_row_apply image hok color1 0 b).2 o
              (fun c k g1 g2 g3 g4 => (ho c k g1 g2 g3 g4).1)]
            exact ih
          · rw [if_neg e0]
            exact ih
        by_cases e1 : i = image.height - 1
        · rw [if_pos e1, e1, (spectrum_row_apply image hok color2 _ _).2 o
            (fun c k g1 g2 g3 g4 => (ho c k g1 g2 g3 g4).2)]
          rw [e1] at hA
          exact hA
        · rw [if_neg e1]
          exact hA)
theorem spec_spectrum_bounds (a b r H : Int) (ha : 0 ≤ a ∧ a ≤ 255) (hb : 0 ≤ b ∧ b ≤ 255)
    (hr : 0 ≤ r ∧ r ≤ H) (hH : 0 < H) :
    0 ≤ spec_spectrum a b r H ∧ spec_spectrum a b r H ≤ 255 := by
  have hHq : (0 : ℚ) < (H : ℚ) := by exact_mod_cast hH
  have e : spec_spectrum a b r H = ((a : ℚ) * ((H : ℚ) - (r : ℚ)) + (b : ℚ) * (r : ℚ)) / (H : ℚ) := by
    unfold spec_spectrum
    field_simp
    ring
  have ha0 : (0 : ℚ) ≤ (a : ℚ) := by exact_mod_cast ha.1
  have ha1 : (a : ℚ) ≤ 255 := by exact_mod_cast ha.2
  have hb0 : (0 : ℚ) ≤ (b : ℚ) := by exact_mod_cast hb.1
  have hb1 : (b : ℚ) ≤ 255 := by exact_mod_cast hb.2
  have hr0 : (0 : ℚ) ≤ (r : ℚ) := by exact_mod_cast hr.1
  have hr1 : (0 : ℚ) ≤ (H : ℚ) - (r : ℚ) := by
    have : (r : ℚ) ≤ (H : ℚ) := by exact_mod_cast hr.2
    linarith
  rw [e]
  constructor
  · apply div_nonneg _ hHq.le
    have := mul_nonneg ha0 hr1
    have := mul_nonneg hb0 hr0
    linarith
  · rw [div_le_iff₀ hHq]
    have h1 := mul_le_mul_of_nonneg_right ha1 hr1
    have h2 := mul_le_mul_of_nonneg_right hb1 hr0
    linarith

/-- The `float` value the interpolation computes lies within `3061 * 2^-24` of
the exact value `top + (bottom - top) * row / height`. -/
theorem spectrum_float_close (a b r H : Int) (ha : 0 ≤ a ∧ a ≤ 255) (hb : 0 ≤ b ∧ b ≤ 255)
    (hr : 0 ≤ r ∧ r ≤ H) (hH : 0 < H) :
    |(f32_add (f32_mul (f32_of_int (b - a)) (f32_div (f32_of_int r) (f32_of_int H)))
        (f32_of_int a)).toRat - spec_spectrum a b r H| ≤ 3061 / 2 ^ 24 := by
  have hHq : (0 : ℚ) < (H : ℚ) := by exact_mod_cast hH
  have hD := f32_of_int_close (b - a)
  have hQ0 := rel_close_div 1 1 _ _ _ _ (f32_of_int_close r) (f32_of_int_close H)
    (by norm_num) (by norm_num)
  have hQ := rel_close_trans 1 4 _ _ _ (f32_div_close (f32_of_int r) (f32_of_int H)) hQ0
    (by norm_num)
  have hM0 := rel_close_mul 1 6 _ _ _ _ hD hQ (by norm_num)
  have hM := rel_close_trans 1 8 _ _ _
    (f32_mul_close (f32_of_int (b - a)) (f32_div (f32_of_int r) (f32_of_int H))) hM0 (by norm_num)
  have hA := f32_of_int_close a
  have hS := f32_add_close
    (f32_mul (f32_of_int (b - a)) (f32_div (f32_of_int r) (f32_of_int H))) (f32_of_int a)
  generalize (f32_add (f32_mul (f32_of_int (b - a)) (f32_div (f32_of_int r) (f32_of_int H)))
    (f32_of_int a)).toRat = S at hS ⊢
  generalize (f32_mul (f32_of_int (b - a)) (f32_div (f32_of_int r) (f32_of_int H))).toRat = M
    at hS hM
  generalize (f32_of_int a).toRat = A at hS hA
  unfold rel_close at hM hA hS
  have ha0 : (0 : ℚ) ≤ (a : ℚ) := by exact_mod_cast ha.1
  have ha1 : (a : ℚ) ≤ 255 := by exact_mod_cast ha.2
  have hb0 : (0 : ℚ) ≤ (b : ℚ) := by exact_mod_cast hb.1
  have hb1 : (b : ℚ) ≤ 255 := by exact_mod_cast hb.2
  have hr0 : (0 : ℚ) ≤ (r : ℚ) / (H : ℚ) := div_nonneg (by exact_mod_cast hr.1) hHq.le
  have hr1 : (r : ℚ) / (H : ℚ) ≤ 1 := by
    rw [div_le_one hHq]
    exact_mod_cast hr.2
  have hy : |((b - a : Int) : ℚ) * ((r : ℚ) / (H : ℚ))| ≤ 255 := by
    rw [abs_mul, abs_of_nonneg hr0]
    have h1 : |((b - a : Int) : ℚ)| ≤ 255 := by
      rw [abs_le]
      push_cast
      constructor <;> linarith
    calc |((b - a : Int) : ℚ)| * ((r : ℚ) / (H : ℚ)) ≤ 255 * 1 :=
          mul_le_mul h1 hr1 hr0 (by norm_num)
      _ = 255 := by norm_num
  have hx : spec_spectrum a b r H = ((b - a : Int) : ℚ) * ((r : ℚ) / (H : ℚ)) + (a : ℚ) := by
    unfold spec_spectrum
    push_cast
    ring
  obtain ⟨x0, x1⟩ := spec_spectrum_bounds a b r H ha hb hr hH
  rw [hx] at x0 x1 ⊢
  generalize ((b - a : Int) : ℚ) * ((r : ℚ) / (H : ℚ)) = y at hM hy x0 x1 ⊢
  rw [abs_of_nonneg ha0] at hA
  push_cast at hM hA hS
  have e1 : |M - y| ≤ 2550 / 2 ^ 24 := by
    have : (10 : ℚ) / 2 ^ 24 * |y| ≤ 10 / 2 ^ 24 * 255 :=
      mul_le_mul_of_nonneg_left hy (by norm_num)
    linarith
  have e2 : |A - (a : ℚ)| ≤ 255 / 2 ^ 24 := by
    have : (1 : ℚ) / 2 ^ 24 * (a : ℚ) ≤ 1 / 2 ^ 24 * 255 :=
      mul_le_mul_of_nonneg_left ha1 (by norm_num)
    linarith
  rw [abs_le] at e1 e2
  have e3 : |M + A| ≤ 256 := by
    rw [abs_le]
    constructor <;> norm_num at e1 e2 ⊢ <;> linarith
  have e4 : |S - (M + A)| ≤ 256 / 2 ^ 24 := by
    have : (1 : ℚ) / 2 ^ 24 * |M + A| ≤ 1 / 2 ^ 24 * 256 :=
      mul_le_mul_of_nonneg_left e3 (by norm_num)
    linarith
  rw [abs_le] at e4 ⊢
  constructor <;> norm_num at e1 e2 e4 ⊢ <;> linarith

/-- The byte stored by the interpolation: the `float` value cut towards zero
is within `3061 * 2^-24` above and less than one below the exact value, and it
is a byte. -/
theorem spectrum_value_close (a b r H : Int) (ha : 0 ≤ a ∧ a ≤ 255) (hb : 0 ≤ b ∧ b ≤ 255)
    (hr : 0 ≤ r ∧ r ≤ H) (hH : 0 < H) :
    ((spectrum_value a b r H : Int) : ℚ) ≤ spec_spectrum a b r H + 3061 / 2 ^ 24
      ∧ spec_spectrum a b r H - 3061 / 2 ^ 24 < ((spectrum_value a b r H : Int) : ℚ) + 1
      ∧ 0 ≤ spectrum_value a b r H ∧ spectrum_value a b r H ≤ 255 := by
  have hc := spectrum_float_close a b r H ha hb hr hH
  obtain ⟨x0, x1⟩ := spec_spectrum_bounds a b r H ha hb hr hH
  unfold spectrum_value
  rw [uchar_of_float_eq]
  generalize (f32_add (f32_mul (f32_of_int (b - a)) (f32_div (f32_of_int r) (f32_of_int H)))
    (f32_of_int a)).toRat = S at hc ⊢
  generalize spec_spectrum a b r H = x at hc x0 x1 ⊢
  rw [abs_le] at hc
  obtain ⟨c1, c2⟩ := hc
  have key : ∀ v : Int, (v : ℚ) ≤ x + 3061 / 2 ^ 24 → v ≤ 255 := by
    intro v h1
    have : (v : ℚ) < ((256 : Int) : ℚ) := by
      push_cast
      norm_num at h1 ⊢
      linarith
    have := Int.cast_lt.mp this
    omega
  by_cases hS : 0 ≤ S
  · rw [if_pos hS]
    have f1 : ((⌊S⌋ : Int) : ℚ) ≤ S := Int.floor_le S
    have f2 : S < ((⌊S⌋ : Int) : ℚ) + 1 := Int.lt_floor_add_one S
    have g1 : ((⌊S⌋ : Int) : ℚ) ≤ x + 3061 / 2 ^ 24 := by linarith
    have g2 : x - 3061 / 2 ^ 24 < ((⌊S⌋ : Int) : ℚ) + 1 := by linarith
    exact ⟨g1, g2, Int.floor_nonneg.mpr hS, key _ g1⟩
  · rw [if_neg hS]
    have hS2 : S < 0 := not_le.mp hS
    have f1 : S ≤ ((⌈S⌉ : Int) : ℚ) := Int.le_ceil S
    have f2 : ((⌈S⌉ : Int) : ℚ) < S + 1 := Int.ceil_lt_add_one S
    have g0 : ⌈S⌉ ≤ 0 := Int.ceil_le.mpr (by push_cast; exact hS2.le)
    have g1 : ((⌈S⌉ : Int) : ℚ) ≤ x + 3061 / 2 ^ 24 := by
      have : ((⌈S⌉ : Int) : ℚ) ≤ ((0 : Int) : ℚ) := Int.cast_le.mpr g0
      push_cast at this
      have : (0 : ℚ) ≤ 3061 / 2 ^ 24 := by norm_num
      linarith
    have g2 : x - 3061 / 2 ^ 24 < ((⌈S⌉ : Int) : ℚ) + 1 := by linarith
    have g3 : 0 ≤ ⌈S⌉ := by
      have : ((-1 : Int) : ℚ) < ((⌈S⌉ : Int) : ℚ) := by
        push_cast
        norm_num at c1 ⊢
        linarith
      have := Int.cast_lt.mp this
      omega
    exact ⟨g1, g2, g3, key _ g1⟩

/-- The stored byte against the exact value `x = top + (bottom - top) * row /
height`: it lies in `[floor x - 1, ceil x]`, and for at most 4096 rows in
`[ceil x - 1, floor x]`, which is `floor x` unless `x` is an integer and then
`x` or `x - 1`. -/
theorem spectrum_value_near_spec (a b r H : Int) (ha : 0 ≤ a ∧ a ≤ 255) (hb : 0 ≤ b ∧ b ≤ 255)
    (hr : 0 ≤ r ∧ r ≤ H) (hH : 0 < H) :
    (⌊spec_spectrum a b r H⌋ - 1 ≤ spectrum_value a b r H
      ∧ spectrum_value a b r H ≤ ⌈spec_spectrum a b r H⌉)
    ∧ (H ≤ 4096 →
        ⌈spec_spectrum a b r H⌉ - 1 ≤ spectrum_value a b r H
          ∧ spectrum_value a b r H ≤ ⌊spec_spectrum a b r H⌋) := by
  obtain ⟨h1, h2, _, _⟩ := spectrum_value_close a b r H ha hb hr hH
  have hHq : (0 : ℚ) < (H : ℚ) := by exact_mod_cast hH
  have hx : spec_spectrum a b r H = ((a * H + (b - a) * r : Int) : ℚ) / (H : ℚ) := by
    unfold spec_spectrum
    push_cast
    field_simp
  generalize spectrum_value a b r H = v at h1 h2 ⊢
  refine ⟨⟨?_, ?_⟩, ?_⟩
  · have : ⌊spec_spectrum a b r H⌋ < v + 2 := by
      rw [Int.floor_lt]
      push_cast
      norm_num at h2 ⊢
      linarith
    omega
  · rw [Int.le_ceil_iff]
    norm_num at h1 ⊢
    linarith
  · intro hH2
    have hH2q : (H : ℚ) ≤ 4096 := by exact_mod_cast hH2
    rw [hx] at h1 h2 ⊢
    generalize a * H + (b - a) * r = N at h1 h2 ⊢
    rw [← sub_nonneg] at h1
    have k1 : (v : ℚ) * (H : ℚ) < (N : ℚ) + 1 := by
      have e : (N : ℚ) / (H : ℚ) * (H : ℚ) = (N : ℚ) := div_mul_cancel₀ _ hHq.ne'
      have h3 : (v : ℚ) ≤ (N : ℚ) / (H : ℚ) + 3061 / 2 ^ 24 := by linarith
      have h4 := mul_le_mul_of_nonneg_right h3 hHq.le
      rw [add_mul, e] at h4
      have h5 : (3061 : ℚ) / 2 ^ 24 * (H : ℚ) ≤ 3061 / 2 ^ 24 * 4096 :=
        mul_le_mul_of_nonneg_left hH2q (by norm_num)
      norm_num at h4 h5 ⊢
      linarith
    have k2 : (N : ℚ) - 1 < ((v : ℚ) + 1) * (H : ℚ) := by
      have e : (N : ℚ) / (H : ℚ) * (H : ℚ) = (N : ℚ) := div_mul_cancel₀ _ hHq.ne'
      have h4 := mul_lt_mul_of_pos_right h2 hHq
      rw [sub_mul, e] at h4
      have h5 : (3061 : ℚ) / 2 ^ 24 * (H : ℚ) ≤ 3061 / 2 ^ 24 * 4096 :=
        mul_le_mul_of_nonneg_left hH2q (by norm_num)
      norm_num at h4 h5 ⊢
      linarith
    have k3 : v * H < N + 1 := by exact_mod_cast k1
    have k4 : N - 1 < (v + 1) * H := by exact_mod_cast k2
    constructor
    · have : ⌈(N : ℚ) / (H : ℚ)⌉ ≤ v + 1 := by
        rw [Int.ceil_le, div_le_iff₀ hHq]
        have : N ≤ (v + 1) * H := by omega
        exact_mod_cast this
      omega
    · rw [Int.le_floor, le_div_iff₀ hHq]
      have : v * H ≤ N := by omega
      exact_mod_cast this

theorem spectrum_channels_eq (image : IplImage) (hok : region_ok image) (color1 color2 : CvScalar)
    (row col : Int) (hrow : 1 ≤ row ∧ row < image.height - 1)
    (hcol : 0 ≤ col ∧ col < image.width) (b : Canvas)
    (hinv : ∀ c k, 0 ≤ c → c < image.width → 0 ≤ k → k < 3 →
      b (byte_offset image 0 c k) = color1.val k
        ∧ b (byte_offset image (image.height - 1) c k) = color2.val k) :
    for_range 0 image.nChannels (fun chl buf =>
        Function.update buf (byte_offset image row col chl)
          (spectrum_value (buf (byte_offset image 0 col chl))
            (buf (byte_offset image (image.height - 1) col chl)) row image.height)) b
      = put_pixel image row col
          (spectrum_value (color1.val 0) (color2.val 0) row image.height)
          (spectrum_value (color1.val 1) (color2.val 1) row image.height)
          (spectrum_value (color1.val 2) (color2.val 2) row image.height) b := by
  have n0 : ∀ k1 k2, 0 ≤ k1 → k1 < 3 → 0 ≤ k2 → k2 < 3 →
      byte_offset image 0 col k1 ≠ byte_offset image row col k2 := by
    intro k1 k2 a1 a2 a3 a4 e
    have := byte_offset_inj image hok 0 col k1 row col k2 hcol ⟨a1, a2⟩ hcol ⟨a3, a4⟩ e
    omega
  have n1 : ∀ k1 k2, 0 ≤ k1 → k1 < 3 → 0 ≤ k2 → k2 < 3 →
      byte_offset image (image.height - 1) col k1 ≠ byte_offset image row col k2 := by
    intro k1 k2 a1 a2 a3 a4 e
    have := byte_offset_inj image hok (image.height - 1) col k1 row col k2 hcol ⟨a1, a2⟩ hcol
      ⟨a3, a4⟩ e
    omega
  have i0 := hinv col 0 hcol.1 hcol.2 (by omega) (by omega)
  have i1 := hinv col 1 hcol.1 hcol.2 (by omega) (by omega)
  have i2 := hinv col 2 hcol.1 hcol.2 (by omega) (by omega)
  rw [hok.1, for_range_three]
  simp only [put_pixel]
  rw [Function.update_noteq (n1 2 1 (by omega) (by omega) (by omega) (by omega)),
    Function.update_noteq (n1 2 0 (by omega) (by omega) (by omega) (by omega)),
    Function.update_noteq (n0 2 1 (by omega) (by omega) (by omega) (by omega)),
    Function.update_noteq (n0 2 0 (by omega) (by omega) (by omega) (by omega)),
    Function.update_noteq (n1 1 0 (by omega) (by omega) (by omega) (by omega)),
    Function.update_noteq (n0 1 0 (by omega) (by omega) (by omega) (by omega)),
    i0.1, i0.2, i1.1, i1.2, i2.1, i2.2]

theorem spectrum_interior_eq (image : IplImage) (hok : region_ok image) (color1 color2 : CvScalar)
    (b : Canvas)
    (hinv : ∀ c k, 0 ≤ c → c < image.width → 0 ≤ k → k < 3 →
      b (byte_offset image 0 c k) = color1.val k
        ∧ b (byte_offset image (image.height - 1) c k) = color2.val k) :
    for_range 1 (image.height - 1) (fun row buf =>
      for_range 0 image.width (fun col buf =>
        for_range 0 image.nChannels (fun chl buf =>
          Function.update buf (byte_offset image row col chl)
            (spectrum_value (buf (byte_offset image 0 col chl))
              (buf (byte_offset image (image.height - 1) col chl)) row image.height))
          buf) buf) b
      = for_range 1 (image.height - 1) (fun row buf =>
          for_range 0 image.width (fun col buf =>
            put_pixel image row col
              ((fun row (_ : Int) =>
                spectrum_value (color1.val 0) (color2.val 0) row image.height) row col)
              ((fun row (_ : Int) =>
                spectrum_value (color1.val 1) (color2.val 1) row image.height) row col)
              ((fun row (_ : Int) =>
                spectrum_value (color1.val 2) (color2.val 2) row image.height) row col)
              buf) buf) b := by
  refine (for_range_congr
    (fun s : Canvas => ∀ c k, 0 ≤ c → c < image.width → 0 ≤ k → k < 3 →
      s (byte_offset image 0 c k) = color1.val k
        ∧ s (byte_offset image (image.height - 1) c k) = color2.val k)
    1 (image.height - 1) _ _ b hinv ?_).1
  intro row s hr0 hr1 hs
  refine for_range_congr
    (fun s : Canvas => ∀ c k, 0 ≤ c → c < image.width → 0 ≤ k → k < 3 →
      s (byte_offset image 0 c k) = color1.val k
        ∧ s (byte_offset image (image.height - 1) c k) = color2.val k)
    0 image.width _ _ s hs ?_
  intro col s1 hc0 hc1 hs1
  refine ⟨spectrum_channels_eq image hok color1 color2 row col ⟨hr0, hr1⟩ ⟨hc0, hc1⟩ s1 hs1, ?_⟩
  intro c k g1 g2 g3 g4
  obtain ⟨a1, a2⟩ := hs1 c k g1 g2 g3 g4
  constructor
  · rw [put_pixel_other]
    · exact a1
    · intro k1 e1 e2 e
      have := byte_offset_inj image hok 0 c k row col k1 ⟨g1, g2⟩ ⟨g3, g4⟩ ⟨hc0, hc1⟩ ⟨e1, e2⟩ e
      omega
  · rw [put_pixel_other]
    · exact a2
    · intro k1 e1 e2 e
      have := byte_offset_inj image hok (image.height - 1) c k row col k1 ⟨g1, g2⟩ ⟨g3, g4⟩
        ⟨hc0, hc1⟩ ⟨e1, e2⟩ e
      omega

theorem mem_channels (k : Int) (h0 : 0 ≤ k) (h1 : k < 3) : k ∈ [(0 : Int), 1, 2] := by
  have : k = 0 ∨ k = 1 ∨ k = 2 := by omega
  simpa using this

theorem getSpectrumVert_unfold (image : IplImage) (color1 color2 : CvScalar) (buf : Canvas) :
    getSpectrumVert image color1 color2 buf =
      for_range 1 (image.height - 1) (fun row buf =>
        for_range 0 image.width (fun col buf =>
          for_range 0 image.nChannels (fun chl buf =>
            Function.update buf (byte_offset image row col chl)
              (spectrum_value (buf (byte_offset image 0 col chl))
                (buf (byte_offset image (image.height - 1) col chl)) row image.height))
            buf) buf)
        (for_range 0 image.height (fun row buf =>
          let buf := if row = 0 then spectrum_row image color1 row buf else buf
          if row = image.height - 1 then spectrum_row image color2 row buf else buf) buf) := by
  rfl

/-- Every byte after `getSpectrumVert`: the last row holds `color2`, row 0
(when it is not the last) holds `color1`, every row between them holds the
interpolated value, and no byte outside the pixels of the image changes. -/
theorem getSpectrumVert_apply (image : IplImage) (hok : region_ok image)
    (color1 color2 : CvScalar) (buf : Canvas) :
    (∀ r c k, 0 ≤ r → r < image.height → 0 ≤ c → c < image.width → 0 ≤ k → k < 3 →
        getSpectrumVert image color1 color2 buf (byte_offset image r c k)
          = if r = image.height - 1 then color2.val k
            else if r = 0 then color1.val k
            else spectrum_value (color1.val k) (color2.val k) r image.height)
      ∧ (∀ o, ¬ in_region image o → getSpectrumVert image color1 color2 buf o = buf o) := by
  by_cases hH : 1 ≤ image.height
  · obtain ⟨f1, f2, f3⟩ := spectrum_ends image hok color1 color2 buf hH
    by_cases hH2 : 2 ≤ image.height
    · have hinv : ∀ c k, 0 ≤ c → c < image.width → 0 ≤ k → k < 3 →
          for_range 0 image.height (fun row buf =>
              let buf := if row = 0 then spectrum_row image color1 row buf else buf
              if row = image.height - 1 then spectrum_row image color2 row buf else buf) buf
            (byte_offset image 0 c k) = color1.val k
          ∧ for_range 0 image.height (fun row buf =>
              let buf := if row = 0 then spectrum_row image color1 row buf else buf
              if row = image.height - 1 then spectrum_row image color2 row buf else buf) buf
            (byte_offset image (image.height - 1) c k) = color2.val k :=
        fun c k g1 g2 g3 g4 => ⟨f2 hH2 c k g1 g2 g3 g4, f1 c k g1 g2 g3 g4⟩
      have hE := spectrum_interior_eq image hok color1 color2 _ hinv
      obtain ⟨p1, p2⟩ := paint_rows_apply image hok 1 (image.height - 1)
        (fun row (_ : Int) => spectrum_value (color1.val 0) (color2.val 0) row image.height)
        (fun row (_ : Int) => spectrum_value (color1.val 1) (color2.val 1) row image.height)
        (fun row (_ : Int) => spectrum_value (color1.val 2) (color2.val 2) row image.height)
        (for_range 0 image.height (fun row buf =>
          let buf := if row = 0 then spectrum_row image color1 row buf else buf
          if row = image.height - 1 then spectrum_row image color2 row buf else buf) buf)
      constructor
      · intro r c k h1 h2 h3 h4 h5 h6
        rw [getSpectrumVert_unfold, hE]
        by_cases hr : 1 ≤ r ∧ r < image.height - 1
        · rw [if_neg (by omega), if_neg (by omega)]
          refine (p1 r c k hr.1 hr.2 h3 h4 h5 h6).trans ?_
          have hk : k = 0 ∨ k = 1 ∨ k = 2 := by omega
          rcases hk with e | e | e <;> subst e <;>
            simp only [OfNat.ofNat_ne_zero, OfNat.ofNat_ne_one, if_true, if_false,
              one_ne_zero]
        · have hfr : ∀ r1 c1 k1, 1 ≤ r1 → r1 < image.height - 1 → 0 ≤ c1 → c1 < image.width →
              0 ≤ k1 → k1 < 3 → byte_offset image r c k ≠ byte_offset image r1 c1 k1 := by
            intro r1 c1 k1 g1 g2 g3 g4 g5 g6 e
            have := byte_offset_inj image hok r c k r1 c1 k1 ⟨h3, h4⟩ ⟨h5, h6⟩ ⟨g3, g4⟩
              ⟨g5, g6⟩ e
            omega
          refine (p2 _ hfr).trans ?_
          by_cases hl : r = image.height - 1
          · rw [if_pos hl, hl]
            exact f1 c k h3 h4 h5 h6
          · rw [if_neg hl]
            have h0 : r = 0 := by omega
            rw [if_pos h0, h0, f2 hH2 c k h3 h4 h5 h6]
      · intro o ho
        have hno := not_in_region image hok o ho
        rw [getSpectrumVert_unfold, hE]
        refine (p2 o (fun r c k g1 g2 g3 g4 g5 g6 =>
          hno r c k (by omega) (by omega) g3 g4 g5 g6)).trans ?_
        exact f3 o (fun c k g1 g2 g3 g4 =>
          ⟨hno 0 c k (by omega) (by omega) g1 g2 g3 g4,
            hno (image.height - 1) c k (by omega) (by omega) g1 g2 g3 g4⟩)
    · have hH1 : image.height = 1 := by omega
      have hE : ∀ b : Canvas, getSpectrumVert image color1 color2 buf
          = for_range 0 image.height (fun row buf =>
              let buf := if row = 0 then spectrum_row image color1 row buf else buf
              if row = image.height - 1 then spectrum_row image color2 row buf else buf) buf := by
        intro _
        rw [getSpectrumVert_unfold, for_range_eq_of_le 1 (image.height - 1) (by omega)]
      rw [hE buf]
      constructor
      · intro r c k h1 h2 h3 h4 h5 h6
        have hr : r = image.height - 1 := by omega
        rw [if_pos hr, hr]
        exact f1 c k h3 h4 h5 h6
      · intro o ho
        have hno := not_in_region image hok o ho
        exact f3 o (fun c k g1 g2 g3 g4 =>
          ⟨hno 0 c k (by omega) (by omega) g1 g2 g3 g4,
            hno (image.height - 1) c k (by omega) (by omega) g1 g2 g3 g4⟩)
  · constructor
    · intro r c k h1 h2
      omega
    · intro o _
      rw [getSpectrumVert_unfold, for_range_eq_of_le 1 (image.height - 1) (by omega),
        for_range_eq_of_le 0 image.height (by omega)]

/-- C23, as stated, fails in two ways.  The last row holds the bottom colour
itself: on an image of one column and two rows painted from `voilet`
(255, 0, 127) to `black` (0, 0, 0), as `getButton` calls it, channel 0 of row 1
ends as 0, while `color_top + (color_bottom - color_top) * r / H` is `255 / 2`
there.  And the value is computed in `float` and cut towards zero: on five
rows painted from (25, 25, 25) to `black`, channel 0 of row 3 ends as 9, while
the formula gives exactly 10, because the `float` quotient `3 / 5` lies above
`3 / 5`. -/
theorem spectrum_last_row_is_bottom_colour :
    (getSpectrumVert { imageData := 0, widthStep := 3, width := 1, height := 2, nChannels := 3 }
        voilet black (fun _ => 9)
        (byte_offset { imageData := 0, widthStep := 3, width := 1, height := 2, nChannels := 3 }
          1 0 0) = 0
      ∧ spec_spectrum (voilet.val 0) (black.val 0) 1 2 = 255 / 2) ∧
    (getSpectrumVert { imageData := 0, widthStep := 3, width := 1, height := 5, nChannels := 3 }
        (cvScalar 25 25 25) black (fun _ => 9)
        (byte_offset { imageData := 0, widthStep := 3, width := 1, height := 5, nChannels := 3 }
          3 0 0) = 9
      ∧ spec_spectrum ((cvScalar 25 25 25).val 0) (black.val 0) 3 5 = 10) := by
  refine ⟨⟨by decide, ?_⟩, ⟨by decide, ?_⟩⟩
  · norm_num [spec_spectrum, voilet, black, cvScalar]
  · norm_num [spec_spectrum, black, cvScalar]

/-- C23, amended: for every image with three channels whose rows do not
overlap and every pair of colours with channel values in `[0, 255]`, after
`getSpectrumVert` every pixel of the last row `H - 1` has exactly the bottom
colour; every pixel of a row `r < H - 1` has in each channel the value of
`( bottom - top )*( r/( float )H ) + top` computed in `float` and cut towards
zero (`spectrum_value`; the top colour itself for `r = 0`), which for
`x = color_top + (color_bottom - color_top) * r / H` lies in
`[floor x - 1, ceil x]` and, when `H ≤ 4096`, in `[ceil x - 1, floor x]`: it
is `floor x` unless `x` is an integer, and then `x` or `x - 1`.  All these
values lie in `[0, 255]`, and no byte outside the pixels of the image
changes. -/
theorem getSpectrumVert_rows (image : IplImage) (hok : region_ok image)
    (color1 color2 : CvScalar) (buf : Canvas)
    (hc1 : ∀ k ∈ [(0 : Int), 1, 2], 0 ≤ color1.val k ∧ color1.val k ≤ 255)
    (hc2 : ∀ k ∈ [(0 : Int), 1, 2], 0 ≤ color2.val k ∧ color2.val k ≤ 255) :
    (∀ r c k, 0 ≤ r → r < image.height → 0 ≤ c → c < image.width → 0 ≤ k → k < 3 →
        (r = image.height - 1 →
          getSpectrumVert image color1 color2 buf (byte_offset image r c k) = color2.val k)
        ∧ (r < image.height - 1 →
            getSpectrumVert image color1 color2 buf (byte_offset image r c k)
                = (if r = 0 then color1.val k
                  else spectrum_value (color1.val k) (color2.val k) r image.height)
              ∧ ⌊spec_spectrum (color1.val k) (color2.val k) r image.height⌋ - 1
                  ≤ getSpectrumVert image color1 color2 buf (byte_offset image r c k)
              ∧ getSpectrumVert image color1 color2 buf (byte_offset image r c k)
                  ≤ ⌈spec_spectrum (color1.val k) (color2.val k) r image.height⌉
              ∧ (image.height ≤ 4096 →
                  ⌈spec_spectrum (color1.val k) (color2.val k) r image.height⌉ - 1
                      ≤ getSpectrumVert image color1 color2 buf (byte_offset image r c k)
                    ∧ getSpectrumVert image color1 color2 buf (byte_offset image r c k)
                      ≤ ⌊spec_spectrum (color1.val k) (color2.val k) r image.height⌋))
        ∧ 0 ≤ getSpectrumVert image color1 color2 buf (byte_offset image r c k)
        ∧ getSpectrumVert image color1 color2 buf (byte_offset image r c k) ≤ 255)
      ∧ (∀ o, ¬ in_region image o → getSpectrumVert image color1 color2 buf o = buf o) := by
  obtain ⟨h1, h2⟩ := getSpectrumVert_apply image hok color1 color2 buf
  refine ⟨?_, h2⟩
  intro r c k g1 g2 g3 g4 g5 g6
  have e := h1 r c k g1 g2 g3 g4 g5 g6
  have hk := mem_channels k g5 g6
  have hH : 0 < image.height := by omega
  obtain ⟨v1, v2, v3, v4⟩ := spectrum_value_close (color1.val k) (color2.val k) r image.height
    (hc1 k hk) (hc2 k hk) ⟨g1, by omega⟩ hH
  obtain ⟨⟨n1, n2⟩, n3⟩ := spectrum_value_near_spec (color1.val k) (color2.val k) r
    image.height (hc1 k hk) (hc2 k hk) ⟨g1, by omega⟩ hH
  rw [e]
  refine ⟨?_, ?_, ?_⟩
  · intro hl
    rw [if_pos hl]
  · intro hl
    rw [if_neg (by omega)]
    by_cases h0 : r = 0
    · rw [if_pos h0]
      have hx : spec_spectrum (color1.val k) (color2.val k) r image.height
          = ((color1.val k : Int) : ℚ) := by
        rw [h0]
        simp [spec_spectrum]
      rw [hx, Int.floor_intCast, Int.ceil_intCast]
      refine ⟨rfl, by omega, le_refl _, fun _ => ⟨by omega, le_refl _⟩⟩
    · rw [if_neg h0]
      exact ⟨rfl, n1, n2, n3⟩
  · by_cases hl : r = image.height - 1
    · rw [if_pos hl]
      exact hc2 k hk
    · rw [if_neg hl]
      by_cases h0 : r = 0
      · rw [if_pos h0]
        exact hc1 k hk
      · rw [if_neg h0]
        exact ⟨v3, v4⟩

/-- Witness of the amended C23: one column of three rows painted from `voilet`
to `black`; channel 0 of row 1 ends as 170 (`255 - 255 / 3`) and of row 2, the
last, as 0. -/
theorem getSpectrumVert_rows_witness :
    (region_ok { imageData := 0, widthStep := 3, width := 1, height := 3, nChannels := 3 }
      ∧ (∀ k ∈ [(0 : Int), 1, 2], 0 ≤ voilet.val k ∧ voilet.val k ≤ 255)
      ∧ (∀ k ∈ [(0 : Int), 1, 2], 0 ≤ black.val k ∧ black.val k ≤ 255)) ∧
    getSpectrumVert { imageData := 0, widthStep := 3, width := 1, height := 3, nChannels := 3 }
        voilet black (fun _ => 9)
        (byte_offset { imageData := 0, widthStep := 3, width := 1, height := 3, nChannels := 3 }
          1 0 0) = 170
      ∧ getSpectrumVert { imageData := 0, widthStep := 3, width := 1, height := 3, nChannels := 3 }
        voilet black (fun _ => 9)
        (byte_offset { imageData := 0, widthStep := 3, width := 1, height := 3, nChannels := 3 }
          2 0 0) = 0 :=
  ⟨⟨by decide, by decide, by decide⟩,
    ((((getSpectrumVert_rows
        { imageData := 0, widthStep := 3, width := 1, height := 3, nChannels := 3 }
        (by decide) voilet black (fun _ => 9) (by decide) (by decide)).1
      1 0 0 (by decide) (by decide) (by decide) (by decide) (by decide) (by decide)).2.1
        (by decide)).1).trans (by decide),
    ((getSpectrumVert_rows
        { imageData := 0, widthStep := 3, width := 1, height := 3, nChannels := 3 }
        (by decide) voilet black (fun _ => 9) (by decide) (by decide)).1
      2 0 0 (by decide) (by decide) (by decide) (by decide) (by decide) (by decide)).1
        (by decide) |>.trans (by decide)⟩

/-! ## `fill_color` -/

theorem pixel_is_congr (image : IplImage) (color : CvScalar) (b1 b : Canvas) (row col : Int)
    (h : ∀ k, 0 ≤ k → k < 3 → b1 (byte_offset image row col k) = b (byte_offset image row col k)) :
    pixel_is image color b1 row col = pixel_is image color b row col := by
  simp only [pixel_is, h 0 (by omega) (by omega), h 1 (by omega) (by omega),
    h 2 (by omega) (by omega)]

theorem row_hits_zero (image : IplImage) (color : CvScalar) (b : Canvas) (row : Int) (j : Nat) :
    row_hits image color b row j 0 = 0 := by
  simp [row_hits]

theorem row_hits_succ (image : IplImage) (color : CvScalar) (b : Canvas) (row : Int)
    (j m : Nat) :
    row_hits image color b row j (m + 1)
      = (if pixel_is image color b row (j : Int) = true then 1 else 0)
        + row_hits image color b row (j + 1) m := by
  simp only [row_hits, List.range'_succ, List.countP_cons]
  omega

theorem row_hits_congr (image : IplImage) (color : CvScalar) (b1 b : Canvas) (row : Int)
    (j m : Nat)
    (h : ∀ c : Nat, j ≤ c → c < j + m →
      pixel_is image color b1 row (c : Int) = pixel_is image color b row (c : Int)) :
    row_hits image color b1 row j m = row_hits image color b row j m := by
  unfold row_hits
  apply List.countP_congr
  intro x hx
  rw [List.mem_range'_1] at hx
  rw [h x hx.1 hx.2]

theorem put_pixel_color (image : IplImage) (color : CvScalar) (row col : Int) (b : Canvas)
    (k : Int) (hk : 0 ≤ k ∧ k < 3) :
    put_pixel image row col (color.val 0) (color.val 1) (color.val 2) b
      (byte_offset image row col k) = color.val k := by
  rw [put_pixel_self image row col _ _ _ b k hk]
  have : k = 0 ∨ k = 1 ∨ k = 2 := by omega
  rcases this with e | e | e <;> subst e <;> simp

theorem put_pixel_other_col (image : IplImage) (hok : region_ok image) (color : CvScalar)
    (row : Int) (j c : Nat) (hj : (j : Int) < image.width) (hc : (c : Int) < image.width)
    (hne : c ≠ j) (b : Canvas) (k : Int) (hk : 0 ≤ k ∧ k < 3) :
    put_pixel image row (j : Int) (color.val 0) (color.val 1) (color.val 2) b
      (byte_offset image row (c : Int) k) = b (byte_offset image row (c : Int) k) := by
  apply put_pixel_other
  intro k1 h1 h2 e
  have := byte_offset_inj image hok row c k row j k1 ⟨by omega, hc⟩ hk ⟨by omega, hj⟩ ⟨h1, h2⟩ e
  omega
theorem fill_color_cols_spec (image : IplImage) (hok : region_ok image) (color : CvScalar)
    (row : Int) :
    ∀ (n j : Nat) (sf : Bool) (b : Canvas), ((j + n : Nat) : Int) ≤ image.width →
      (fill_color_cols image color row (List.range' j n) (sf, b)).1
          = decide ((if sf = true then 1 else 0) + row_hits image color b row j n = 1)
        ∧ (∀ (c : Nat) (k : Int), j ≤ c → c < j + n → 0 ≤ k → k < 3 →
          (fill_color_cols image color row (List.range' j n) (sf, b)).2
              (byte_offset image row (c : Int) k)
            = if (if sf = true then 1 else 0) + row_hits image color b row j (c - j + 1) = 1
              then color.val k else b (byte_offset image row (c : Int) k))
        ∧ (∀ o, (∀ (c : Nat) (k : Int), j ≤ c → c < j + n → 0 ≤ k → k < 3 →
              o ≠ byte_offset image row (c : Int) k) →
          (fill_color_cols image color row (List.range' j n) (sf, b)).2 o = b o) := by
  intro n
  induction n with
  | zero =>
    intro j sf b _
    refine ⟨?_, ?_, ?_⟩
    · simp only [List.range'_zero, fill_color_cols, row_hits_zero]
      cases sf <;> rfl
    · intro c k h1 h2
      omega
    · intro o _
      rfl
  | succ n ih =>
    intro j sf b hw
    have hjw : (j : Int) < image.width := by push_cast at hw; omega
    have hw1 : ((j + 1 + n : Nat) : Int) ≤ image.width := by push_cast at hw ⊢; omega
    -- the pixel of column `j` after the columns to its right have been visited
    have hkeep : ∀ (b1 : Canvas) (sf1 : Bool) (k : Int), 0 ≤ k → k < 3 →
        (fill_color_cols image color row (List.range' (j + 1) n) (sf1, b1)).2
          (byte_offset image row (j : Int) k) = b1 (byte_offset image row (j : Int) k) := by
      intro b1 sf1 k hk0 hk1
      apply (ih (j + 1) sf1 b1 hw1).2.2
      intro c k1 g1 g2 g3 g4 e
      have := byte_offset_inj image hok row j k row c k1 ⟨by omega, hjw⟩ ⟨hk0, hk1⟩
        ⟨by omega, by push_cast at hw1; omega⟩ ⟨g3, g4⟩ e
      omega
    -- painting column `j` does not change what the test reads to its right
    have hhits : ∀ m, j + 1 + m ≤ j + 1 + n →
        row_hits image color
          (put_pixel image row (j : Int) (color.val 0) (color.val 1) (color.val 2) b) row
          (j + 1) m = row_hits image color b row (j + 1) m := by
      intro m hm
      apply row_hits_congr
      intro c g1 g2
      apply pixel_is_congr
      intro k hk0 hk1
      exact put_pixel_other_col image hok color row j c hjw
        (by push_cast at hw1; omega) (by omega) b k ⟨hk0, hk1⟩
    rw [List.range'_succ]
    by_cases hit : pixel_is image color b row (j : Int) = true
    · cases sf with
      | false =>
        have e : fill_color_cols image color row (j :: List.range' (j + 1) n) (false, b)
            = fill_color_cols image color row (List.range' (j + 1) n)
              (true, put_pixel image row (j : Int) (color.val 0) (color.val 1) (color.val 2) b) := by
          simp [fill_color_cols, hit]
        rw [e]
        obtain ⟨i1, i2, i3⟩ := ih (j + 1) true
          (put_pixel image row (j : Int) (color.val 0) (color.val 1) (color.val 2) b) hw1
        refine ⟨?_, ?_, ?_⟩
        · rw [i1, hhits n (by omega), row_hits_succ image color b row j n, if_pos hit]
          simp only [if_true, Bool.false_eq_true, if_false]
          congr 1
          apply propext
          omega
        · intro c k g1 g2 g3 g4
          by_cases hcj : c = j
          · subst hcj
            rw [hkeep _ _ k g3 g4, put_pixel_color image color row c b k ⟨g3, g4⟩]
            have e1 : c - c + 1 = 0 + 1 := by omega
            rw [e1, row_hits_succ image color b row c 0, if_pos hit, row_hits_zero]
            simp
          · rw [i2 c k (by omega) (by omega) g3 g4, hhits _ (by omega),
              put_pixel_other_col image hok color row j c hjw (by push_cast at hw; omega) hcj b k
                ⟨g3, g4⟩]
            have e1 : c - j + 1 = (c - (j + 1) + 1) + 1 := by omega
            rw [e1, row_hits_succ image color b row j (c - (j + 1) + 1), if_pos hit]
            simp only [if_true, Bool.false_eq_true, if_false]
            congr 1
            apply propext
            omega
        · intro o ho
          rw [i3 o (fun c k g1 g2 g3 g4 => ho c k (by omega) (by omega) g3 g4)]
          exact put_pixel_other _ _ _ _ _ _ _ _
            (fun k hk0 hk1 => ho j k (by omega) (by omega) hk0 hk1)
      | true =>
        have e : fill_color_cols image color row (j :: List.range' (j + 1) n) (true, b)
            = (false, b) := by
          simp [fill_color_cols, hit]
        rw [e]
        refine ⟨?_, ?_, ?_⟩
        · rw [row_hits_succ image color b row j n, if_pos hit]
          simp only [if_true]
          symm
          apply decide_eq_false
          omega
        · intro c k g1 g2 g3 g4
          have e1 : c - j + 1 = (c - j) + 1 := by omega
          rw [e1, row_hits_succ image color b row j (c - j), if_pos hit]
          simp only [if_true]
          rw [if_neg (by omega)]
        · intro o _
          rfl
    · have hit0 : pixel_is image color b row (j : Int) = false := by simpa using hit
      cases sf with
      | true =>
        have e : fill_color_cols image color row (j :: List.range' (j + 1) n) (true, b)
            = fill_color_cols image color row (List.range' (j + 1) n)
              (true, put_pixel image row (j : Int) (color.val 0) (color.val 1) (color.val 2) b) := by
          simp [fill_color_cols, hit0]
        rw [e]
        obtain ⟨i1, i2, i3⟩ := ih (j + 1) true
          (put_pixel image row (j : Int) (color.val 0) (color.val 1) (color.val 2) b) hw1
        refine ⟨?_, ?_, ?_⟩
        · rw [i1, hhits n (by omega), row_hits_succ image color b row j n, if_neg hit]
          simp only [if_true]
          congr 1
          apply propext
          omega
        · intro c k g1 g2 g3 g4
          by_cases hcj : c = j
          · subst hcj
            rw [hkeep _ _ k g3 g4, put_pixel_color image color row c b k ⟨g3, g4⟩]
            have e1 : c - c + 1 = 0 + 1 := by omega
            rw [e1, row_hits_succ image color b row c 0, if_neg hit, row_hits_zero]
            simp
          · rw [i2 c k (by omega) (by omega) g3 g4, hhits _ (by omega),
              put_pixel_other_col image hok color row j c hjw (by push_cast at hw; omega) hcj b k
                ⟨g3, g4⟩]
            have e1 : c - j + 1 = (c - (j + 1) + 1) + 1 := by omega
            rw [e1, row_hits_succ image color b row j (c - (j + 1) + 1), if_neg hit]
            simp only [if_true]
            congr 1
            apply propext
            omega
        · intro o ho
          rw [i3 o (fun c k g1 g2 g3 g4 => ho c k (by omega) (by omega) g3 g4)]
          exact put_pixel_other _ _ _ _ _ _ _ _
            (fun k hk0 hk1 => ho j k (by omega) (by omega) hk0 hk1)
      | false =>
        have e : fill_color_cols image color row (j :: List.range' (j + 1) n) (false, b)
            = fill_color_cols image color row (List.range' (j + 1) n) (false, b) := by
          simp [fill_color_cols, hit0]
        rw [e]
        obtain ⟨i1, i2, i3⟩ := ih (j + 1) false b hw1
        refine ⟨?_, ?_, ?_⟩
        · rw [i1, row_hits_succ image color b row j n, if_neg hit]
          simp only [Bool.false_eq_true, if_false]
          congr 1
          apply propext
          omega
        · intro c k g1 g2 g3 g4
          by_cases hcj : c = j
          · subst hcj
            rw [hkeep _ _ k g3 g4]
            have e1 : c - c + 1 = 0 + 1 := by omega
            rw [e1, row_hits_succ image color b row c 0, if_neg hit, row_hits_zero]
            simp
          · rw [i2 c k (by omega) (by omega) g3 g4]
            have e1 : c - j + 1 = (c - (j + 1) + 1) + 1 := by omega
            rw [e1, row_hits_succ image color b row j (c - (j + 1) + 1), if_neg hit]
            simp only [Bool.false_eq_true, if_false]
            congr 1
            apply propext
            omega
        · intro o ho
          exact i3 o (fun c k g1 g2 g3 g4 => ho c k (by omega) (by omega) g3 g4)
theorem fill_color_rows_spec (image : IplImage) (hok : region_ok image) (color : CvScalar)
    (buf : Canvas) (hH : 0 ≤ image.height) :
    (fill_color_rows image color buf).1 = start_fill_at image color buf image.height.toNat
      ∧ (∀ (r c : Nat) (k : Int), (r : Int) < image.height → (c : Int) < image.width →
          0 ≤ k → k < 3 →
          (fill_color_rows image color buf).2 (byte_offset image (r : Int) (c : Int) k)
            = if (if start_fill_at image color buf r = true then 1 else 0)
                + row_hits image color buf (r : Int) 0 (c + 1) = 1
              then color.val k else buf (byte_offset image (r : Int) (c : Int) k))
      ∧ (∀ o, (∀ (r c : Nat) (k : Int), (r : Int) < image.height → (c : Int) < image.width →
            0 ≤ k → k < 3 → o ≠ byte_offset image (r : Int) (c : Int) k) →
          (fill_color_rows image color buf).2 o = buf o) := by
  have hw : ((0 + image.width.toNat : Nat) : Int) ≤ image.width := by
    have := hok.2.1
    omega
  have h := for_range_ind
    (fun (i : Int) (st : Bool × Canvas) =>
      st.1 = start_fill_at image color buf i.toNat
        ∧ (∀ (r c : Nat) (k : Int), (r : Int) < i → (c : Int) < image.width → 0 ≤ k → k < 3 →
            st.2 (byte_offset image (r : Int) (c : Int) k)
              = if (if start_fill_at image color buf r = true then 1 else 0)
                  + row_hits image color buf (r : Int) 0 (c + 1) = 1
                then color.val k else buf (byte_offset image (r : Int) (c : Int) k))
        ∧ (∀ o, (∀ (r c : Nat) (k : Int), (r : Int) < i → (c : Int) < image.width →
              0 ≤ k → k < 3 → o ≠ byte_offset image (r : Int) (c : Int) k) →
            st.2 o = buf o))
    0 image.height hH
    (fun row st => fill_color_cols image color row (List.range image.width.toNat) st)
    (false, buf)
    ⟨rfl, fun r c k hr => by omega, fun o _ => rfl⟩
    (by
      intro i st hi0 hi1 ⟨q1, q2, q3⟩
      obtain ⟨sf, b⟩ := st
      simp only at q1 q2 q3
      have hi : ((i.toNat : Nat) : Int) = i := Int.toNat_of_nonneg hi0
      -- row `i` still holds the bytes of `buf`
      have hrow : ∀ (c : Nat) (k : Int), (c : Int) < image.width → 0 ≤ k → k < 3 →
          b (byte_offset image i (c : Int) k) = buf (byte_offset image i (c : Int) k) := by
        intro c k hc hk0 hk1
        apply q3
        intro r c1 k1 g1 g2 g3 g4 e
        have := byte_offset_inj image hok i c k r c1 k1 ⟨by omega, hc⟩ ⟨hk0, hk1⟩
          ⟨by omega, g2⟩ ⟨g3, g4⟩ e
        omega
      have hhits : ∀ m, m ≤ image.width.toNat →
          row_hits image color b i 0 m = row_hits image color buf i 0 m := by
        intro m hm
        apply row_hits_congr
        intro c g1 g2
        apply pixel_is_congr
        intro k hk0 hk1
        exact hrow c k (by omega) hk0 hk1
      obtain ⟨s1, s2, s3⟩ := fill_color_cols_spec image hok color i image.width.toNat 0 sf b hw
      rw [← List.range_eq_range'] at s1 s2 s3
      show (fill_color_cols image color i (List.range image.width.toNat) (sf, b)).1 = _ ∧ _
      refine ⟨?_, ?_, ?_⟩
      · rw [s1, hhits _ (le_refl _), q1]
        have e : (i + 1).toNat = i.toNat + 1 := by omega
        rw [e]
        show _ = decide ((if start_fill_at image color buf i.toNat = true then 1 else 0)
          + row_hits image color buf ((i.toNat : Nat) : Int) 0 image.width.toNat = 1)
        rw [hi]
      · intro r c k hr hc hk0 hk1
        by_cases hri : (r : Int) = i
        · have hr2 : r = i.toNat := by omega
          rw [hri, s2 c k (by omega) (by omega) hk0 hk1, hhits _ (by omega), q1,
            hrow c k hc hk0 hk1, hr2]
          simp only [Nat.sub_zero]
        · rw [s3]
          · exact q2 r c k (by omega) hc hk0 hk1
          · intro c1 k1 g1 g2 g3 g4 e
            have := byte_offset_inj image hok r c k i c1 k1 ⟨by omega, hc⟩ ⟨hk0, hk1⟩
              ⟨by omega, by omega⟩ ⟨g3, g4⟩ e
            omega
      · intro o ho
        rw [s3]
        · exact q3 o (fun r c k g1 g2 g3 g4 => ho r c k (by omega) g2 g3 g4)
        · intro c1 k1 g1 g2 g3 g4
          have := ho i.toNat c1 k1 (by omega) (by omega) g3 g4
          rw [hi] at this
          exact this)
  exact h

theorem fill_color_apply (image : IplImage) (hok : region_ok image) (color : CvScalar)
    (buf : Canvas) :
    (∀ (r c : Nat) (k : Int), (r : Int) < image.height → (c : Int) < image.width →
        0 ≤ k → k < 3 →
        fill_color image color buf (byte_offset image (r : Int) (c : Int) k)
          = if (if start_fill_at image color buf r = true then 1 else 0)
              + row_hits image color buf (r : Int) 0 (c + 1) = 1
            then color.val k else buf (byte_offset image (r : Int) (c : Int) k))
      ∧ (∀ o, ¬ in_region image o → fill_color image color buf o = buf o) := by
  by_cases hH : 0 ≤ image.height
  · obtain ⟨_, h2, h3⟩ := fill_color_rows_spec image hok color buf hH
    refine ⟨h2, ?_⟩
    intro o ho
    have hno := not_in_region image hok o ho
    exact h3 o (fun r c k g1 g2 g3 g4 => hno r c k (by omega) g1 (by omega) g2 g3 g4)
  · constructor
    · intro r c k h1
      omega
    · intro o _
      simp only [fill_color, fill_color_rows]
      rw [for_range_eq_of_le 0 image.height (by omega)]
theorem row_hits_split (image : IplImage) (color : CvScalar) (b : Canvas) (row : Int)
    (n m : Nat) : ∀ j : Nat,
      row_hits image color b row j (n + m)
        = row_hits image color b row j n + row_hits image color b row (j + n) m := by
  induction n with
  | zero =>
    intro j
    simp [row_hits_zero]
  | succ n ih =>
    intro j
    have e : n + 1 + m = (n + m) + 1 := by omega
    rw [e, row_hits_succ, row_hits_succ, ih (j + 1)]
    have e2 : j + 1 + n = j + (n + 1) := by omega
    rw [e2]
    omega

theorem row_hits_mono (image : IplImage) (color : CvScalar) (b : Canvas) (row : Int)
    (j n w : Nat) (h : n ≤ w) :
    row_hits image color b row j n ≤ row_hits image color b row j w := by
  have e : w = n + (w - n) := by omega
  rw [e, row_hits_split]
  omega

theorem row_hits_lower (image : IplImage) (color : CvScalar) (b : Canvas) (row : Int)
    (a a1 : Nat) (hne : a ≠ a1) (ha : pixel_is image color b row (a : Int) = true)
    (ha1 : pixel_is image color b row (a1 : Int) = true) (m : Nat) : ∀ j : Nat,
      (if j ≤ a ∧ a < j + m then 1 else 0) + (if j ≤ a1 ∧ a1 < j + m then 1 else 0)
        ≤ row_hits image color b row j m := by
  induction m with
  | zero =>
    intro j
    rw [if_neg (by omega), if_neg (by omega)]
    omega
  | succ m ih =>
    intro j
    have h := ih (j + 1)
    rw [row_hits_succ]
    by_cases e1 : a = j
    · subst e1
      rw [if_pos ha]
      rw [if_neg (by omega)] at h
      split_ifs at h ⊢ <;> omega
    · by_cases e2 : a1 = j
      · subst e2
        rw [if_pos ha1]
        rw [if_neg (show ¬ (a1 + 1 ≤ a1 ∧ a1 < a1 + 1 + m) by omega)] at h
        split_ifs at h ⊢ <;> omega
      · split_ifs at h ⊢ <;> omega

theorem row_hits_two (image : IplImage) (color : CvScalar) (b : Canvas) (row : Int)
    (a a1 w : Nat) (hlt : a < a1) (hw : a1 < w)
    (ha : pixel_is image color b row (a : Int) = true)
    (ha1 : pixel_is image color b row (a1 : Int) = true)
    (htwo : row_hits image color b row 0 w = 2) (n : Nat) (hn : n ≤ w) :
    row_hits image color b row 0 n = (if a < n then 1 else 0) + (if a1 < n then 1 else 0) := by
  have e : w = n + (w - n) := by omega
  have hs := row_hits_split image color b row n (w - n) 0
  rw [← e, htwo] at hs
  have l1 := row_hits_lower image color b row a a1 (by omega) ha ha1 n 0
  have l2 := row_hits_lower image color b row a a1 (by omega) ha ha1 (w - n) (0 + n)
  split_ifs at l1 l2 ⊢ <;> omega

theorem pixel_is_value (image : IplImage) (color : CvScalar) (b : Canvas) (row col : Int)
    (h : pixel_is image color b row col = true) (k : Int) (hk : 0 ≤ k ∧ k < 3) :
    b (byte_offset image row col k) = color.val k := by
  simp only [pixel_is, Bool.and_eq_true, decide_eq_true_eq] at h
  have : k = 0 ∨ k = 1 ∨ k = 2 := by omega
  rcases this with e | e | e <;> subst e
  · exact h.1.1
  · exact h.1.2
  · exact h.2

theorem start_fill_at_clear (image : IplImage) (color : CvScalar) (buf : Canvas) (r : Nat)
    (h : ∀ r1, r1 < r → row_hits image color buf (r1 : Int) 0 image.width.toNat ≠ 1) :
    start_fill_at image color buf r = false := by
  induction r with
  | zero => rfl
  | succ r ih =>
    have h1 := ih (fun r1 hr1 => h r1 (by omega))
    have h2 := h r (by omega)
    simp only [start_fill_at, h1, Bool.false_eq_true, if_false, Nat.zero_add]
    exact decide_eq_false h2
/-- C24, as stated, fails.  On a `2 x 2` image whose only pixel of the colour
`green` is the first pixel of row 0 (every other byte is 9), `fill_color`
paints the second pixel of row 0, which does not lie between two occurrences
of the colour: a row with a single occurrence is painted from it to the end of
the row.  It also paints row 1, which contains no pixel of the colour:
`start_fill` is still set when row 1 starts. -/
theorem fill_color_flag_carries_to_next_row :
    pixel_is { imageData := 0, widthStep := 6, width := 2, height := 2, nChannels := 3 } green
        (fun o => if o = 1 then 255 else if o = 0 ∨ o = 2 then 0 else 9) 0 0 = true
      ∧ pixel_is { imageData := 0, widthStep := 6, width := 2, height := 2, nChannels := 3 } green
        (fun o => if o = 1 then 255 else if o = 0 ∨ o = 2 then 0 else 9) 0 1 = false
      ∧ pixel_is { imageData := 0, widthStep := 6, width := 2, height := 2, nChannels := 3 } green
        (fun o => if o = 1 then 255 else if o = 0 ∨ o = 2 then 0 else 9) 1 0 = false
      ∧ pixel_is { imageData := 0, widthStep := 6, width := 2, height := 2, nChannels := 3 } green
        (fun o => if o = 1 then 255 else if o = 0 ∨ o = 2 then 0 else 9) 1 1 = false
      ∧ ((fun o => if o = 1 then 255 else if o = 0 ∨ o = 2 then 0 else 9) : Canvas)
          (byte_offset { imageData := 0, widthStep := 6, width := 2, height := 2, nChannels := 3 }
            0 1 1) = 9
      ∧ fill_color { imageData := 0, widthStep := 6, width := 2, height := 2, nChannels := 3 } green
          (fun o => if o = 1 then 255 else if o = 0 ∨ o = 2 then 0 else 9)
          (byte_offset { imageData := 0, widthStep := 6, width := 2, height := 2, nChannels := 3 }
            0 1 1) = 255
      ∧ ((fun o => if o = 1 then 255 else if o = 0 ∨ o = 2 then 0 else 9) : Canvas)
          (byte_offset { imageData := 0, widthStep := 6, width := 2, height := 2, nChannels := 3 }
            1 0 1) = 9
      ∧ fill_color { imageData := 0, widthStep := 6, width := 2, height := 2, nChannels := 3 } green
          (fun o => if o = 1 then 255 else if o = 0 ∨ o = 2 then 0 else 9)
          (byte_offset { imageData := 0, widthStep := 6, width := 2, height := 2, nChannels := 3 }
            1 0 1) = 255 := by
  decide

/-- C24, amended: for every image with three channels whose rows do not
overlap, every colour and every row `r` such that no row above it holds exactly
one pixel of the colour, `start_fill` is clear when row `r` starts and the row
is treated on its own: exactly the pixels with exactly one pixel of the colour
at or before them in the row (those from the row's first occurrence of the
colour up to just before its second, or up to the end of the row when there is
no second) are set to the colour, every other pixel of the row keeping its
bytes; in particular such a row without a pixel of the colour is left
unchanged. -/
theorem fill_color_row_with_clear_flag (image : IplImage) (hok : region_ok image)
    (color : CvScalar) (buf : Canvas) (r : Nat) (hr : r < image.height.toNat)
    (habove : ∀ r1, r1 < r → row_hits image color buf (r1 : Int) 0 image.width.toNat ≠ 1) :
    start_fill_at image color buf r = false
      ∧ (∀ (c : Nat) (k : Int), c < image.width.toNat → 0 ≤ k → k < 3 →
          fill_color image color buf (byte_offset image (r : Int) (c : Int) k)
            = if row_hits image color buf (r : Int) 0 (c + 1) = 1 then color.val k
              else buf (byte_offset image (r : Int) (c : Int) k))
      ∧ (row_hits image color buf (r : Int) 0 image.width.toNat = 0 →
          ∀ (c : Nat) (k : Int), c < image.width.toNat → 0 ≤ k → k < 3 →
            fill_color image color buf (byte_offset image (r : Int) (c : Int) k)
              = buf (byte_offset image (r : Int) (c : Int) k)) := by
  have hclear := start_fill_at_clear image color buf r habove
  have hval : ∀ (c : Nat) (k : Int), c < image.width.toNat → 0 ≤ k → k < 3 →
      fill_color image color buf (byte_offset image (r : Int) (c : Int) k)
        = if row_hits image color buf (r : Int) 0 (c + 1) = 1 then color.val k
          else buf (byte_offset image (r : Int) (c : Int) k) := by
    intro c k hc hk0 hk1
    rw [(fill_color_apply image hok color buf).1 r c k (by omega) (by omega) hk0 hk1, hclear]
    simp only [Bool.false_eq_true, if_false, Nat.zero_add]
  refine ⟨hclear, hval, ?_⟩
  intro hzero c k hc hk0 hk1
  rw [hval c k hc hk0 hk1]
  have := row_hits_mono image color buf (r : Int) 0 (c + 1) image.width.toNat (by omega)
  rw [if_neg (by omega)]

theorem fill_color_row_with_clear_flag_witness :
    fill_color { imageData := 0, widthStep := 12, width := 4, height := 2, nChannels := 3 } green
        (fun o => if o = 1 ∨ o = 7 then 255 else if o = 0 ∨ o = 2 ∨ o = 6 ∨ o = 8 then 0 else 9)
        (byte_offset { imageData := 0, widthStep := 12, width := 4, height := 2, nChannels := 3 }
          1 3 1) = 9 :=
  ((fill_color_row_with_clear_flag
      { imageData := 0, widthStep := 12, width := 4, height := 2, nChannels := 3 } (by decide)
      green
      (fun o => if o = 1 ∨ o = 7 then 255 else if o = 0 ∨ o = 2 ∨ o = 6 ∨ o = 8 then 0 else 9)
      1 (by decide) (by decide)).2.1 3 1 (by decide) (by decide) (by decide)).trans (by decide)

/-- C25: if every row of the image holds either no pixel or exactly two pixels
of the exact colour, then in each row whose two pixels of the colour are in
columns `a < b` `fill_color` sets exactly the pixels strictly between them to
the colour and leaves every other pixel of the row as it was; a row without a
pixel of the colour is left as it was; and no byte outside the pixels of the
image changes. -/
theorem fill_color_two_crossings (image : IplImage) (hok : region_ok image)
    (color : CvScalar) (buf : Canvas)
    (hrows : ∀ r, r < image.height.toNat →
      row_hits image color buf (r : Int) 0 image.width.toNat = 0
        ∨ row_hits image color buf (r : Int) 0 image.width.toNat = 2) :
    (∀ (r a b : Nat), r < image.height.toNat → a < b → b < image.width.toNat →
        pixel_is image color buf (r : Int) (a : Int) = true →
        pixel_is image color buf (r : Int) (b : Int) = true →
        ∀ (c : Nat) (k : Int), c < image.width.toNat → 0 ≤ k → k < 3 →
          fill_color image color buf (byte_offset image (r : Int) (c : Int) k)
            = if a < c ∧ c < b then color.val k
              else buf (byte_offset image (r : Int) (c : Int) k))
      ∧ (∀ (r : Nat), r < image.height.toNat →
          row_hits image color buf (r : Int) 0 image.width.toNat = 0 →
          ∀ (c : Nat) (k : Int), c < image.width.toNat → 0 ≤ k → k < 3 →
            fill_color image color buf (byte_offset image (r : Int) (c : Int) k)
              = buf (byte_offset image (r : Int) (c : Int) k))
      ∧ (∀ o, ¬ in_region image o → fill_color image color buf o = buf o) := by
  have hclear : ∀ r, r < image.height.toNat → start_fill_at image color buf r = false := by
    intro r hr
    apply start_fill_at_clear
    intro r1 hr1
    rcases hrows r1 (by omega) with h | h <;> omega
  have hval : ∀ (r c : Nat) (k : Int), r < image.height.toNat → c < image.width.toNat →
      0 ≤ k → k < 3 →
      fill_color image color buf (byte_offset image (r : Int) (c : Int) k)
        = if row_hits image color buf (r : Int) 0 (c + 1) = 1 then color.val k
          else buf (byte_offset image (r : Int) (c : Int) k) := by
    intro r c k hr hc hk0 hk1
    rw [(fill_color_apply image hok color buf).1 r c k (by omega) (by omega) hk0 hk1, hclear r hr]
    simp only [Bool.false_eq_true, if_false, Nat.zero_add]
  refine ⟨?_, ?_, (fill_color_apply image hok color buf).2⟩
  · intro r a b hr hab hb ha1 hb1 c k hc hk0 hk1
    have htwo : row_hits image color buf (r : Int) 0 image.width.toNat = 2 := by
      rcases hrows r hr with h | h
      · have := row_hits_lower image color buf (r : Int) a b (by omega) ha1 hb1
          image.width.toNat 0
        rw [if_pos (by omega), if_pos (by omega)] at this
        omega
      · exact h
    rw [hval r c k hr hc hk0 hk1,
      row_hits_two image color buf (r : Int) a b image.width.toNat hab hb ha1 hb1 htwo (c + 1)
        (by omega)]
    by_cases hca : c = a
    · subst hca
      rw [if_pos (by split_ifs <;> omega), if_neg (by omega)]
      exact (pixel_is_value image color buf (r : Int) (c : Int) ha1 k ⟨hk0, hk1⟩).symm
    · by_cases hbetween : a < c ∧ c < b
      · rw [if_pos hbetween, if_pos (by split_ifs <;> omega)]
      · rw [if_neg hbetween, if_neg (by split_ifs <;> omega)]
  · intro r hr hzero c k hc hk0 hk1
    rw [hval r c k hr hc hk0 hk1]
    have := row_hits_mono image color buf (r : Int) 0 (c + 1) image.width.toNat (by omega)
    rw [if_neg (by omega)]

theorem fill_color_two_crossings_witness :
    fill_color { imageData := 0, widthStep := 12, width := 4, height := 2, nChannels := 3 } green
        (fun o => if o = 1 ∨ o = 7 then 255 else if o = 0 ∨ o = 2 ∨ o = 6 ∨ o = 8 then 0 else 9)
        (byte_offset { imageData := 0, widthStep := 12, width := 4, height := 2, nChannels := 3 }
          0 1 1) = 255
      ∧ fill_color { imageData := 0, widthStep := 12, width := 4, height := 2, nChannels := 3 }
        green
        (fun o => if o = 1 ∨ o = 7 then 255 else if o = 0 ∨ o = 2 ∨ o = 6 ∨ o = 8 then 0 else 9)
        (byte_offset { imageData := 0, widthStep := 12, width := 4, height := 2, nChannels := 3 }
          0 3 1) = 9 :=
  ⟨((fill_color_two_crossings
      { imageData := 0, widthStep := 12, width := 4, height := 2, nChannels := 3 } (by decide)
      green
      (fun o => if o = 1 ∨ o = 7 then 255 else if o = 0 ∨ o = 2 ∨ o = 6 ∨ o = 8 then 0 else 9)
      (by decide)).1 0 0 2 (by decide) (by decide) (by decide) (by decide) (by decide)
      1 1 (by decide) (by decide) (by decide)).trans (by decide),
    ((fill_color_two_crossings
      { imageData := 0, widthStep := 12, width := 4, height := 2, nChannels := 3 } (by decide)
      green
      (fun o => if o = 1 ∨ o = 7 then 255 else if o = 0 ∨ o = 2 ∨ o = 6 ∨ o = 8 then 0 else 9)
      (by decide)).1 0 0 2 (by decide) (by decide) (by decide) (by decide) (by decide)
      3 1 (by decide) (by decide) (by decide)).trans (by decide)⟩

end VideoPlayer
